import Mathlib

/-!
# Rotating log-file sinks (chunyujin295/Logger)

A shallow embedding of the four spdlog sinks of the repository and of the
file-system operations they use.

Modelling conventions

* A log directory is a finite map from path names to file contents
  (`Disk.entries`).  Two different path strings name two different files:
  the path names of the map are in one normal form, without `.` or `..`
  components and without doubled separators.
  Directories themselves are not files of the map: `fs::create_directories`
  leaves it as it is.
* `std::ofstream` is an optional path: the file the stream is attached to.
  In `sink_it_` bytes handed to the stream count as part of the file at once;
  the stream buffer appears only with `flush_`, as the bytes of `Buffered`
  still held back.  Bytes handed to a stream that is not open are lost.
* `open` in append mode succeeds when the directory of the file exists.  A
  directory exists when the sink has made it with `fs::create_directories` or
  when a file of the map lies in it or below it.  The count sink and the
  date-embedded sink open files of `dir_` only, the directory their constructor
  has made out of the path of the base file.  The pattern-named sink and the
  per-day-directory sink take the name of the file from an argument that may
  hold a separator: there the open can fail (`fs_can_open`).
* A path is the directory, one separator and the name: `operator/` of
  `std::filesystem::path` for a name that is relative.
* Every `fs::remove` / `fs::rename` issued by the code is recorded, in order,
  in `Disk.calls`.  `Disk.faults` lists the positions (0-based, in that
  record) of the calls that fail; a failing call changes no file.
* Entry and byte counters are natural numbers: they are bounded by the sizes
  of the files involved, which stay far below `2 ^ 64`.
* The already formatted record (`formatter_->format(msg, buf)`) is the input
  of `sink_it_`; the wall-clock time (pattern-named sink) and the local date
  (per-day-directory sink, date-embedded sink) read during the call are inputs
  as well.
* A time point of the system clock is a number of nanoseconds since the epoch.
  The time zone of the process is a parameter, the pair of `localtime_r` and
  `mktime`; `utc` is the instance used in the examples.
* A constructor returns the directory tree it leaves, the directories it asked
  `fs::create_directories` for, and the members of the sink or the exception.
  `std::filesystem::path` splits a name at its last separator.
-/

set_option maxRecDepth 100000

namespace CustomSink

/-! ## File system -/

/-- A mutating `std::filesystem` call. -/
inductive FsCall where
  | remove (p : String)
  | rename (src dst : String)
  deriving DecidableEq, Repr

/-- The log directory together with the record of mutating calls. -/
structure Disk where
  entries : List (String × List Char)
  calls : List FsCall
  faults : List Nat
  deriving DecidableEq, Repr

/-- Content stored under a path in a list of directory entries. -/
def lookup_ : List (String × List Char) → String → Option (List Char)
  | [], _ => none
  | e :: rest, p => if e.1 = p then some e.2 else lookup_ rest p

/-- Content of the file at `p`, `none` when no such file exists. -/
def Disk.read (d : Disk) (p : String) : Option (List Char) :=
  lookup_ d.entries p

/-- An empty directory on which every call succeeds. -/
def Disk.fresh : Disk :=
  { entries := [], calls := [], faults := [] }

/-- `fs::exists(p, ec) && !ec`. -/
def fs_exists (d : Disk) (p : String) : Bool :=
  (d.read p).isSome

/-- `fs::file_size(p, ec)` of an existing file. -/
def fs_file_size (d : Disk) (p : String) : Nat :=
  match d.read p with
  | some c => c.length
  | none => 0

/-- `fs::remove(p, ec)`. -/
def fs_remove (d : Disk) (p : String) : Disk :=
  { entries :=
      if d.calls.length ∈ d.faults then d.entries
      else d.entries.filter (fun e => !decide (e.1 = p)),
    calls := d.calls ++ [FsCall.remove p],
    faults := d.faults }

/-- `fs::rename(src, dst, ec)`: an existing `dst` is replaced. -/
def fs_rename (d : Disk) (src dst : String) : Disk :=
  { entries :=
      if d.calls.length ∈ d.faults then d.entries
      else
        match d.read src with
        | none => d.entries
        | some _ =>
          if src = dst then d.entries
          else
            (d.entries.filter (fun e => !decide (e.1 = dst))).map
              (fun e => if e.1 = src then (dst, e.2) else e),
    calls := d.calls ++ [FsCall.rename src dst],
    faults := d.faults }

/-- `file_.open(p, std::ios::out | std::ios::app)`: creates an empty file when
there is none, keeps the content otherwise. -/
def fs_open_append (d : Disk) (p : String) : Disk :=
  match d.read p with
  | some _ => d
  | none => { d with entries := d.entries ++ [(p, [])] }

/-- `fs::path(p).parent_path()` of a path without repeated separators: what
precedes the last separator, the root directory for a file in the root, and
nothing for a bare file name. -/
def parent_path_ (p : List Char) : List Char :=
  match p.reverse.dropWhile (fun c => !decide (c = '/')) with
  | [] => []
  | [c] => [c]
  | _ :: rest => rest.reverse

/-- Whether `file_.open(dir / name, std::ios::app)` attaches the stream, `dir`
being a directory the sink has made with `fs::create_directories`.  It does
when `name` holds no separator, the file then lying in `dir` itself, and when
a file of the tree lies in or below the directory of the path, which therefore
exists.  Otherwise the directory of the path is missing, nothing creates it,
and the open fails. -/
def fs_can_open (d : Disk) (dir name : String) : Bool :=
  decide ('/' ∉ name.toList) ||
    d.entries.any (fun e =>
      (parent_path_ (dir ++ "/" ++ name).toList ++ ['/']).isPrefixOf e.1.toList)

/-- Bytes written through a stream attached to `p`. -/
def fs_append (d : Disk) (p : String) (bytes : List Char) : Disk :=
  { d with entries := d.entries.map (fun e => if e.1 = p then (e.1, e.2 ++ bytes) else e) }

/-- `file_.write(...)` / `file_.put(...)` on a stream that may be closed. -/
def ofstream_write (d : Disk) (file_ : Option String) (bytes : List Char) : Disk :=
  match file_ with
  | some p => fs_append d p bytes
  | none => d

/-- The number written by a list of decimal digits. -/
def digits_value_ (ds : List Char) : Nat :=
  ds.foldl (fun a c => 10 * a + (c.toNat - 48)) 0

/-- `std::to_string` of a `size_t`. -/
def to_string (n : Nat) : String :=
  Nat.repr n

/-! ## Record framing, shared by the four sinks -/

/-- The loop `while (size > 0 && (buf[size - 1] == '\n' || buf[size - 1] == '\r')) --size;`
started at `size`. -/
def trim_size_ (buf : List Char) : Nat → Nat
  | 0 => 0
  | size + 1 =>
    if buf.getD size 'x' = '\n' ∨ buf.getD size 'x' = '\r' then trim_size_ buf size
    else size + 1

/-- The bytes passed to `file_.write(buf.data(), size)`. -/
def trimmed (buf : List Char) : List Char :=
  buf.take (trim_size_ buf buf.length)

/-- `file_.write(buf.data(), size); file_.put('\n');` -/
def write_record_ (d : Disk) (file_ : Option String) (buf : List Char) : Disk :=
  ofstream_write (ofstream_write d file_ (trimmed buf)) file_ ['\n']

/-- The bytes one record adds to the file: the trimmed payload and one newline. -/
def frame_ (buf : List Char) : List Char :=
  trimmed buf ++ ['\n']

/-- The bytes a sequence of records adds to a file, in write order. -/
def frames_ : List (List Char) → List Char
  | [] => []
  | buf :: rest => frame_ buf ++ frames_ rest

/-- The number of lines of a file content: its newline bytes, and one more for
a last line that no newline ends. -/
def lines_of (content : List Char) : Nat :=
  content.count '\n' + (if content ≠ [] ∧ content.getLast? ≠ some '\n' then 1 else 0)

/-- The block found in every rename chain, in the loop and after it:
`if (fs::exists(src, ec) && !ec) { fs::remove(dst, ec); fs::rename(src, dst, ec); }`. -/
def move_ (d : Disk) (src dst : String) : Disk :=
  if fs_exists d src then fs_rename (fs_remove d dst) src dst else d

/-- The moves `rot i -> rot (i + 1)`, ..., `rot 1 -> rot 2`, in this order: what
the loop of each rename chain amounts to. -/
def shift_loop_ (rot : Nat → String) : Nat → Disk → Disk
  | 0, d => d
  | i + 1, d => shift_loop_ rot i (move_ d (rot (i + 1)) (rot (i + 1 + 1)))

/-- A whole rename chain over `n ≥ 1` backups: remove the oldest, shift the
others, move the current file to the first slot. -/
def chain_ (rot : Nat → String) (base : String) (n : Nat) (d : Disk) : Disk :=
  move_ (shift_loop_ rot (n - 1) (fs_remove d (rot n))) base (rot 1)

/-! ## Count sink: `count_rotating_file_mt` -/

namespace CountSink

/-- Constructor arguments, after the constructor has split `base_filename`. -/
structure Config where
  dir_ : String
  stem_ : String
  max_count_ : Nat
  max_files_ : Nat
  rotate_on_open_ : Bool
  strict_count_on_open_ : Bool
  deriving DecidableEq, Repr

/-- Mutable members of the sink, and the directory it writes to. -/
structure State where
  disk : Disk
  file_ : Option String
  log_count_ : Nat
  opened_ : Bool
  rotated_on_open_done_ : Bool
  deriving DecidableEq, Repr

/-- The file name extension, `extension_ = ".log"`. -/
def extension_ : String := ".log"

/-- `dir_ / (stem_ + extension_)`. -/
def base_path_ (cfg : Config) : String :=
  cfg.dir_ ++ "/" ++ (cfg.stem_ ++ extension_)

/-- `dir_ / (stem_ + "." + std::to_string(index) + extension_)`. -/
def rotated_path_ (cfg : Config) (index : Nat) : String :=
  cfg.dir_ ++ "/" ++ (cfg.stem_ ++ "." ++ to_string index ++ extension_)

/-- The read loop of `count_lines_in_file_`, one round per `in.read` of at
most `kBuf` bytes; the result is `(lines, has_any, last)`. -/
def count_lines_loop_ (kBuf : Nat) : Nat → List Char → Nat → Bool → Char → Nat × Bool × Char
  | 0, _, lines, has_any, last => (lines, has_any, last)
  | fuel + 1, rest, lines, has_any, last =>
    let buf := rest.take kBuf
    let n := buf.length
    if n = 0 then (lines, has_any, last)
    else
      let last1 := buf.getLast?.getD last
      let lines1 := buf.foldl (fun l c => if c = '\n' then l + 1 else l) lines
      if n < kBuf then (lines1, true, last1)
      else count_lines_loop_ kBuf fuel (rest.drop kBuf) lines1 true last1

/-- The value `count_lines_in_file_` computes from the content of a file it
could open. -/
def count_lines_ (content : List Char) : Nat :=
  let r := count_lines_loop_ (64 * 1024) (content.length + 1) content 0 false '\x00'
  if r.2.1 && decide (r.2.2 ≠ '\n') then r.1 + 1 else r.1

/-- `count_lines_in_file_(filename)`. -/
def count_lines_in_file_ (d : Disk) (filename : String) : Nat :=
  match d.read filename with
  | none => 0
  | some content => count_lines_ content

/-- The loop `for (size_t i = max_files_ - 1; i >= 1; --i) { ...; if (i == 1) break; }`
of `rotate_files_`, entered with the value `i`. -/
def rotate_loop_ (cfg : Config) : Nat → Disk → Disk
  | 0, d => d
  | i + 1, d =>
    let d1 := move_ d (rotated_path_ cfg (i + 1)) (rotated_path_ cfg (i + 1 + 1))
    if i + 1 = 1 then d1 else rotate_loop_ cfg i d1

/-- `rotate_files_()`. -/
def rotate_files_ (cfg : Config) (s : State) : State :=
  let s1 : State := { s with file_ := none, opened_ := false, log_count_ := 0 }
  if cfg.max_files_ = 0 then s1
  else
    let d1 := fs_remove s1.disk (rotated_path_ cfg cfg.max_files_)
    let d2 := rotate_loop_ cfg (cfg.max_files_ - 1) d1
    let d3 := move_ d2 (base_path_ cfg) (rotated_path_ cfg 1)
    { s1 with disk := d3 }

/-- `adjust_for_strict_on_open_()`. -/
def adjust_for_strict_on_open_ (cfg : Config) (s : State) : State :=
  if !cfg.strict_count_on_open_ || cfg.max_count_ = 0 then { s with log_count_ := 0 }
  else if !fs_exists s.disk (base_path_ cfg) then { s with log_count_ := 0 }
  else
    let lines := count_lines_in_file_ s.disk (base_path_ cfg)
    if lines ≥ cfg.max_count_ then { rotate_files_ cfg s with log_count_ := 0 }
    else { s with log_count_ := lines }

/-- `ensure_opened_for_write_()`. -/
def ensure_opened_for_write_ (cfg : Config) (s : State) : State :=
  if s.opened_ && s.file_.isSome then s
  else
    let s1 := adjust_for_strict_on_open_ cfg s
    match s1.file_ with
    | some _ => { s1 with opened_ := true } -- `open` on an open stream attaches nothing
    | none =>
      { s1 with disk := fs_open_append s1.disk (base_path_ cfg),
                file_ := some (base_path_ cfg), opened_ := true }

/-- First block of `sink_it_`: `if (!rotated_on_open_done_) { ... }`. -/
def rotate_on_open_step_ (cfg : Config) (s : State) : State :=
  if !s.rotated_on_open_done_ then
    let t : State :=
      if cfg.rotate_on_open_ && decide (cfg.max_files_ > 0) && fs_exists s.disk (base_path_ cfg)
      then rotate_files_ cfg s else s
    { t with rotated_on_open_done_ := true }
  else s

/-- Second block of `sink_it_`: the check of the counter before the file is opened. -/
def check_before_open_ (cfg : Config) (s : State) : State :=
  if s.log_count_ ≥ cfg.max_count_ then
    if cfg.max_files_ > 0 then ensure_opened_for_write_ cfg (rotate_files_ cfg s)
    else { s with log_count_ := cfg.max_count_ }
  else s

/-- Fourth block of `sink_it_`: the check of the counter once the file is open. -/
def check_after_open_ (cfg : Config) (s : State) : State :=
  if s.log_count_ ≥ cfg.max_count_ then ensure_opened_for_write_ cfg (rotate_files_ cfg s)
  else s

/-- The part of `sink_it_` before the record is written: rotate-on-open, the
check of the counter, the lazy open and the second check of the counter. -/
def before_write_ (cfg : Config) (s : State) : State :=
  check_after_open_ cfg
    (ensure_opened_for_write_ cfg (check_before_open_ cfg (rotate_on_open_step_ cfg s)))

/-- The write itself: `file_.write(buf.data(), size); file_.put('\n'); ++log_count_;`. -/
def append_record_ (s : State) (buf : List Char) : State :=
  { s with disk := write_record_ s.disk s.file_ buf, log_count_ := s.log_count_ + 1 }

/-- The part of `sink_it_` after the write: rotate when the limit is reached. -/
def after_write_ (cfg : Config) (s : State) : State :=
  if s.log_count_ ≥ cfg.max_count_ then rotate_files_ cfg s else s

/-- `sink_it_(msg)`, `buf` being the formatted message. -/
def sink_it_ (cfg : Config) (s : State) (buf : List Char) : State :=
  after_write_ cfg (append_record_ (before_write_ cfg s) buf)

/-- The members as the constructor leaves them, over the directory `d`. -/
def init (d : Disk) : State :=
  { disk := d, file_ := none, log_count_ := 0, opened_ := false,
    rotated_on_open_done_ := false }

/-- The sink after the records `bufs` have been written one after the other. -/
def run (cfg : Config) (s : State) (bufs : List (List Char)) : State :=
  bufs.foldl (sink_it_ cfg) s

/-- The count sink of the scenario of the specification: `logs/app.log`, three
records per file, two backups, strict counting on open. -/
def scenario_cfg : Config :=
  { dir_ := "logs", stem_ := "app", max_count_ := 3, max_files_ := 2,
    rotate_on_open_ := false, strict_count_on_open_ := true }

/-- The seven records `A` .. `G` of the scenario, some with a line end of their own. -/
def scenario_recs : List (List Char) :=
  ["A".toList, "B\n".toList, "C".toList, "D\r\n".toList, "E".toList, "F".toList, "G".toList]

/-- A directory with a current file, the backups `1` and `2` and a file that
is none of them. -/
def scenario_disk : Disk :=
  { entries := [("logs/app.log", "c\n".toList), ("logs/app.1.log", "b\n".toList),
      ("logs/app.2.log", "a\n".toList), ("logs/notes.txt", "n".toList)],
    calls := [], faults := [] }

/-- A directory that holds the current file of the scenario and its two backups. -/
def scenario_backups : Disk :=
  { entries := [(base_path_ scenario_cfg, "c\n".toList),
      (rotated_path_ scenario_cfg 1, "b\n".toList),
      (rotated_path_ scenario_cfg 2, "a\n".toList)],
    calls := [], faults := [] }

/-- A strict sink with two records per file and one backup. -/
def strict_cfg : Config :=
  { dir_ := "logs", stem_ := "app", max_count_ := 2, max_files_ := 1,
    rotate_on_open_ := false, strict_count_on_open_ := true }

/-- A strict sink with three records per file and one backup. -/
def strict3_cfg : Config :=
  { dir_ := "logs", stem_ := "app", max_count_ := 3, max_files_ := 1,
    rotate_on_open_ := false, strict_count_on_open_ := true }

/-- A directory whose only file is the current file with the given content. -/
def only_current (content : List Char) : Disk :=
  { entries := [("logs/app.log", content)], calls := [], faults := [] }

/-- Every call succeeds and neither the current file nor a backup has more
than `max_count_` lines. -/
def FilesBounded (cfg : Config) (d : Disk) : Prop :=
  d.faults = [] ∧
  (∀ c, d.read (base_path_ cfg) = some c → lines_of c ≤ cfg.max_count_) ∧
  (∀ i c, d.read (rotated_path_ cfg i) = some c → lines_of c ≤ cfg.max_count_)

/-- The stream is closed, or it is attached to the current file, which has at
most `log_count_` lines. -/
def OpenOk (cfg : Config) (s : State) : Prop :=
  s.file_ = none ∨
  (s.file_ = some (base_path_ cfg) ∧ s.opened_ = true ∧
    ∃ c, s.disk.read (base_path_ cfg) = some c ∧ lines_of c ≤ s.log_count_)

/-- The invariant of a strict sink between two writes. -/
def LinesBounded (cfg : Config) (s : State) : Prop :=
  FilesBounded cfg s.disk ∧ s.log_count_ < cfg.max_count_ ∧ OpenOk cfg s

/-- The sink of the scenario with `rotate_on_open_` set. -/
def reopen_cfg : Config :=
  { dir_ := "logs", stem_ := "app", max_count_ := 3, max_files_ := 2,
    rotate_on_open_ := true, strict_count_on_open_ := true }

/-- The stream is closed, or attached to the current file, which exists. -/
def StreamOk (cfg : Config) (s : State) : Prop :=
  s.file_ = none ∨
  (s.file_ = some (base_path_ cfg) ∧ ∃ c, s.disk.read (base_path_ cfg) = some c)

/-- Every call succeeds and no backup has an index above `max_files_`. -/
def NoHighBackup (cfg : Config) (d : Disk) : Prop :=
  d.faults = [] ∧ ∀ j, cfg.max_files_ < j → d.read (rotated_path_ cfg j) = none

/-- The sink and its directory after the records `recs`, `q` full blocks of
`max_count_` records and `r` further ones, written into an empty directory. -/
def Shape (cfg : Config) (recs : List (List Char)) (q r : Nat) (s : State) : Prop :=
  recs.length = q * cfg.max_count_ + r ∧ r < cfg.max_count_ ∧
  s.disk.faults = [] ∧ s.log_count_ = r ∧
  (recs ≠ [] → s.rotated_on_open_done_ = true) ∧
  (r = 0 → s.file_ = none ∧ s.disk.read (base_path_ cfg) = none) ∧
  (r ≠ 0 → s.file_ = some (base_path_ cfg) ∧ s.opened_ = true ∧
    s.disk.read (base_path_ cfg) = some (frames_ (recs.drop (q * cfg.max_count_)))) ∧
  (∀ i, 1 ≤ i → i ≤ q → i ≤ cfg.max_files_ →
    s.disk.read (rotated_path_ cfg i) =
      some (frames_ ((recs.drop ((q - i) * cfg.max_count_)).take cfg.max_count_))) ∧
  (∀ p, p ≠ base_path_ cfg →
    (∀ i, 1 ≤ i → i ≤ q → i ≤ cfg.max_files_ → p ≠ rotated_path_ cfg i) →
    s.disk.read p = none)

end CountSink

/-! ## Pattern-named size sink: `daily_size_rotating_file_mt` of
`daily_size_rotating_file_mt_sink.hpp` -/

namespace PatternSink

/-- Constructor arguments.  `make_basename_for_tp_` and `compute_next_rotation_`
stand for the two member functions of these names: they depend on the name
pattern, the date format, the cutover time and the local time zone, and the
rotation logic uses nothing of them but their values. -/
structure Config where
  dir_ : String
  make_basename_for_tp_ : Int → String
  compute_next_rotation_ : Int → Int
  max_size_bytes_ : Nat
  max_files_ : Nat
  rotate_on_open_ : Bool

/-- Mutable members of the sink, and the directory it writes to.  Time points
are ticks of the system clock. -/
structure State where
  disk : Disk
  file_ : Option String
  current_basename_ : String
  next_rotation_ : Int
  current_size_bytes_ : Nat
  opened_ : Bool
  rotated_on_open_done_ : Bool
  deriving DecidableEq, Repr

/-- The file name extension, `extension_ = ".log"`. -/
def extension_ : String := ".log"

/-- `dir_ / (current_basename_ + extension_)`. -/
def current_base_path_ (cfg : Config) (current_basename_ : String) : String :=
  cfg.dir_ ++ "/" ++ (current_basename_ ++ extension_)

/-- `dir_ / (current_basename_ + "." + std::to_string(index) + extension_)`. -/
def rotated_path_ (cfg : Config) (current_basename_ : String) (index : Nat) : String :=
  cfg.dir_ ++ "/" ++ (current_basename_ ++ "." ++ to_string index ++ extension_)

/-- `std::chrono::hours(24)` in ticks of one nanosecond. -/
def hours_24 : Int := 86400000000000

/-- `close_file_()`. -/
def close_file_ (s : State) : State :=
  { s with file_ := none, opened_ := false, current_size_bytes_ := 0 }

/-- The loop `while (next_rotation_ <= tp) next_rotation_ += std::chrono::hours(24);`. -/
def catch_up_ (tp : Int) : Nat → Int → Int
  | 0, next => next
  | fuel + 1, next => if next ≤ tp then catch_up_ tp fuel (next + hours_24) else next

/-- `rotate_if_needed_by_time_()`, `tp` being the value of `now_()`. -/
def rotate_if_needed_by_time_ (cfg : Config) (s : State) (tp : Int) : State :=
  if tp < s.next_rotation_ then s
  else
    let s1 := close_file_ s
    let next := cfg.compute_next_rotation_ tp
    { s1 with current_basename_ := cfg.make_basename_for_tp_ tp,
              next_rotation_ := catch_up_ tp ((tp - next).toNat + 1) next,
              rotated_on_open_done_ := false }

/-- `ensure_opened_for_write_()`.  The constructor has made `dir_` and nothing
else; when the open fails the stream stays closed and the members are set all
the same. -/
def ensure_opened_for_write_ (cfg : Config) (s : State) : State :=
  if s.opened_ && s.file_.isSome then s
  else
    let p := current_base_path_ cfg s.current_basename_
    let ok := fs_can_open s.disk cfg.dir_ (s.current_basename_ ++ extension_)
    let d := match s.file_ with
      | some _ => s.disk -- `open` on an open stream attaches nothing
      | none => if ok then fs_open_append s.disk p else s.disk
    let f := match s.file_ with
      | some q => some q
      | none => if ok then some p else none
    { s with disk := d, file_ := f, opened_ := true,
             current_size_bytes_ := if fs_exists d p then fs_file_size d p else 0 }

/-- The loop `for (size_t i = max_files_; i > 1; --i)` of `rotate_by_size_chain_`,
entered with the value `i`: it moves backup `i - 1` to `i`. -/
def rotate_loop_ (cfg : Config) (s : State) : Nat → Disk → Disk
  | 0, d => d
  | i + 1, d =>
    if i + 1 > 1 then
      rotate_loop_ cfg s i (move_ d (rotated_path_ cfg s.current_basename_ (i + 1 - 1)) (rotated_path_ cfg s.current_basename_ (i + 1)))
    else d

/-- `rotate_by_size_chain_()`. -/
def rotate_by_size_chain_ (cfg : Config) (s : State) : State :=
  if cfg.max_files_ = 0 then s
  else
    let s1 := close_file_ s
    let d1 := fs_remove s1.disk (rotated_path_ cfg s1.current_basename_ cfg.max_files_)
    let d2 := rotate_loop_ cfg s1 cfg.max_files_ d1
    let d3 := move_ d2 (current_base_path_ cfg s1.current_basename_) (rotated_path_ cfg s1.current_basename_ 1)
    { s1 with disk := d3 }

/-- Step 2 of `sink_it_`: `if (!rotated_on_open_done_) { ... }`. -/
def rotate_on_open_step_ (cfg : Config) (s : State) : State :=
  if !s.rotated_on_open_done_ then
    let t : State :=
      if cfg.rotate_on_open_ && decide (cfg.max_files_ > 0) &&
          fs_exists s.disk (current_base_path_ cfg s.current_basename_)
      then rotate_by_size_chain_ cfg s else s
    { t with rotated_on_open_done_ := true }
  else s

/-- Step 5 of `sink_it_`: the size check before the write. -/
def size_check_step_ (cfg : Config) (s : State) (will_write : Nat) : State :=
  if cfg.max_files_ > 0 ∧ s.current_size_bytes_ + will_write > cfg.max_size_bytes_ then
    ensure_opened_for_write_ cfg (rotate_by_size_chain_ cfg s)
  else s

/-- The part of `sink_it_` before the record is written; `will_write` is the
trimmed size of the record plus one. -/
def before_write_ (cfg : Config) (s : State) (tp : Int) (will_write : Nat) : State :=
  size_check_step_ cfg
    (ensure_opened_for_write_ cfg
      (rotate_on_open_step_ cfg (rotate_if_needed_by_time_ cfg s tp))) will_write

/-- The write itself: `file_.write(buf.data(), sz); file_.put('\n');
current_size_bytes_ += will_write;`. -/
def append_record_ (s : State) (buf : List Char) : State :=
  { s with disk := write_record_ s.disk s.file_ buf,
           current_size_bytes_ := s.current_size_bytes_ + (trim_size_ buf buf.length + 1) }

/-- `sink_it_(msg)` called at the time `tp`, `buf` being the formatted message. -/
def sink_it_ (cfg : Config) (s : State) (tp : Int) (buf : List Char) : State :=
  append_record_ (before_write_ cfg s tp (trim_size_ buf buf.length + 1)) buf

/-- The members as the constructor leaves them at the time `tp`, over the
directory `d`. -/
def init (cfg : Config) (d : Disk) (tp : Int) : State :=
  { disk := d, file_ := none, current_basename_ := cfg.make_basename_for_tp_ tp,
    next_rotation_ := cfg.compute_next_rotation_ tp, current_size_bytes_ := 0,
    opened_ := false, rotated_on_open_done_ := false }

/-- The sink after the writes `ws`, each a time and a record. -/
def run (cfg : Config) (s : State) (ws : List (Int × List Char)) : State :=
  ws.foldl (fun t w => sink_it_ cfg t w.1 w.2) s

/-- A file within the size limit, or a file that is one of the records `recs`
alone, a record too large for the limit. -/
def GoodFile (cfg : Config) (recs : List (List Char)) (c : List Char) : Prop :=
  c.length ≤ cfg.max_size_bytes_ ∨
  ∃ buf ∈ recs, c = frame_ buf ∧ cfg.max_size_bytes_ < (trimmed buf).length + 1

/-- The invariant of the pattern sink within one rotation cycle, the cycle of
the state `s0`, once the records `recs` have been written. -/
def SizeInv (cfg : Config) (s0 : State) (recs : List (List Char)) (s : State) : Prop :=
  s.disk.faults = [] ∧ s.current_basename_ = s0.current_basename_ ∧
  s.next_rotation_ = s0.next_rotation_ ∧
  (∀ c, s.disk.read (current_base_path_ cfg s0.current_basename_) = some c → GoodFile cfg recs c) ∧
  (∀ i c, s.disk.read (rotated_path_ cfg s0.current_basename_ i) = some c → GoodFile cfg recs c) ∧
  (s.file_ = none ∨
    (s.file_ = some (current_base_path_ cfg s0.current_basename_) ∧ s.opened_ = true ∧
      ∃ c, s.disk.read (current_base_path_ cfg s0.current_basename_) = some c ∧
        s.current_size_bytes_ = c.length))

/-- The stream is closed, or attached to the current file, which exists. -/
def StreamOk (cfg : Config) (s : State) : Prop :=
  s.file_ = none ∨
  (s.file_ = some (current_base_path_ cfg s.current_basename_) ∧
    ∃ c, s.disk.read (current_base_path_ cfg s.current_basename_) = some c)

/-- A sink named `app_2026-01-30` whatever the time, with a limit of 100 bytes
and one backup. -/
def demo_cfg : Config :=
  { dir_ := "logs", make_basename_for_tp_ := fun _ => "app_2026-01-30",
    compute_next_rotation_ := fun tp => tp + hours_24, max_size_bytes_ := 100,
    max_files_ := 1, rotate_on_open_ := false }

/-- A record of 500 bytes. -/
def big_record : List Char := List.replicate 500 'x'

/-- A directory that holds one backup of the demo sink and no current file. -/
def backup_only : Disk :=
  { entries := [("logs/app_2026-01-30.1.log", "old\n".toList)], calls := [], faults := [] }

/-- Two writes within the first day: the record of 500 bytes, then a short one. -/
def demo_writes : List (Int × List Char) :=
  [(1, big_record), (2, "small".toList)]

end PatternSink

/-! ## Per-day-directory size sink: `daily_dir_size_rotating_file_mt` -/

namespace DirSink

/-- Constructor arguments. -/
structure Config where
  root_dir_ : String
  stem_ : String
  max_size_ : Nat
  max_files_ : Nat
  rotate_on_open_ : Bool
  deriving DecidableEq, Repr

/-- Mutable members of the sink, and the directory tree it writes to. -/
structure State where
  disk : Disk
  file_ : Option String
  current_date_ : String
  opened_ : Bool
  current_size_ : Nat
  rotated_on_open_done_ : Bool
  deriving DecidableEq, Repr

/-- The file name extension, `extension_ = ".log"`. -/
def extension_ : String := ".log"

/-- `root_dir_ / current_date_`. -/
def day_dir_ (cfg : Config) (current_date_ : String) : String :=
  cfg.root_dir_ ++ "/" ++ current_date_

/-- `day_dir_() / (stem_ + extension_)`. -/
def base_path_ (cfg : Config) (current_date_ : String) : String :=
  day_dir_ cfg current_date_ ++ "/" ++ (cfg.stem_ ++ extension_)

/-- `day_dir_() / (stem_ + "." + std::to_string(index) + extension_)`. -/
def rotated_path_ (cfg : Config) (current_date_ : String) (index : Nat) : String :=
  day_dir_ cfg current_date_ ++ "/" ++ (cfg.stem_ ++ "." ++ to_string index ++ extension_)

/-- `probe_file_size_noopen_(path)`. -/
def probe_file_size_noopen_ (d : Disk) (path : String) : Nat :=
  if !fs_exists d path then 0 else fs_file_size d path

/-- `ensure_opened_for_write_()`.  `ensure_day_dir_()` has just made the
directory of the day and nothing below it; when the open fails the stream
stays closed and the members are set all the same. -/
def ensure_opened_for_write_ (cfg : Config) (s : State) : State :=
  if s.opened_ && s.file_.isSome then s
  else
    let p := base_path_ cfg s.current_date_
    let ok := fs_can_open s.disk (day_dir_ cfg s.current_date_) (cfg.stem_ ++ extension_)
    let d := match s.file_ with
      | some _ => s.disk -- `open` on an open stream attaches nothing
      | none => if ok then fs_open_append s.disk p else s.disk
    let f := match s.file_ with
      | some q => some q
      | none => if ok then some p else none
    { s with disk := d, file_ := f,
             current_size_ := probe_file_size_noopen_ d p, opened_ := true }

/-- The loop `for (size_t i = max_files_ - 1; i >= 1; --i) { ...; if (i == 1) break; }`
of `rotate_files_`, entered with the value `i`. -/
def rotate_loop_ (cfg : Config) (s : State) : Nat → Disk → Disk
  | 0, d => d
  | i + 1, d =>
    let d1 := move_ d (rotated_path_ cfg s.current_date_ (i + 1)) (rotated_path_ cfg s.current_date_ (i + 1 + 1))
    if i + 1 = 1 then d1 else rotate_loop_ cfg s i d1

/-- `rotate_files_()`. -/
def rotate_files_ (cfg : Config) (s : State) : State :=
  let s1 : State := { s with file_ := none, opened_ := false, current_size_ := 0 }
  if cfg.max_files_ = 0 then { s1 with disk := fs_remove s1.disk (base_path_ cfg s1.current_date_) }
  else
    let d1 := fs_remove s1.disk (rotated_path_ cfg s1.current_date_ cfg.max_files_)
    let d2 := rotate_loop_ cfg s1 (cfg.max_files_ - 1) d1
    let d3 := move_ d2 (base_path_ cfg s1.current_date_) (rotated_path_ cfg s1.current_date_ 1)
    { s1 with disk := d3 }

/-- `maybe_roll_day_()`, `today` being the value of `local_date_yyyy_mm_dd()`. -/
def maybe_roll_day_ (s : State) (today : String) : State :=
  if today = s.current_date_ then s
  else
    { s with file_ := none, opened_ := false, current_size_ := 0, current_date_ := today,
             rotated_on_open_done_ := false }

/-- The block `if (!rotated_on_open_done_) { ... }` of `sink_it_`. -/
def rotate_on_open_step_ (cfg : Config) (s : State) : State :=
  if !s.rotated_on_open_done_ then
    let t : State :=
      if cfg.rotate_on_open_ then
        if probe_file_size_noopen_ s.disk (base_path_ cfg s.current_date_) > 0 then rotate_files_ cfg s else s
      else s
    { t with rotated_on_open_done_ := true }
  else s

/-- The block `if (max_size_ > 0) { ... }` of `sink_it_`. -/
def size_check_step_ (cfg : Config) (s : State) (incoming : Nat) : State :=
  if cfg.max_size_ > 0 then
    if s.opened_ && s.file_.isSome then
      if s.current_size_ + incoming > cfg.max_size_ then rotate_files_ cfg s else s
    else
      let base_size := probe_file_size_noopen_ s.disk (base_path_ cfg s.current_date_)
      let s1 : State := { s with current_size_ := base_size }
      if base_size + incoming > cfg.max_size_ then rotate_files_ cfg s1 else s1
  else s

/-- The part of `sink_it_` before the record is written. -/
def before_write_ (cfg : Config) (s : State) (today : String) (incoming : Nat) : State :=
  ensure_opened_for_write_ cfg
    (size_check_step_ cfg (rotate_on_open_step_ cfg (maybe_roll_day_ s today)) incoming)

/-- The write itself: `file_.write(buf.data(), size); file_.put('\n');
current_size_ += incoming;`. -/
def append_record_ (s : State) (buf : List Char) : State :=
  { s with disk := write_record_ s.disk s.file_ buf,
           current_size_ := s.current_size_ + (trim_size_ buf buf.length + 1) }

/-- `sink_it_(msg)` called on the local date `today`, `buf` being the formatted
message. -/
def sink_it_ (cfg : Config) (s : State) (today : String) (buf : List Char) : State :=
  append_record_ (before_write_ cfg s today (trim_size_ buf buf.length + 1)) buf

/-- The members as the constructor leaves them on the local date `today`, over
the directory tree `d`. -/
def init (d : Disk) (today : String) : State :=
  { disk := d, file_ := none, current_date_ := today, opened_ := false, current_size_ := 0,
    rotated_on_open_done_ := false }

/-- A sink `logs/<date>/app.log` with a limit of 100 bytes and one backup. -/
def demo_cfg : Config :=
  { root_dir_ := "logs", stem_ := "app", max_size_ := 100, max_files_ := 1,
    rotate_on_open_ := false }

/-- The directory of one day that holds one backup and no current file. -/
def backup_only : Disk :=
  { entries := [("logs/2026-01-30/app.1.log", "old\n".toList)], calls := [], faults := [] }

end DirSink

/-! ## Date-embedded size sink: `daily_size_rotating_file_mt` of
`daily_count_rotating_file_sink.hpp` -/

namespace DateSink

/-- Mutable members of the sink, and the directory it writes to. -/
structure State where
  disk : Disk
  file_ : Option String
  current_date_ : String
  current_index_ : Nat
  current_size_ : Nat
  files_ : List String
  deriving DecidableEq, Repr

/-- The write of `sink_it_`: `file_.write(buf.data(), size); file_.put('\n');
current_size_ += size + 1;`. -/
def append_record_ (s : State) (buf : List Char) : State :=
  { s with disk := write_record_ s.disk s.file_ buf,
           current_size_ := s.current_size_ + (trim_size_ buf buf.length + 1) }

end DateSink

/-! ## Construction -/

/-- What a constructor leaves behind: the directory tree, the directories it
handed to `fs::create_directories`, and the members of the new sink or the
message of the exception it threw. -/
structure Constructed (σ : Type) where
  disk : Disk
  ensured : List String
  result : Except String σ

/-- `ends_with(s, suffix)`. -/
def ends_with (s suffix : List Char) : Bool :=
  if s.length < suffix.length then false else suffix.reverse.isPrefixOf s.reverse

/-- `starts_with(s, prefix)`, that is `s.rfind(prefix, 0) == 0`. -/
def starts_with (s pfx : List Char) : Bool :=
  pfx.isPrefixOf s

/-- `fs::path(p).filename()`: what follows the last separator. -/
def filename_ (p : List Char) : List Char :=
  (p.reverse.takeWhile (fun c => !decide (c = '/'))).reverse

/-- The lines of the constructors of the count sink and of the date-embedded
sink that set `dir_`:
`dir_ = p.has_parent_path() ? p.parent_path() : fs::path(".")`. -/
def split_dir_ (base_filename : String) : String :=
  if (parent_path_ base_filename.toList).isEmpty then "." else String.mk (parent_path_ base_filename.toList)

/-- The lines of the same constructors that set `stem_`: the file name without
a final `.log`. -/
def split_stem_ (base_filename : String) : String :=
  let fname := filename_ base_filename.toList
  if ends_with fname ".log".toList then String.mk (fname.take (fname.length - 4)) else String.mk fname

namespace CountSink

/-- The constant members the constructor sets from its arguments. -/
def config_of (base_filename : String) (max_count max_files : Nat)
    (rotate_on_open strict_count_on_open : Bool) : Config :=
  { dir_ := split_dir_ base_filename, stem_ := split_stem_ base_filename,
    max_count_ := max_count, max_files_ := max_files, rotate_on_open_ := rotate_on_open,
    strict_count_on_open_ := strict_count_on_open }

/-- The constructor `count_rotating_file_mt(base_filename, max_count, max_files,
rotate_on_open, strict_count_on_open)` over the directory tree `d`.  It has no
`throw`. -/
def construct (base_filename : String) (max_count max_files : Nat)
    (rotate_on_open strict_count_on_open : Bool) (d : Disk) : Constructed State :=
  { disk := d,
    ensured := [(config_of base_filename max_count max_files rotate_on_open
      strict_count_on_open).dir_],
    result := .ok (init d) }

end CountSink

namespace DirSink

/-- The constructor `daily_dir_size_rotating_file_mt(root_dir, stem,
max_size_bytes, max_files, rotate_on_open)` on the local date `today`, over the
directory tree `d`; the arguments are the fields of `cfg`.  It has no `throw`. -/
def construct (cfg : Config) (d : Disk) (today : String) : Constructed State :=
  { disk := d, ensured := [day_dir_ cfg today], result := .ok (init d today) }

end DirSink

/-! ## Local time and the date formatter of the pattern-named sink -/

/-- The fields of `std::tm` the sinks read. -/
structure Tm where
  tm_sec : Int
  tm_min : Int
  tm_hour : Int
  tm_mday : Int
  tm_mon : Int
  tm_year : Int
  tm_wday : Int
  deriving DecidableEq, Repr

/-- The local time zone of the process: the C library functions `localtime_r`
and `mktime`, on a `time_t` counted in seconds. -/
structure TimeZone where
  localtime_r : Int → Tm
  mktime : Tm → Int

/-- Year, month (1..12) and day of the month of the day `z`, counted from
1970-01-01, in the Gregorian calendar. -/
def civil_from_days_ (z : Int) : Int × Int × Int :=
  let z1 := z + 719468
  let era := z1 / 146097
  let doe := z1 - era * 146097
  let yoe := (doe - doe / 1460 + doe / 36524 - doe / 146096) / 365
  let doy := doe - (365 * yoe + yoe / 4 - yoe / 100)
  let mp := (5 * doy + 2) / 153
  let d := doy - (153 * mp + 2) / 5 + 1
  let m := if mp < 10 then mp + 3 else mp - 9
  (if m ≤ 2 then yoe + era * 400 + 1 else yoe + era * 400, m, d)

/-- The day, counted from 1970-01-01, of a date of the Gregorian calendar. -/
def days_from_civil_ (y m d : Int) : Int :=
  let y1 := if m ≤ 2 then y - 1 else y
  let era := y1 / 400
  let yoe := y1 - era * 400
  let doy := (153 * (if m > 2 then m - 3 else m + 9) + 2) / 5 + d - 1
  let doe := yoe * 365 + yoe / 4 - yoe / 100 + doy
  era * 146097 + doe - 719468

/-- `localtime_r` of a process whose time zone is UTC. -/
def gmtime_ (tt : Int) : Tm :=
  let days := tt / 86400
  let rem := tt % 86400
  let ymd := civil_from_days_ days
  { tm_sec := rem % 60, tm_min := rem / 60 % 60, tm_hour := rem / 3600, tm_mday := ymd.2.2,
    tm_mon := ymd.2.1 - 1, tm_year := ymd.1 - 1900, tm_wday := (days + 4) % 7 }

/-- `mktime` of a process whose time zone is UTC. -/
def timegm_ (t : Tm) : Int :=
  days_from_civil_ (t.tm_year + 1900) (t.tm_mon + 1) t.tm_mday * 86400 +
    t.tm_hour * 3600 + t.tm_min * 60 + t.tm_sec

/-- The time zone UTC. -/
def utc : TimeZone :=
  { localtime_r := gmtime_, mktime := timegm_ }

/-- `std::chrono::system_clock::to_time_t(tp)`, a time point being a number of
nanoseconds since the epoch: the division truncates. -/
def to_time_t (tp : Int) : Int :=
  Int.tdiv tp 1000000000

/-- `std::chrono::system_clock::from_time_t(t)`. -/
def from_time_t (t : Int) : Int :=
  t * 1000000000

/-- The characters `append_int_(out, v, width)` appends to `out`: the decimal
form of `v`, filled on the left with `0` up to `width` characters. -/
def append_int_ (v : Int) (width : Nat) : List Char :=
  let s := if v < 0 then '-' :: (Nat.repr v.natAbs).toList else (Nat.repr v.toNat).toList
  List.replicate (width - s.length) '0' ++ s

/-- `clamp_ms_(ms)`. -/
def clamp_ms_ (ms : Int) : Int :=
  if ms < 0 then 0 else if ms > 999 then 999 else ms

/-- `to_local_parts_(tp)`: the broken-down local time and the millisecond. -/
def to_local_parts_ (tz : TimeZone) (tp : Int) : Tm × Int :=
  let ms_since_epoch := Int.tdiv tp 1000000
  let sec_since_epoch := Int.tdiv ms_since_epoch 1000
  let ms := ms_since_epoch - sec_since_epoch * 1000
  (tz.localtime_r (to_time_t tp), clamp_ms_ ms)

/-- The table `kMonthShort`. -/
def kMonthShort : List String :=
  ["Jan", "Feb", "Mar", "Apr", "May", "Jun", "Jul", "Aug", "Sep", "Oct", "Nov", "Dec"]

/-- The table `kMonthLong`. -/
def kMonthLong : List String :=
  ["January", "February", "March", "April", "May", "June", "July", "August", "September",
    "October", "November", "December"]

/-- The table `kWeekdayShort`. -/
def kWeekdayShort : List String :=
  ["Mon", "Tue", "Wed", "Thu", "Fri", "Sat", "Sun"]

/-- The table `kWeekdayLong`. -/
def kWeekdayLong : List String :=
  ["Monday", "Tuesday", "Wednesday", "Thursday", "Friday", "Saturday", "Sunday"]

/-- The `switch (c)` of `qt_datetime_format_subset_`: what a run of `n` equal
characters `c` outside quotes appends. -/
def format_token_ (t : Tm) (millisecond : Int) (c : Char) (n : Nat) : List Char :=
  let year := t.tm_year + 1900
  let month := t.tm_mon + 1
  let day := t.tm_mday
  let wday := t.tm_wday
  let hour24 := t.tm_hour
  let qtWdayIndex := if wday = 0 then 6 else wday - 1
  let hour12 := if Int.tmod hour24 12 = 0 then 12 else Int.tmod hour24 12
  if c = 'y' then
    if n ≥ 4 then append_int_ year 4
    else if n = 2 then append_int_ (Int.tmod year 100) 2
    else append_int_ year 0
  else if c = 'M' then
    if n = 1 then append_int_ month 0
    else if n = 2 then append_int_ month 2
    else if n = 3 then (kMonthShort.getD (month - 1).toNat "").toList
    else (kMonthLong.getD (month - 1).toNat "").toList
  else if c = 'd' then
    if n = 1 then append_int_ day 0
    else if n = 2 then append_int_ day 2
    else if n = 3 then (kWeekdayShort.getD qtWdayIndex.toNat "").toList
    else (kWeekdayLong.getD qtWdayIndex.toNat "").toList
  else if c = 'H' then
    if n = 1 then append_int_ hour24 0 else append_int_ hour24 2
  else if c = 'h' then
    if n = 1 then append_int_ hour12 0 else append_int_ hour12 2
  else if c = 'm' then
    if n = 1 then append_int_ t.tm_min 0 else append_int_ t.tm_min 2
  else if c = 's' then
    if n = 1 then append_int_ t.tm_sec 0 else append_int_ t.tm_sec 2
  else if c = 'z' then
    if n = 1 then append_int_ (Int.tdiv millisecond 100) 0
    else if n = 2 then append_int_ (Int.tdiv millisecond 10) 2
    else append_int_ millisecond 3
  else List.replicate n c

/-- The lambda `ampm(upper)` of `qt_datetime_format_subset_`. -/
def ampm_ (t : Tm) (upper : Bool) : List Char :=
  if upper then (if t.tm_hour ≥ 12 then ['P', 'M'] else ['A', 'M'])
  else (if t.tm_hour ≥ 12 then ['p', 'm'] else ['a', 'm'])

/-- The single quote. -/
def quote_ : Char := Char.ofNat 39

/-- The loop `for (size_t i = 0; i < fmt.size(); )` of
`qt_datetime_format_subset_`: `rest` is the format from position `i` on, and
the result is what the loop appends to `out` from there. -/
def format_loop_ (t : Tm) (millisecond : Int) : Nat → List Char → Bool → List Char
  | 0, _, _ => []
  | _ + 1, [], _ => []
  | fuel + 1, c :: cs, in_quote =>
    if c = quote_ then
      if cs.head? = some quote_ then quote_ :: format_loop_ t millisecond fuel (cs.drop 1) in_quote
      else format_loop_ t millisecond fuel cs (!in_quote)
    else if in_quote then c :: format_loop_ t millisecond fuel cs in_quote
    else if (c = 'A' ∧ cs.head? = some 'P') ∨ (c = 'a' ∧ cs.head? = some 'p') then
      ampm_ t (decide (c = 'A')) ++ format_loop_ t millisecond fuel (cs.drop 1) in_quote
    else
      let n := 1 + (cs.takeWhile (fun x => decide (x = c))).length
      format_token_ t millisecond c n ++
        format_loop_ t millisecond fuel (cs.dropWhile (fun x => decide (x = c))) in_quote

/-- `qt_datetime_format_subset_(tp, fmt)`. -/
def qt_datetime_format_subset_ (tz : TimeZone) (tp : Int) (fmt : List Char) : List Char :=
  format_loop_ (to_local_parts_ tz tp).1 (to_local_parts_ tz tp).2 (fmt.length + 1) fmt false

/-- The loop of `replace_all_` for a non-empty `src`: `rest` is `s` from the
position `pos` on; the first occurrence of `src` is replaced and the search
goes on behind the replacement. -/
def replace_loop_ (src dst : List Char) : Nat → List Char → List Char
  | 0, rest => rest
  | _ + 1, [] => []
  | fuel + 1, c :: cs =>
    if src.isPrefixOf (c :: cs) then dst ++ replace_loop_ src dst fuel ((c :: cs).drop src.length)
    else c :: replace_loop_ src dst fuel cs

/-- `replace_all_(s, from, to)`. -/
def replace_all_ (s src dst : List Char) : List Char :=
  if src.isEmpty then s else replace_loop_ src dst (s.length + 1) s

namespace PatternSink

/-- The arguments of the constructor; `max_size_bits` is a `uint64_t`, a
number below `2 ^ 64`. -/
structure Args where
  dir : String
  name_pattern : String
  date_format : String
  rotation_hour : Int
  rotation_min : Int
  max_size_bits : Nat
  max_files : Nat
  rotate_on_open : Bool
  deriving DecidableEq, Repr

/-- `make_basename_for_tp_(tp)`. -/
def make_basename_for_tp_ (tz : TimeZone) (a : Args) (tp : Int) : String :=
  String.mk (replace_all_ a.name_pattern.toList "\x7bdate\x7d".toList
    (qt_datetime_format_subset_ tz tp a.date_format.toList))

/-- `compute_next_rotation_(tp_now)`. -/
def compute_next_rotation_ (tz : TimeZone) (a : Args) (tp_now : Int) : Int :=
  let local_tm := tz.localtime_r (to_time_t tp_now)
  let rot_tm : Tm := { local_tm with tm_hour := a.rotation_hour, tm_min := a.rotation_min, tm_sec := 0 }
  let tp_rot_today := from_time_t (tz.mktime rot_tm)
  if tp_now < tp_rot_today then tp_rot_today else tp_rot_today + hours_24

/-- The line `max_size_bytes_ = (max_size_bits + 7) / 8;`, in `uint64_t`. -/
def max_size_bytes_of (max_size_bits : Nat) : Nat :=
  (max_size_bits + 7) % 2 ^ 64 / 8

/-- The constant members the constructor sets from its arguments. -/
def config_of (tz : TimeZone) (a : Args) : Config :=
  { dir_ := a.dir, make_basename_for_tp_ := make_basename_for_tp_ tz a,
    compute_next_rotation_ := compute_next_rotation_ tz a,
    max_size_bytes_ := max_size_bytes_of a.max_size_bits, max_files_ := a.max_files,
    rotate_on_open_ := a.rotate_on_open }

/-- The constructor `daily_size_rotating_file_mt(dir, name_pattern, date_format,
rotation_hour, rotation_min, max_size_bits, max_files, rotate_on_open)` at the
time `now`, over the directory tree `d`. -/
def construct (tz : TimeZone) (a : Args) (d : Disk) (now : Int) : Constructed State :=
  if a.rotation_hour < 0 ∨ a.rotation_hour > 23 ∨ a.rotation_min < 0 ∨ a.rotation_min > 59 then
    { disk := d, ensured := [], result := .error "rotation time invalid" }
  else if max_size_bytes_of a.max_size_bits = 0 then
    { disk := d, ensured := [], result := .error "max_size_bits must be > 0" }
  else
    { disk := d, ensured := [a.dir], result := .ok (init (config_of tz a) d now) }

end PatternSink

/-! ## Date-embedded size sink: names, scan, rotation -/

/-- `std::isspace` in the C locale. -/
def isspace_ (c : Char) : Bool :=
  c = ' ' || (9 ≤ c.toNat && c.toNat ≤ 13)

/-- `std::stoull(str)` in base 10: white space, an optional sign and the
longest run of digits; `std::invalid_argument` without a digit,
`std::out_of_range` above `2 ^ 64 - 1`; a minus sign negates in `uint64_t`. -/
def stoull (str : List Char) : Except String Nat :=
  let s1 := str.dropWhile isspace_
  let neg := s1.head? = some '-'
  let s2 := if s1.head? = some '-' ∨ s1.head? = some '+' then s1.drop 1 else s1
  let ds := s2.takeWhile Char.isDigit
  if ds.isEmpty then .error "stoull: invalid_argument"
  else if digits_value_ ds ≥ 2 ^ 64 then .error "stoull: out_of_range"
  else .ok (if neg then (2 ^ 64 - digits_value_ ds) % 2 ^ 64 else digits_value_ ds)

/-- The names of the regular files of the directory `dir`, in the order
`fs::directory_iterator` yields them (here: the order of the map). -/
def directory_names_ (d : Disk) (dir : String) : List String :=
  (d.entries.filter (fun e =>
      starts_with e.1.toList (dir ++ "/").toList &&
        !(e.1.toList.drop (dir ++ "/").length).contains '/')).map
    (fun e => String.mk (e.1.toList.drop (dir ++ "/").length))

/-- The values of a list of results, or the first exception. -/
def sequence_ {α : Type} : List (Except String α) → Except String (List α)
  | [] => .ok []
  | x :: xs =>
    match x with
    | .error e => .error e
    | .ok a =>
      match sequence_ xs with
      | .error e => .error e
      | .ok as => .ok (a :: as)

namespace DateSink

/-- Constructor arguments, after the constructor has split `base_filename`. -/
structure Config where
  dir_ : String
  stem_ : String
  max_size_ : Nat
  max_files_ : Nat
  rotate_on_open_ : Bool
  deriving DecidableEq, Repr

/-- The file name extension, `extension_ = ".log"`. -/
def extension_ : String := ".log"

/-- `today_prefix_()`: `stem_ + "_" + current_date_`. -/
def today_prefix_ (cfg : Config) (current_date_ : String) : String :=
  cfg.stem_ ++ "_" ++ current_date_

/-- `make_filename_(index)`. -/
def make_filename_ (cfg : Config) (current_date_ : String) (index : Nat) : String :=
  if index = 0 then today_prefix_ cfg current_date_ ++ extension_
  else today_prefix_ cfg current_date_ ++ "." ++ to_string index ++ extension_

/-- `make_path_(index)`. -/
def make_path_ (cfg : Config) (current_date_ : String) (index : Nat) : String :=
  cfg.dir_ ++ "/" ++ make_filename_ cfg current_date_ index

/-- `extract_index_(filename)`; the exception is the one of `std::stoull`. -/
def extract_index_ (cfg : Config) (current_date_ : String) (filename : String) :
    Except String Nat :=
  if filename = today_prefix_ cfg current_date_ ++ extension_ then .ok 0
  else
    let pfx := today_prefix_ cfg current_date_ ++ "."
    if starts_with filename.toList pfx.toList && ends_with filename.toList extension_.toList then
      stoull ((filename.toList.drop pfx.length).take
        (filename.length - extension_.length - pfx.length))
    else .ok 0

/-- The filter of the loop over the directory in
`scan_existing_files_for_today_`. -/
def is_today_file_ (cfg : Config) (current_date_ : String) (name : String) : Bool :=
  name = today_prefix_ cfg current_date_ ++ extension_ ||
  (starts_with name.toList (today_prefix_ cfg current_date_ ++ ".").toList &&
    ends_with name.toList extension_.toList)

/-- `scan_existing_files_for_today_()`, the directory `dir_` being there
(`fs::create_directories` has just run).  `std::sort` compares every name of a
list of two or more with another one, so an exception of `extract_index_`
leaves the scan; names of equal index keep their order here. -/
def scan_existing_files_for_today_ (cfg : Config) (s : State) : Except String State :=
  let names := (directory_names_ s.disk cfg.dir_).filter (is_today_file_ cfg s.current_date_)
  if names.length < 2 then .ok { s with files_ := names }
  else
    match sequence_ (names.map (fun n =>
        (extract_index_ cfg s.current_date_ n).map (fun i => (i, n)))) with
    | .error e => .error e
    | .ok keyed =>
      .ok { s with files_ := (keyed.insertionSort (fun a b => a.1 ≤ b.1)).map Prod.snd }

end DateSink

namespace DateSink

/-- `file_.open(path, std::ios::out | std::ios::app)` followed by the lines
that set `current_size_` from the size of the file. -/
def open_at_ (s : State) (path : String) : State :=
  let d := match s.file_ with
    | some _ => s.disk -- `open` on an open stream attaches nothing
    | none => fs_open_append s.disk path
  { s with disk := d, file_ := some (s.file_.getD path),
           current_size_ := if fs_exists d path then fs_file_size d path else 0 }

/-- `open_current_file_()`. -/
def open_current_file_ (cfg : Config) (s : State) : State :=
  let s1 : State := { s with file_ := none }
  let s2 := open_at_ s1 (make_path_ cfg s1.current_date_ s1.current_index_)
  let name := make_filename_ cfg s1.current_date_ s1.current_index_
  if s2.files_.isEmpty || s2.files_.getLast? ≠ some name then
    { s2 with files_ := s2.files_ ++ [name] }
  else s2

/-- The loop `while (files_.size() > max_files_) { ... }` of
`cleanup_old_files_`. -/
def cleanup_loop_ (cfg : Config) : Nat → State → State
  | 0, s => s
  | fuel + 1, s =>
    match s.files_ with
    | [] => s
    | front :: rest =>
      if s.files_.length > cfg.max_files_ then
        cleanup_loop_ cfg fuel
          { s with disk := fs_remove s.disk (cfg.dir_ ++ "/" ++ front), files_ := rest }
      else s

/-- `cleanup_old_files_()`. -/
def cleanup_old_files_ (cfg : Config) (s : State) : State :=
  if cfg.max_files_ = 0 then s else cleanup_loop_ cfg s.files_.length s

/-- The lines of `open_new_file_()` before the call of `cleanup_old_files_()`;
`current_index_` is a `size_t`. -/
def open_next_ (cfg : Config) (s : State) : State :=
  let s1 : State := { s with current_index_ := (s.current_index_ + 1) % 2 ^ 64 }
  let s2 := open_at_ s1 (make_path_ cfg s1.current_date_ s1.current_index_)
  { s2 with files_ := s2.files_ ++ [make_filename_ cfg s1.current_date_ s1.current_index_] }

/-- `open_new_file_()`. -/
def open_new_file_ (cfg : Config) (s : State) : State :=
  cleanup_old_files_ cfg (open_next_ cfg s)

/-- `rotate_file_()`. -/
def rotate_file_ (cfg : Config) (s : State) : State :=
  open_new_file_ cfg { s with file_ := none }

/-- The statements the constructor and `maybe_roll_day_` share: the scan of the
directory, then `open_new_file_()` when `rotate_on_open_` is set and a file of
today exists, else `open_current_file_()` at the index of the last file. -/
def scan_and_open_ (cfg : Config) (s : State) : Except String State :=
  match scan_existing_files_for_today_ cfg s with
  | .error e => .error e
  | .ok s1 =>
    if cfg.rotate_on_open_ && !s1.files_.isEmpty then .ok (open_new_file_ cfg s1)
    else
      match s1.files_.getLast? with
      | none => .ok (open_current_file_ cfg { s1 with current_index_ := 0 })
      | some last =>
        match extract_index_ cfg s1.current_date_ last with
        | .error e => .error e
        | .ok i => .ok (open_current_file_ cfg { s1 with current_index_ := i })

/-- `maybe_roll_day_()`, `today` being the value of `local_date_yyyy_mm_dd()`. -/
def maybe_roll_day_ (cfg : Config) (s : State) (today : String) : Except String State :=
  if today = s.current_date_ then .ok s
  else
    scan_and_open_ cfg
      { s with file_ := none, current_date_ := today, current_index_ := 0, current_size_ := 0 }

/-- The part of `sink_it_` after the write: the size check. -/
def after_write_ (cfg : Config) (s : State) : State :=
  if cfg.max_size_ > 0 ∧ s.current_size_ ≥ cfg.max_size_ then rotate_file_ cfg s else s

/-- `sink_it_(msg)` called on the local date `today`, `buf` being the formatted
message. -/
def sink_it_ (cfg : Config) (s : State) (today : String) (buf : List Char) :
    Except String State :=
  match maybe_roll_day_ cfg s today with
  | .error e => .error e
  | .ok s1 => .ok (after_write_ cfg (append_record_ s1 buf))

/-- The constant members the constructor sets from its arguments. -/
def config_of (base_filename : String) (max_size_bytes max_files : Nat)
    (rotate_on_open : Bool) : Config :=
  { dir_ := split_dir_ base_filename, stem_ := split_stem_ base_filename,
    max_size_ := max_size_bytes, max_files_ := max_files, rotate_on_open_ := rotate_on_open }

/-- The constructor `daily_size_rotating_file_mt(base_filename, max_size_bytes,
max_files, rotate_on_open)` on the local date `today`, over the directory tree
`d`. -/
def construct (cfg : Config) (d : Disk) (today : String) : Constructed State :=
  match scan_and_open_ cfg
      { disk := d, file_ := none, current_date_ := today, current_index_ := 0,
        current_size_ := 0, files_ := [] } with
  | .error e => { disk := d, ensured := [cfg.dir_], result := .error e }
  | .ok s => { disk := s.disk, ensured := [cfg.dir_], result := .ok s }

/-- A sink `logs/app_<date>.log` with a limit of 10 bytes, keeping every file. -/
def demo_cfg : Config :=
  { dir_ := "logs", stem_ := "app", max_size_ := 10, max_files_ := 0, rotate_on_open_ := false }

/-- The same sink with `rotate_on_open_`. -/
def reopen_cfg : Config :=
  { dir_ := "logs", stem_ := "app", max_size_ := 10, max_files_ := 0, rotate_on_open_ := true }

end DateSink

namespace PatternSink

/-- Arguments of a sink `logs/app_<yyyy-MM-dd>.log` with the cutover at 03:00, a
limit of 800 bits and one backup. -/
def demo_args : Args :=
  { dir := "logs", name_pattern := "app_\x7bdate\x7d", date_format := "yyyy-MM-dd",
    rotation_hour := 3, rotation_min := 0, max_size_bits := 800, max_files := 1,
    rotate_on_open := false }

/-- The time point 2026-01-30 02:00:00 UTC. -/
def t_0200 : Int := 1769738400 * 1000000000

/-- The time point 2026-01-30 02:59:00 UTC. -/
def t_0259 : Int := 1769741940 * 1000000000

/-- The time point 2026-01-30 03:00:00 UTC. -/
def t_0300 : Int := 1769742000 * 1000000000

end PatternSink

namespace DirSink

/-- The directory of one day that holds a current file. -/
def current_only : Disk :=
  { entries := [("logs/2026-01-30/app.log", "old\n".toList)], calls := [], faults := [] }

end DirSink

namespace DateSink

/-- The sink after the records `bufs`, all written on the local date `today`. -/
def run (cfg : Config) (today : String) : State → List (List Char) → Except String State
  | s, [] => .ok s
  | s, buf :: rest =>
    match sink_it_ cfg s today buf with
    | .error e => .error e
    | .ok t => run cfg today t rest

/-- The stream is attached to the file of the current index. -/
def Attached (cfg : Config) (s : State) : Prop :=
  s.file_ = some (make_path_ cfg s.current_date_ s.current_index_)

/-- The members a constructor leaves over an empty directory tree. -/
def fresh_state : State :=
  { disk := { entries := [("logs/app_2026-01-30.log", [])], calls := [], faults := [] },
    file_ := some "logs/app_2026-01-30.log", current_date_ := "2026-01-30",
    current_index_ := 0, current_size_ := 0, files_ := ["app_2026-01-30.log"] }

end DateSink

namespace DirSink

/-- A sink `logs/<date>/app.log` with two backups. -/
def chain2_cfg : Config :=
  { root_dir_ := "logs", stem_ := "app", max_size_ := 100, max_files_ := 2,
    rotate_on_open_ := false }

end DirSink

namespace PatternSink

/-- A sink named `app_2026-01-30` whatever the time, with two backups. -/
def chain2_cfg : Config :=
  { dir_ := "logs", make_basename_for_tp_ := fun _ => "app_2026-01-30",
    compute_next_rotation_ := fun tp => tp + hours_24, max_size_bytes_ := 100,
    max_files_ := 2, rotate_on_open_ := false }

/-- A directory that holds the current file of that sink and nothing else. -/
def current_only : Disk :=
  { entries := [("logs/app_2026-01-30.log", "old\n".toList)], calls := [], faults := [] }

end PatternSink

namespace CountSink

/-- The directory of the scenario with a current file and two backups, on which
the third mutating call fails. -/
def faulty_disk : Disk :=
  { entries := [("logs/app.log", "c\n".toList), ("logs/app.1.log", "b\n".toList),
      ("logs/app.2.log", "a\n".toList)],
    calls := [], faults := [2] }

end CountSink

/-- The letters `qt_datetime_format_subset_` reads as tokens. -/
def token_letters_ : List Char :=
  ['y', 'M', 'd', 'H', 'h', 'm', 's', 'z']

/-- Pieces of text joined with a separator between them. -/
def join_with_ (sep : List Char) : List (List Char) → List Char
  | [] => []
  | [p] => p
  | p :: q :: ps => p ++ sep ++ join_with_ sep (q :: ps)

/-- The pieces a text falls into when it is cut at its successive leftmost,
non-overlapping occurrences of `src`: before each cut no occurrence starts
earlier, and the last piece holds none. -/
def LeftmostPieces (src : List Char) : List (List Char) → Prop
  | [] => False
  | [p] => ¬ src <:+: p
  | p :: q :: ps => ¬ src <:+: p ++ src.dropLast ∧ LeftmostPieces src (q :: ps)

/-- The characters `snprintf` writes for one conversion `%0<width>d`: the sign
of a negative number first, then the digits, filled with `0` up to `width`
characters in all. -/
def printf_0d_ (width : Nat) (v : Int) : List Char :=
  if v < 0 then
    '-' :: (List.replicate (width - 1 - (Nat.repr v.natAbs).length) '0' ++
      (Nat.repr v.natAbs).toList)
  else List.replicate (width - (Nat.repr v.toNat).length) '0' ++ (Nat.repr v.toNat).toList

/-- `local_date_yyyy_mm_dd()`, `t` being the value of `std::time(nullptr)`:
`snprintf(buf, sizeof(buf), "%04d-%02d-%02d", ...)` into `char buf[11]` keeps
at most ten characters. -/
def local_date_yyyy_mm_dd (tz : TimeZone) (t : Int) : String :=
  String.mk ((printf_0d_ 4 ((tz.localtime_r t).tm_year + 1900) ++ '-' ::
    (printf_0d_ 2 ((tz.localtime_r t).tm_mon + 1) ++ '-' ::
      printf_0d_ 2 (tz.localtime_r t).tm_mday)).take 10)

namespace DirSink

/-- The sink after the records `bufs`, all written on the local date `today`. -/
def run (cfg : Config) (today : String) (s : State) (bufs : List (List Char)) : State :=
  bufs.foldl (fun t buf => sink_it_ cfg t today buf) s

/-- The stream is closed, or attached to the current file of the current day,
which exists. -/
def StreamOk (cfg : Config) (s : State) : Prop :=
  s.file_ = none ∨
  (s.file_ = some (base_path_ cfg s.current_date_) ∧
    ∃ c, s.disk.read (base_path_ cfg s.current_date_) = some c)

/-- The path `p` names a file of the directory of the day `date`. -/
def InDayDir (cfg : Config) (date : String) (p : String) : Prop :=
  ∃ name : String, p = day_dir_ cfg date ++ "/" ++ name

end DirSink

namespace DirSink

/-- The state `t` is of the day `today`, its stream is in order and the file
`p` holds what it holds on the disk `d0`. -/
def KeepsFile (cfg : Config) (today p : String) (d0 : Disk) (t : State) : Prop :=
  t.current_date_ = today ∧ StreamOk cfg t ∧ t.disk.read p = d0.read p

end DirSink

/-! ## Flushing -/

/-- A sink together with the bytes its `std::ofstream` has accepted and not yet
handed to the file. -/
structure Buffered (σ : Type) where
  sink : σ
  pending : List Char

/-- `file_.flush()`: the bytes held back go to the file the stream is attached
to; on a closed stream nothing happens. -/
def ofstream_flush (d : Disk) (file_ : Option String) (pending : List Char) :
    Disk × List Char :=
  match file_ with
  | some p => (fs_append d p pending, [])
  | none => (d, pending)

/-- What a file holds once the bytes the stream still holds back for it are
counted in. -/
def logical_content (d : Disk) (file_ : Option String) (pending : List Char) (q : String) :
    Option (List Char) :=
  (d.read q).map (fun c => if file_ = some q then c ++ pending else c)

namespace CountSink

/-- `flush_()`: `if (file_.is_open()) file_.flush();`. -/
def flush_ (b : Buffered State) : Buffered State :=
  if b.sink.file_.isSome then
    { sink := { b.sink with disk := (ofstream_flush b.sink.disk b.sink.file_ b.pending).1 },
      pending := (ofstream_flush b.sink.disk b.sink.file_ b.pending).2 }
  else b

end CountSink

namespace PatternSink

/-- `flush_()`: `if (file_.is_open()) file_.flush();`. -/
def flush_ (b : Buffered State) : Buffered State :=
  if b.sink.file_.isSome then
    { sink := { b.sink with disk := (ofstream_flush b.sink.disk b.sink.file_ b.pending).1 },
      pending := (ofstream_flush b.sink.disk b.sink.file_ b.pending).2 }
  else b

end PatternSink

namespace DirSink

/-- `flush_()`: `if (file_.is_open()) file_.flush();`. -/
def flush_ (b : Buffered State) : Buffered State :=
  if b.sink.file_.isSome then
    { sink := { b.sink with disk := (ofstream_flush b.sink.disk b.sink.file_ b.pending).1 },
      pending := (ofstream_flush b.sink.disk b.sink.file_ b.pending).2 }
  else b

end DirSink

namespace DateSink

/-- `flush_()`: `file_.flush();`, without a test of `is_open()`. -/
def flush_ (b : Buffered State) : Buffered State :=
  { sink := { b.sink with disk := (ofstream_flush b.sink.disk b.sink.file_ b.pending).1 },
    pending := (ofstream_flush b.sink.disk b.sink.file_ b.pending).2 }

end DateSink

/-- What is asked of a flush that takes the directory `d` and the bytes `pend`
held back by the stream `f` to `d2` and `pend2`: no remove or rename is
issued, the same files exist, and every file holds the same bytes once the
bytes held back are counted in. -/
def FlushKeeps (d : Disk) (f : Option String) (pend : List Char) (d2 : Disk)
    (pend2 : List Char) : Prop :=
  d2.calls = d.calls ∧ (∀ q, (d2.read q).isSome = (d.read q).isSome) ∧
  (∀ q, logical_content d2 f pend2 q = logical_content d f pend q)

namespace DateSink

/-- A directory that holds the files of index 0 and 1 of one day. -/
def two_files : Disk :=
  { entries := [("logs/app_2026-01-30.log", "zero\n".toList),
      ("logs/app_2026-01-30.1.log", "one\n".toList)],
    calls := [], faults := [] }

/-- A directory that holds the file of index 0 of one day and a file whose
name has a word where the index goes. -/
def word_for_index : Disk :=
  { entries := [("logs/app_2026-01-30.log", "zero\n".toList),
      ("logs/app_2026-01-30.old.log", "kept\n".toList)],
    calls := [], faults := [] }

/-- A directory that holds only a file whose name has a word where the index
goes. -/
def only_word_for_index : Disk :=
  { entries := [("logs/app_2026-01-30.old.log", "kept\n".toList)], calls := [], faults := [] }

end DateSink

/-- `localtime_r` and `mktime` of a process whose local time is UTC plus `off`
seconds all year round. -/
def fixed_offset (off : Int) : TimeZone :=
  { localtime_r := fun t => gmtime_ (t + off), mktime := fun tm => timegm_ tm - off }

/-- The time point `x` is on a whole second and its local time of day is
`hour:min:00`. -/
def IsCutover (tz : TimeZone) (hour min x : Int) : Prop :=
  x % 1000000000 = 0 ∧ (tz.localtime_r (to_time_t x)).tm_hour = hour ∧
    (tz.localtime_r (to_time_t x)).tm_min = min ∧ (tz.localtime_r (to_time_t x)).tm_sec = 0

instance (tz : TimeZone) (hour min x : Int) : Decidable (IsCutover tz hour min x) := by
  unfold IsCutover
  infer_instance

namespace PatternSink

/-- Arguments of a sink without backups whose date format holds separators. -/
def slash_args : Args :=
  { demo_args with date_format := "yyyy/MM/dd", max_files := 0 }

end PatternSink

namespace DirSink

/-- A sink whose stem names a file in a subdirectory of the directory of the
day. -/
def slash_cfg : Config :=
  { demo_cfg with stem_ := "sub/app" }

end DirSink

namespace PatternSink

/-- The value `tp_rot_today` of `compute_next_rotation_(tp)`: the cutover
instant of the local day of `tp`. -/
def cutover_of_day_ (tz : TimeZone) (a : Args) (tp : Int) : Int :=
  from_time_t (tz.mktime
    { tz.localtime_r (to_time_t tp) with
      tm_hour := a.rotation_hour, tm_min := a.rotation_min, tm_sec := 0 })

end PatternSink

end CustomSink


/-! ## Theorems: the file system -/

namespace CustomSink

theorem lookup_filter_ne (l : List (String × List Char)) (p q : String) :
    lookup_ (l.filter (fun e => !decide (e.1 = p))) q = if q = p then none else lookup_ l q := by
  induction l with
  | nil => simp [lookup_]
  | cons e rest ih =>
    by_cases hk : e.1 = p
    · by_cases hq : q = p
      · subst hq
        simp [List.filter_cons, lookup_, ih, hk]
      · have hq2 : ¬ p = q := fun h => hq h.symm
        simp [List.filter_cons, lookup_, ih, hk, hq, hq2]
    · by_cases hq : q = p
      · subst hq
        simp [List.filter_cons, lookup_, ih, hk]
      · simp [List.filter_cons, lookup_, ih, hk, hq]

theorem lookup_map_rename (l : List (String × List Char)) (src dst q : String)
    (hsd : src ≠ dst) (hdst : lookup_ l dst = none) :
    lookup_ (l.map (fun e => if e.1 = src then (dst, e.2) else e)) q =
      if q = dst then lookup_ l src else if q = src then none else lookup_ l q := by
  induction l with
  | nil => simp [lookup_]
  | cons e rest ih =>
    have hkd : ¬ e.1 = dst := by
      intro h; simp [lookup_, h] at hdst
    have hrest : lookup_ rest dst = none := by
      simpa [lookup_, hkd] using hdst
    have ih2 := ih hrest
    simp only [List.map_cons, lookup_, ih2]
    by_cases hk : e.1 = src
    · by_cases hq : q = dst
      · simp [hk, hq]
      · have hq2 : ¬ dst = q := fun h => hq h.symm
        by_cases hqs : q = src
        · have hds : ¬ dst = src := fun h => hsd h.symm
          simp [hk, hqs, hsd, hds]
        · have hqs2 : ¬ src = q := fun h => hqs h.symm
          simp [hk, hq, hq2, hqs, hqs2]
    · by_cases hq : q = dst
      · have hkq : ¬ e.1 = q := fun h => hkd (h.trans hq)
        simp [hk, hq, hkd]
      · by_cases hqs : q = src
        · have hkq : ¬ e.1 = q := fun h => hk (h.trans hqs)
          simp [hk, hq, hqs, hkq]
        · simp [hk, hq, hqs]

theorem lookup_append_single (l : List (String × List Char)) (p q : String) (c : List Char) :
    lookup_ (l ++ [(p, c)]) q =
      match lookup_ l q with
      | some x => some x
      | none => if p = q then some c else none := by
  induction l with
  | nil => simp [lookup_]
  | cons e rest ih =>
    by_cases hk : e.1 = q
    · simp [lookup_, hk]
    · simp [lookup_, hk, ih]

theorem lookup_map_append (l : List (String × List Char)) (p q : String) (b : List Char) :
    lookup_ (l.map (fun e => if e.1 = p then (e.1, e.2 ++ b) else e)) q =
      if q = p then (lookup_ l p).map (fun c => c ++ b) else lookup_ l q := by
  induction l with
  | nil => simp [lookup_]
  | cons e rest ih =>
    simp only [List.map_cons, lookup_, ih]
    by_cases hk : e.1 = p
    · by_cases hq : q = p
      · simp [hk, hq]
      · have hq2 : ¬ p = q := fun h => hq h.symm
        simp [hk, hq, hq2]
    · by_cases hq : q = p
      · have hkq : ¬ e.1 = q := fun h => hk (h.trans hq)
        simp [hk, hq, hkq]
      · simp [hk, hq]

@[simp] theorem fs_remove_calls (d : Disk) (p : String) :
    (fs_remove d p).calls = d.calls ++ [FsCall.remove p] := rfl

@[simp] theorem fs_remove_faults (d : Disk) (p : String) :
    (fs_remove d p).faults = d.faults := rfl

@[simp] theorem fs_rename_calls (d : Disk) (src dst : String) :
    (fs_rename d src dst).calls = d.calls ++ [FsCall.rename src dst] := rfl

@[simp] theorem fs_rename_faults (d : Disk) (src dst : String) :
    (fs_rename d src dst).faults = d.faults := rfl

@[simp] theorem fs_open_append_calls (d : Disk) (p : String) :
    (fs_open_append d p).calls = d.calls := by
  unfold fs_open_append; split <;> rfl

@[simp] theorem fs_open_append_faults (d : Disk) (p : String) :
    (fs_open_append d p).faults = d.faults := by
  unfold fs_open_append; split <;> rfl

@[simp] theorem fs_append_calls (d : Disk) (p : String) (b : List Char) :
    (fs_append d p b).calls = d.calls := rfl

@[simp] theorem fs_append_faults (d : Disk) (p : String) (b : List Char) :
    (fs_append d p b).faults = d.faults := rfl

@[simp] theorem ofstream_write_calls (d : Disk) (f : Option String) (b : List Char) :
    (ofstream_write d f b).calls = d.calls := by
  cases f <;> rfl

@[simp] theorem ofstream_write_faults (d : Disk) (f : Option String) (b : List Char) :
    (ofstream_write d f b).faults = d.faults := by
  cases f <;> rfl

@[simp] theorem write_record_calls (d : Disk) (f : Option String) (b : List Char) :
    (write_record_ d f b).calls = d.calls := by
  simp [write_record_]

@[simp] theorem write_record_faults (d : Disk) (f : Option String) (b : List Char) :
    (write_record_ d f b).faults = d.faults := by
  simp [write_record_]

theorem read_fs_remove (d : Disk) (p q : String) (h : d.faults = []) :
    (fs_remove d p).read q = if q = p then none else d.read q := by
  simp [fs_remove, Disk.read, h, lookup_filter_ne]

theorem read_fs_rename (d : Disk) (src dst q : String) (c : List Char) (h : d.faults = [])
    (hsrc : d.read src = some c) :
    (fs_rename d src dst).read q =
      if q = dst then some c else if q = src then none else d.read q := by
  have hsrc2 : lookup_ d.entries src = some c := hsrc
  by_cases hsd : src = dst
  · subst hsd
    by_cases hq : q = src
    · subst hq; simp [fs_rename, Disk.read, h, hsrc2]
    · simp [fs_rename, Disk.read, h, hsrc2, hq]
  · have hne : src ≠ dst := hsd
    have hfil : lookup_ (d.entries.filter (fun e => !decide (e.1 = dst))) dst = none := by
      rw [lookup_filter_ne]; simp
    have hfs : lookup_ (d.entries.filter (fun e => !decide (e.1 = dst))) src = some c := by
      rw [lookup_filter_ne]; simp [hsd, hsrc2]
    simp only [fs_rename, Disk.read, h, List.not_mem_nil, if_false, hsrc2, hsd]
    rw [lookup_map_rename _ src dst q hne hfil, hfs, lookup_filter_ne]
    by_cases hq : q = dst
    · simp [hq]
    · simp [hq]

theorem read_fs_open_append (d : Disk) (p q : String) :
    (fs_open_append d p).read q = if q = p then some ((d.read p).getD []) else d.read q := by
  unfold fs_open_append
  cases hp : d.read p with
  | some c =>
    by_cases hq : q = p
    · subst hq; simp [hp]
    · simp [hq]
  | none =>
    have hp2 : lookup_ d.entries p = none := hp
    simp only [Disk.read, lookup_append_single]
    by_cases hq : q = p
    · subst hq; simp [hp2]
    · have hq2 : ¬ p = q := fun h => hq h.symm
      cases hl : lookup_ d.entries q <;> simp [hq, hq2]

theorem read_fs_append (d : Disk) (p q : String) (b : List Char) :
    (fs_append d p b).read q = if q = p then (d.read p).map (fun c => c ++ b) else d.read q := by
  simp [fs_append, Disk.read, lookup_map_append]

end CustomSink

/-! ## Theorems: path names -/

namespace CustomSink

theorem digits_value_digitChar (k : Nat) (hk : k < 10) :
    (Nat.digitChar k).toNat - 48 = k := by
  interval_cases k <;> rfl

theorem toDigitsCore_value (fuel : Nat) :
    ∀ (n : Nat) (ds : List Char), n < fuel →
      ∃ pre, Nat.toDigitsCore 10 fuel n ds = pre ++ ds ∧ digits_value_ pre = n := by
  induction fuel with
  | zero => intro n ds h; omega
  | succ fuel ih =>
    intro n ds h
    simp only [Nat.toDigitsCore]
    by_cases h0 : n / 10 = 0
    · refine ⟨[Nat.digitChar (n % 10)], ?_, ?_⟩
      · simp [h0]
      · have hlt : n % 10 < 10 := Nat.mod_lt _ (by decide)
        simp only [digits_value_, List.foldl_cons, List.foldl_nil]
        rw [digits_value_digitChar _ hlt]
        omega
    · have hlt : n / 10 < fuel := by omega
      obtain ⟨pre, hpre, hval⟩ := ih (n / 10) (Nat.digitChar (n % 10) :: ds) hlt
      refine ⟨pre ++ [Nat.digitChar (n % 10)], ?_, ?_⟩
      · simp [h0, hpre]
      · have hm : n % 10 < 10 := Nat.mod_lt _ (by decide)
        have hv : List.foldl (fun a c => 10 * a + (c.toNat - 48)) 0 pre = n / 10 := hval
        simp only [digits_value_, List.foldl_append, List.foldl_cons, List.foldl_nil]
        rw [digits_value_digitChar _ hm, hv]
        omega

theorem to_string_value (n : Nat) : digits_value_ (to_string n).data = n := by
  obtain ⟨pre, hpre, hval⟩ := toDigitsCore_value (n + 1) n [] (by omega)
  have : (to_string n).data = pre := by
    simp [to_string, Nat.repr, Nat.toDigits, List.asString, hpre]
  rw [this, hval]

theorem to_string_injective (a b : Nat) (h : to_string a = to_string b) : a = b := by
  have := congrArg (fun s => digits_value_ s.data) h
  simpa [to_string_value] using this

namespace CountSink

theorem rotated_path_injective (cfg : Config) (i j : Nat)
    (h : rotated_path_ cfg i = rotated_path_ cfg j) : i = j := by
  apply to_string_injective
  have h2 := congrArg String.data h
  simp only [rotated_path_, String.data_append, List.append_assoc] at h2
  have h3 := List.append_cancel_left (List.append_cancel_left (List.append_cancel_left
    (List.append_cancel_left h2)))
  exact String.ext (List.append_cancel_right h3)

theorem base_path_ne_rotated_path (cfg : Config) (i : Nat) :
    base_path_ cfg ≠ rotated_path_ cfg i := by
  intro h
  have h2 := congrArg String.length h
  simp only [base_path_, rotated_path_, String.length_append] at h2
  have : extension_.length = 4 := rfl
  have : (".").length = 1 := rfl
  omega

end CountSink

end CustomSink

/-! ## Theorems: the rename chain -/

namespace CustomSink

@[simp] theorem move_faults (d : Disk) (src dst : String) :
    (move_ d src dst).faults = d.faults := by
  unfold move_; split <;> simp

theorem read_move_ (d : Disk) (src dst q : String) (hf : d.faults = []) (hne : src ≠ dst) :
    (move_ d src dst).read q =
      if q = dst then (if (d.read src).isSome then d.read src else d.read dst)
      else if q = src then none else d.read q := by
  unfold move_ fs_exists
  cases hsrc : d.read src with
  | none =>
    by_cases h1 : q = dst
    · simp [h1]
    · by_cases h2 : q = src
      · simp [h2, hsrc, hne]
      · simp [h1, h2]
  | some c =>
    have hf2 : (fs_remove d dst).faults = [] := by simp [hf]
    have hs2 : (fs_remove d dst).read src = some c := by
      rw [read_fs_remove d dst src hf]; simp [hne, hsrc]
    simp only [Option.isSome_some, if_true]
    rw [read_fs_rename _ src dst q c hf2 hs2, read_fs_remove d dst q hf]
    by_cases h1 : q = dst
    · simp [h1]
    · simp [h1]

@[simp] theorem shift_loop_faults (rot : Nat → String) (i : Nat) (d : Disk) :
    (shift_loop_ rot i d).faults = d.faults := by
  induction i generalizing d with
  | zero => rfl
  | succ i ih =>
    simp only [shift_loop_]
    rw [ih]; simp

@[simp] theorem chain_faults (rot : Nat → String) (base : String) (n : Nat) (d : Disk) :
    (chain_ rot base n d).faults = d.faults := by
  simp [chain_]

/-- The loop started at `i` moves each of the backups `1 .. i` one slot up,
provided the slot `i + 1` is free. -/
theorem read_shift_loop_ (rot : Nat → String) (hinj : ∀ i j, i ≠ j → rot i ≠ rot j) (i : Nat) :
    ∀ (d : Disk), d.faults = [] → d.read (rot (i + 1)) = none →
      (∀ j, 1 ≤ j → j ≤ i →
        (shift_loop_ rot i d).read (rot (j + 1)) = d.read (rot j)) ∧
      (1 ≤ i → (shift_loop_ rot i d).read (rot 1) = none) ∧
      (∀ q, (∀ j, 1 ≤ j → j ≤ i + 1 → q ≠ rot j) →
        (shift_loop_ rot i d).read q = d.read q) := by
  induction i with
  | zero =>
    intro d _ _
    refine ⟨fun j h1 h2 => by omega, fun h => by omega, fun q _ => rfl⟩
  | succ i ih =>
    intro d hf htop
    have hne : rot (i + 1) ≠ rot (i + 1 + 1) := hinj _ _ (by omega)
    have hd1 : ∀ q, (move_ d (rot (i + 1)) (rot (i + 1 + 1))).read q =
        if q = rot (i + 1 + 1) then d.read (rot (i + 1))
        else if q = rot (i + 1) then none else d.read q := by
      intro q
      rw [read_move_ d _ _ q hf hne]
      by_cases h1 : q = rot (i + 1 + 1)
      · cases hc : d.read (rot (i + 1)) <;> simp [h1, htop]
      · simp [h1]
    have hf1 : (move_ d (rot (i + 1)) (rot (i + 1 + 1))).faults = [] := by
      simp [hf]
    have hstep : shift_loop_ rot (i + 1) d =
        shift_loop_ rot i (move_ d (rot (i + 1)) (rot (i + 1 + 1))) := rfl
    rw [hstep]
    have htop1 : (move_ d (rot (i + 1)) (rot (i + 1 + 1))).read (rot (i + 1)) = none := by
      rw [hd1]; simp [hne]
    obtain ⟨ihA, ihB, ihC⟩ := ih _ hf1 htop1
    refine ⟨?_, ?_, ?_⟩
    · intro j h1 h2
      by_cases hj : j = i + 1
      · subst hj
        rw [ihC _ (fun k hk1 hk2 => hinj _ _ (by omega)), hd1]
        simp
      · rw [ihA j h1 (by omega), hd1]
        have e1 := hinj j (i + 1 + 1) (by omega)
        have e2 := hinj j (i + 1) (by omega)
        simp [e1, e2]
    · intro _
      by_cases hi : i = 0
      · subst hi
        show (move_ d (rot (0 + 1)) (rot (0 + 1 + 1))).read (rot 1) = none
        rw [hd1]
        have := hinj 1 2 (by omega)
        simp [this]
      · exact ihB (by omega)
    · intro q hq
      rw [ihC q (fun k hk1 hk2 => hq k hk1 (by omega)), hd1]
      have h1 := hq (i + 1 + 1) (by omega) (by omega)
      have h2 := hq (i + 1) (by omega) (by omega)
      simp [h1, h2]

/-- A rename chain over `n ≥ 1` backups with every call succeeding is a shift
by one slot. -/
theorem read_chain_ (rot : Nat → String) (base : String) (n : Nat) (d : Disk)
    (hinj : ∀ i j, i ≠ j → rot i ≠ rot j) (hbase : ∀ i, base ≠ rot i)
    (hn : 1 ≤ n) (hf : d.faults = []) :
    (chain_ rot base n d).read base = none ∧
    (chain_ rot base n d).read (rot 1) = d.read base ∧
    (∀ i, 1 ≤ i → i < n → (chain_ rot base n d).read (rot (i + 1)) = d.read (rot i)) ∧
    (∀ q, q ≠ base → (∀ i, 1 ≤ i → i ≤ n → q ≠ rot i) →
      (chain_ rot base n d).read q = d.read q) := by
  have hd1 : ∀ q, (fs_remove d (rot n)).read q = if q = rot n then none else d.read q :=
    fun q => read_fs_remove _ _ q hf
  have hf1 : (fs_remove d (rot n)).faults = [] := by simp [hf]
  have htop : (fs_remove d (rot n)).read (rot (n - 1 + 1)) = none := by
    have : n - 1 + 1 = n := by omega
    rw [this, hd1]; simp
  obtain ⟨hA, hBt, hC⟩ := read_shift_loop_ rot hinj (n - 1) _ hf1 htop
  have hf2 : (shift_loop_ rot (n - 1) (fs_remove d (rot n))).faults = [] := by simp [hf]
  have hnb : base ≠ rot 1 := hbase 1
  have hd3 := fun q => read_move_ _ base (rot 1) q hf2 hnb
  have hbase2 : (shift_loop_ rot (n - 1) (fs_remove d (rot n))).read base = d.read base := by
    rw [hC _ (fun j _ _ => hbase j), hd1]
    simp [hbase n]
  have hone2 : (shift_loop_ rot (n - 1) (fs_remove d (rot n))).read (rot 1) = none := by
    by_cases h1 : n = 1
    · have h0 : n - 1 = 0 := by omega
      rw [h0]
      simp only [shift_loop_]
      rw [hd1, h1]; simp
    · exact hBt (by omega)
  unfold chain_
  refine ⟨?_, ?_, ?_, ?_⟩
  · rw [hd3]; simp [hnb]
  · rw [hd3, hbase2, hone2]
    cases d.read base <;> simp
  · intro i h1 h2
    have e1 : rot (i + 1) ≠ rot 1 := hinj _ _ (by omega)
    have e2 : rot (i + 1) ≠ base := fun e => hbase _ e.symm
    have e3 : rot i ≠ rot n := hinj _ _ (by omega)
    rw [hd3, hA i h1 (by omega), hd1]
    simp [e1, e2, e3]
  · intro q hqb hq
    have e1 := hq 1 (by omega) hn
    have e2 := hq n hn (le_refl _)
    rw [hd3, hC q (fun j hj1 hj2 => hq j hj1 (by omega)), hd1]
    simp [e1, e2, hqb]

end CustomSink

namespace CustomSink.CountSink

theorem rotated_path_ne (cfg : Config) (i j : Nat) (h : i ≠ j) :
    rotated_path_ cfg i ≠ rotated_path_ cfg j :=
  fun e => h (rotated_path_injective cfg i j e)

/-- The loop of the count sink, with its `break` at `i == 1`, is the shift loop. -/
theorem rotate_loop_eq_shift_loop_ (cfg : Config) (i : Nat) :
    ∀ d, rotate_loop_ cfg i d = shift_loop_ (rotated_path_ cfg) i d := by
  induction i with
  | zero => intro d; rfl
  | succ i ih =>
    intro d
    simp only [rotate_loop_, shift_loop_]
    by_cases hi : i = 0
    · subst hi; simp [shift_loop_]
    · have : ¬ i + 1 = 1 := by omega
      simp only [this, if_false]
      exact ih _

theorem rotate_files_disk (cfg : Config) (s : State) (hB : cfg.max_files_ ≠ 0) :
    (rotate_files_ cfg s).disk =
      chain_ (rotated_path_ cfg) (base_path_ cfg) cfg.max_files_ s.disk := by
  simp [rotate_files_, hB, chain_, rotate_loop_eq_shift_loop_]

@[simp] theorem rotate_files_file_ (cfg : Config) (s : State) :
    (rotate_files_ cfg s).file_ = none := by
  unfold rotate_files_; split <;> rfl

@[simp] theorem rotate_files_opened_ (cfg : Config) (s : State) :
    (rotate_files_ cfg s).opened_ = false := by
  unfold rotate_files_; split <;> rfl

@[simp] theorem rotate_files_log_count_ (cfg : Config) (s : State) :
    (rotate_files_ cfg s).log_count_ = 0 := by
  unfold rotate_files_; split <;> rfl

@[simp] theorem rotate_files_done_ (cfg : Config) (s : State) :
    (rotate_files_ cfg s).rotated_on_open_done_ = s.rotated_on_open_done_ := by
  unfold rotate_files_; split <;> rfl

@[simp] theorem rotate_files_faults (cfg : Config) (s : State) :
    (rotate_files_ cfg s).disk.faults = s.disk.faults := by
  unfold rotate_files_; split <;> simp [rotate_loop_eq_shift_loop_]

/-- What a rotation with every call succeeding does to the files. -/
theorem rotate_files_shift (cfg : Config) (s : State) (hB : 1 ≤ cfg.max_files_)
    (hf : s.disk.faults = []) :
    (rotate_files_ cfg s).disk.read (base_path_ cfg) = none ∧
    (rotate_files_ cfg s).disk.read (rotated_path_ cfg 1) = s.disk.read (base_path_ cfg) ∧
    (∀ i, 1 ≤ i → i < cfg.max_files_ →
      (rotate_files_ cfg s).disk.read (rotated_path_ cfg (i + 1)) =
        s.disk.read (rotated_path_ cfg i)) ∧
    (∀ q, q ≠ base_path_ cfg → (∀ i, 1 ≤ i → i ≤ cfg.max_files_ → q ≠ rotated_path_ cfg i) →
      (rotate_files_ cfg s).disk.read q = s.disk.read q) := by
  rw [rotate_files_disk cfg s (by omega)]
  exact read_chain_ (rotated_path_ cfg) (base_path_ cfg) cfg.max_files_ s.disk
    (rotated_path_ne cfg) (base_path_ne_rotated_path cfg) hB hf

end CustomSink.CountSink

/-! ## Theorems: writing through the count sink -/

namespace CustomSink

theorem frames_append (xs ys : List (List Char)) :
    frames_ (xs ++ ys) = frames_ xs ++ frames_ ys := by
  induction xs with
  | nil => rfl
  | cons x rest ih => simp [frames_, ih]

theorem frames_single (x : List Char) : frames_ [x] = frame_ x := by
  simp [frames_]

theorem read_write_record_ (d : Disk) (p q : String) (buf : List Char) :
    (write_record_ d (some p) buf).read q =
      if q = p then (d.read p).map (fun c => c ++ frame_ buf) else d.read q := by
  simp only [write_record_, ofstream_write, read_fs_append]
  by_cases h : q = p
  · simp only [h, if_true]
    cases d.read p <;> simp [frame_]
  · simp [h]

namespace CountSink

theorem before_write_closed (cfg : Config) (s : State) (hN : 1 ≤ cfg.max_count_)
    (hfile : s.file_ = none) (hcnt : s.log_count_ = 0)
    (hbase : s.disk.read (base_path_ cfg) = none) :
    before_write_ cfg s =
      { disk := fs_open_append s.disk (base_path_ cfg), file_ := some (base_path_ cfg),
        log_count_ := 0, opened_ := true, rotated_on_open_done_ := true } := by
  have hex : fs_exists s.disk (base_path_ cfg) = false := by simp [fs_exists, hbase]
  have hN0 : ¬ cfg.max_count_ = 0 := by omega
  have hN1 : ¬ cfg.max_count_ ≤ 0 := by omega
  obtain ⟨disk, file_, cnt, opened, done⟩ := s
  simp only at hfile hcnt hbase hex
  subst hfile hcnt
  cases done <;> cases opened <;>
    simp [before_write_, rotate_on_open_step_, check_before_open_, check_after_open_,
      ensure_opened_for_write_, adjust_for_strict_on_open_, hex, hN0, hN1]

theorem before_write_open (cfg : Config) (s : State) (p : String)
    (hfile : s.file_ = some p) (hop : s.opened_ = true) (hcnt : s.log_count_ < cfg.max_count_)
    (hdone : s.rotated_on_open_done_ = true) :
    before_write_ cfg s = s := by
  have h1 : ¬ cfg.max_count_ ≤ s.log_count_ := by omega
  simp [before_write_, rotate_on_open_step_, check_before_open_, check_after_open_,
    ensure_opened_for_write_, hfile, hop, hdone, h1]

end CountSink

end CustomSink

namespace CustomSink.CountSink

theorem take_drop_append_single (recs : List (List Char)) (p : List Char) (a n : Nat)
    (h : a + n ≤ recs.length) :
    ((recs ++ [p]).drop a).take n = (recs.drop a).take n := by
  rw [List.drop_append_of_le_length (by omega), List.take_append_of_le_length]
  rw [List.length_drop]; omega

/-- The state at the moment the record has been written, before the check
that follows the write. -/
theorem shape_written (cfg : Config) (recs : List (List Char)) (q r : Nat) (s : State)
    (buf : List Char) (h : Shape cfg recs q r s) (m : State)
    (hm : m = append_record_ (before_write_ cfg s) buf) :
    m.disk.faults = [] ∧ m.log_count_ = r + 1 ∧ m.file_ = some (base_path_ cfg) ∧
    m.opened_ = true ∧ m.rotated_on_open_done_ = true ∧
    m.disk.read (base_path_ cfg) =
      some (frames_ ((recs ++ [buf]).drop (q * cfg.max_count_))) ∧
    (∀ p, p ≠ base_path_ cfg → m.disk.read p = s.disk.read p) := by
  obtain ⟨hlen, hr, hf, hcnt, hdone, hz, hnz, _, _⟩ := h
  have hN : 1 ≤ cfg.max_count_ := by omega
  have hdrop : (recs ++ [buf]).drop (q * cfg.max_count_) =
      recs.drop (q * cfg.max_count_) ++ [buf] :=
    List.drop_append_of_le_length (by omega)
  by_cases hr0 : r = 0
  · obtain ⟨hfile, hbase⟩ := hz hr0
    have hbw := before_write_closed cfg s hN hfile (by omega) hbase
    have hnil : recs.drop (q * cfg.max_count_) = [] :=
      List.drop_eq_nil_of_le (by omega)
    rw [hbw] at hm
    subst hm
    refine ⟨?_, ?_, rfl, rfl, rfl, ?_, ?_⟩
    · simp [append_record_, hf]
    · simp [append_record_, hr0]
    · simp only [append_record_, read_write_record_, read_fs_open_append, if_true, hbase]
      simp [hdrop, hnil, frames_]
    · intro p hp
      simp only [append_record_, read_write_record_, read_fs_open_append, hp, if_false]
  · obtain ⟨hfile, hop, hbase⟩ := hnz hr0
    have hne : recs ≠ [] := by
      intro e; rw [e] at hlen; simp at hlen; omega
    have hbw := before_write_open cfg s _ hfile hop (by omega) (hdone hne)
    rw [hbw] at hm
    subst hm
    refine ⟨?_, ?_, ?_, ?_, ?_, ?_, ?_⟩
    · simp [append_record_, hf]
    · simp [append_record_, hcnt]
    · simp [append_record_, hfile]
    · simp [append_record_, hop]
    · simp [append_record_, hdone hne]
    · simp only [append_record_, hfile, read_write_record_, if_true, hbase]
      simp [hdrop, frames_append, frames_single]
    · intro p hp
      simp only [append_record_, hfile, read_write_record_, hp, if_false]

theorem shape_step_stay (cfg : Config) (recs : List (List Char)) (q r : Nat) (s : State)
    (buf : List Char) (h : Shape cfg recs q r s) (hr1 : r + 1 < cfg.max_count_) :
    Shape cfg (recs ++ [buf]) q (r + 1) (sink_it_ cfg s buf) := by
  obtain ⟨mf, mc, mfile, mop, mdone, mbase, mother⟩ := shape_written cfg recs q r s buf h _ rfl
  obtain ⟨hlen, hr, hf, hcnt, hdone, hz, hnz, hblk, hoth⟩ := h
  have hs : sink_it_ cfg s buf = append_record_ (before_write_ cfg s) buf := by
    have : ¬ cfg.max_count_ ≤ (append_record_ (before_write_ cfg s) buf).log_count_ := by
      rw [mc]; omega
    simp [sink_it_, after_write_, this]
  rw [hs]
  refine ⟨by simp [hlen]; omega, hr1, mf, mc, fun _ => mdone, fun h0 => by omega,
    fun _ => ⟨mfile, mop, mbase⟩, ?_, ?_⟩
  · intro i h1 h2 h3
    rw [mother _ (fun e => base_path_ne_rotated_path cfg i e.symm), hblk i h1 h2 h3]
    have hle : (q - i) * cfg.max_count_ + cfg.max_count_ ≤ recs.length := by
      have : (q - i) * cfg.max_count_ + cfg.max_count_ = (q - i + 1) * cfg.max_count_ := by ring
      rw [this, hlen]
      have : (q - i + 1) * cfg.max_count_ ≤ q * cfg.max_count_ :=
        Nat.mul_le_mul_right _ (by omega)
      omega
    rw [take_drop_append_single recs buf _ _ hle]
  · intro p hp hrot
    rw [mother p hp]
    exact hoth p hp hrot

theorem shape_step_rotate (cfg : Config) (recs : List (List Char)) (q r : Nat) (s : State)
    (buf : List Char) (h : Shape cfg recs q r s) (hB : 1 ≤ cfg.max_files_)
    (hr1 : r + 1 = cfg.max_count_) :
    Shape cfg (recs ++ [buf]) (q + 1) 0 (sink_it_ cfg s buf) := by
  obtain ⟨mf, mc, mfile, mop, mdone, mbase, mother⟩ := shape_written cfg recs q r s buf h _ rfl
  obtain ⟨hlen, hr, hf, hcnt, hdone, hz, hnz, hblk, hoth⟩ := h
  have hs : sink_it_ cfg s buf =
      rotate_files_ cfg (append_record_ (before_write_ cfg s) buf) := by
    have : cfg.max_count_ ≤ (append_record_ (before_write_ cfg s) buf).log_count_ := by
      rw [mc]; omega
    simp [sink_it_, after_write_, this]
  obtain ⟨rbase, rone, rshift, rother⟩ :=
    rotate_files_shift cfg (append_record_ (before_write_ cfg s) buf) hB mf
  rw [hs]
  have hlen2 : (recs ++ [buf]).length = (q + 1) * cfg.max_count_ + 0 := by
    simp [hlen]; rw [Nat.add_mul]; omega
  refine ⟨hlen2, by omega, by simp [mf], by simp, fun _ => by simp [mdone],
    fun _ => ⟨by simp, rbase⟩, fun h0 => absurd rfl h0, ?_, ?_⟩
  · intro i h1 h2 h3
    by_cases hi : i = 1
    · subst hi
      rw [rone, mbase]
      have hq : q + 1 - 1 = q := by omega
      rw [hq, List.take_of_length_le]
      rw [List.length_drop, hlen2]
      have : (q + 1) * cfg.max_count_ = q * cfg.max_count_ + cfg.max_count_ := by ring
      omega
    · obtain ⟨j, rfl⟩ : ∃ j, i = j + 1 := ⟨i - 1, by omega⟩
      rw [rshift j (by omega) (by omega),
        mother _ (fun e => base_path_ne_rotated_path cfg j e.symm),
        hblk j (by omega) (by omega) (by omega)]
      have hq : q + 1 - (j + 1) = q - j := by omega
      rw [hq]
      have hle : (q - j) * cfg.max_count_ + cfg.max_count_ ≤ recs.length := by
        have : (q - j) * cfg.max_count_ + cfg.max_count_ = (q - j + 1) * cfg.max_count_ := by ring
        rw [this, hlen]
        have : (q - j + 1) * cfg.max_count_ ≤ q * cfg.max_count_ :=
          Nat.mul_le_mul_right _ (by omega)
        omega
      rw [take_drop_append_single recs buf _ _ hle]
  · intro p hp hrot
    by_cases hex : ∃ j, 1 ≤ j ∧ j ≤ cfg.max_files_ ∧ p = rotated_path_ cfg j
    · obtain ⟨j, hj1, hj2, rfl⟩ := hex
      have hjq : q + 1 < j := by
        by_contra hc
        exact hrot j hj1 (by omega) hj2 rfl
      obtain ⟨k, rfl⟩ : ∃ k, j = k + 1 := ⟨j - 1, by omega⟩
      rw [rshift k (by omega) (by omega),
        mother _ (fun e => base_path_ne_rotated_path cfg k e.symm)]
      exact hoth _ (fun e => base_path_ne_rotated_path cfg k e.symm)
        (fun i _ hi2 _ => rotated_path_ne cfg _ _ (by omega))
    · rw [rother p hp (fun i hi1 hi2 e => hex ⟨i, hi1, hi2, e⟩), mother p hp]
      exact hoth p hp (fun i hi1 _ hi3 e => hex ⟨i, hi1, hi3, e⟩)

theorem run_append (cfg : Config) (s : State) (recs : List (List Char)) (buf : List Char) :
    run cfg s (recs ++ [buf]) = sink_it_ cfg (run cfg s recs) buf := by
  simp [run, List.foldl_append]

theorem shape_init (cfg : Config) (hN : 1 ≤ cfg.max_count_) :
    Shape cfg [] 0 0 (init Disk.fresh) := by
  refine ⟨by simp, by omega, rfl, rfl, fun h => absurd rfl h, fun _ => ⟨rfl, rfl⟩,
    fun h => absurd rfl h, fun i h1 h2 _ => by omega, fun p _ _ => rfl⟩

theorem shape_run (cfg : Config) (hN : 1 ≤ cfg.max_count_) (hB : 1 ≤ cfg.max_files_)
    (recs : List (List Char)) :
    ∃ q r, Shape cfg recs q r (run cfg (init Disk.fresh) recs) := by
  induction recs using List.reverseRecOn with
  | nil => exact ⟨0, 0, shape_init cfg hN⟩
  | append_singleton recs buf ih =>
    obtain ⟨q, r, h⟩ := ih
    rw [run_append]
    by_cases hr : r + 1 < cfg.max_count_
    · exact ⟨q, r + 1, shape_step_stay cfg recs q r _ buf h hr⟩
    · have hlt : r < cfg.max_count_ := h.2.1
      exact ⟨q + 1, 0, shape_step_rotate cfg recs q r _ buf h hB (by omega)⟩

theorem shape_div_mod (cfg : Config) (recs : List (List Char)) (q r : Nat) (s : State)
    (h : Shape cfg recs q r s) :
    q = recs.length / cfg.max_count_ ∧ r = recs.length % cfg.max_count_ := by
  obtain ⟨hlen, hr, _⟩ := h
  have hpos : 0 < cfg.max_count_ := by omega
  have := (Nat.div_mod_unique hpos).2 ⟨(by rw [hlen]; ring : r + cfg.max_count_ * q = recs.length), hr⟩
  exact ⟨this.1.symm, this.2.symm⟩

end CustomSink.CountSink

/-! ## The count sink: blocks of `max_count_` records (C1) and the rename chain (C2) -/

namespace CustomSink.CountSink

/-- C1: a count sink with `max_count_ = N ≥ 1` and `max_files_ = B ≥ 1` that
has written the records `recs` into an empty directory leaves, with
`q = |recs| / N` and `r = |recs| % N`: in `stem.log` exactly the last `r`
records in write order (no such file when `r = 0`); in `stem.i.log`, for
`1 ≤ i ≤ min q B`, exactly the `N` records of the `i`-th most recent full
block; and no other file at all, so no other backup. -/
theorem count_sink_blocks (cfg : Config) (recs : List (List Char))
    (hN : 1 ≤ cfg.max_count_) (hB : 1 ≤ cfg.max_files_) :
    ((run cfg (init Disk.fresh) recs).disk.read (base_path_ cfg) =
      if recs.length % cfg.max_count_ = 0 then none
      else some (frames_ (recs.drop (recs.length / cfg.max_count_ * cfg.max_count_)))) ∧
    (recs.drop (recs.length / cfg.max_count_ * cfg.max_count_)).length =
      recs.length % cfg.max_count_ ∧
    (∀ i, 1 ≤ i → i ≤ min (recs.length / cfg.max_count_) cfg.max_files_ →
      (run cfg (init Disk.fresh) recs).disk.read (rotated_path_ cfg i) =
        some (frames_ ((recs.drop ((recs.length / cfg.max_count_ - i) * cfg.max_count_)).take
          cfg.max_count_)) ∧
      ((recs.drop ((recs.length / cfg.max_count_ - i) * cfg.max_count_)).take
        cfg.max_count_).length = cfg.max_count_) ∧
    (∀ p, p ≠ base_path_ cfg →
      (∀ i, 1 ≤ i → i ≤ min (recs.length / cfg.max_count_) cfg.max_files_ →
        p ≠ rotated_path_ cfg i) →
      (run cfg (init Disk.fresh) recs).disk.read p = none) := by
  obtain ⟨q, r, h⟩ := shape_run cfg hN hB recs
  obtain ⟨hq, hr⟩ := shape_div_mod cfg recs q r _ h
  obtain ⟨hlen, hrN, hf, hcnt, hdone, hz, hnz, hblk, hoth⟩ := h
  rw [← hq, ← hr]
  refine ⟨?_, ?_, ?_, ?_⟩
  · by_cases h0 : r = 0
    · simp [h0, (hz h0).2]
    · simp [h0, (hnz h0).2.2]
  · rw [List.length_drop, hlen]; omega
  · intro i h1 h2
    have hiq : i ≤ q := le_trans h2 (min_le_left _ _)
    have hiB : i ≤ cfg.max_files_ := le_trans h2 (min_le_right _ _)
    refine ⟨hblk i h1 hiq hiB, ?_⟩
    rw [List.length_take, List.length_drop, hlen]
    have h3 : (q - i) * cfg.max_count_ + cfg.max_count_ ≤ q * cfg.max_count_ := by
      have : (q - i) * cfg.max_count_ + cfg.max_count_ = (q - i + 1) * cfg.max_count_ := by ring
      rw [this]
      exact Nat.mul_le_mul_right _ (by omega)
    omega
  · intro p hp hrot
    exact hoth p hp (fun i h1 h2 h3 => hrot i h1 (le_min h2 h3))

/-- C1 at the scenario of the specification: three records per file, two
backups, the records `A` .. `G`. -/
theorem count_sink_blocks_witness :
    (1 ≤ scenario_cfg.max_count_ ∧ 1 ≤ scenario_cfg.max_files_) ∧
    ((run scenario_cfg (init Disk.fresh) scenario_recs).disk.read "logs/app.log" =
        some "G\n".toList ∧
      (run scenario_cfg (init Disk.fresh) scenario_recs).disk.read "logs/app.1.log" =
        some "D\nE\nF\n".toList ∧
      (run scenario_cfg (init Disk.fresh) scenario_recs).disk.read "logs/app.2.log" =
        some "A\nB\nC\n".toList ∧
      (run scenario_cfg (init Disk.fresh) scenario_recs).disk.read "logs/app.3.log" = none) := by
  have h := count_sink_blocks scenario_cfg scenario_recs (by decide) (by decide)
  obtain ⟨h0, _, hblk, hoth⟩ := h
  refine ⟨⟨by decide, by decide⟩, ?_, ?_, ?_, ?_⟩
  · exact h0
  · exact (hblk 1 (by decide) (by decide)).1
  · exact (hblk 2 (by decide) (by decide)).1
  · exact hoth "logs/app.3.log" (by decide) (by decide)

/-- C2: with `max_files_ = B ≥ 1` and every call succeeding, `rotate_files_`
shifts the files by exactly one slot: `stem.log` is gone and is not created
again, `stem.1.log` is what `stem.log` was (absent if that was absent),
`stem.(i+1).log` is what `stem.i.log` was for `1 ≤ i < B`, so what `stem.B.log`
held is kept nowhere; every other path is as before; the stream is closed and
the entry counter is `0`. -/
theorem rotate_files_one_slot_shift (cfg : Config) (s : State) (hB : 1 ≤ cfg.max_files_)
    (hf : s.disk.faults = []) :
    (rotate_files_ cfg s).disk.read (base_path_ cfg) = none ∧
    (rotate_files_ cfg s).disk.read (rotated_path_ cfg 1) = s.disk.read (base_path_ cfg) ∧
    (∀ i, 1 ≤ i → i < cfg.max_files_ →
      (rotate_files_ cfg s).disk.read (rotated_path_ cfg (i + 1)) =
        s.disk.read (rotated_path_ cfg i)) ∧
    (∀ q, q ≠ base_path_ cfg → (∀ i, 1 ≤ i → i ≤ cfg.max_files_ → q ≠ rotated_path_ cfg i) →
      (rotate_files_ cfg s).disk.read q = s.disk.read q) ∧
    (rotate_files_ cfg s).file_ = none ∧ (rotate_files_ cfg s).opened_ = false ∧
    (rotate_files_ cfg s).log_count_ = 0 := by
  obtain ⟨h1, h2, h3, h4⟩ := rotate_files_shift cfg s hB hf
  exact ⟨h1, h2, h3, h4, by simp, by simp, by simp⟩

/-- C2 on a directory with a current file, two backups and a foreign file. -/
theorem rotate_files_one_slot_shift_witness :
    (1 ≤ scenario_cfg.max_files_ ∧ (init scenario_disk).disk.faults = []) ∧
    ((rotate_files_ scenario_cfg (init scenario_disk)).disk.read "logs/app.log" = none ∧
      (rotate_files_ scenario_cfg (init scenario_disk)).disk.read "logs/app.1.log" =
        some "c\n".toList ∧
      (rotate_files_ scenario_cfg (init scenario_disk)).disk.read "logs/app.2.log" =
        some "b\n".toList ∧
      (rotate_files_ scenario_cfg (init scenario_disk)).disk.read "logs/notes.txt" =
        some "n".toList ∧
      (rotate_files_ scenario_cfg (init scenario_disk)).file_ = none) := by
  obtain ⟨h1, h2, h3, h4, h5, _, _⟩ :=
    rotate_files_one_slot_shift scenario_cfg (init scenario_disk) (by decide) rfl
  exact ⟨⟨by decide, rfl⟩, h1, h2, h3 1 (by decide) (by decide),
    h4 "logs/notes.txt" (by decide) (by decide), h5⟩

/-! ## The count sink: the number of backups (C3) -/

theorem keep_rotate_files_ (cfg : Config) (s : State) (hB : 1 ≤ cfg.max_files_)
    (h : NoHighBackup cfg s.disk) : NoHighBackup cfg (rotate_files_ cfg s).disk := by
  obtain ⟨hf, hh⟩ := h
  obtain ⟨_, _, _, hother⟩ := rotate_files_shift cfg s hB hf
  refine ⟨by simp [hf], fun j hj => ?_⟩
  rw [hother _ (fun e => base_path_ne_rotated_path cfg j e.symm)
    (fun i _ hi => rotated_path_ne cfg _ _ (by omega))]
  exact hh j hj

theorem keep_fs_open_append (cfg : Config) (d : Disk) (h : NoHighBackup cfg d) :
    NoHighBackup cfg (fs_open_append d (base_path_ cfg)) := by
  obtain ⟨hf, hh⟩ := h
  refine ⟨by simp [hf], fun j hj => ?_⟩
  rw [read_fs_open_append]
  have hne : ¬ rotated_path_ cfg j = base_path_ cfg :=
    fun e => base_path_ne_rotated_path cfg j e.symm
  simp [hne, hh j hj]

theorem keep_write_record_ (cfg : Config) (d : Disk) (f : Option String) (buf : List Char)
    (h : NoHighBackup cfg d) : NoHighBackup cfg (write_record_ d f buf) := by
  obtain ⟨hf, hh⟩ := h
  refine ⟨by simp [hf], fun j hj => ?_⟩
  cases f with
  | none => exact hh j hj
  | some p =>
    rw [read_write_record_]
    by_cases hp : rotated_path_ cfg j = p
    · subst hp; simp [hh j hj]
    · simp [hp, hh j hj]

theorem keep_adjust_ (cfg : Config) (s : State) (hB : 1 ≤ cfg.max_files_)
    (h : NoHighBackup cfg s.disk) :
    NoHighBackup cfg (adjust_for_strict_on_open_ cfg s).disk := by
  unfold adjust_for_strict_on_open_
  split
  · exact h
  · split
    · exact h
    · dsimp only
      split
      · exact keep_rotate_files_ cfg s hB h
      · exact h

theorem keep_ensure_opened_ (cfg : Config) (s : State) (hB : 1 ≤ cfg.max_files_)
    (h : NoHighBackup cfg s.disk) :
    NoHighBackup cfg (ensure_opened_for_write_ cfg s).disk := by
  unfold ensure_opened_for_write_
  split
  · exact h
  · dsimp only
    split
    · exact keep_adjust_ cfg s hB h
    · exact keep_fs_open_append cfg _ (keep_adjust_ cfg s hB h)

theorem keep_rotate_on_open_step_ (cfg : Config) (s : State) (hB : 1 ≤ cfg.max_files_)
    (h : NoHighBackup cfg s.disk) : NoHighBackup cfg (rotate_on_open_step_ cfg s).disk := by
  unfold rotate_on_open_step_
  split
  · dsimp only
    split
    · exact keep_rotate_files_ cfg s hB h
    · exact h
  · exact h

theorem keep_check_before_open_ (cfg : Config) (s : State) (hB : 1 ≤ cfg.max_files_)
    (h : NoHighBackup cfg s.disk) : NoHighBackup cfg (check_before_open_ cfg s).disk := by
  unfold check_before_open_
  split
  · split
    · exact keep_ensure_opened_ cfg _ hB (keep_rotate_files_ cfg s hB h)
    · exact h
  · exact h

theorem keep_check_after_open_ (cfg : Config) (s : State) (hB : 1 ≤ cfg.max_files_)
    (h : NoHighBackup cfg s.disk) : NoHighBackup cfg (check_after_open_ cfg s).disk := by
  unfold check_after_open_
  split
  · exact keep_ensure_opened_ cfg _ hB (keep_rotate_files_ cfg s hB h)
  · exact h

theorem keep_before_write_ (cfg : Config) (s : State) (hB : 1 ≤ cfg.max_files_)
    (h : NoHighBackup cfg s.disk) : NoHighBackup cfg (before_write_ cfg s).disk :=
  keep_check_after_open_ cfg _ hB (keep_ensure_opened_ cfg _ hB
    (keep_check_before_open_ cfg _ hB (keep_rotate_on_open_step_ cfg s hB h)))

theorem keep_sink_it_ (cfg : Config) (s : State) (buf : List Char) (hB : 1 ≤ cfg.max_files_)
    (h : NoHighBackup cfg s.disk) : NoHighBackup cfg (sink_it_ cfg s buf).disk := by
  have h1 := keep_before_write_ cfg s hB h
  have h2 : NoHighBackup cfg (append_record_ (before_write_ cfg s) buf).disk :=
    keep_write_record_ cfg _ _ buf h1
  unfold sink_it_ after_write_
  split
  · exact keep_rotate_files_ cfg _ hB h2
  · exact h2

theorem keep_run (cfg : Config) (recs : List (List Char)) (hB : 1 ≤ cfg.max_files_) :
    ∀ s : State, NoHighBackup cfg s.disk → NoHighBackup cfg (run cfg s recs).disk := by
  induction recs with
  | nil => intro s h; exact h
  | cons buf rest ih =>
    intro s h
    exact ih (sink_it_ cfg s buf) (keep_sink_it_ cfg s buf hB h)

theorem nodup_bounded_length (js : List Nat) (b : Nat) (hnd : js.Nodup)
    (h : ∀ j ∈ js, 1 ≤ j ∧ j ≤ b) : js.length ≤ b := by
  have hsub : js.toFinset ⊆ Finset.Icc 1 b := by
    intro j hj
    rw [List.mem_toFinset] at hj
    exact Finset.mem_Icc.2 (h j hj)
  have hcard := Finset.card_le_card hsub
  rw [List.toFinset_card_of_nodup hnd] at hcard
  simpa using hcard

theorem rotate_files_keeps_content (cfg : Config) (t : State) (hB : 1 ≤ cfg.max_files_)
    (hf : t.disk.faults = []) (p : String) (c : List Char) (hp : t.disk.read p = some c)
    (hne : p ≠ rotated_path_ cfg cfg.max_files_) :
    ∃ p', (rotate_files_ cfg t).disk.read p' = some c := by
  obtain ⟨_, hone, hshift, hother⟩ := rotate_files_shift cfg t hB hf
  by_cases hb : p = base_path_ cfg
  · exact ⟨rotated_path_ cfg 1, by rw [hone, ← hb, hp]⟩
  · by_cases hex : ∃ i, 1 ≤ i ∧ i ≤ cfg.max_files_ ∧ p = rotated_path_ cfg i
    · obtain ⟨i, hi1, hi2, rfl⟩ := hex
      have hlt : i < cfg.max_files_ := by
        rcases Nat.lt_or_ge i cfg.max_files_ with h | h
        · exact h
        · exact absurd (by rw [le_antisymm hi2 h]) hne
      exact ⟨rotated_path_ cfg (i + 1), by rw [hshift i hi1 hlt, hp]⟩
    · exact ⟨p, by rw [hother p hb (fun i h1 h2 e => hex ⟨i, h1, h2, e⟩), hp]⟩

/-- C3: with `max_files_ = B ≥ 1` and every call succeeding, a directory
without a backup of index above `B` has none after any sequence of writes,
whatever the state of the sink: the backups present are among `stem.1.log` ..
`stem.B.log`, at most `B` files.  And a rotation keeps the content of every
file except `stem.B.log`, the oldest backup. -/
theorem backups_bounded (cfg : Config) (s : State) (recs : List (List Char))
    (hB : 1 ≤ cfg.max_files_) (hf : s.disk.faults = [])
    (h0 : ∀ j, cfg.max_files_ < j → s.disk.read (rotated_path_ cfg j) = none) :
    (∀ j, cfg.max_files_ < j → (run cfg s recs).disk.read (rotated_path_ cfg j) = none) ∧
    (∀ js : List Nat, js.Nodup →
      (∀ j ∈ js, 1 ≤ j ∧ fs_exists (run cfg s recs).disk (rotated_path_ cfg j) = true) →
      js.length ≤ cfg.max_files_) ∧
    (∀ t : State, t.disk.faults = [] → ∀ p c, t.disk.read p = some c →
      p ≠ rotated_path_ cfg cfg.max_files_ →
      ∃ p', (rotate_files_ cfg t).disk.read p' = some c) := by
  have hrun := keep_run cfg recs hB s ⟨hf, h0⟩
  refine ⟨hrun.2, ?_, ?_⟩
  · intro js hnd hjs
    refine nodup_bounded_length js _ hnd (fun j hj => ⟨(hjs j hj).1, ?_⟩)
    by_contra hgt
    have hnone := hrun.2 j (by omega)
    have hex := (hjs j hj).2
    simp [fs_exists, hnone] at hex
  · intro t ht p c hp hne
    exact rotate_files_keeps_content cfg t hB ht p c hp hne

/-- C3 at the scenario: seven records written over a current file and two
backups leave no third backup. -/
theorem backups_bounded_witness :
    (1 ≤ scenario_cfg.max_files_ ∧ (init scenario_backups).disk.faults = [] ∧
      ∀ j, scenario_cfg.max_files_ < j →
        (init scenario_backups).disk.read (rotated_path_ scenario_cfg j) = none) ∧
    (run scenario_cfg (init scenario_backups) scenario_recs).disk.read
      (rotated_path_ scenario_cfg 3) = none := by
  have h0 : ∀ j, scenario_cfg.max_files_ < j →
      (init scenario_backups).disk.read (rotated_path_ scenario_cfg j) = none := by
    intro j hj
    have hj2 : 2 < j := hj
    have e0 : ¬ base_path_ scenario_cfg = rotated_path_ scenario_cfg j :=
      base_path_ne_rotated_path _ j
    have e1 : ¬ rotated_path_ scenario_cfg 1 = rotated_path_ scenario_cfg j :=
      rotated_path_ne _ _ _ (by omega)
    have e2 : ¬ rotated_path_ scenario_cfg 2 = rotated_path_ scenario_cfg j :=
      rotated_path_ne _ _ _ (by omega)
    simp [init, scenario_backups, Disk.read, lookup_, e0, e1, e2]
  exact ⟨⟨by decide, rfl, h0⟩,
    (backups_bounded scenario_cfg (init scenario_backups) scenario_recs (by decide) rfl h0).1 3
      (by decide)⟩

end CustomSink.CountSink

/-! ## Theorems: the line scan of the count sink -/

namespace CustomSink.CountSink

theorem foldl_count_newlines (buf : List Char) (lines : Nat) :
    buf.foldl (fun l c => if c = '\n' then l + 1 else l) lines = lines + buf.count '\n' := by
  induction buf generalizing lines with
  | nil => simp
  | cons c rest ih =>
    simp only [List.foldl_cons, ih]
    by_cases hc : c = '\n'
    · subst hc; simp; omega
    · have hc2 : ¬ (c == '\n') = true := by simpa using hc
      simp [hc, List.count_cons, hc2]

theorem getLast_getD_append (a b : List Char) (last : Char) :
    b.getLast?.getD (a.getLast?.getD last) = (a ++ b).getLast?.getD last := by
  rw [List.getLast?_append]
  cases hb : b.getLast? <;> simp

theorem count_lines_loop_eq (kBuf : Nat) (hk : 1 ≤ kBuf) (fuel : Nat) :
    ∀ (rest : List Char) (lines : Nat) (has_any : Bool) (last : Char),
      rest.length < fuel →
      count_lines_loop_ kBuf fuel rest lines has_any last =
        (lines + rest.count '\n', has_any || decide (rest ≠ []), rest.getLast?.getD last) := by
  induction fuel with
  | zero => intro rest lines has_any last h; omega
  | succ fuel ih =>
    intro rest lines has_any last h
    by_cases hr : rest = []
    · subst hr
      simp [count_lines_loop_]
    · have hpos : 0 < rest.length := List.length_pos.2 hr
      by_cases hlt : rest.length < kBuf
      · have htk : rest.take kBuf = rest := List.take_of_length_le (by omega)
        have h0 : ¬ rest.length = 0 := by omega
        simp only [count_lines_loop_, htk, h0, hlt, if_true, if_false, foldl_count_newlines]
        simp [hr]
      · have hlen : (rest.take kBuf).length = kBuf := by
          rw [List.length_take]; omega
        have h0 : ¬ kBuf = 0 := by omega
        have hdl : (rest.drop kBuf).length < fuel := by
          rw [List.length_drop]; omega
        simp only [count_lines_loop_, hlen, h0, lt_irrefl, if_false]
        rw [ih _ _ _ _ hdl, foldl_count_newlines, getLast_getD_append,
          List.take_append_drop]
        have hc : (rest.take kBuf).count '\n' + (rest.drop kBuf).count '\n' = rest.count '\n' := by
          rw [← List.count_append, List.take_append_drop]
        simp [hr]
        omega

/-- The scan counts the newline bytes, and one more line when the content
does not end with a newline. -/
theorem count_lines_eq (content : List Char) : count_lines_ content = lines_of content := by
  unfold count_lines_ lines_of
  rw [count_lines_loop_eq (64 * 1024) (by decide) _ content 0 false '\x00' (by omega)]
  by_cases hne : content = []
  · subst hne; simp
  · obtain ⟨c, hc⟩ : ∃ c, content.getLast? = some c := by
      cases h : content.getLast? with
      | none => exact absurd (List.getLast?_eq_none_iff.1 h) hne
      | some c => exact ⟨c, rfl⟩
    by_cases hnl : c = '\n'
    · subst hnl; simp [hne, hc]
    · simp [hne, hc, hnl]

end CustomSink.CountSink

/-! ## Theorems: record framing -/

namespace CustomSink

theorem trim_size_le (buf : List Char) (n : Nat) : trim_size_ buf n ≤ n := by
  induction n with
  | zero => simp [trim_size_]
  | succ n ih =>
    simp only [trim_size_]
    split
    · omega
    · exact le_refl _

theorem trim_size_append (xs ys : List Char) (n : Nat) (h : n ≤ xs.length) :
    trim_size_ (xs ++ ys) n = trim_size_ xs n := by
  induction n with
  | zero => simp [trim_size_]
  | succ n ih =>
    have hg : (xs ++ ys).getD n 'x' = xs.getD n 'x' := List.getD_append _ _ _ _ (by omega)
    simp only [trim_size_, hg, ih (by omega)]

theorem trimmed_concat (xs : List Char) (c : Char) :
    trimmed (xs ++ [c]) = if c = '\n' ∨ c = '\r' then trimmed xs else xs ++ [c] := by
  have hg : (xs ++ [c]).getD xs.length 'x' = c := by
    rw [List.getD_append_right _ _ _ _ (le_refl _)]; simp
  unfold trimmed
  rw [List.length_append, List.length_singleton]
  simp only [trim_size_, hg]
  by_cases hc : c = '\n' ∨ c = '\r'
  · simp only [hc, if_true]
    rw [trim_size_append xs [c] _ (le_refl _),
      List.take_append_of_le_length (trim_size_le xs xs.length)]
  · simp only [hc, if_false]
    exact List.take_of_length_le (by simp)

theorem trimmed_nil : trimmed [] = [] := rfl

theorem trimmed_eq_rdropWhile (buf : List Char) :
    trimmed buf = buf.rdropWhile (fun c => decide (c = '\n' ∨ c = '\r')) := by
  induction buf using List.reverseRecOn with
  | nil => rfl
  | append_singleton xs c ih =>
    rw [trimmed_concat, List.rdropWhile_concat, ih]
    by_cases hc : c = '\n' ∨ c = '\r'
    · simp [hc]
    · simp [hc]

theorem trimmed_idem (buf : List Char) : trimmed (trimmed buf) = trimmed buf := by
  rw [trimmed_eq_rdropWhile buf, trimmed_eq_rdropWhile, List.rdropWhile_idempotent]

theorem trimmed_suffix (buf : List Char) :
    ∃ suf, buf = trimmed buf ++ suf ∧ ∀ c ∈ suf, c = '\n' ∨ c = '\r' := by
  induction buf using List.reverseRecOn with
  | nil => exact ⟨[], rfl, by simp⟩
  | append_singleton xs c ih =>
    obtain ⟨suf, hs, hall⟩ := ih
    rw [trimmed_concat]
    by_cases hc : c = '\n' ∨ c = '\r'
    · refine ⟨suf ++ [c], ?_, ?_⟩
      · simp only [hc, if_true]
        rw [← List.append_assoc, ← hs]
      · intro d hd
        rcases List.mem_append.1 hd with h | h
        · exact hall d h
        · simp at h; rw [h]; exact hc
    · exact ⟨[], by simp [hc], by simp⟩

theorem trimmed_last (buf : List Char) (c : Char) (h : (trimmed buf).getLast? = some c) :
    c ≠ '\n' ∧ c ≠ '\r' := by
  induction buf using List.reverseRecOn with
  | nil => simp [trimmed_nil] at h
  | append_singleton xs d ih =>
    rw [trimmed_concat] at h
    by_cases hd : d = '\n' ∨ d = '\r'
    · simp only [hd, if_true] at h
      exact ih h
    · simp only [hd, if_false, List.getLast?_concat, Option.some.injEq] at h
      subst h
      exact ⟨fun e => hd (Or.inl e), fun e => hd (Or.inr e)⟩

theorem trimmed_append_line_ends (buf t : List Char) (ht : ∀ c ∈ t, c = '\n' ∨ c = '\r') :
    trimmed (buf ++ t) = trimmed buf := by
  induction t using List.reverseRecOn with
  | nil => simp
  | append_singleton ys c ih =>
    have hc : c = '\n' ∨ c = '\r' := ht c (by simp)
    rw [← List.append_assoc, trimmed_concat]
    simp only [hc, if_true]
    exact ih (fun d hd => ht d (List.mem_append.2 (Or.inl hd)))

theorem trimmed_length (buf : List Char) :
    (trimmed buf).length = trim_size_ buf buf.length := by
  unfold trimmed
  rw [List.length_take]
  exact min_eq_left (trim_size_le buf buf.length)

theorem frame_length (buf : List Char) :
    (frame_ buf).length = trim_size_ buf buf.length + 1 := by
  simp [frame_, trimmed_length]

theorem frame_last (buf : List Char) : (frame_ buf).getLast? = some '\n' := by
  simp [frame_]

theorem frame_count (buf : List Char) :
    (frame_ buf).count '\n' = (trimmed buf).count '\n' + 1 := by
  simp [frame_, List.count_append]

theorem lines_of_append_frame (c buf : List Char) :
    lines_of (c ++ frame_ buf) = c.count '\n' + (trimmed buf).count '\n' + 1 := by
  have hl : (c ++ frame_ buf).getLast? = some '\n' := by
    simp [frame_, ← List.append_assoc]
  unfold lines_of
  rw [hl, List.count_append, frame_count]
  simp
  omega

theorem count_le_lines_of (c : List Char) : c.count '\n' ≤ lines_of c := by
  unfold lines_of; omega

theorem lines_of_terminated (c : List Char) (h : c = [] ∨ c.getLast? = some '\n') :
    lines_of c = c.count '\n' := by
  unfold lines_of
  rcases h with h | h
  · subst h; simp
  · simp [h]

end CustomSink

/-! ## The count sink: strict counting on open (C6) -/

namespace CustomSink

theorem fs_open_append_of_exists (d : Disk) (p : String) (c : List Char)
    (h : d.read p = some c) : fs_open_append d p = d := by
  simp [fs_open_append, h]

namespace CountSink

/-- The first write of a fresh strict sink over a current file that the scan
finds below the limit, with room for one more record. -/
theorem sink_it_strict_below (cfg : Config) (d : Disk) (c buf : List Char)
    (hs : cfg.strict_count_on_open_ = true) (hr : cfg.rotate_on_open_ = false)
    (hc : d.read (base_path_ cfg) = some c) (hL : count_lines_ c + 1 < cfg.max_count_) :
    sink_it_ cfg (init d) buf =
      { disk := write_record_ d (some (base_path_ cfg)) buf, file_ := some (base_path_ cfg),
        log_count_ := count_lines_ c + 1, opened_ := true, rotated_on_open_done_ := true } := by
  have hN0 : ¬ cfg.max_count_ = 0 := by omega
  have hN1 : ¬ cfg.max_count_ ≤ 0 := by omega
  have hN2 : ¬ cfg.max_count_ ≤ count_lines_ c := by omega
  have hN3 : ¬ cfg.max_count_ ≤ count_lines_ c + 1 := by omega
  have hex : fs_exists d (base_path_ cfg) = true := by simp [fs_exists, hc]
  have hcl : count_lines_in_file_ d (base_path_ cfg) = count_lines_ c := by
    simp [count_lines_in_file_, hc]
  have hop : fs_open_append d (base_path_ cfg) = d := fs_open_append_of_exists d _ c hc
  simp [sink_it_, after_write_, append_record_, before_write_, rotate_on_open_step_,
    check_before_open_, check_after_open_, ensure_opened_for_write_,
    adjust_for_strict_on_open_, init, hs, hr, hN0, hN1, hN2, hN3, hex, hcl, hop]

/-- C6, amended: a fresh sink with `strict_count_on_open_`, without
`rotate_on_open_`, over a current file `stem.log` in which the scan finds `L`
lines with `L + 1 < max_count_`, writes one record: `stem.log` stays in place
and holds its former content followed by the record and one newline, the
entry counter is `L + 1`, every other file is untouched and no remove or
rename call is issued.  The file has exactly `L + 1` lines when its former
content is empty or ends with a newline and the trimmed record contains no
newline. -/
theorem strict_open_below_limit (cfg : Config) (d : Disk) (c buf : List Char)
    (hs : cfg.strict_count_on_open_ = true) (hr : cfg.rotate_on_open_ = false)
    (hc : d.read (base_path_ cfg) = some c) (hL : count_lines_ c + 1 < cfg.max_count_) :
    (sink_it_ cfg (init d) buf).disk.read (base_path_ cfg) = some (c ++ frame_ buf) ∧
    (sink_it_ cfg (init d) buf).log_count_ = count_lines_ c + 1 ∧
    (∀ p, p ≠ base_path_ cfg → (sink_it_ cfg (init d) buf).disk.read p = d.read p) ∧
    (sink_it_ cfg (init d) buf).disk.calls = d.calls ∧
    ((c = [] ∨ c.getLast? = some '\n') → '\n' ∉ trimmed buf →
      count_lines_in_file_ (sink_it_ cfg (init d) buf).disk (base_path_ cfg) =
        count_lines_ c + 1) := by
  rw [sink_it_strict_below cfg d c buf hs hr hc hL]
  have hread : (write_record_ d (some (base_path_ cfg)) buf).read (base_path_ cfg) =
      some (c ++ frame_ buf) := by
    rw [read_write_record_]; simp [hc]
  refine ⟨hread, rfl, ?_, by simp, ?_⟩
  · intro p hp
    show (write_record_ d (some (base_path_ cfg)) buf).read p = d.read p
    rw [read_write_record_]; simp [hp]
  · intro hterm hnl
    show count_lines_in_file_ (write_record_ d (some (base_path_ cfg)) buf) (base_path_ cfg) = _
    simp only [count_lines_in_file_, hread]
    rw [count_lines_eq, count_lines_eq, lines_of_append_frame, lines_of_terminated c hterm,
      List.count_eq_zero.2 hnl]

/-- C6, amended, on a current file of one line and a limit of three. -/
theorem strict_open_below_limit_witness :
    (strict3_cfg.strict_count_on_open_ = true ∧ strict3_cfg.rotate_on_open_ = false ∧
      (only_current "a\n".toList).read (base_path_ strict3_cfg) = some "a\n".toList ∧
      count_lines_ "a\n".toList + 1 < strict3_cfg.max_count_) ∧
    (sink_it_ strict3_cfg (init (only_current "a\n".toList)) "b".toList).disk.read
      (base_path_ strict3_cfg) = some ("a\n".toList ++ frame_ "b".toList) := by
  have hcnt : count_lines_ "a\n".toList + 1 < strict3_cfg.max_count_ := by
    rw [count_lines_eq]; decide
  exact ⟨⟨rfl, rfl, by decide, hcnt⟩,
    (strict_open_below_limit strict3_cfg (only_current "a\n".toList) "a\n".toList "b".toList
      rfl rfl (by decide) hcnt).1⟩

/-- C6 fails as stated.  With limit `N = 2` and a current file of `L = 1` line,
the write fills the file and the check after the write rotates it: `stem.log`
is gone and a remove and a rename have been issued.  With limit `N = 3` and a
current file `"a"` without a final newline (`L = 1`), the file then holds
`"ab\n"`, one line and not two. -/
theorem strict_open_rotates_at_limit :
    (lines_of "a\n".toList = 1 ∧ 1 < strict_cfg.max_count_ ∧
      (sink_it_ strict_cfg (init (only_current "a\n".toList)) "b".toList).disk.read
        "logs/app.log" = none ∧
      (sink_it_ strict_cfg (init (only_current "a\n".toList)) "b".toList).disk.read
        "logs/app.1.log" = some "a\nb\n".toList ∧
      (sink_it_ strict_cfg (init (only_current "a\n".toList)) "b".toList).disk.calls =
        [FsCall.remove "logs/app.1.log", FsCall.remove "logs/app.1.log",
          FsCall.rename "logs/app.log" "logs/app.1.log"]) ∧
    (lines_of "a".toList = 1 ∧ 1 < strict3_cfg.max_count_ ∧
      (sink_it_ strict3_cfg (init (only_current "a".toList)) "b".toList).disk.read
        "logs/app.log" = some "ab\n".toList ∧
      lines_of "ab\n".toList = 1) := by
  have e1 : count_lines_in_file_ (only_current "a\n".toList) (base_path_ strict_cfg) = 1 := by
    simp only [count_lines_in_file_]
    rw [show (only_current "a\n".toList).read (base_path_ strict_cfg) = some "a\n".toList
      from by decide]
    simp only [count_lines_eq]
    decide
  have e2 : count_lines_in_file_ (only_current "a".toList) (base_path_ strict3_cfg) = 1 := by
    simp only [count_lines_in_file_]
    rw [show (only_current "a".toList).read (base_path_ strict3_cfg) = some "a".toList
      from by decide]
    simp only [count_lines_eq]
    decide
  refine ⟨⟨by decide, by decide, ?_, ?_, ?_⟩, by decide, by decide, ?_, by decide⟩
  · simp [sink_it_, after_write_, append_record_, before_write_, rotate_on_open_step_,
      check_before_open_, check_after_open_, ensure_opened_for_write_,
      adjust_for_strict_on_open_, init, e1, strict_cfg]
    decide
  · simp [sink_it_, after_write_, append_record_, before_write_, rotate_on_open_step_,
      check_before_open_, check_after_open_, ensure_opened_for_write_,
      adjust_for_strict_on_open_, init, e1, strict_cfg]
    decide
  · simp [sink_it_, after_write_, append_record_, before_write_, rotate_on_open_step_,
      check_before_open_, check_after_open_, ensure_opened_for_write_,
      adjust_for_strict_on_open_, init, e1, strict_cfg]
    decide
  · simp [sink_it_, after_write_, append_record_, before_write_, rotate_on_open_step_,
      check_before_open_, check_after_open_, ensure_opened_for_write_,
      adjust_for_strict_on_open_, init, e2, strict3_cfg]
    decide

end CountSink

end CustomSink

/-! ## The count sink: the line bound of the strict mode (C7) -/

namespace CustomSink.CountSink

theorem bounded_rotate_files_ (cfg : Config) (s : State) (hB : 1 ≤ cfg.max_files_)
    (hN : 1 ≤ cfg.max_count_) (h : FilesBounded cfg s.disk) :
    LinesBounded cfg (rotate_files_ cfg s) := by
  obtain ⟨hf, hb, hr⟩ := h
  obtain ⟨rbase, rone, rshift, rother⟩ := rotate_files_shift cfg s hB hf
  refine ⟨⟨by simp [hf], ?_, ?_⟩, by simp; omega, Or.inl (by simp)⟩
  · intro c hc
    rw [rbase] at hc
    exact absurd hc (by simp)
  · intro i c hc
    by_cases h1 : i = 1
    · subst h1
      rw [rone] at hc
      exact hb c hc
    · by_cases h2 : 2 ≤ i ∧ i ≤ cfg.max_files_
      · obtain ⟨j, rfl⟩ : ∃ j, i = j + 1 := ⟨i - 1, by omega⟩
        rw [rshift j (by omega) (by omega)] at hc
        exact hr j c hc
      · rw [rother _ (fun e => base_path_ne_rotated_path cfg i e.symm)
          (fun k hk1 hk2 => rotated_path_ne cfg _ _ (by omega))] at hc
        exact hr i c hc

theorem bounded_rotate_on_open_step_ (cfg : Config) (s : State) (hB : 1 ≤ cfg.max_files_)
    (hN : 1 ≤ cfg.max_count_) (h : LinesBounded cfg s) :
    LinesBounded cfg (rotate_on_open_step_ cfg s) := by
  unfold rotate_on_open_step_
  split
  · dsimp only
    split
    · exact bounded_rotate_files_ cfg s hB hN h.1
    · exact h
  · exact h

theorem bounded_check_before_open_ (cfg : Config) (s : State) (h : LinesBounded cfg s) :
    check_before_open_ cfg s = s := by
  have : ¬ cfg.max_count_ ≤ s.log_count_ := by have := h.2.1; omega
  simp [check_before_open_, this]

theorem bounded_check_after_open_ (cfg : Config) (s : State) (h : LinesBounded cfg s) :
    check_after_open_ cfg s = s := by
  have : ¬ cfg.max_count_ ≤ s.log_count_ := by have := h.2.1; omega
  simp [check_after_open_, this]

theorem bounded_open_fresh (cfg : Config) (s : State) (hN : 1 ≤ cfg.max_count_)
    (h : FilesBounded cfg s.disk) (hb : s.disk.read (base_path_ cfg) = none) :
    LinesBounded cfg
      { s with disk := fs_open_append s.disk (base_path_ cfg), file_ := some (base_path_ cfg),
               opened_ := true, log_count_ := 0 } ∧
    (fs_open_append s.disk (base_path_ cfg)).read (base_path_ cfg) = some [] := by
  obtain ⟨hf, hbb, hr⟩ := h
  have hread : (fs_open_append s.disk (base_path_ cfg)).read (base_path_ cfg) = some [] := by
    rw [read_fs_open_append]; simp [hb]
  refine ⟨⟨⟨by simp [hf], ?_, ?_⟩, by simpa using hN, Or.inr ⟨rfl, rfl, [], hread, by simp [lines_of]⟩⟩,
    hread⟩
  · intro c hc
    simp only [hread, Option.some.injEq] at hc
    subst hc
    simp [lines_of]
  · intro i c hc
    simp only [read_fs_open_append] at hc
    have hne : ¬ rotated_path_ cfg i = base_path_ cfg :=
      fun e => base_path_ne_rotated_path cfg i e.symm
    simp only [hne, if_false] at hc
    exact hr i c hc

theorem bounded_ensure_opened_ (cfg : Config) (s : State) (hB : 1 ≤ cfg.max_files_)
    (hN : 1 ≤ cfg.max_count_) (hs : cfg.strict_count_on_open_ = true)
    (h : LinesBounded cfg s) :
    LinesBounded cfg (ensure_opened_for_write_ cfg s) ∧
    (ensure_opened_for_write_ cfg s).file_ = some (base_path_ cfg) ∧
    ∃ c, (ensure_opened_for_write_ cfg s).disk.read (base_path_ cfg) = some c ∧
      lines_of c ≤ (ensure_opened_for_write_ cfg s).log_count_ := by
  obtain ⟨hfb, hcnt, hopen⟩ := h
  have hN0 : ¬ cfg.max_count_ = 0 := by omega
  rcases hopen with hnone | ⟨hfile, hop, c, hc, hlc⟩
  · have hnot : ¬ ((s.opened_ && s.file_.isSome) = true) := by simp [hnone]
    cases hb : s.disk.read (base_path_ cfg) with
    | none =>
      have hex : fs_exists s.disk (base_path_ cfg) = false := by simp [fs_exists, hb]
      have hadj : adjust_for_strict_on_open_ cfg s = { s with log_count_ := 0 } := by
        simp [adjust_for_strict_on_open_, hs, hN0, hex]
      have he : ensure_opened_for_write_ cfg s =
          { s with disk := fs_open_append s.disk (base_path_ cfg),
                   file_ := some (base_path_ cfg), opened_ := true, log_count_ := 0 } := by
        simp [ensure_opened_for_write_, hnone, hadj]
      obtain ⟨h1, h2⟩ := bounded_open_fresh cfg s hN hfb hb
      rw [he]
      exact ⟨h1, rfl, [], h2, by simp [lines_of]⟩
    | some c =>
      have hex : fs_exists s.disk (base_path_ cfg) = true := by simp [fs_exists, hb]
      have hcl : count_lines_in_file_ s.disk (base_path_ cfg) = lines_of c := by
        simp [count_lines_in_file_, hb, count_lines_eq]
      by_cases hfull : cfg.max_count_ ≤ lines_of c
      · have hrot := bounded_rotate_files_ cfg s hB hN hfb
        have hrb : (rotate_files_ cfg s).disk.read (base_path_ cfg) = none :=
          (rotate_files_shift cfg s hB hfb.1).1
        have hadj : adjust_for_strict_on_open_ cfg s =
            { rotate_files_ cfg s with log_count_ := 0 } := by
          simp [adjust_for_strict_on_open_, hs, hN0, hex, hcl, hfull]
        have he : ensure_opened_for_write_ cfg s =
            { rotate_files_ cfg s with
                disk := fs_open_append (rotate_files_ cfg s).disk (base_path_ cfg),
                file_ := some (base_path_ cfg), opened_ := true, log_count_ := 0 } := by
          simp [ensure_opened_for_write_, hnone, hadj]
        obtain ⟨h1, h2⟩ := bounded_open_fresh cfg (rotate_files_ cfg s) hN hrot.1 hrb
        rw [he]
        exact ⟨h1, rfl, [], h2, by simp [lines_of]⟩
      · have hadj : adjust_for_strict_on_open_ cfg s = { s with log_count_ := lines_of c } := by
          simp [adjust_for_strict_on_open_, hs, hN0, hex, hcl, hfull]
        have he : ensure_opened_for_write_ cfg s =
            { s with file_ := some (base_path_ cfg), opened_ := true,
                     log_count_ := lines_of c } := by
          simp [ensure_opened_for_write_, hnone, hadj, fs_open_append_of_exists _ _ c hb]
        rw [he]
        exact ⟨⟨hfb, by show lines_of c < cfg.max_count_; omega,
          Or.inr ⟨rfl, rfl, c, hb, le_refl _⟩⟩, rfl, c, hb, le_refl _⟩
  · have he : ensure_opened_for_write_ cfg s = s := by
      simp [ensure_opened_for_write_, hfile, hop]
    rw [he]
    exact ⟨⟨hfb, hcnt, Or.inr ⟨hfile, hop, c, hc, hlc⟩⟩, hfile, c, hc, hlc⟩

theorem bounded_before_write_ (cfg : Config) (s : State) (hB : 1 ≤ cfg.max_files_)
    (hN : 1 ≤ cfg.max_count_) (hs : cfg.strict_count_on_open_ = true)
    (h : LinesBounded cfg s) :
    LinesBounded cfg (before_write_ cfg s) ∧
    (before_write_ cfg s).file_ = some (base_path_ cfg) ∧
    ∃ c, (before_write_ cfg s).disk.read (base_path_ cfg) = some c ∧
      lines_of c ≤ (before_write_ cfg s).log_count_ := by
  have h1 := bounded_rotate_on_open_step_ cfg s hB hN h
  have e2 := bounded_check_before_open_ cfg _ h1
  have h3 := bounded_ensure_opened_ cfg (rotate_on_open_step_ cfg s) hB hN hs h1
  have e4 := bounded_check_after_open_ cfg _ h3.1
  have hbw : before_write_ cfg s = ensure_opened_for_write_ cfg (rotate_on_open_step_ cfg s) := by
    unfold before_write_
    rw [e2, e4]
  rw [hbw]
  exact h3

theorem bounded_sink_it_ (cfg : Config) (s : State) (buf : List Char)
    (hB : 1 ≤ cfg.max_files_) (hN : 1 ≤ cfg.max_count_)
    (hs : cfg.strict_count_on_open_ = true) (hnl : '\n' ∉ trimmed buf)
    (h : LinesBounded cfg s) : LinesBounded cfg (sink_it_ cfg s buf) := by
  obtain ⟨⟨⟨hf, hbb, hr⟩, hcnt, hopen⟩, hfile, c, hc, hlc⟩ :=
    bounded_before_write_ cfg s hB hN hs h
  have hread : (append_record_ (before_write_ cfg s) buf).disk.read (base_path_ cfg) =
      some (c ++ frame_ buf) := by
    simp only [append_record_, hfile, read_write_record_, if_true, hc, Option.map_some']
  have hlines : lines_of (c ++ frame_ buf) ≤ (before_write_ cfg s).log_count_ + 1 := by
    rw [lines_of_append_frame, List.count_eq_zero.2 hnl]
    have := count_le_lines_of c
    omega
  have hfb : FilesBounded cfg (append_record_ (before_write_ cfg s) buf).disk := by
    refine ⟨by simp [append_record_, hf], ?_, ?_⟩
    · intro c2 hc2
      rw [hread] at hc2
      simp only [Option.some.injEq] at hc2
      subst hc2
      omega
    · intro i c2 hc2
      have hne : ¬ rotated_path_ cfg i = base_path_ cfg :=
        fun e => base_path_ne_rotated_path cfg i e.symm
      simp only [append_record_, hfile, read_write_record_, hne, if_false] at hc2
      exact hr i c2 hc2
  unfold sink_it_ after_write_
  split
  · exact bounded_rotate_files_ cfg _ hB hN hfb
  · rename_i hlt
    have hop : (before_write_ cfg s).opened_ = true := by
      rcases hopen with h0 | ⟨_, h1, _⟩
      · rw [hfile] at h0; exact absurd h0 (by simp)
      · exact h1
    refine ⟨hfb, ?_, Or.inr ⟨?_, ?_, c ++ frame_ buf, hread, ?_⟩⟩
    · simpa using hlt
    · simp [append_record_, hfile]
    · simp [append_record_, hop]
    · simpa [append_record_] using hlines

theorem bounded_run (cfg : Config) (recs : List (List Char)) (hB : 1 ≤ cfg.max_files_)
    (hN : 1 ≤ cfg.max_count_) (hs : cfg.strict_count_on_open_ = true)
    (hnl : ∀ buf ∈ recs, '\n' ∉ trimmed buf) :
    ∀ s : State, LinesBounded cfg s → LinesBounded cfg (run cfg s recs) := by
  induction recs with
  | nil => intro s h; exact h
  | cons buf rest ih =>
    intro s h
    exact ih (fun b hb => hnl b (List.mem_cons_of_mem _ hb)) (sink_it_ cfg s buf)
      (bounded_sink_it_ cfg s buf hB hN hs (hnl buf (List.mem_cons_self _ _)) h)

theorem count_lines_in_file_le (cfg : Config) (d : Disk) (p : String)
    (h : ∀ c, d.read p = some c → lines_of c ≤ cfg.max_count_) :
    count_lines_in_file_ d p ≤ cfg.max_count_ := by
  unfold count_lines_in_file_
  cases hp : d.read p with
  | none => simp
  | some c => simpa [count_lines_eq] using h c hp

/-- C7: a count sink with `strict_count_on_open_`, `max_files_ ≥ 1` and limit
`N ≥ 1`, started on a directory that holds at most the current file
`stem.log`, with at most `N` lines, keeps every file at `N` lines or fewer:
after any sequence of records whose trimmed payloads contain no newline, the
line scan finds at most `N` lines in `stem.log` and in every `stem.i.log`. -/
theorem strict_line_bound (cfg : Config) (d : Disk) (recs : List (List Char))
    (hs : cfg.strict_count_on_open_ = true) (hB : 1 ≤ cfg.max_files_)
    (hN : 1 ≤ cfg.max_count_) (hf : d.faults = [])
    (honly : ∀ p, p ≠ base_path_ cfg → d.read p = none)
    (hbase : count_lines_in_file_ d (base_path_ cfg) ≤ cfg.max_count_)
    (hnl : ∀ buf ∈ recs, '\n' ∉ trimmed buf) :
    count_lines_in_file_ (run cfg (init d) recs).disk (base_path_ cfg) ≤ cfg.max_count_ ∧
    ∀ i, count_lines_in_file_ (run cfg (init d) recs).disk (rotated_path_ cfg i) ≤
      cfg.max_count_ := by
  have hinit : LinesBounded cfg (init d) := by
    refine ⟨⟨hf, ?_, ?_⟩, by simpa [init] using hN, Or.inl rfl⟩
    · intro c hc
      have : count_lines_in_file_ d (base_path_ cfg) = lines_of c := by
        simp [count_lines_in_file_, show d.read (base_path_ cfg) = some c from hc,
          count_lines_eq]
      rw [← this]; exact hbase
    · intro i c hc
      have hnone := honly (rotated_path_ cfg i)
        (fun e => base_path_ne_rotated_path cfg i e.symm)
      rw [show d.read (rotated_path_ cfg i) = some c from hc] at hnone
      exact absurd hnone (by simp)
  obtain ⟨⟨_, hb, hr⟩, _, _⟩ := bounded_run cfg recs hB hN hs hnl (init d) hinit
  exact ⟨count_lines_in_file_le cfg _ _ hb, fun i => count_lines_in_file_le cfg _ _ (hr i)⟩

/-- C7 at the scenario, started over a current file of three lines. -/
theorem strict_line_bound_witness :
    (scenario_cfg.strict_count_on_open_ = true ∧ 1 ≤ scenario_cfg.max_files_ ∧
      1 ≤ scenario_cfg.max_count_ ∧ (only_current "x\ny\nz\n".toList).faults = [] ∧
      (∀ p, p ≠ base_path_ scenario_cfg → (only_current "x\ny\nz\n".toList).read p = none) ∧
      count_lines_in_file_ (only_current "x\ny\nz\n".toList) (base_path_ scenario_cfg) ≤
        scenario_cfg.max_count_ ∧
      ∀ buf ∈ scenario_recs, '\n' ∉ trimmed buf) ∧
    count_lines_in_file_ (run scenario_cfg (init (only_current "x\ny\nz\n".toList))
      scenario_recs).disk (rotated_path_ scenario_cfg 1) ≤ scenario_cfg.max_count_ := by
  have honly : ∀ p, p ≠ base_path_ scenario_cfg →
      (only_current "x\ny\nz\n".toList).read p = none := by
    intro p hp
    have : ¬ "logs/app.log" = p := fun e => hp (by rw [← e]; rfl)
    simp [only_current, Disk.read, lookup_, this]
  have hbase : count_lines_in_file_ (only_current "x\ny\nz\n".toList)
      (base_path_ scenario_cfg) ≤ scenario_cfg.max_count_ := by
    simp only [count_lines_in_file_]
    rw [show (only_current "x\ny\nz\n".toList).read (base_path_ scenario_cfg) =
      some "x\ny\nz\n".toList from by decide]
    simp only [count_lines_eq]
    decide
  have hnl : ∀ buf ∈ scenario_recs, '\n' ∉ trimmed buf := by decide
  exact ⟨⟨rfl, by decide, by decide, rfl, honly, hbase, hnl⟩,
    (strict_line_bound scenario_cfg _ scenario_recs rfl (by decide) (by decide) rfl honly
      hbase hnl).2 1⟩

end CustomSink.CountSink

/-! ## Theorems: the pattern-named size sink -/

namespace CustomSink.PatternSink

theorem pattern_rotated_path_ne (cfg : Config) (s : State) (i j : Nat) (h : i ≠ j) :
    rotated_path_ cfg s.current_basename_ i ≠ rotated_path_ cfg s.current_basename_ j := by
  intro e
  apply h
  apply to_string_injective
  have h2 := congrArg String.data e
  simp only [rotated_path_, String.data_append, List.append_assoc] at h2
  have h3 := List.append_cancel_left (List.append_cancel_left (List.append_cancel_left
    (List.append_cancel_left h2)))
  exact String.ext (List.append_cancel_right h3)

theorem pattern_base_path_ne_rotated_path (cfg : Config) (s : State) (i : Nat) :
    current_base_path_ cfg s.current_basename_ ≠ rotated_path_ cfg s.current_basename_ i := by
  intro h
  have h2 := congrArg String.length h
  simp only [current_base_path_, rotated_path_, String.length_append] at h2
  have : extension_.length = 4 := rfl
  have : (".").length = 1 := rfl
  omega

/-- The loop of the pattern sink, counting from `max_files_` down to `2`, is
the shift loop. -/
theorem pattern_rotate_loop_eq_shift_loop_ (cfg : Config) (s : State) (i : Nat) :
    ∀ d, rotate_loop_ cfg s (i + 1) d = shift_loop_ (rotated_path_ cfg s.current_basename_) i d := by
  induction i with
  | zero => intro d; simp [rotate_loop_, shift_loop_]
  | succ i ih =>
    intro d
    have h1 : i + 1 + 1 > 1 := by omega
    rw [rotate_loop_]
    simp only [h1, if_true, shift_loop_]
    exact ih _

@[simp] theorem rotate_by_size_chain_basename (cfg : Config) (s : State) :
    (rotate_by_size_chain_ cfg s).current_basename_ = s.current_basename_ := by
  unfold rotate_by_size_chain_; split <;> rfl

@[simp] theorem rotate_by_size_chain_next (cfg : Config) (s : State) :
    (rotate_by_size_chain_ cfg s).next_rotation_ = s.next_rotation_ := by
  unfold rotate_by_size_chain_; split <;> rfl

@[simp] theorem rotate_by_size_chain_done (cfg : Config) (s : State) :
    (rotate_by_size_chain_ cfg s).rotated_on_open_done_ = s.rotated_on_open_done_ := by
  unfold rotate_by_size_chain_; split <;> rfl

theorem pattern_rotate_by_size_chain_state (cfg : Config) (s : State) (hB : 1 ≤ cfg.max_files_) :
    rotate_by_size_chain_ cfg s =
      { s with disk := chain_ (rotated_path_ cfg s.current_basename_) (current_base_path_ cfg s.current_basename_) cfg.max_files_
                 s.disk,
               file_ := none, opened_ := false, current_size_bytes_ := 0 } := by
  have hB0 : ¬ cfg.max_files_ = 0 := by omega
  obtain ⟨n, hn⟩ : ∃ n, cfg.max_files_ = n + 1 := ⟨cfg.max_files_ - 1, by omega⟩
  have hloop := pattern_rotate_loop_eq_shift_loop_ cfg (close_file_ s) n
  simp only [rotate_by_size_chain_, hB0, if_false, chain_, hn, hloop]
  rfl

/-- A file whose name holds no separator can be opened in the directory the
sink has made. -/
theorem fs_can_open_plain (d : Disk) (dir name : String) (h : '/' ∉ name.toList) :
    fs_can_open d dir (name ++ ".log") = true := by
  have h2 : '/' ∉ (name ++ ".log").toList := by
    intro hm
    have hm2 : '/' ∈ name.toList ++ ".log".toList := by simpa using hm
    rcases List.mem_append.mp hm2 with e | e
    · exact h e
    · exact absurd e (by decide)
  unfold fs_can_open
  rw [Bool.or_eq_true]
  exact Or.inl (decide_eq_true h2)

theorem pattern_ensure_opened_closed (cfg : Config) (s : State) (hfile : s.file_ = none)
    (hok : fs_can_open s.disk cfg.dir_ (s.current_basename_ ++ extension_) = true) :
    ensure_opened_for_write_ cfg s =
      { s with disk := fs_open_append s.disk (current_base_path_ cfg s.current_basename_),
               file_ := some (current_base_path_ cfg s.current_basename_), opened_ := true,
               current_size_bytes_ := ((s.disk.read (current_base_path_ cfg s.current_basename_)).getD []).length } := by
  have hread : (fs_open_append s.disk (current_base_path_ cfg s.current_basename_)).read (current_base_path_ cfg s.current_basename_) =
      some ((s.disk.read (current_base_path_ cfg s.current_basename_)).getD []) := by
    rw [read_fs_open_append]; simp
  simp [ensure_opened_for_write_, hfile, hok, fs_exists, fs_file_size, hread]

/-- The lazy open of a file whose base name holds no separator. -/
theorem pattern_ensure_opened_plain (cfg : Config) (s : State) (hfile : s.file_ = none)
    (hname : '/' ∉ s.current_basename_.toList) :
    ensure_opened_for_write_ cfg s =
      { s with disk := fs_open_append s.disk (current_base_path_ cfg s.current_basename_),
               file_ := some (current_base_path_ cfg s.current_basename_), opened_ := true,
               current_size_bytes_ := ((s.disk.read (current_base_path_ cfg s.current_basename_)).getD []).length } :=
  pattern_ensure_opened_closed cfg s hfile (fs_can_open_plain s.disk cfg.dir_ s.current_basename_ hname)

/-- The lazy open when the directory of the file is missing: the stream stays
closed and no file is made. -/
theorem pattern_ensure_opened_failed (cfg : Config) (s : State) (hfile : s.file_ = none)
    (hno : fs_can_open s.disk cfg.dir_ (s.current_basename_ ++ extension_) = false) :
    ensure_opened_for_write_ cfg s =
      { s with opened_ := true,
               current_size_bytes_ :=
                 if fs_exists s.disk (current_base_path_ cfg s.current_basename_)
                 then fs_file_size s.disk (current_base_path_ cfg s.current_basename_) else 0 } := by
  simp [ensure_opened_for_write_, hfile, hno]

theorem pattern_ensure_opened_open (cfg : Config) (s : State) (p : String) (hfile : s.file_ = some p)
    (hop : s.opened_ = true) : ensure_opened_for_write_ cfg s = s := by
  simp [ensure_opened_for_write_, hfile, hop]

theorem pattern_base_path_congr (cfg : Config) (s t : State)
    (h : s.current_basename_ = t.current_basename_) :
    current_base_path_ cfg s.current_basename_ = current_base_path_ cfg t.current_basename_ := by
  simp [current_base_path_, h]

theorem pattern_rotated_path_congr (cfg : Config) (s t : State)
    (h : s.current_basename_ = t.current_basename_) :
    rotated_path_ cfg s.current_basename_ = rotated_path_ cfg t.current_basename_ := by
  funext i
  simp [rotated_path_, h]

theorem goodFile_mono (cfg : Config) (recs : List (List Char)) (buf c : List Char)
    (h : GoodFile cfg recs c) : GoodFile cfg (recs ++ [buf]) c := by
  rcases h with h | ⟨b, hb, h1, h2⟩
  · exact Or.inl h
  · exact Or.inr ⟨b, List.mem_append.2 (Or.inl hb), h1, h2⟩

theorem sizeInv_rotate (cfg : Config) (s0 : State) (recs : List (List Char)) (s : State)
    (hB : 1 ≤ cfg.max_files_) (h : SizeInv cfg s0 recs s) :
    SizeInv cfg s0 recs (rotate_by_size_chain_ cfg s) ∧
    (rotate_by_size_chain_ cfg s).file_ = none ∧
    (rotate_by_size_chain_ cfg s).disk.read (current_base_path_ cfg s0.current_basename_) = none := by
  obtain ⟨hf, hb, hn, hbase, hrot, hopen⟩ := h
  have hp := pattern_base_path_congr cfg s s0 hb
  have hr := pattern_rotated_path_congr cfg s s0 hb
  rw [pattern_rotate_by_size_chain_state cfg s hB, hp, hr]
  obtain ⟨rbase, rone, rshift, rother⟩ :=
    read_chain_ (rotated_path_ cfg s0.current_basename_) (current_base_path_ cfg s0.current_basename_) cfg.max_files_ s.disk
      (pattern_rotated_path_ne cfg s0) (pattern_base_path_ne_rotated_path cfg s0) hB hf
  refine ⟨⟨by simp [hf], hb, hn, ?_, ?_, Or.inl rfl⟩, rfl, rbase⟩
  · intro c hc
    simp only [rbase] at hc
    exact absurd hc (by simp)
  · intro i c hc
    simp only at hc
    by_cases h1 : i = 1
    · subst h1
      rw [rone] at hc
      exact hbase c hc
    · by_cases h2 : 2 ≤ i ∧ i ≤ cfg.max_files_
      · obtain ⟨j, rfl⟩ : ∃ j, i = j + 1 := ⟨i - 1, by omega⟩
        rw [rshift j (by omega) (by omega)] at hc
        exact hrot j c hc
      · rw [rother _ (fun e => pattern_base_path_ne_rotated_path cfg s0 i e.symm)
          (fun k hk1 hk2 => pattern_rotated_path_ne cfg s0 _ _ (by omega))] at hc
        exact hrot i c hc

theorem sizeInv_rotate_on_open_step_ (cfg : Config) (s0 : State) (recs : List (List Char))
    (s : State) (hB : 1 ≤ cfg.max_files_) (h : SizeInv cfg s0 recs s) :
    SizeInv cfg s0 recs (rotate_on_open_step_ cfg s) := by
  unfold rotate_on_open_step_
  split
  · dsimp only
    split
    · exact (sizeInv_rotate cfg s0 recs s hB h).1
    · exact h
  · exact h

/-- After the lazy open the stream is closed, the open having failed, or it is
attached to the current file and the byte counter is the size of that file. -/
theorem sizeInv_ensure_opened_ (cfg : Config) (s0 : State) (recs : List (List Char))
    (s : State) (h : SizeInv cfg s0 recs s) :
    SizeInv cfg s0 recs (ensure_opened_for_write_ cfg s) ∧
    ((ensure_opened_for_write_ cfg s).file_ = none ∨
      ((ensure_opened_for_write_ cfg s).file_ = some (current_base_path_ cfg s0.current_basename_) ∧
      (ensure_opened_for_write_ cfg s).opened_ = true ∧
      ∃ c, (ensure_opened_for_write_ cfg s).disk.read (current_base_path_ cfg s0.current_basename_) = some c ∧
        (ensure_opened_for_write_ cfg s).current_size_bytes_ = c.length ∧
        (s.disk.read (current_base_path_ cfg s0.current_basename_) = none → c = []))) := by
  obtain ⟨hf, hb, hn, hbase, hrot, hopen⟩ := h
  have hp := pattern_base_path_congr cfg s s0 hb
  rcases hopen with hnone | ⟨hfile, hop, c, hc, hsz⟩
  · cases hok : fs_can_open s.disk cfg.dir_ (s.current_basename_ ++ extension_) with
    | false =>
      rw [pattern_ensure_opened_failed cfg s hnone hok]
      exact ⟨⟨hf, hb, hn, hbase, hrot, Or.inl hnone⟩, Or.inl hnone⟩
    | true =>
      rw [pattern_ensure_opened_closed cfg s hnone hok, hp]
      have hread : (fs_open_append s.disk (current_base_path_ cfg s0.current_basename_)).read
          (current_base_path_ cfg s0.current_basename_) =
          some ((s.disk.read (current_base_path_ cfg s0.current_basename_)).getD []) := by
        rw [read_fs_open_append]; simp
      have hgood : GoodFile cfg recs ((s.disk.read (current_base_path_ cfg s0.current_basename_)).getD []) := by
        cases hs : s.disk.read (current_base_path_ cfg s0.current_basename_) with
        | none => exact Or.inl (by simp)
        | some c => exact hbase c hs
      refine ⟨⟨by simp [hf], hb, hn, ?_, ?_, Or.inr ⟨rfl, rfl, _, hread, rfl⟩⟩,
        Or.inr ⟨rfl, rfl, _, hread, rfl, fun h0 => by simp [h0]⟩⟩
      · intro c hc
        simp only [hread, Option.some.injEq] at hc
        rw [← hc]; exact hgood
      · intro i c hc
        simp only [read_fs_open_append] at hc
        have hne : ¬ rotated_path_ cfg s0.current_basename_ i = current_base_path_ cfg s0.current_basename_ :=
          fun e => pattern_base_path_ne_rotated_path cfg s0 i e.symm
        simp only [hne, if_false] at hc
        exact hrot i c hc
  · rw [pattern_ensure_opened_open cfg s _ hfile hop]
    exact ⟨⟨hf, hb, hn, hbase, hrot, Or.inr ⟨hfile, hop, c, hc, hsz⟩⟩, Or.inr ⟨hfile, hop, c, hc, hsz,
      fun h0 => by rw [h0] at hc; exact absurd hc (by simp)⟩⟩

theorem sizeInv_size_check_step_ (cfg : Config) (s0 : State) (recs : List (List Char))
    (s : State) (w : Nat) (hB : 1 ≤ cfg.max_files_) (h : SizeInv cfg s0 recs s)
    (hs : s.file_ = none ∨
      (s.file_ = some (current_base_path_ cfg s0.current_basename_) ∧ s.opened_ = true ∧
        ∃ c, s.disk.read (current_base_path_ cfg s0.current_basename_) = some c ∧
          s.current_size_bytes_ = c.length)) :
    SizeInv cfg s0 recs (size_check_step_ cfg s w) ∧
    ((size_check_step_ cfg s w).file_ = none ∨
      ((size_check_step_ cfg s w).file_ = some (current_base_path_ cfg s0.current_basename_) ∧
      (size_check_step_ cfg s w).opened_ = true ∧
      ∃ c', (size_check_step_ cfg s w).disk.read (current_base_path_ cfg s0.current_basename_) = some c' ∧
        (size_check_step_ cfg s w).current_size_bytes_ = c'.length ∧
        (c' = [] ∨ c'.length + w ≤ cfg.max_size_bytes_))) := by
  unfold size_check_step_
  split
  · obtain ⟨hinv, hnone, hbase⟩ := sizeInv_rotate cfg s0 recs s hB h
    obtain ⟨h1, h2⟩ :=
      sizeInv_ensure_opened_ cfg s0 recs (rotate_by_size_chain_ cfg s) hinv
    refine ⟨h1, ?_⟩
    rcases h2 with h2 | ⟨h2, h3, c', h4, h5, h6⟩
    · exact Or.inl h2
    · exact Or.inr ⟨h2, h3, c', h4, h5, Or.inl (h6 hbase)⟩
  · rename_i hno
    refine ⟨h, ?_⟩
    rcases hs with hs | ⟨hfile, hop, c, hc, hsz⟩
    · exact Or.inl hs
    · have hle : c.length + w ≤ cfg.max_size_bytes_ := by
        by_contra hgt
        exact hno ⟨by omega, by rw [hsz]; omega⟩
      exact Or.inr ⟨hfile, hop, c, hc, hsz, Or.inr hle⟩

theorem pattern_rotate_if_needed_by_time_before (cfg : Config) (s : State) (tp : Int)
    (h : tp < s.next_rotation_) : rotate_if_needed_by_time_ cfg s tp = s := by
  simp [rotate_if_needed_by_time_, h]

theorem sizeInv_sink_it_ (cfg : Config) (s0 : State) (recs : List (List Char)) (s : State)
    (tp : Int) (buf : List Char) (hB : 1 ≤ cfg.max_files_) (htp : tp < s0.next_rotation_)
    (h : SizeInv cfg s0 recs s) : SizeInv cfg s0 (recs ++ [buf]) (sink_it_ cfg s tp buf) := by
  have htp2 : tp < s.next_rotation_ := by rw [h.2.2.1]; exact htp
  have h1 := sizeInv_rotate_on_open_step_ cfg s0 recs s hB h
  obtain ⟨h2, k2⟩ := sizeInv_ensure_opened_ cfg s0 recs _ h1
  have k2b : (ensure_opened_for_write_ cfg (rotate_on_open_step_ cfg s)).file_ = none ∨
      ((ensure_opened_for_write_ cfg (rotate_on_open_step_ cfg s)).file_ =
          some (current_base_path_ cfg s0.current_basename_) ∧
        (ensure_opened_for_write_ cfg (rotate_on_open_step_ cfg s)).opened_ = true ∧
        ∃ c, (ensure_opened_for_write_ cfg (rotate_on_open_step_ cfg s)).disk.read
            (current_base_path_ cfg s0.current_basename_) = some c ∧
          (ensure_opened_for_write_ cfg (rotate_on_open_step_ cfg s)).current_size_bytes_ =
            c.length) := by
    rcases k2 with k | ⟨f2, o2, c2, r2, z2, _⟩
    · exact Or.inl k
    · exact Or.inr ⟨f2, o2, c2, r2, z2⟩
  obtain ⟨h3, k3⟩ :=
    sizeInv_size_check_step_ cfg s0 recs _ (trim_size_ buf buf.length + 1) hB h2 k2b
  have hbw : before_write_ cfg s tp (trim_size_ buf buf.length + 1) =
      size_check_step_ cfg (ensure_opened_for_write_ cfg (rotate_on_open_step_ cfg s))
        (trim_size_ buf buf.length + 1) := by
    simp [before_write_, pattern_rotate_if_needed_by_time_before cfg s tp htp2]
  unfold sink_it_
  rw [hbw]
  generalize size_check_step_ cfg (ensure_opened_for_write_ cfg (rotate_on_open_step_ cfg s))
    (trim_size_ buf buf.length + 1) = m at h3 k3
  obtain ⟨hf, hb, hn, hbase, hrot, _⟩ := h3
  rcases k3 with knone | ⟨f3, o3, c3, r3, z3, e3⟩
  · have hd : (append_record_ m buf).disk = m.disk := by
      simp [append_record_, knone, write_record_, ofstream_write]
    refine ⟨by rw [hd]; exact hf, hb, hn, ?_, ?_, Or.inl knone⟩
    · intro c hc
      rw [hd] at hc
      exact goodFile_mono cfg recs buf c (hbase c hc)
    · intro i c hc
      rw [hd] at hc
      exact goodFile_mono cfg recs buf c (hrot i c hc)
  have hread : (append_record_ m buf).disk.read (current_base_path_ cfg s0.current_basename_) =
      some (c3 ++ frame_ buf) := by
    simp only [append_record_, f3, read_write_record_, if_true, r3, Option.map_some']
  have hlen : (c3 ++ frame_ buf).length = c3.length + (trim_size_ buf buf.length + 1) := by
    rw [List.length_append, frame_length]
  refine ⟨by simp [append_record_, hf], hb, hn, ?_, ?_, Or.inr ⟨?_, ?_, c3 ++ frame_ buf, hread, ?_⟩⟩
  · intro c hc
    rw [hread] at hc
    simp only [Option.some.injEq] at hc
    subst hc
    rcases e3 with e | e
    · subst e
      by_cases hbig : cfg.max_size_bytes_ < (trimmed buf).length + 1
      · exact Or.inr ⟨buf, by simp, by simp, hbig⟩
      · refine Or.inl ?_
        rw [hlen, ← trimmed_length]
        simp only [List.length_nil]
        omega
    · exact Or.inl (by rw [hlen]; exact e)
  · intro i c hc
    have hne : ¬ rotated_path_ cfg s0.current_basename_ i = current_base_path_ cfg s0.current_basename_ :=
      fun e => pattern_base_path_ne_rotated_path cfg s0 i e.symm
    simp only [append_record_, f3, read_write_record_, hne, if_false] at hc
    exact goodFile_mono cfg recs buf c (hrot i c hc)
  · simp [append_record_, f3]
  · simp [append_record_, o3]
  · simp only [append_record_, z3, hlen]

theorem sizeInv_run (cfg : Config) (s0 : State) (ws : List (Int × List Char))
    (hB : 1 ≤ cfg.max_files_) (hcycle : ∀ w ∈ ws, w.1 < s0.next_rotation_) :
    ∀ (recs : List (List Char)) (s : State), SizeInv cfg s0 recs s →
      SizeInv cfg s0 (recs ++ ws.map Prod.snd) (run cfg s ws) := by
  induction ws with
  | nil => intro recs s h; simpa [run] using h
  | cons w rest ih =>
    intro recs s h
    have h1 := sizeInv_sink_it_ cfg s0 recs s w.1 w.2 hB (hcycle w (List.mem_cons_self _ _)) h
    have h2 := ih (fun x hx => hcycle x (List.mem_cons_of_mem _ hx)) _ _ h1
    simpa [run, List.append_assoc] using h2

/-- C4: one pattern-named size sink with `max_files_ ≥ 1` and the byte limit
`S`, writing into an empty directory within one rotation cycle (every write
comes before the cutover computed at construction): after the writes, every
backup `<base>.i.log` has at most `S` bytes or is exactly one of the written
records, a record whose trimmed length plus one exceeds `S`. -/
theorem size_bound_of_backups (cfg : Config) (tp0 : Int) (ws : List (Int × List Char))
    (hB : 1 ≤ cfg.max_files_) (hcycle : ∀ w ∈ ws, w.1 < cfg.compute_next_rotation_ tp0)
    (i : Nat) (c : List Char)
    (hc : (run cfg (init cfg Disk.fresh tp0) ws).disk.read
      (rotated_path_ cfg (cfg.make_basename_for_tp_ tp0) i) = some c) :
    c.length ≤ cfg.max_size_bytes_ ∨
    ∃ buf ∈ ws.map Prod.snd, c = frame_ buf ∧ cfg.max_size_bytes_ < (trimmed buf).length + 1 := by
  have hinit : SizeInv cfg (init cfg Disk.fresh tp0) [] (init cfg Disk.fresh tp0) :=
    ⟨rfl, rfl, rfl, fun c hc => absurd hc (by simp [init, Disk.fresh, Disk.read, lookup_]),
      fun i c hc => absurd hc (by simp [init, Disk.fresh, Disk.read, lookup_]), Or.inl rfl⟩
  have h := sizeInv_run cfg (init cfg Disk.fresh tp0) ws hB hcycle [] _ hinit
  simpa [GoodFile] using h.2.2.2.2.1 i c hc

/-- C4 with a limit of 100 bytes: the backup left by a record of 500 bytes and
a short record is that one record. -/
theorem size_bound_of_backups_witness :
    (1 ≤ demo_cfg.max_files_ ∧
      (∀ w ∈ demo_writes, w.1 < demo_cfg.compute_next_rotation_ 0) ∧
      (run demo_cfg (init demo_cfg Disk.fresh 0) demo_writes).disk.read
        (rotated_path_ demo_cfg (demo_cfg.make_basename_for_tp_ 0) 1) = some (frame_ big_record)) ∧
    ((frame_ big_record).length ≤ demo_cfg.max_size_bytes_ ∨
      ∃ buf ∈ demo_writes.map Prod.snd, frame_ big_record = frame_ buf ∧
        demo_cfg.max_size_bytes_ < (trimmed buf).length + 1) := by
  have h1 : ∀ w ∈ demo_writes, w.1 < demo_cfg.compute_next_rotation_ 0 := by decide
  have h2 : (run demo_cfg (init demo_cfg Disk.fresh 0) demo_writes).disk.read
      (rotated_path_ demo_cfg (demo_cfg.make_basename_for_tp_ 0) 1) = some (frame_ big_record) := by
    decide
  exact ⟨⟨by decide, h1, h2⟩,
    size_bound_of_backups demo_cfg 0 demo_writes (by decide) h1 1 (frame_ big_record) h2⟩

end CustomSink.PatternSink

/-! ## Theorems: the per-day-directory size sink -/

namespace CustomSink.DirSink

theorem dir_rotated_path_ne (cfg : Config) (s : State) (i j : Nat) (h : i ≠ j) :
    rotated_path_ cfg s.current_date_ i ≠ rotated_path_ cfg s.current_date_ j := by
  intro e
  apply h
  apply to_string_injective
  have h2 := congrArg String.data e
  simp only [rotated_path_, day_dir_, String.data_append, List.append_assoc] at h2
  have h3 := List.append_cancel_left (List.append_cancel_left (List.append_cancel_left
    (List.append_cancel_left (List.append_cancel_left (List.append_cancel_left h2)))))
  exact String.ext (List.append_cancel_right h3)

theorem dir_base_path_ne_rotated_path (cfg : Config) (s : State) (i : Nat) :
    base_path_ cfg s.current_date_ ≠ rotated_path_ cfg s.current_date_ i := by
  intro h
  have h2 := congrArg String.length h
  simp only [base_path_, rotated_path_, String.length_append] at h2
  have : extension_.length = 4 := rfl
  have : (".").length = 1 := rfl
  omega

/-- The loop of the per-day-directory sink is the shift loop. -/
theorem dir_rotate_loop_eq_shift_loop_ (cfg : Config) (s : State) (i : Nat) :
    ∀ d, rotate_loop_ cfg s i d = shift_loop_ (rotated_path_ cfg s.current_date_) i d := by
  induction i with
  | zero => intro d; rfl
  | succ i ih =>
    intro d
    simp only [rotate_loop_, shift_loop_]
    by_cases hi : i = 0
    · subst hi; simp [shift_loop_]
    · have : ¬ i + 1 = 1 := by omega
      simp only [this, if_false]
      exact ih _

theorem dir_rotate_files_state (cfg : Config) (s : State) (hB : 1 ≤ cfg.max_files_) :
    rotate_files_ cfg s =
      { s with disk := chain_ (rotated_path_ cfg s.current_date_)
                 (base_path_ cfg s.current_date_) cfg.max_files_ s.disk,
               file_ := none, opened_ := false, current_size_ := 0 } := by
  have hB0 : ¬ cfg.max_files_ = 0 := by omega
  simp only [rotate_files_, hB0, if_false, chain_, dir_rotate_loop_eq_shift_loop_]

theorem dir_probe_of_read (d : Disk) (p : String) :
    probe_file_size_noopen_ d p = ((d.read p).getD []).length := by
  unfold probe_file_size_noopen_ fs_exists fs_file_size
  cases d.read p <;> simp

theorem dir_ensure_opened_closed (cfg : Config) (s : State) (hfile : s.file_ = none)
    (hok : fs_can_open s.disk (day_dir_ cfg s.current_date_) (cfg.stem_ ++ extension_) = true) :
    ensure_opened_for_write_ cfg s =
      { s with disk := fs_open_append s.disk (base_path_ cfg s.current_date_),
               file_ := some (base_path_ cfg s.current_date_), opened_ := true,
               current_size_ := ((s.disk.read (base_path_ cfg s.current_date_)).getD []).length } := by
  have hread : (fs_open_append s.disk (base_path_ cfg s.current_date_)).read (base_path_ cfg s.current_date_) =
      some ((s.disk.read (base_path_ cfg s.current_date_)).getD []) := by
    rw [read_fs_open_append]; simp
  simp [ensure_opened_for_write_, hfile, hok, dir_probe_of_read, hread]

/-- The lazy open of a file whose stem holds no separator. -/
theorem dir_ensure_opened_plain (cfg : Config) (s : State) (hfile : s.file_ = none)
    (hname : '/' ∉ cfg.stem_.toList) :
    ensure_opened_for_write_ cfg s =
      { s with disk := fs_open_append s.disk (base_path_ cfg s.current_date_),
               file_ := some (base_path_ cfg s.current_date_), opened_ := true,
               current_size_ := ((s.disk.read (base_path_ cfg s.current_date_)).getD []).length } :=
  dir_ensure_opened_closed cfg s hfile
    (PatternSink.fs_can_open_plain s.disk (day_dir_ cfg s.current_date_) cfg.stem_ hname)

/-- The lazy open when the directory of the file is missing: the stream stays
closed and no file is made. -/
theorem dir_ensure_opened_failed (cfg : Config) (s : State) (hfile : s.file_ = none)
    (hno : fs_can_open s.disk (day_dir_ cfg s.current_date_) (cfg.stem_ ++ extension_) = false) :
    ensure_opened_for_write_ cfg s =
      { s with opened_ := true,
               current_size_ := probe_file_size_noopen_ s.disk (base_path_ cfg s.current_date_) } := by
  simp [ensure_opened_for_write_, hfile, hno]

end CustomSink.DirSink

/-! ## The size sinks: an oversized record into an empty current file (C5) -/

namespace CustomSink

/-- An oversized record into an empty current file of the pattern-named sink,
no rotate-on-open being due: the lazy open, one rename chain, the lazy open
again and the write. -/
theorem PatternSink.pattern_sink_it_oversized (cfg : PatternSink.Config)
    (s t : PatternSink.State) (tp : Int) (buf : List Char)
    (ht : PatternSink.rotate_if_needed_by_time_ cfg s tp = t)
    (hB : 1 ≤ cfg.max_files_) (hf : t.disk.faults = [])
    (hname : '/' ∉ t.current_basename_.toList)
    (hdone : t.rotated_on_open_done_ = true ∨ cfg.rotate_on_open_ = false ∨
      t.disk.read (PatternSink.current_base_path_ cfg t.current_basename_) = none)
    (hstream :
      (t.file_ = none ∧
        (t.disk.read (PatternSink.current_base_path_ cfg t.current_basename_) = none ∨
          t.disk.read (PatternSink.current_base_path_ cfg t.current_basename_) = some [])) ∨
      (t.file_ = some (PatternSink.current_base_path_ cfg t.current_basename_) ∧
        t.opened_ = true ∧ t.current_size_bytes_ = 0 ∧
        t.disk.read (PatternSink.current_base_path_ cfg t.current_basename_) = some []))
    (hbig : cfg.max_size_bytes_ < trim_size_ buf buf.length + 1) :
    PatternSink.sink_it_ cfg s tp buf =
      { t with
        disk := write_record_
          (fs_open_append
            (chain_ (PatternSink.rotated_path_ cfg t.current_basename_)
              (PatternSink.current_base_path_ cfg t.current_basename_) cfg.max_files_
              (fs_open_append t.disk (PatternSink.current_base_path_ cfg t.current_basename_)))
            (PatternSink.current_base_path_ cfg t.current_basename_))
          (some (PatternSink.current_base_path_ cfg t.current_basename_)) buf,
        file_ := some (PatternSink.current_base_path_ cfg t.current_basename_),
        current_size_bytes_ := trim_size_ buf buf.length + 1,
        opened_ := true, rotated_on_open_done_ := true } := by
  have e2 : PatternSink.rotate_on_open_step_ cfg t = { t with rotated_on_open_done_ := true } := by
    rcases hdone with h | h | h
    · simp only [PatternSink.rotate_on_open_step_, h]
      cases t
      simp_all
    · cases hd : t.rotated_on_open_done_
      · simp [PatternSink.rotate_on_open_step_, h, hd]
      · simp only [PatternSink.rotate_on_open_step_, hd]
        cases t
        simp_all
    · cases hd : t.rotated_on_open_done_
      · simp [PatternSink.rotate_on_open_step_, h, hd, fs_exists]
      · simp only [PatternSink.rotate_on_open_step_, hd]
        cases t
        simp_all
  have e3 : PatternSink.ensure_opened_for_write_ cfg { t with rotated_on_open_done_ := true } =
      { t with
        disk := fs_open_append t.disk (PatternSink.current_base_path_ cfg t.current_basename_),
        file_ := some (PatternSink.current_base_path_ cfg t.current_basename_),
        current_size_bytes_ := 0, opened_ := true, rotated_on_open_done_ := true } := by
    rcases hstream with ⟨hn, hc⟩ | ⟨hfile, hop, hsz, hc⟩
    · rw [PatternSink.pattern_ensure_opened_plain cfg { t with rotated_on_open_done_ := true } hn
        hname]
      have hlen : ((t.disk.read
          (PatternSink.current_base_path_ cfg t.current_basename_)).getD []).length = 0 := by
        rcases hc with h | h <;> simp [h]
      simp [hlen]
    · rw [PatternSink.pattern_ensure_opened_open cfg { t with rotated_on_open_done_ := true } _ hfile hop,
        fs_open_append_of_exists _ _ _ hc]
      cases t
      simp_all
  have hchain := (read_chain_ (PatternSink.rotated_path_ cfg t.current_basename_)
    (PatternSink.current_base_path_ cfg t.current_basename_) cfg.max_files_
    (fs_open_append t.disk (PatternSink.current_base_path_ cfg t.current_basename_))
    (PatternSink.pattern_rotated_path_ne cfg t) (PatternSink.pattern_base_path_ne_rotated_path cfg t) hB
    (by simp [hf])).1
  have hcond : cfg.max_files_ > 0 ∧ 0 + (trim_size_ buf buf.length + 1) > cfg.max_size_bytes_ :=
    ⟨by omega, by omega⟩
  unfold PatternSink.sink_it_ PatternSink.before_write_
  rw [ht, e2, e3]
  simp only [PatternSink.size_check_step_, hcond, and_self, if_true]
  rw [PatternSink.pattern_rotate_by_size_chain_state cfg _ hB]
  rw [PatternSink.pattern_ensure_opened_plain]
  · simp [PatternSink.append_record_, hchain]
  · rfl
  · exact hname

/-- An oversized record as the first write of a cycle of the pattern-named
sink with `rotate_on_open_`, the current file being there and empty: the
rename chain of rotate-on-open, the lazy open, the rename chain of the size
check, the lazy open again and the write. -/
theorem PatternSink.pattern_sink_it_oversized_pending (cfg : PatternSink.Config)
    (s t : PatternSink.State) (tp : Int) (buf : List Char)
    (ht : PatternSink.rotate_if_needed_by_time_ cfg s tp = t)
    (hB : 1 ≤ cfg.max_files_) (hf : t.disk.faults = [])
    (hname : '/' ∉ t.current_basename_.toList)
    (hdone : t.rotated_on_open_done_ = false) (hro : cfg.rotate_on_open_ = true)
    (hc : t.disk.read (PatternSink.current_base_path_ cfg t.current_basename_) = some [])
    (hbig : cfg.max_size_bytes_ < trim_size_ buf buf.length + 1) :
    PatternSink.sink_it_ cfg s tp buf =
      { t with
        disk := write_record_
          (fs_open_append
            (chain_ (PatternSink.rotated_path_ cfg t.current_basename_)
              (PatternSink.current_base_path_ cfg t.current_basename_) cfg.max_files_
              (fs_open_append
                (chain_ (PatternSink.rotated_path_ cfg t.current_basename_)
                  (PatternSink.current_base_path_ cfg t.current_basename_) cfg.max_files_ t.disk)
                (PatternSink.current_base_path_ cfg t.current_basename_)))
            (PatternSink.current_base_path_ cfg t.current_basename_))
          (some (PatternSink.current_base_path_ cfg t.current_basename_)) buf,
        file_ := some (PatternSink.current_base_path_ cfg t.current_basename_),
        current_size_bytes_ := trim_size_ buf buf.length + 1,
        opened_ := true, rotated_on_open_done_ := true } := by
  have hB0 : decide (cfg.max_files_ > 0) = true := by simp; omega
  have e2 : PatternSink.rotate_on_open_step_ cfg t =
      { t with
        disk := chain_ (PatternSink.rotated_path_ cfg t.current_basename_)
          (PatternSink.current_base_path_ cfg t.current_basename_) cfg.max_files_ t.disk,
        file_ := none, opened_ := false, current_size_bytes_ := 0,
        rotated_on_open_done_ := true } := by
    simp only [PatternSink.rotate_on_open_step_, hdone, hro, hB0, fs_exists, hc,
      PatternSink.pattern_rotate_by_size_chain_state cfg t hB]
    rfl
  have hchain1 := (read_chain_ (PatternSink.rotated_path_ cfg t.current_basename_)
    (PatternSink.current_base_path_ cfg t.current_basename_) cfg.max_files_ t.disk
    (PatternSink.pattern_rotated_path_ne cfg t) (PatternSink.pattern_base_path_ne_rotated_path cfg t) hB
    hf).1
  have hchain2 := (read_chain_ (PatternSink.rotated_path_ cfg t.current_basename_)
    (PatternSink.current_base_path_ cfg t.current_basename_) cfg.max_files_
    (fs_open_append
      (chain_ (PatternSink.rotated_path_ cfg t.current_basename_)
        (PatternSink.current_base_path_ cfg t.current_basename_) cfg.max_files_ t.disk)
      (PatternSink.current_base_path_ cfg t.current_basename_))
    (PatternSink.pattern_rotated_path_ne cfg t) (PatternSink.pattern_base_path_ne_rotated_path cfg t) hB
    (by simp [hf])).1
  have hcond : cfg.max_files_ > 0 ∧ 0 + (trim_size_ buf buf.length + 1) > cfg.max_size_bytes_ :=
    ⟨by omega, by omega⟩
  unfold PatternSink.sink_it_ PatternSink.before_write_
  rw [ht, e2]
  rw [PatternSink.pattern_ensure_opened_plain]
  · simp only [hchain1, Option.getD_none, List.length_nil]
    simp only [PatternSink.size_check_step_, hcond, and_self, if_true]
    rw [PatternSink.pattern_rotate_by_size_chain_state cfg _ hB]
    rw [PatternSink.pattern_ensure_opened_plain]
    · simp [PatternSink.append_record_, hchain2]
    · rfl
    · exact hname
  · rfl
  · exact hname

/-- An oversized record into an empty current file of the per-day-directory
sink: one rename chain, the lazy open and the write. -/
theorem DirSink.dir_sink_it_oversized (cfg : DirSink.Config) (s t : DirSink.State)
    (today : String) (buf : List Char) (ht : DirSink.maybe_roll_day_ s today = t)
    (hB : 1 ≤ cfg.max_files_) (hf : t.disk.faults = []) (hS : 1 ≤ cfg.max_size_)
    (hname : '/' ∉ cfg.stem_.toList)
    (hstream :
      (t.file_ = none ∧ (t.disk.read (DirSink.base_path_ cfg t.current_date_) = none ∨
        t.disk.read (DirSink.base_path_ cfg t.current_date_) = some [])) ∨
      (t.file_ = some (DirSink.base_path_ cfg t.current_date_) ∧ t.opened_ = true ∧
        t.current_size_ = 0 ∧ t.disk.read (DirSink.base_path_ cfg t.current_date_) = some []))
    (hbig : cfg.max_size_ < trim_size_ buf buf.length + 1) :
    DirSink.sink_it_ cfg s today buf =
      { t with
        disk := write_record_
          (fs_open_append
            (chain_ (DirSink.rotated_path_ cfg t.current_date_)
              (DirSink.base_path_ cfg t.current_date_) cfg.max_files_ t.disk)
            (DirSink.base_path_ cfg t.current_date_))
          (some (DirSink.base_path_ cfg t.current_date_)) buf,
        file_ := some (DirSink.base_path_ cfg t.current_date_),
        current_size_ := trim_size_ buf buf.length + 1,
        opened_ := true, rotated_on_open_done_ := true } := by
  have hprobe : DirSink.probe_file_size_noopen_ t.disk
      (DirSink.base_path_ cfg t.current_date_) = 0 := by
    rw [DirSink.dir_probe_of_read]
    rcases hstream with ⟨_, h | h⟩ | ⟨_, _, _, h⟩ <;> simp [h]
  have e2 : DirSink.rotate_on_open_step_ cfg t = { t with rotated_on_open_done_ := true } := by
    cases hd : t.rotated_on_open_done_
    · simp [DirSink.rotate_on_open_step_, hd, hprobe]
    · simp only [DirSink.rotate_on_open_step_, hd]
      cases t
      simp_all
  have hS0 : cfg.max_size_ > 0 := by omega
  have hgt : 0 + (trim_size_ buf buf.length + 1) > cfg.max_size_ := by omega
  have e3 : DirSink.size_check_step_ cfg { t with rotated_on_open_done_ := true }
      (trim_size_ buf buf.length + 1) =
      { t with
        disk := chain_ (DirSink.rotated_path_ cfg t.current_date_)
          (DirSink.base_path_ cfg t.current_date_) cfg.max_files_ t.disk,
        file_ := none, opened_ := false, current_size_ := 0,
        rotated_on_open_done_ := true } := by
    rcases hstream with ⟨hn, _⟩ | ⟨hfile, hop, hsz, _⟩
    · have hno : ¬ ((t.opened_ && t.file_.isSome) = true) := by simp [hn]
      simp only [DirSink.size_check_step_, hS0, if_true, hno, if_false, hprobe, hgt]
      simp [DirSink.dir_rotate_files_state cfg _ hB]
    · have hyes : (t.opened_ && t.file_.isSome) = true := by simp [hfile, hop]
      simp only [DirSink.size_check_step_, hS0, if_true, hyes, hsz, hgt]
      simp [DirSink.dir_rotate_files_state cfg _ hB]
  have hchain := (read_chain_ (DirSink.rotated_path_ cfg t.current_date_)
    (DirSink.base_path_ cfg t.current_date_)
    cfg.max_files_ t.disk (DirSink.dir_rotated_path_ne cfg t)
    (DirSink.dir_base_path_ne_rotated_path cfg t) hB hf).1
  unfold DirSink.sink_it_ DirSink.before_write_
  rw [ht, e2, e3, DirSink.dir_ensure_opened_plain cfg _ rfl hname]
  simp [DirSink.append_record_, hchain]

/-- C5, amended: in the two size sinks with a rename chain (`max_files_ ≥ 1`, a
limit of at least one byte, a file name without a path separator, every call
succeeding), `pt` and `dt` being the members once the day-roll check of the
write is done: a write that finds the current file empty (of size 0, or not
yet created) and brings a record whose trimmed length plus one exceeds the
limit runs the rename chain of the size check exactly once and then appends
the record in full to a newly created current file.  The backups move up by
one slot and the oldest is dropped; in the pattern-named sink the empty
current file, created by the lazy open, becomes backup 1, in the
per-day-directory sink backup 1 is the former current file if there was one.
In the pattern-named sink with `rotate_on_open_`, when the step of
rotate-on-open is still due and the empty current file exists, the chain runs
twice, for rotate-on-open and for the size check: the backups move up by two
slots, the two oldest are dropped and the backups 1 and 2 are empty files. -/
theorem oversized_record_rotates_once
    (pcfg : PatternSink.Config) (ps pt : PatternSink.State) (tp : Int)
    (dcfg : DirSink.Config) (ds dt : DirSink.State) (today : String) (buf : List Char)
    (hpt : PatternSink.rotate_if_needed_by_time_ pcfg ps tp = pt)
    (hpB : 1 ≤ pcfg.max_files_) (hpf : pt.disk.faults = [])
    (hpname : '/' ∉ pt.current_basename_.toList)
    (hpstream :
      (pt.file_ = none ∧
        (pt.disk.read (PatternSink.current_base_path_ pcfg pt.current_basename_) = none ∨
          pt.disk.read (PatternSink.current_base_path_ pcfg pt.current_basename_) = some [])) ∨
      (pt.file_ = some (PatternSink.current_base_path_ pcfg pt.current_basename_) ∧
        pt.opened_ = true ∧ pt.current_size_bytes_ = 0 ∧
        pt.disk.read (PatternSink.current_base_path_ pcfg pt.current_basename_) = some []))
    (hpbig : pcfg.max_size_bytes_ < (trimmed buf).length + 1)
    (hdt : DirSink.maybe_roll_day_ ds today = dt)
    (hdB : 1 ≤ dcfg.max_files_) (hdf : dt.disk.faults = []) (hdS : 1 ≤ dcfg.max_size_)
    (hdname : '/' ∉ dcfg.stem_.toList)
    (hdstream :
      (dt.file_ = none ∧ (dt.disk.read (DirSink.base_path_ dcfg dt.current_date_) = none ∨
        dt.disk.read (DirSink.base_path_ dcfg dt.current_date_) = some [])) ∨
      (dt.file_ = some (DirSink.base_path_ dcfg dt.current_date_) ∧ dt.opened_ = true ∧
        dt.current_size_ = 0 ∧
        dt.disk.read (DirSink.base_path_ dcfg dt.current_date_) = some []))
    (hdbig : dcfg.max_size_ < (trimmed buf).length + 1) :
    ((pt.rotated_on_open_done_ = true ∨ pcfg.rotate_on_open_ = false ∨
        pt.disk.read (PatternSink.current_base_path_ pcfg pt.current_basename_) = none) →
      (PatternSink.sink_it_ pcfg ps tp buf).disk.read
        (PatternSink.current_base_path_ pcfg pt.current_basename_) = some (frame_ buf) ∧
      (PatternSink.sink_it_ pcfg ps tp buf).disk.read
        (PatternSink.rotated_path_ pcfg pt.current_basename_ 1) = some [] ∧
      (∀ i, 1 ≤ i → i < pcfg.max_files_ →
        (PatternSink.sink_it_ pcfg ps tp buf).disk.read
          (PatternSink.rotated_path_ pcfg pt.current_basename_ (i + 1)) =
        pt.disk.read (PatternSink.rotated_path_ pcfg pt.current_basename_ i)) ∧
      (∀ q, q ≠ PatternSink.current_base_path_ pcfg pt.current_basename_ →
        (∀ i, 1 ≤ i → i ≤ pcfg.max_files_ →
          q ≠ PatternSink.rotated_path_ pcfg pt.current_basename_ i) →
        (PatternSink.sink_it_ pcfg ps tp buf).disk.read q = pt.disk.read q) ∧
      (PatternSink.sink_it_ pcfg ps tp buf).disk.calls =
        (chain_ (PatternSink.rotated_path_ pcfg pt.current_basename_)
          (PatternSink.current_base_path_ pcfg pt.current_basename_) pcfg.max_files_
          (fs_open_append pt.disk
            (PatternSink.current_base_path_ pcfg pt.current_basename_))).calls) ∧
    ((pt.rotated_on_open_done_ = false ∧ pcfg.rotate_on_open_ = true ∧
        pt.disk.read (PatternSink.current_base_path_ pcfg pt.current_basename_) = some []) →
      (PatternSink.sink_it_ pcfg ps tp buf).disk.read
        (PatternSink.current_base_path_ pcfg pt.current_basename_) = some (frame_ buf) ∧
      (PatternSink.sink_it_ pcfg ps tp buf).disk.read
        (PatternSink.rotated_path_ pcfg pt.current_basename_ 1) = some [] ∧
      (2 ≤ pcfg.max_files_ →
        (PatternSink.sink_it_ pcfg ps tp buf).disk.read
          (PatternSink.rotated_path_ pcfg pt.current_basename_ 2) = some []) ∧
      (∀ i, 1 ≤ i → i + 2 ≤ pcfg.max_files_ →
        (PatternSink.sink_it_ pcfg ps tp buf).disk.read
          (PatternSink.rotated_path_ pcfg pt.current_basename_ (i + 2)) =
        pt.disk.read (PatternSink.rotated_path_ pcfg pt.current_basename_ i)) ∧
      (∀ q, q ≠ PatternSink.current_base_path_ pcfg pt.current_basename_ →
        (∀ i, 1 ≤ i → i ≤ pcfg.max_files_ →
          q ≠ PatternSink.rotated_path_ pcfg pt.current_basename_ i) →
        (PatternSink.sink_it_ pcfg ps tp buf).disk.read q = pt.disk.read q) ∧
      (PatternSink.sink_it_ pcfg ps tp buf).disk.calls =
        (chain_ (PatternSink.rotated_path_ pcfg pt.current_basename_)
          (PatternSink.current_base_path_ pcfg pt.current_basename_) pcfg.max_files_
          (fs_open_append
            (chain_ (PatternSink.rotated_path_ pcfg pt.current_basename_)
              (PatternSink.current_base_path_ pcfg pt.current_basename_) pcfg.max_files_
              pt.disk)
            (PatternSink.current_base_path_ pcfg pt.current_basename_))).calls) ∧
    ((DirSink.sink_it_ dcfg ds today buf).disk.read (DirSink.base_path_ dcfg dt.current_date_) =
        some (frame_ buf) ∧
      (DirSink.sink_it_ dcfg ds today buf).disk.read
        (DirSink.rotated_path_ dcfg dt.current_date_ 1) =
        dt.disk.read (DirSink.base_path_ dcfg dt.current_date_) ∧
      (∀ i, 1 ≤ i → i < dcfg.max_files_ →
        (DirSink.sink_it_ dcfg ds today buf).disk.read
          (DirSink.rotated_path_ dcfg dt.current_date_ (i + 1)) =
        dt.disk.read (DirSink.rotated_path_ dcfg dt.current_date_ i)) ∧
      (∀ q, q ≠ DirSink.base_path_ dcfg dt.current_date_ →
        (∀ i, 1 ≤ i → i ≤ dcfg.max_files_ → q ≠ DirSink.rotated_path_ dcfg dt.current_date_ i) →
        (DirSink.sink_it_ dcfg ds today buf).disk.read q = dt.disk.read q) ∧
      (DirSink.sink_it_ dcfg ds today buf).disk.calls =
        (chain_ (DirSink.rotated_path_ dcfg dt.current_date_)
          (DirSink.base_path_ dcfg dt.current_date_) dcfg.max_files_ dt.disk).calls) := by
  rw [trimmed_length] at hpbig hdbig
  have hne : ∀ i, ¬ PatternSink.rotated_path_ pcfg pt.current_basename_ i =
      PatternSink.current_base_path_ pcfg pt.current_basename_ :=
    fun i e => PatternSink.pattern_base_path_ne_rotated_path pcfg pt i e.symm
  refine ⟨?_, ?_, ?_⟩
  · intro hdone
    rw [PatternSink.pattern_sink_it_oversized pcfg ps pt tp buf hpt hpB hpf hpname hdone hpstream
      hpbig]
    have hbase0 : (fs_open_append pt.disk
        (PatternSink.current_base_path_ pcfg pt.current_basename_)).read
        (PatternSink.current_base_path_ pcfg pt.current_basename_) = some [] := by
      rw [read_fs_open_append]
      rcases hpstream with ⟨_, h | h⟩ | ⟨_, _, _, h⟩ <;> simp [h]
    obtain ⟨rbase, rone, rshift, rother⟩ :=
      read_chain_ (PatternSink.rotated_path_ pcfg pt.current_basename_)
        (PatternSink.current_base_path_ pcfg pt.current_basename_) pcfg.max_files_
        (fs_open_append pt.disk (PatternSink.current_base_path_ pcfg pt.current_basename_))
        (PatternSink.pattern_rotated_path_ne pcfg pt) (PatternSink.pattern_base_path_ne_rotated_path pcfg pt)
        hpB (by simp [hpf])
    refine ⟨?_, ?_, ?_, ?_, by simp⟩
    · simp only [read_write_record_, read_fs_open_append, if_true, rbase]
      simp
    · simp only [read_write_record_, read_fs_open_append, hne, if_false, rone, hbase0]
    · intro i h1 h2
      simp only [read_write_record_, read_fs_open_append, hne, if_false, rshift i h1 h2]
    · intro q hq hrot
      simp only [read_write_record_, read_fs_open_append, hq, if_false, rother q hq hrot]
  · rintro ⟨hdone, hro, hc⟩
    rw [PatternSink.pattern_sink_it_oversized_pending pcfg ps pt tp buf hpt hpB hpf hpname hdone
      hro hc hpbig]
    obtain ⟨abase, aone, ashift, aother⟩ :=
      read_chain_ (PatternSink.rotated_path_ pcfg pt.current_basename_)
        (PatternSink.current_base_path_ pcfg pt.current_basename_) pcfg.max_files_ pt.disk
        (PatternSink.pattern_rotated_path_ne pcfg pt) (PatternSink.pattern_base_path_ne_rotated_path pcfg pt)
        hpB hpf
    obtain ⟨rbase, rone, rshift, rother⟩ :=
      read_chain_ (PatternSink.rotated_path_ pcfg pt.current_basename_)
        (PatternSink.current_base_path_ pcfg pt.current_basename_) pcfg.max_files_
        (fs_open_append
          (chain_ (PatternSink.rotated_path_ pcfg pt.current_basename_)
            (PatternSink.current_base_path_ pcfg pt.current_basename_) pcfg.max_files_ pt.disk)
          (PatternSink.current_base_path_ pcfg pt.current_basename_))
        (PatternSink.pattern_rotated_path_ne pcfg pt) (PatternSink.pattern_base_path_ne_rotated_path pcfg pt)
        hpB (by simp [hpf])
    refine ⟨?_, ?_, ?_, ?_, ?_, by simp⟩
    · simp only [read_write_record_, read_fs_open_append, if_true, rbase]
      simp
    · simp only [read_write_record_, read_fs_open_append, hne, if_false, rone, if_true, abase]
      rfl
    · intro h2
      simp only [read_write_record_, read_fs_open_append, hne, if_false,
        rshift 1 (le_refl 1) (by omega), aone, hc]
    · intro i h1 h2
      simp only [read_write_record_, read_fs_open_append, hne, if_false]
      rw [show i + 2 = (i + 1) + 1 from rfl, rshift (i + 1) (by omega) (by omega),
        read_fs_open_append, if_neg (hne _), ashift i h1 (by omega)]
    · intro q hq hrot
      simp only [read_write_record_, read_fs_open_append, hq, if_false, rother q hq hrot,
        aother q hq hrot]
  · rw [DirSink.dir_sink_it_oversized dcfg ds dt today buf hdt hdB hdf hdS hdname hdstream hdbig]
    obtain ⟨rbase, rone, rshift, rother⟩ :=
      read_chain_ (DirSink.rotated_path_ dcfg dt.current_date_)
        (DirSink.base_path_ dcfg dt.current_date_) dcfg.max_files_ dt.disk
        (DirSink.dir_rotated_path_ne dcfg dt) (DirSink.dir_base_path_ne_rotated_path dcfg dt) hdB hdf
    have hne : ∀ i, ¬ DirSink.rotated_path_ dcfg dt.current_date_ i =
        DirSink.base_path_ dcfg dt.current_date_ :=
      fun i e => DirSink.dir_base_path_ne_rotated_path dcfg dt i e.symm
    refine ⟨?_, ?_, ?_, ?_, by simp⟩
    · simp only [read_write_record_, read_fs_open_append, if_true, rbase]
      simp
    · simp only [read_write_record_, read_fs_open_append, hne, if_false, rone]
    · intro i h1 h2
      simp only [read_write_record_, read_fs_open_append, hne, if_false, rshift i h1 h2]
    · intro q hq hrot
      simp only [read_write_record_, read_fs_open_append, hq, if_false, rother q hq hrot]

/-- C5, amended, at the scenario of the specification: a limit of 100 bytes,
one backup, one record of 500 bytes written by a fresh sink. -/
theorem oversized_record_rotates_once_witness :
    (1 ≤ PatternSink.demo_cfg.max_files_ ∧
      '/' ∉ (PatternSink.init PatternSink.demo_cfg Disk.fresh 0).current_basename_.toList ∧
      PatternSink.demo_cfg.max_size_bytes_ < (trimmed PatternSink.big_record).length + 1 ∧
      1 ≤ DirSink.demo_cfg.max_files_ ∧ 1 ≤ DirSink.demo_cfg.max_size_ ∧
      '/' ∉ DirSink.demo_cfg.stem_.toList ∧
      DirSink.demo_cfg.max_size_ < (trimmed PatternSink.big_record).length + 1) ∧
    ((PatternSink.sink_it_ PatternSink.demo_cfg (PatternSink.init PatternSink.demo_cfg Disk.fresh 0)
        1 PatternSink.big_record).disk.read "logs/app_2026-01-30.log" =
        some (frame_ PatternSink.big_record) ∧
      (PatternSink.sink_it_ PatternSink.demo_cfg (PatternSink.init PatternSink.demo_cfg Disk.fresh 0)
        1 PatternSink.big_record).disk.read "logs/app_2026-01-30.1.log" = some [] ∧
      (DirSink.sink_it_ DirSink.demo_cfg (DirSink.init Disk.fresh "2026-01-30") "2026-01-30"
        PatternSink.big_record).disk.read "logs/2026-01-30/app.log" =
        some (frame_ PatternSink.big_record) ∧
      (DirSink.sink_it_ DirSink.demo_cfg (DirSink.init Disk.fresh "2026-01-30") "2026-01-30"
        PatternSink.big_record).disk.read "logs/2026-01-30/app.1.log" = none) := by
  have hbig : PatternSink.demo_cfg.max_size_bytes_ <
      (trimmed PatternSink.big_record).length + 1 := by decide
  have hbig2 : DirSink.demo_cfg.max_size_ < (trimmed PatternSink.big_record).length + 1 := by
    decide
  have hn1 : '/' ∉ (PatternSink.init PatternSink.demo_cfg Disk.fresh 0).current_basename_.toList := by
    decide
  have hn2 : '/' ∉ DirSink.demo_cfg.stem_.toList := by decide
  obtain ⟨p, _, ⟨d1, d2, _, _, _⟩⟩ :=
    oversized_record_rotates_once PatternSink.demo_cfg
      (PatternSink.init PatternSink.demo_cfg Disk.fresh 0)
      (PatternSink.init PatternSink.demo_cfg Disk.fresh 0) 1
      DirSink.demo_cfg (DirSink.init Disk.fresh "2026-01-30") (DirSink.init Disk.fresh "2026-01-30")
      "2026-01-30" PatternSink.big_record (by decide) (by decide) rfl hn1
      (Or.inl ⟨rfl, Or.inl rfl⟩) hbig
      (by decide) (by decide) rfl (by decide) hn2 (Or.inl ⟨rfl, Or.inl rfl⟩) hbig2
  obtain ⟨p1, p2, _, _, _⟩ := p (Or.inr (Or.inl rfl))
  exact ⟨⟨by decide, hn1, hbig, by decide, by decide, hn2, hbig2⟩, p1, p2, d1, d2⟩

/-- C5 fails as stated.  At its own scenario (limit 100 bytes, one backup, one
record of 500 bytes, a fresh pattern-named sink on an empty directory) the
write issues two removes and a rename, and the empty current file ends as
backup 1.  When a backup exists beforehand, the same write replaces its
content by that empty file in the pattern-named sink, and deletes it in the
per-day-directory sink. -/
theorem oversized_record_triggers_rotation :
    ((PatternSink.sink_it_ PatternSink.demo_cfg (PatternSink.init PatternSink.demo_cfg Disk.fresh 0)
        1 PatternSink.big_record).disk.calls =
        [FsCall.remove "logs/app_2026-01-30.1.log", FsCall.remove "logs/app_2026-01-30.1.log",
          FsCall.rename "logs/app_2026-01-30.log" "logs/app_2026-01-30.1.log"] ∧
      (PatternSink.sink_it_ PatternSink.demo_cfg (PatternSink.init PatternSink.demo_cfg Disk.fresh 0)
        1 PatternSink.big_record).disk.read "logs/app_2026-01-30.1.log" = some []) ∧
    (PatternSink.backup_only.read "logs/app_2026-01-30.1.log" = some "old\n".toList ∧
      (PatternSink.sink_it_ PatternSink.demo_cfg
        (PatternSink.init PatternSink.demo_cfg PatternSink.backup_only 0)
        1 PatternSink.big_record).disk.read "logs/app_2026-01-30.1.log" = some []) ∧
    (DirSink.backup_only.read "logs/2026-01-30/app.1.log" = some "old\n".toList ∧
      (DirSink.sink_it_ DirSink.demo_cfg (DirSink.init DirSink.backup_only "2026-01-30")
        "2026-01-30" PatternSink.big_record).disk.read "logs/2026-01-30/app.1.log" = none ∧
      (DirSink.sink_it_ DirSink.demo_cfg (DirSink.init DirSink.backup_only "2026-01-30")
        "2026-01-30" PatternSink.big_record).disk.calls =
        [FsCall.remove "logs/2026-01-30/app.1.log"]) := by
  decide

end CustomSink

/-! ## No backups: unlimited append (C10) -/

namespace CustomSink

namespace CountSink

end CountSink

namespace PatternSink

theorem pattern_zero_ensure_opened_ (cfg : Config) (s : State) (h : StreamOk cfg s)
    (hname : '/' ∉ s.current_basename_.toList) :
    (ensure_opened_for_write_ cfg s).disk =
      fs_open_append s.disk (current_base_path_ cfg s.current_basename_) ∧
    (ensure_opened_for_write_ cfg s).file_ = some (current_base_path_ cfg s.current_basename_) ∧
    (ensure_opened_for_write_ cfg s).current_basename_ = s.current_basename_ ∧
    (ensure_opened_for_write_ cfg s).next_rotation_ = s.next_rotation_ := by
  rcases h with h | ⟨hfile, c, hc⟩
  · rw [pattern_ensure_opened_plain cfg s h hname]
    exact ⟨rfl, rfl, rfl, rfl⟩
  · unfold ensure_opened_for_write_
    split
    · exact ⟨(fs_open_append_of_exists _ _ c hc).symm, hfile, rfl, rfl⟩
    · simp [hfile, fs_open_append_of_exists _ _ c hc]

end PatternSink

end CustomSink

/-! ## Lines per record (C9) -/

namespace CustomSink

/-- C9, amended: for every payload whose trimmed bytes contain no newline, the
bytes one write appends contain exactly one `'\n'`, their last byte, so the
write adds exactly one newline-ended line to the file of an open stream.  For
an arbitrary payload the bytes appended end with `'\n'` and contain one
newline more than the trimmed payload. -/
theorem one_record_one_line (buf : List Char) :
    (frame_ buf).getLast? = some '\n' ∧
    (frame_ buf).count '\n' = (trimmed buf).count '\n' + 1 ∧
    ('\n' ∉ trimmed buf →
      (frame_ buf).count '\n' = 1 ∧ '\n' ∉ (frame_ buf).dropLast ∧
      ∀ (s : CountSink.State) (p : String) (c : List Char),
        s.file_ = some p → s.disk.read p = some c →
        (CountSink.append_record_ s buf).disk.read p = some (c ++ frame_ buf) ∧
        (c ++ frame_ buf).count '\n' = c.count '\n' + 1 ∧
        lines_of (c ++ frame_ buf) = c.count '\n' + 1) := by
  refine ⟨frame_last buf, frame_count buf, fun hnl => ⟨?_, ?_, ?_⟩⟩
  · rw [frame_count, List.count_eq_zero.2 hnl]
  · simpa [frame_] using hnl
  · intro s p c hfile hc
    refine ⟨?_, ?_, ?_⟩
    · simp only [CountSink.append_record_, hfile, read_write_record_, if_true, hc,
        Option.map_some']
    · rw [List.count_append, frame_count, List.count_eq_zero.2 hnl]
    · rw [lines_of_append_frame, List.count_eq_zero.2 hnl]

/-- C9, amended, on the payload `"b\r\n"` written after one line. -/
theorem one_record_one_line_witness :
    '\n' ∉ trimmed "b\r\n".toList ∧ (frame_ "b\r\n".toList).count '\n' = 1 :=
  ⟨by decide, ((one_record_one_line "b\r\n".toList).2.2 (by decide)).1⟩

/-- C9 fails as stated: only a suffix of line ends is trimmed, so the payload
`"a\nb"` is written as `"a\nb\n"`, two newlines and two lines, by one write of
the count sink into an empty directory. -/
theorem record_with_inner_newline_two_lines :
    (frame_ "a\nb".toList).count '\n' = 2 ∧
    (CountSink.sink_it_ CountSink.scenario_cfg (CountSink.init Disk.fresh) "a\nb".toList).disk.read
      "logs/app.log" = some "a\nb\n".toList ∧
    lines_of "a\nb\n".toList = 2 := by
  decide

end CustomSink

/-! ## The pattern-named sink rotates only before the write (C11) -/

namespace CustomSink.PatternSink

theorem streamOk_rotate_if_needed_by_time_ (cfg : Config) (s : State) (tp : Int)
    (h : StreamOk cfg s) : StreamOk cfg (rotate_if_needed_by_time_ cfg s tp) := by
  unfold rotate_if_needed_by_time_
  split
  · exact h
  · exact Or.inl rfl

theorem streamOk_rotate_by_size_chain_ (cfg : Config) (s : State) (h : StreamOk cfg s) :
    StreamOk cfg (rotate_by_size_chain_ cfg s) := by
  unfold rotate_by_size_chain_
  split
  · exact h
  · exact Or.inl rfl

theorem streamOk_rotate_on_open_step_ (cfg : Config) (s : State) (h : StreamOk cfg s) :
    StreamOk cfg (rotate_on_open_step_ cfg s) := by
  unfold rotate_on_open_step_
  split
  · dsimp only
    split
    · have h2 := streamOk_rotate_by_size_chain_ cfg s h
      rcases h2 with h2 | ⟨h2, c, hc⟩
      · exact Or.inl h2
      · exact Or.inr ⟨h2, c, hc⟩
    · exact h
  · exact h

/-- The lazy open leaves the stream closed, or attached to the current file,
which exists. -/
theorem streamOk_ensure_opened_ (cfg : Config) (s : State) (h : StreamOk cfg s) :
    StreamOk cfg (ensure_opened_for_write_ cfg s) := by
  rcases h with h | ⟨hfile, c, hc⟩
  · cases hok : fs_can_open s.disk cfg.dir_ (s.current_basename_ ++ extension_) with
    | false =>
      rw [pattern_ensure_opened_failed cfg s h hok]
      exact Or.inl h
    | true =>
      rw [pattern_ensure_opened_closed cfg s h hok]
      refine Or.inr ⟨rfl, (s.disk.read (current_base_path_ cfg s.current_basename_)).getD [], ?_⟩
      show (fs_open_append _ _).read _ = _
      rw [read_fs_open_append]
      simp
  · have e : ensure_opened_for_write_ cfg s = s ∨
        ensure_opened_for_write_ cfg s =
          { s with opened_ := true,
                   current_size_bytes_ :=
                     if fs_exists s.disk (current_base_path_ cfg s.current_basename_)
                     then fs_file_size s.disk (current_base_path_ cfg s.current_basename_)
                     else 0 } := by
      unfold ensure_opened_for_write_
      split
      · exact Or.inl rfl
      · right
        simp [hfile]
    rcases e with e | e <;> rw [e] <;> exact Or.inr ⟨hfile, c, hc⟩

theorem streamOk_size_check_step_ (cfg : Config) (s : State) (w : Nat) (h : StreamOk cfg s) :
    StreamOk cfg (size_check_step_ cfg s w) := by
  unfold size_check_step_
  split
  · exact streamOk_ensure_opened_ cfg _ (streamOk_rotate_by_size_chain_ cfg s h)
  · exact h

theorem streamOk_before_write_ (cfg : Config) (s : State) (tp : Int) (w : Nat)
    (h : StreamOk cfg s) : StreamOk cfg (before_write_ cfg s tp w) :=
  streamOk_size_check_step_ cfg _ w (streamOk_ensure_opened_ cfg _
    (streamOk_rotate_on_open_step_ cfg _ (streamOk_rotate_if_needed_by_time_ cfg s tp h)))

/-- After the lazy open of a file whose base name holds no separator the stream
is attached to the current file, which exists. -/
theorem opened_ensure_opened_ (cfg : Config) (s : State) (h : StreamOk cfg s)
    (hname : '/' ∉ s.current_basename_.toList) :
    (ensure_opened_for_write_ cfg s).file_ =
      some (current_base_path_ cfg (ensure_opened_for_write_ cfg s).current_basename_) ∧
    ∃ c, (ensure_opened_for_write_ cfg s).disk.read
      (current_base_path_ cfg (ensure_opened_for_write_ cfg s).current_basename_) = some c := by
  obtain ⟨hd, hf, hb, _⟩ := pattern_zero_ensure_opened_ cfg s h hname
  rw [hb, hf, hd, read_fs_open_append]
  exact ⟨rfl, (s.disk.read (current_base_path_ cfg s.current_basename_)).getD [], by simp⟩

theorem opened_size_check_step_ (cfg : Config) (s : State) (w : Nat)
    (hname : '/' ∉ s.current_basename_.toList)
    (hfile : s.file_ = some (current_base_path_ cfg s.current_basename_))
    (hex : ∃ c, s.disk.read (current_base_path_ cfg s.current_basename_) = some c) :
    (size_check_step_ cfg s w).file_ =
      some (current_base_path_ cfg (size_check_step_ cfg s w).current_basename_) ∧
    ∃ c, (size_check_step_ cfg s w).disk.read
      (current_base_path_ cfg (size_check_step_ cfg s w).current_basename_) = some c := by
  unfold size_check_step_
  split
  · exact opened_ensure_opened_ cfg _ (streamOk_rotate_by_size_chain_ cfg s (Or.inr ⟨hfile, hex⟩))
      (by rw [rotate_by_size_chain_basename]; exact hname)
  · exact ⟨hfile, hex⟩

theorem ensure_opened_basename (cfg : Config) (s : State) :
    (ensure_opened_for_write_ cfg s).current_basename_ = s.current_basename_ := by
  unfold ensure_opened_for_write_
  split <;> rfl

theorem rotate_on_open_step_basename (cfg : Config) (s : State) :
    (rotate_on_open_step_ cfg s).current_basename_ = s.current_basename_ := by
  unfold rotate_on_open_step_
  split
  · dsimp only
    split
    · exact rotate_by_size_chain_basename cfg s
    · rfl
  · rfl

theorem size_check_step_basename (cfg : Config) (s : State) (w : Nat) :
    (size_check_step_ cfg s w).current_basename_ = s.current_basename_ := by
  unfold size_check_step_
  split
  · rw [ensure_opened_basename, rotate_by_size_chain_basename]
  · rfl

/-- The base name after a write is the one the day-roll check leaves. -/
theorem sink_it_basename (cfg : Config) (s : State) (tp : Int) (buf : List Char) :
    (sink_it_ cfg s tp buf).current_basename_ =
      if tp < s.next_rotation_ then s.current_basename_ else cfg.make_basename_for_tp_ tp := by
  have h : (sink_it_ cfg s tp buf).current_basename_ =
      (rotate_if_needed_by_time_ cfg s tp).current_basename_ := by
    show (size_check_step_ cfg (ensure_opened_for_write_ cfg (rotate_on_open_step_ cfg
      (rotate_if_needed_by_time_ cfg s tp))) (trim_size_ buf buf.length + 1)).current_basename_ = _
    rw [size_check_step_basename, ensure_opened_basename, rotate_on_open_step_basename]
  rw [h]
  unfold rotate_if_needed_by_time_
  split <;> rfl

/-- Before the write the stream is attached to the current file, which exists,
provided the base name of the write holds no separator. -/
theorem opened_before_write_ (cfg : Config) (s : State) (tp : Int) (w : Nat)
    (h : StreamOk cfg s)
    (hname : '/' ∉ (rotate_if_needed_by_time_ cfg s tp).current_basename_.toList) :
    (before_write_ cfg s tp w).file_ =
      some (current_base_path_ cfg (before_write_ cfg s tp w).current_basename_) ∧
    ∃ c, (before_write_ cfg s tp w).disk.read
      (current_base_path_ cfg (before_write_ cfg s tp w).current_basename_) = some c := by
  have h1 := streamOk_rotate_on_open_step_ cfg _ (streamOk_rotate_if_needed_by_time_ cfg s tp h)
  have hn1 : '/' ∉ (rotate_on_open_step_ cfg
      (rotate_if_needed_by_time_ cfg s tp)).current_basename_.toList := by
    rw [rotate_on_open_step_basename]; exact hname
  obtain ⟨h2, h3⟩ := opened_ensure_opened_ cfg _ h1 hn1
  exact opened_size_check_step_ cfg _ w (by rw [ensure_opened_basename]; exact hn1) h2 h3

/-- C11, amended: in the pattern-named size sink, for every state whose stream
is closed or attached to the existing current file (so is every state a sink
goes through), every time and every payload: no remove or rename call is
issued after the record has been handed to the stream (the calls are those
made before the write), whether or not a call fails, and the stream is again
closed or attached to the existing current file.  When the base name of the
write holds no path separator, the stream is attached to the no-suffix current
file when `sink_it_` returns, and that file exists and ends with the trimmed
record followed by one newline. -/
theorem size_rotation_only_before_write (cfg : Config) (s : State) (tp : Int)
    (buf : List Char) (h : StreamOk cfg s) :
    (sink_it_ cfg s tp buf).disk.calls =
      (before_write_ cfg s tp ((trimmed buf).length + 1)).disk.calls ∧
    StreamOk cfg (sink_it_ cfg s tp buf) ∧
    ('/' ∉ (sink_it_ cfg s tp buf).current_basename_.toList →
      (sink_it_ cfg s tp buf).file_ =
        some (current_base_path_ cfg (sink_it_ cfg s tp buf).current_basename_) ∧
      ∃ c, (sink_it_ cfg s tp buf).disk.read
        (current_base_path_ cfg (sink_it_ cfg s tp buf).current_basename_) =
          some (c ++ (trimmed buf ++ ['\n']))) := by
  rw [trimmed_length]
  have hb : (sink_it_ cfg s tp buf).current_basename_ =
      (before_write_ cfg s tp (trim_size_ buf buf.length + 1)).current_basename_ := rfl
  have hfile : (sink_it_ cfg s tp buf).file_ =
      (before_write_ cfg s tp (trim_size_ buf buf.length + 1)).file_ := rfl
  have hok := streamOk_before_write_ cfg s tp (trim_size_ buf buf.length + 1) h
  refine ⟨by simp [sink_it_, append_record_], ?_, ?_⟩
  · rcases hok with hn | ⟨hf, c, hc⟩
    · exact Or.inl (by rw [hfile, hn])
    · refine Or.inr ⟨by rw [hfile, hb, hf], c ++ (trimmed buf ++ ['\n']), ?_⟩
      rw [hb]
      simp only [sink_it_, append_record_, hf, read_write_record_, if_true, hc, Option.map_some']
      rfl
  · intro hname
    have hname2 : '/' ∉ (rotate_if_needed_by_time_ cfg s tp).current_basename_.toList := by
      have e : (sink_it_ cfg s tp buf).current_basename_ =
          (rotate_if_needed_by_time_ cfg s tp).current_basename_ := by
        show (size_check_step_ cfg (ensure_opened_for_write_ cfg (rotate_on_open_step_ cfg
          (rotate_if_needed_by_time_ cfg s tp))) (trim_size_ buf buf.length + 1)).current_basename_ = _
        rw [size_check_step_basename, ensure_opened_basename, rotate_on_open_step_basename]
      rw [← e]; exact hname
    obtain ⟨hf, c, hc⟩ := opened_before_write_ cfg s tp (trim_size_ buf buf.length + 1) h hname2
    refine ⟨by rw [hfile, hb, hf], c, ?_⟩
    rw [hb]
    simp only [sink_it_, append_record_, hf, read_write_record_, if_true, hc, Option.map_some']
    rfl

/-- C11 on the first write of the demo sink. -/
theorem size_rotation_only_before_write_witness :
    StreamOk demo_cfg (init demo_cfg Disk.fresh 0) ∧
    (sink_it_ demo_cfg (init demo_cfg Disk.fresh 0) 1 "small".toList).file_ =
      some "logs/app_2026-01-30.log" := by
  have h : StreamOk demo_cfg (init demo_cfg Disk.fresh 0) := Or.inl rfl
  exact ⟨h, ((size_rotation_only_before_write demo_cfg _ 1 "small".toList h).2.2 (by decide)).1⟩

/-- C11 as stated fails: with the date format `yyyy/MM/dd` the base name is
`app_2026/01/30`, a file of a directory that nothing creates.  After a write
of a sink constructed over an empty tree the stream is closed and the current
file `logs/app_2026/01/30.log` does not exist. -/
theorem current_file_missing_after_write :
    (sink_it_ (config_of utc slash_args) (init (config_of utc slash_args) Disk.fresh t_0200)
      t_0200 "a".toList).current_basename_ = "app_2026/01/30" ∧
    (sink_it_ (config_of utc slash_args) (init (config_of utc slash_args) Disk.fresh t_0200)
      t_0200 "a".toList).file_ = none ∧
    (sink_it_ (config_of utc slash_args) (init (config_of utc slash_args) Disk.fresh t_0200)
      t_0200 "a".toList).disk.read "logs/app_2026/01/30.log" = none ∧
    (sink_it_ { config_of utc slash_args with max_files_ := 1 }
      (init { config_of utc slash_args with max_files_ := 1 } Disk.fresh t_0200)
      t_0200 "a".toList).disk.entries = [] := by
  refine ⟨by decide, by decide, by decide, by decide⟩

end CustomSink.PatternSink

/-! ## The count sink: where the last record is (C12), rotate-on-open (C13) -/

namespace CustomSink.CountSink

theorem adjust_cases (cfg : Config) (s : State) :
    ((adjust_for_strict_on_open_ cfg s).file_ = s.file_ ∧
      (adjust_for_strict_on_open_ cfg s).disk = s.disk) ∨
    (adjust_for_strict_on_open_ cfg s).file_ = none := by
  unfold adjust_for_strict_on_open_
  split
  · exact Or.inl ⟨rfl, rfl⟩
  · split
    · exact Or.inl ⟨rfl, rfl⟩
    · dsimp only
      split
      · exact Or.inr (by simp)
      · exact Or.inl ⟨rfl, rfl⟩

@[simp] theorem adjust_faults (cfg : Config) (s : State) :
    (adjust_for_strict_on_open_ cfg s).disk.faults = s.disk.faults := by
  unfold adjust_for_strict_on_open_
  split
  · rfl
  · split
    · rfl
    · dsimp only
      split
      · simp
      · rfl

@[simp] theorem adjust_done (cfg : Config) (s : State) :
    (adjust_for_strict_on_open_ cfg s).rotated_on_open_done_ = s.rotated_on_open_done_ := by
  unfold adjust_for_strict_on_open_
  split
  · rfl
  · split
    · rfl
    · dsimp only
      split
      · simp
      · rfl

@[simp] theorem ensure_opened_faults (cfg : Config) (s : State) :
    (ensure_opened_for_write_ cfg s).disk.faults = s.disk.faults := by
  unfold ensure_opened_for_write_
  split
  · rfl
  · dsimp only
    split <;> simp

@[simp] theorem ensure_opened_done (cfg : Config) (s : State) :
    (ensure_opened_for_write_ cfg s).rotated_on_open_done_ = s.rotated_on_open_done_ := by
  unfold ensure_opened_for_write_
  split
  · rfl
  · dsimp only
    split <;> simp

@[simp] theorem before_write_faults (cfg : Config) (s : State) :
    (before_write_ cfg s).disk.faults = s.disk.faults := by
  have h1 : (rotate_on_open_step_ cfg s).disk.faults = s.disk.faults := by
    unfold rotate_on_open_step_
    split
    · dsimp only
      split <;> simp
    · rfl
  have h2 : ∀ t : State, (check_before_open_ cfg t).disk.faults = t.disk.faults := by
    intro t
    unfold check_before_open_
    split
    · split <;> simp
    · rfl
  have h4 : ∀ t : State, (check_after_open_ cfg t).disk.faults = t.disk.faults := by
    intro t
    unfold check_after_open_
    split
    · simp
    · rfl
  unfold before_write_
  rw [h4, ensure_opened_faults, h2, h1]

theorem before_write_done (cfg : Config) (s : State) :
    (before_write_ cfg s).rotated_on_open_done_ = true := by
  have h1 : (rotate_on_open_step_ cfg s).rotated_on_open_done_ = true := by
    unfold rotate_on_open_step_
    split
    · rfl
    · rename_i h
      simpa using h
  have h2 : ∀ t : State, (check_before_open_ cfg t).rotated_on_open_done_ =
      t.rotated_on_open_done_ := by
    intro t
    unfold check_before_open_
    split
    · split <;> simp
    · rfl
  have h4 : ∀ t : State, (check_after_open_ cfg t).rotated_on_open_done_ =
      t.rotated_on_open_done_ := by
    intro t
    unfold check_after_open_
    split
    · simp
    · rfl
  unfold before_write_
  rw [h4, ensure_opened_done, h2, h1]

theorem sink_it_done (cfg : Config) (s : State) (buf : List Char) :
    (sink_it_ cfg s buf).rotated_on_open_done_ = true := by
  have h := before_write_done cfg s
  unfold sink_it_ after_write_
  split
  · simpa [append_record_] using h
  · simpa [append_record_] using h

/-- After the lazy open the stream is attached to the current file, which exists. -/
theorem opened_ensure_opened_for_write_ (cfg : Config) (s : State) (h : StreamOk cfg s) :
    (ensure_opened_for_write_ cfg s).file_ = some (base_path_ cfg) ∧
    ∃ c, (ensure_opened_for_write_ cfg s).disk.read (base_path_ cfg) = some c := by
  have hadj := adjust_cases cfg s
  unfold ensure_opened_for_write_
  split
  · rename_i hopen
    rcases h with h | ⟨hfile, c, hc⟩
    · simp [h] at hopen
    · exact ⟨hfile, c, hc⟩
  · dsimp only
    split
    · rename_i q hq
      rcases hadj with ⟨e1, e2⟩ | e
      · rcases h with h | ⟨hfile, c, hc⟩
        · rw [e1, h] at hq; exact absurd hq (by simp)
        · refine ⟨?_, c, ?_⟩
          · show (adjust_for_strict_on_open_ cfg s).file_ = _
            rw [e1, hfile]
          · show (adjust_for_strict_on_open_ cfg s).disk.read _ = _
            rw [e2, hc]
      · rw [e] at hq; exact absurd hq (by simp)
    · refine ⟨rfl, (((adjust_for_strict_on_open_ cfg s).disk.read (base_path_ cfg)).getD []), ?_⟩
      show (fs_open_append _ _).read _ = _
      rw [read_fs_open_append]; simp

theorem opened_before_write_count (cfg : Config) (s : State) (h : StreamOk cfg s) :
    (before_write_ cfg s).file_ = some (base_path_ cfg) ∧
    ∃ c, (before_write_ cfg s).disk.read (base_path_ cfg) = some c := by
  have h1 : StreamOk cfg (rotate_on_open_step_ cfg s) := by
    unfold rotate_on_open_step_
    split
    · dsimp only
      split
      · exact Or.inl (by simp)
      · exact h
    · exact h
  have h2 : StreamOk cfg (check_before_open_ cfg (rotate_on_open_step_ cfg s)) := by
    unfold check_before_open_
    split
    · split
      · exact Or.inr (opened_ensure_opened_for_write_ cfg _ (Or.inl (by simp)))
      · exact h1
    · exact h1
  have h3 := opened_ensure_opened_for_write_ cfg _ h2
  unfold before_write_ check_after_open_
  split
  · exact opened_ensure_opened_for_write_ cfg _ (Or.inl (by simp))
  · exact h3

/-- C12, amended: in the count sink with `max_files_ ≥ 1` and every call
succeeding, after every write the record just written is the last line of
`stem.log` when the write leaves the entry counter below `max_count_`; when
the write brings the counter to `max_count_`, the check after the write has
renamed the full file, so `stem.log` does not exist (until the next write) and
the record just written is the last line of `stem.1.log`. -/
theorem last_record_current_or_first_backup (cfg : Config) (s : State) (buf : List Char)
    (hB : 1 ≤ cfg.max_files_) (hf : s.disk.faults = []) (h : StreamOk cfg s) :
    ((before_write_ cfg s).log_count_ + 1 < cfg.max_count_ →
      ∃ c, (sink_it_ cfg s buf).disk.read (base_path_ cfg) =
        some (c ++ (trimmed buf ++ ['\n']))) ∧
    (cfg.max_count_ ≤ (before_write_ cfg s).log_count_ + 1 →
      (sink_it_ cfg s buf).disk.read (base_path_ cfg) = none ∧
      ∃ c, (sink_it_ cfg s buf).disk.read (rotated_path_ cfg 1) =
        some (c ++ (trimmed buf ++ ['\n']))) := by
  obtain ⟨hfile, c, hc⟩ := opened_before_write_count cfg s h
  have hread : (append_record_ (before_write_ cfg s) buf).disk.read (base_path_ cfg) =
      some (c ++ (trimmed buf ++ ['\n'])) := by
    simp only [append_record_, hfile, read_write_record_, if_true, hc, Option.map_some']
    rfl
  have hcnt : (append_record_ (before_write_ cfg s) buf).log_count_ =
      (before_write_ cfg s).log_count_ + 1 := rfl
  constructor
  · intro hlt
    have hno : ¬ cfg.max_count_ ≤ (append_record_ (before_write_ cfg s) buf).log_count_ := by
      rw [hcnt]; omega
    refine ⟨c, ?_⟩
    simp only [sink_it_, after_write_, ge_iff_le, hno, if_false]
    exact hread
  · intro hge
    have hyes : cfg.max_count_ ≤ (append_record_ (before_write_ cfg s) buf).log_count_ := by
      rw [hcnt]; exact hge
    have hfa : (append_record_ (before_write_ cfg s) buf).disk.faults = [] := by
      simp [append_record_, hf]
    obtain ⟨rbase, rone, _, _⟩ := rotate_files_shift cfg _ hB hfa
    simp only [sink_it_, after_write_, ge_iff_le, hyes, if_true]
    exact ⟨rbase, c, by rw [rone, hread]⟩

/-- C12, amended, at the third write of the scenario, which fills the file. -/
theorem last_record_current_or_first_backup_witness :
    (1 ≤ scenario_cfg.max_files_ ∧
      (run scenario_cfg (init Disk.fresh) ["A".toList, "B".toList]).disk.faults = [] ∧
      StreamOk scenario_cfg (run scenario_cfg (init Disk.fresh) ["A".toList, "B".toList]) ∧
      scenario_cfg.max_count_ ≤
        (before_write_ scenario_cfg
          (run scenario_cfg (init Disk.fresh) ["A".toList, "B".toList])).log_count_ + 1) ∧
    (sink_it_ scenario_cfg (run scenario_cfg (init Disk.fresh) ["A".toList, "B".toList])
      "C".toList).disk.read (base_path_ scenario_cfg) = none := by
  have hs : StreamOk scenario_cfg (run scenario_cfg (init Disk.fresh) ["A".toList, "B".toList]) :=
    Or.inr ⟨by decide, "A\nB\n".toList, by decide⟩
  have hge : scenario_cfg.max_count_ ≤
      (before_write_ scenario_cfg
        (run scenario_cfg (init Disk.fresh) ["A".toList, "B".toList])).log_count_ + 1 := by
    decide
  exact ⟨⟨by decide, by decide, hs, hge⟩,
    ((last_record_current_or_first_backup scenario_cfg _ "C".toList (by decide) (by decide)
      hs).2 hge).1⟩

/-- C12 fails as stated: with three records per file and two backups, after
the third write `stem.log` does not exist; the three records are in
`stem.1.log`. -/
theorem current_file_absent_after_full_block :
    (run scenario_cfg (init Disk.fresh) ["A".toList, "B".toList, "C".toList]).disk.read
      "logs/app.log" = none ∧
    (run scenario_cfg (init Disk.fresh) ["A".toList, "B".toList, "C".toList]).disk.read
      "logs/app.1.log" = some "A\nB\nC\n".toList := by
  decide

theorem rotate_on_open_step_done (cfg : Config) (t : State)
    (h : t.rotated_on_open_done_ = true) : rotate_on_open_step_ cfg t = t := by
  simp [rotate_on_open_step_, h]

/-- The first write of a new sink with `rotate_on_open_` over an existing
current file. -/
theorem sink_it_rotate_on_open (cfg : Config) (d : Disk) (x buf : List Char)
    (hro : cfg.rotate_on_open_ = true) (hB : 1 ≤ cfg.max_files_) (hN : 2 ≤ cfg.max_count_)
    (hf : d.faults = []) (hx : d.read (base_path_ cfg) = some x) :
    sink_it_ cfg (init d) buf =
      { disk := write_record_
          (fs_open_append (chain_ (rotated_path_ cfg) (base_path_ cfg) cfg.max_files_ d)
            (base_path_ cfg)) (some (base_path_ cfg)) buf,
        file_ := some (base_path_ cfg), log_count_ := 1, opened_ := true,
        rotated_on_open_done_ := true } := by
  have hB0 : cfg.max_files_ ≠ 0 := by omega
  have hBp : 0 < cfg.max_files_ := by omega
  have hex : fs_exists d (base_path_ cfg) = true := by simp [fs_exists, hx]
  have hrf : rotate_files_ cfg (init d) =
      { disk := chain_ (rotated_path_ cfg) (base_path_ cfg) cfg.max_files_ d, file_ := none,
        log_count_ := 0, opened_ := false, rotated_on_open_done_ := false } := by
    have h1 := rotate_files_disk cfg (init d) hB0
    have h2 := rotate_files_file_ cfg (init d)
    have h3 := rotate_files_opened_ cfg (init d)
    have h4 := rotate_files_log_count_ cfg (init d)
    have h5 := rotate_files_done_ cfg (init d)
    cases hr : rotate_files_ cfg (init d)
    rw [hr] at h1 h2 h3 h4 h5
    simp only at h1 h2 h3 h4 h5
    simp [h1, h2, h3, h4, h5, init]
  have e1 : rotate_on_open_step_ cfg (init d) =
      { disk := chain_ (rotated_path_ cfg) (base_path_ cfg) cfg.max_files_ d, file_ := none,
        log_count_ := 0, opened_ := false, rotated_on_open_done_ := true } := by
    have hi : (init d).rotated_on_open_done_ = false := rfl
    have hdisk : (init d).disk = d := rfl
    simp only [rotate_on_open_step_, hi, hro, hBp, hdisk, hex, hrf]
    simp
  have hbase := (read_chain_ (rotated_path_ cfg) (base_path_ cfg) cfg.max_files_ d
    (rotated_path_ne cfg) (base_path_ne_rotated_path cfg) hB hf).1
  have hbw : before_write_ cfg (init d) =
      before_write_ cfg (rotate_on_open_step_ cfg (init d)) := by
    have hd : (rotate_on_open_step_ cfg (init d)).rotated_on_open_done_ = true := by
      rw [e1]
    unfold before_write_
    rw [rotate_on_open_step_done cfg _ hd]
  have hclosed := before_write_closed cfg (rotate_on_open_step_ cfg (init d)) (by omega)
    (by rw [e1]) (by rw [e1]) (by rw [e1]; exact hbase)
  have hno : ¬ cfg.max_count_ ≤ 0 + 1 := by omega
  unfold sink_it_
  rw [hbw, hclosed, e1]
  simp [after_write_, append_record_, hno]

/-- C13: a count sink with `rotate_on_open_`, `max_files_ ≥ 1` and
`max_count_ ≥ 2`, built over an existing current file with content `x`, runs
the rename chain exactly once at its first write, before appending: afterwards
`stem.1.log` holds `x` and `stem.log` holds only the new record.  The flag
`rotated_on_open_done_` is then set, after every write it is set, and once it
is set the rotate-on-open block changes nothing. -/
theorem rotate_on_open_one_shot (cfg : Config) (d : Disk) (x buf : List Char)
    (hro : cfg.rotate_on_open_ = true) (hB : 1 ≤ cfg.max_files_) (hN : 2 ≤ cfg.max_count_)
    (hf : d.faults = []) (hx : d.read (base_path_ cfg) = some x) :
    (sink_it_ cfg (init d) buf).disk =
      write_record_
        (fs_open_append (chain_ (rotated_path_ cfg) (base_path_ cfg) cfg.max_files_ d)
          (base_path_ cfg)) (some (base_path_ cfg)) buf ∧
    (sink_it_ cfg (init d) buf).disk.read (rotated_path_ cfg 1) = some x ∧
    (sink_it_ cfg (init d) buf).disk.read (base_path_ cfg) = some (trimmed buf ++ ['\n']) ∧
    (sink_it_ cfg (init d) buf).rotated_on_open_done_ = true ∧
    (∀ (t : State) (b : List Char), (sink_it_ cfg t b).rotated_on_open_done_ = true) ∧
    (∀ t : State, t.rotated_on_open_done_ = true → rotate_on_open_step_ cfg t = t) := by
  obtain ⟨rbase, rone, _, _⟩ := read_chain_ (rotated_path_ cfg) (base_path_ cfg)
    cfg.max_files_ d (rotated_path_ne cfg) (base_path_ne_rotated_path cfg) hB hf
  have hne : ¬ rotated_path_ cfg 1 = base_path_ cfg :=
    fun e => base_path_ne_rotated_path cfg 1 e.symm
  rw [sink_it_rotate_on_open cfg d x buf hro hB hN hf hx]
  refine ⟨rfl, ?_, ?_, rfl, sink_it_done cfg, rotate_on_open_step_done cfg⟩
  · simp only [read_write_record_, read_fs_open_append, hne, if_false, rone, hx]
  · simp only [read_write_record_, read_fs_open_append, if_true, rbase]
    simp [frame_]

/-- C13 over the current file and the two backups of the scenario. -/
theorem rotate_on_open_one_shot_witness :
    (reopen_cfg.rotate_on_open_ = true ∧ 1 ≤ reopen_cfg.max_files_ ∧
      2 ≤ reopen_cfg.max_count_ ∧ scenario_disk.faults = [] ∧
      scenario_disk.read (base_path_ reopen_cfg) = some "c\n".toList) ∧
    (sink_it_ reopen_cfg (init scenario_disk) "d".toList).disk.read
      (rotated_path_ reopen_cfg 1) = some "c\n".toList ∧
    (sink_it_ reopen_cfg (init scenario_disk) "d".toList).disk.read (base_path_ reopen_cfg) =
      some (trimmed "d".toList ++ ['\n']) := by
  obtain ⟨_, h2, h3, _⟩ := rotate_on_open_one_shot reopen_cfg scenario_disk "c\n".toList
    "d".toList rfl (by decide) (by decide) rfl (by decide)
  exact ⟨⟨rfl, by decide, by decide, rfl, by decide⟩, h2, h3⟩

end CustomSink.CountSink

/-! ## Construction: validation (C17, C18, C19) and lazy creation (C16) -/

namespace CustomSink

theorem max_size_bytes_of_small (bits : Nat) (h : bits ≤ 2 ^ 64 - 8) :
    PatternSink.max_size_bytes_of bits = (bits + 7) / 8 := by
  unfold PatternSink.max_size_bytes_of
  rw [Nat.mod_eq_of_lt (by omega)]

theorem pattern_construct_disk (tz : TimeZone) (a : PatternSink.Args) (d : Disk) (now : Int) :
    (PatternSink.construct tz a d now).disk = d := by
  unfold PatternSink.construct
  split
  · rfl
  · split <;> rfl

/-- C17: the constructor of the pattern-named size sink throws whenever
`rotation_hour` is outside 0..23, `rotation_min` is outside 0..59 or
`max_size_bits` is 0, and then it has called `fs::create_directories` not once
and has left the directory tree as it was; for an hour in 0..23, a minute in
0..59 and `1 ≤ max_size_bits ≤ 2 ^ 64 - 8` it returns a sink (closed, nothing
opened) whose byte limit is `(max_size_bits + 7) / 8`. -/
theorem pattern_constructor_validates (tz : TimeZone) (a : PatternSink.Args) (d : Disk)
    (now : Int) :
    ((a.rotation_hour < 0 ∨ 23 < a.rotation_hour ∨ a.rotation_min < 0 ∨ 59 < a.rotation_min ∨
        a.max_size_bits = 0) →
      (∃ e, (PatternSink.construct tz a d now).result = .error e) ∧
      (PatternSink.construct tz a d now).disk = d ∧
      (PatternSink.construct tz a d now).ensured = []) ∧
    ((0 ≤ a.rotation_hour ∧ a.rotation_hour ≤ 23 ∧ 0 ≤ a.rotation_min ∧ a.rotation_min ≤ 59 ∧
        1 ≤ a.max_size_bits ∧ a.max_size_bits ≤ 2 ^ 64 - 8) →
      (PatternSink.construct tz a d now).result =
        .ok (PatternSink.init (PatternSink.config_of tz a) d now) ∧
      (PatternSink.construct tz a d now).disk = d ∧
      (PatternSink.construct tz a d now).ensured = [a.dir] ∧
      (PatternSink.config_of tz a).max_size_bytes_ = (a.max_size_bits + 7) / 8 ∧
      1 ≤ (PatternSink.config_of tz a).max_size_bytes_) := by
  constructor
  · intro h
    refine ⟨?_, pattern_construct_disk tz a d now, ?_⟩
    · unfold PatternSink.construct
      split
      · exact ⟨_, rfl⟩
      · rename_i hr
        have hb : a.max_size_bits = 0 := by
          rcases h with h | h | h | h | h
          · exact absurd (Or.inl h) hr
          · exact absurd (Or.inr (Or.inl h)) hr
          · exact absurd (Or.inr (Or.inr (Or.inl h))) hr
          · exact absurd (Or.inr (Or.inr (Or.inr h))) hr
          · exact h
        simp [hb, PatternSink.max_size_bytes_of]
    · unfold PatternSink.construct
      split
      · rfl
      · rename_i hr
        have hb : a.max_size_bits = 0 := by
          rcases h with h | h | h | h | h
          · exact absurd (Or.inl h) hr
          · exact absurd (Or.inr (Or.inl h)) hr
          · exact absurd (Or.inr (Or.inr (Or.inl h))) hr
          · exact absurd (Or.inr (Or.inr (Or.inr h))) hr
          · exact h
        simp [hb, PatternSink.max_size_bytes_of]
  · rintro ⟨h1, h2, h3, h4, h5, h6⟩
    have hr : ¬ (a.rotation_hour < 0 ∨ a.rotation_hour > 23 ∨ a.rotation_min < 0 ∨
        a.rotation_min > 59) := by omega
    have hb := max_size_bytes_of_small a.max_size_bits h6
    have hpos : 1 ≤ (a.max_size_bits + 7) / 8 := by omega
    have hne : ¬ PatternSink.max_size_bytes_of a.max_size_bits = 0 := by omega
    refine ⟨?_, pattern_construct_disk tz a d now, ?_, hb, by
      show 1 ≤ PatternSink.max_size_bytes_of a.max_size_bits
      omega⟩
    · unfold PatternSink.construct
      rw [if_neg hr, if_neg hne]
    · unfold PatternSink.construct
      rw [if_neg hr, if_neg hne]

/-- C17 at an hour of 24 and at the arguments of the demo sink. -/
theorem pattern_constructor_validates_witness :
    (23 < ({ PatternSink.demo_args with rotation_hour := 24 } : PatternSink.Args).rotation_hour ∧
      (PatternSink.construct utc { PatternSink.demo_args with rotation_hour := 24 } Disk.fresh
        PatternSink.t_0200).ensured = []) ∧
    ((0 ≤ PatternSink.demo_args.rotation_hour ∧ PatternSink.demo_args.rotation_hour ≤ 23 ∧
        0 ≤ PatternSink.demo_args.rotation_min ∧ PatternSink.demo_args.rotation_min ≤ 59 ∧
        1 ≤ PatternSink.demo_args.max_size_bits ∧
        PatternSink.demo_args.max_size_bits ≤ 2 ^ 64 - 8) ∧
      (PatternSink.config_of utc PatternSink.demo_args).max_size_bytes_ = 100) := by
  have hbad : 23 < ({ PatternSink.demo_args with rotation_hour := 24 } :
      PatternSink.Args).rotation_hour := by decide
  have hgood : 0 ≤ PatternSink.demo_args.rotation_hour ∧
      PatternSink.demo_args.rotation_hour ≤ 23 ∧
      0 ≤ PatternSink.demo_args.rotation_min ∧ PatternSink.demo_args.rotation_min ≤ 59 ∧
      1 ≤ PatternSink.demo_args.max_size_bits ∧
      PatternSink.demo_args.max_size_bits ≤ 2 ^ 64 - 8 := by decide
  exact ⟨⟨hbad, ((pattern_constructor_validates utc _ Disk.fresh PatternSink.t_0200).1
      (Or.inr (Or.inl hbad))).2.2⟩,
    hgood, ((pattern_constructor_validates utc PatternSink.demo_args Disk.fresh
      PatternSink.t_0200).2 hgood).2.2.2.1⟩

/-- C19 at `max_size_bits = 2 ^ 64 - 1`: the sum `max_size_bits + 7` wraps to 6,
the byte limit comes out as 0 and the constructor throws
`max_size_bits must be > 0`, where rounding up gives `2 ^ 61`. -/
theorem max_size_bits_wraps :
    PatternSink.max_size_bytes_of (2 ^ 64 - 1) = 0 ∧
    (2 ^ 64 - 1 + 7) / 8 = 2 ^ 61 ∧
    (PatternSink.construct utc { PatternSink.demo_args with max_size_bits := 2 ^ 64 - 1 }
      Disk.fresh PatternSink.t_0200).result = .error "max_size_bits must be > 0" := by
  refine ⟨by decide, by decide, ?_⟩
  simp [PatternSink.construct, PatternSink.demo_args, PatternSink.max_size_bytes_of]

end CustomSink

namespace CustomSink.DateSink

theorem cleanup_loop_max_size (cfg : Config) (m : Nat) (n : Nat) :
    ∀ s : State, cleanup_loop_ { cfg with max_size_ := m } n s = cleanup_loop_ cfg n s := by
  induction n with
  | zero => intro s; rfl
  | succ k ih =>
    intro s
    unfold cleanup_loop_
    cases hf : s.files_ with
    | nil => rfl
    | cons front rest =>
      dsimp only
      split
      · exact ih _
      · rfl

theorem open_new_file_max_size (cfg : Config) (m : Nat) (s : State) :
    open_new_file_ { cfg with max_size_ := m } s = open_new_file_ cfg s := by
  simp only [open_new_file_, open_next_, cleanup_old_files_, cleanup_loop_max_size]
  rfl

theorem scan_and_open_max_size (cfg : Config) (m : Nat) (s : State) :
    scan_and_open_ { cfg with max_size_ := m } s = scan_and_open_ cfg s := by
  simp only [scan_and_open_, open_new_file_max_size]
  rfl

theorem construct_max_size (cfg : Config) (m : Nat) (d : Disk) (today : String) :
    construct { cfg with max_size_ := m } d today = construct cfg d today := by
  simp only [construct, scan_and_open_max_size]

/-- The constructor over a directory without a file of today: it opens, and so
creates, the file of index 0. -/
theorem construct_no_file_of_today (cfg : Config) (d : Disk) (today : String)
    (hn : (directory_names_ d cfg.dir_).filter (is_today_file_ cfg today) = []) :
    (construct cfg d today).disk = fs_open_append d (make_path_ cfg today 0) ∧
    ∃ s, (construct cfg d today).result = .ok s ∧
      s.disk = fs_open_append d (make_path_ cfg today 0) ∧
      s.file_ = some (make_path_ cfg today 0) ∧ s.current_index_ = 0 ∧
      s.current_date_ = today := by
  have hscan : scan_existing_files_for_today_ cfg
      { disk := d, file_ := none, current_date_ := today, current_index_ := 0,
        current_size_ := 0, files_ := [] } =
      .ok { disk := d, file_ := none, current_date_ := today, current_index_ := 0,
            current_size_ := 0, files_ := [] } := by
    simp [scan_existing_files_for_today_, hn]
  have hso : scan_and_open_ cfg
      { disk := d, file_ := none, current_date_ := today, current_index_ := 0,
        current_size_ := 0, files_ := [] } =
      .ok (open_current_file_ cfg
        { disk := d, file_ := none, current_date_ := today, current_index_ := 0,
          current_size_ := 0, files_ := [] }) := by
    simp [scan_and_open_, hscan]
  unfold construct
  rw [hso]
  simp [open_current_file_, open_at_]

end CustomSink.DateSink

namespace CustomSink

/-- C18 as stated fails: the per-day-directory sink and the date-embedded sink
are constructed with a size limit of 0, the count sink with `max_count = 0`,
and each of them then stores a record. -/
theorem zero_limit_accepted :
    (DirSink.construct { DirSink.demo_cfg with max_size_ := 0 } Disk.fresh "2026-01-30").result =
      .ok (DirSink.init Disk.fresh "2026-01-30") ∧
    (DirSink.sink_it_ { DirSink.demo_cfg with max_size_ := 0 }
      (DirSink.init Disk.fresh "2026-01-30") "2026-01-30" "a".toList).disk.read
        "logs/2026-01-30/app.log" = some "a\n".toList ∧
    (CountSink.construct "logs/app.log" 0 2 false false Disk.fresh).result =
      .ok (CountSink.init Disk.fresh) ∧
    (CountSink.sink_it_ (CountSink.config_of "logs/app.log" 0 2 false false)
      (CountSink.init Disk.fresh) "a".toList).disk.read "logs/app.1.log" = some "a\n".toList ∧
    ((DateSink.construct { DateSink.demo_cfg with max_size_ := 0 } Disk.fresh
        "2026-01-30").result.toOption.bind
      (fun s => (DateSink.sink_it_ { DateSink.demo_cfg with max_size_ := 0 } s "2026-01-30"
        "a".toList).toOption)).map (fun s => s.disk.read "logs/app_2026-01-30.log") =
      some (some "a\n".toList) := by
  refine ⟨rfl, by decide, rfl, by decide, by decide⟩

/-- C18, amended: of the four constructors only the one of the pattern-named
sink rejects a zero limit.  The constructors of the count sink and of the
per-day-directory sink return a sink for every argument; the constructor of
the date-embedded sink does the same with the limit 0 as with any other
limit.  In the two size sinks the limit 0 switches the size rotation off. -/
theorem only_pattern_sink_rejects_zero
    (base_filename : String) (max_files : Nat) (ro strict : Bool) (d : Disk)
    (dcfg : DirSink.Config) (today : String) (ds : DirSink.State) (incoming : Nat)
    (ecfg : DateSink.Config) (m : Nat) (es : DateSink.State)
    (tz : TimeZone) (a : PatternSink.Args) (now : Int) :
    (CountSink.construct base_filename 0 max_files ro strict d).result =
      .ok (CountSink.init d) ∧
    (DirSink.construct { dcfg with max_size_ := 0 } d today).result =
      .ok (DirSink.init d today) ∧
    DirSink.size_check_step_ { dcfg with max_size_ := 0 } ds incoming = ds ∧
    DateSink.construct { ecfg with max_size_ := 0 } d today =
      DateSink.construct { ecfg with max_size_ := m } d today ∧
    DateSink.after_write_ { ecfg with max_size_ := 0 } es = es ∧
    (∃ e, (PatternSink.construct tz { a with max_size_bits := 0 } d now).result = .error e) := by
  refine ⟨rfl, rfl, by simp [DirSink.size_check_step_], ?_, by simp [DateSink.after_write_], ?_⟩
  · rw [DateSink.construct_max_size ecfg 0, DateSink.construct_max_size ecfg m]
  · unfold PatternSink.construct
    split
    · exact ⟨_, rfl⟩
    · simp [PatternSink.max_size_bytes_of]

/-- C16 as stated fails for the date-embedded sink: its constructor, run on an
empty directory tree, leaves the file of today behind. -/
theorem date_sink_constructor_creates_file :
    Disk.fresh.read "logs/app_2026-01-30.log" = none ∧
    (DateSink.construct DateSink.demo_cfg Disk.fresh "2026-01-30").disk.read
      "logs/app_2026-01-30.log" = some [] := by
  decide

/-- C16, amended: the constructors of the count sink, of the pattern-named
sink and of the per-day-directory sink leave every file as it was, create
none, and leave the stream closed.  The constructor of the date-embedded sink
opens its file: over a directory without a file of today it creates the empty
file `<stem>_<date>.log` and returns with the stream attached to it. -/
theorem lazy_creation_except_date_sink
    (base_filename : String) (max_count max_files : Nat) (ro strict : Bool) (d : Disk)
    (tz : TimeZone) (a : PatternSink.Args) (now : Int)
    (dcfg : DirSink.Config) (today : String) (ecfg : DateSink.Config)
    (hn : (directory_names_ d ecfg.dir_).filter (DateSink.is_today_file_ ecfg today) = [])
    (hp : d.read (DateSink.make_path_ ecfg today 0) = none) :
    ((CountSink.construct base_filename max_count max_files ro strict d).disk = d ∧
      (CountSink.construct base_filename max_count max_files ro strict d).result =
        .ok (CountSink.init d) ∧ (CountSink.init d).file_ = none) ∧
    ((PatternSink.construct tz a d now).disk = d ∧
      ∀ s, (PatternSink.construct tz a d now).result = .ok s → s.disk = d ∧ s.file_ = none) ∧
    ((DirSink.construct dcfg d today).disk = d ∧
      (DirSink.construct dcfg d today).result = .ok (DirSink.init d today) ∧
      (DirSink.init d today).file_ = none) ∧
    ((DateSink.construct ecfg d today).disk.read (DateSink.make_path_ ecfg today 0) = some [] ∧
      (∀ p, p ≠ DateSink.make_path_ ecfg today 0 →
        (DateSink.construct ecfg d today).disk.read p = d.read p) ∧
      ∃ s, (DateSink.construct ecfg d today).result = .ok s ∧
        s.file_ = some (DateSink.make_path_ ecfg today 0)) := by
  obtain ⟨hd, s, hs, _, hfile, _, _⟩ := DateSink.construct_no_file_of_today ecfg d today hn
  refine ⟨⟨rfl, rfl, rfl⟩, ⟨pattern_construct_disk tz a d now, ?_⟩, ⟨rfl, rfl, rfl⟩, ?_, ?_,
    s, hs, hfile⟩
  · intro s hs
    unfold PatternSink.construct at hs
    split at hs
    · cases hs
    · split at hs
      · cases hs
      · cases hs
        exact ⟨rfl, rfl⟩
  · rw [hd, read_fs_open_append]
    simp [hp]
  · intro p hne
    rw [hd, read_fs_open_append]
    simp [hne]

/-- C16 over the empty directory tree. -/
theorem lazy_creation_except_date_sink_witness :
    ((directory_names_ Disk.fresh DateSink.demo_cfg.dir_).filter
        (DateSink.is_today_file_ DateSink.demo_cfg "2026-01-30") = [] ∧
      Disk.fresh.read (DateSink.make_path_ DateSink.demo_cfg "2026-01-30" 0) = none) ∧
    (CountSink.construct "logs/app.log" 3 2 false false Disk.fresh).disk = Disk.fresh ∧
    (DateSink.construct DateSink.demo_cfg Disk.fresh "2026-01-30").disk.read
      (DateSink.make_path_ DateSink.demo_cfg "2026-01-30" 0) = some [] := by
  have h := lazy_creation_except_date_sink "logs/app.log" 3 2 false false Disk.fresh utc
    PatternSink.demo_args PatternSink.t_0200 DirSink.demo_cfg "2026-01-30" DateSink.demo_cfg
    rfl rfl
  exact ⟨⟨rfl, rfl⟩, h.1.1, h.2.2.2.1⟩

end CustomSink

/-! ## The date-embedded sink: the index of the file being written (C15) -/

namespace CustomSink.DateSink

theorem cleanup_loop_frame (cfg : Config) (n : Nat) :
    ∀ s : State,
      (cleanup_loop_ cfg n s).file_ = s.file_ ∧
      (cleanup_loop_ cfg n s).current_index_ = s.current_index_ ∧
      (cleanup_loop_ cfg n s).current_date_ = s.current_date_ ∧
      (cleanup_loop_ cfg n s).disk.faults = s.disk.faults ∧
      ∀ c ∈ (cleanup_loop_ cfg n s).disk.calls, c ∈ s.disk.calls ∨ ∃ p, c = FsCall.remove p := by
  induction n with
  | zero => intro s; exact ⟨rfl, rfl, rfl, rfl, fun c hc => Or.inl hc⟩
  | succ k ih =>
    intro s
    unfold cleanup_loop_
    cases hf : s.files_ with
    | nil => exact ⟨rfl, rfl, rfl, rfl, fun c hc => Or.inl hc⟩
    | cons front rest =>
      dsimp only
      split
      · obtain ⟨h1, h2, h3, h4, h5⟩ := ih
          { s with disk := fs_remove s.disk (cfg.dir_ ++ "/" ++ front), files_ := rest }
        refine ⟨h1, h2, h3, h4, ?_⟩
        intro c hc
        rcases h5 c hc with h | h
        · simp only [fs_remove_calls, List.mem_append, List.mem_singleton] at h
          rcases h with h | h
          · exact Or.inl h
          · exact Or.inr ⟨_, h⟩
        · exact Or.inr h
      · exact ⟨rfl, rfl, rfl, rfl, fun c hc => Or.inl hc⟩

theorem cleanup_old_files_frame (cfg : Config) (s : State) :
    (cleanup_old_files_ cfg s).file_ = s.file_ ∧
    (cleanup_old_files_ cfg s).current_index_ = s.current_index_ ∧
    (cleanup_old_files_ cfg s).current_date_ = s.current_date_ ∧
    (cleanup_old_files_ cfg s).disk.faults = s.disk.faults ∧
    (∀ c ∈ (cleanup_old_files_ cfg s).disk.calls, c ∈ s.disk.calls ∨ ∃ p, c = FsCall.remove p) ∧
    (cfg.max_files_ = 0 → cleanup_old_files_ cfg s = s) := by
  unfold cleanup_old_files_
  split
  · exact ⟨rfl, rfl, rfl, rfl, fun c hc => Or.inl hc, fun _ => rfl⟩
  · rename_i h
    obtain ⟨h1, h2, h3, h4, h5⟩ := cleanup_loop_frame cfg s.files_.length s
    exact ⟨h1, h2, h3, h4, h5, fun h0 => absurd h0 h⟩

/-- A size rotation: the stream moves to the file of the next index. -/
theorem rotate_file_next_index (cfg : Config) (s : State) :
    (rotate_file_ cfg s).current_index_ = (s.current_index_ + 1) % 2 ^ 64 ∧
    (rotate_file_ cfg s).current_date_ = s.current_date_ ∧
    (rotate_file_ cfg s).file_ =
      some (make_path_ cfg s.current_date_ ((s.current_index_ + 1) % 2 ^ 64)) ∧
    (∀ c ∈ (rotate_file_ cfg s).disk.calls, c ∈ s.disk.calls ∨ ∃ p, c = FsCall.remove p) ∧
    (cfg.max_files_ = 0 → (rotate_file_ cfg s).disk =
      fs_open_append s.disk (make_path_ cfg s.current_date_ ((s.current_index_ + 1) % 2 ^ 64))) := by
  unfold rotate_file_ open_new_file_
  obtain ⟨h1, h2, h3, _, h5, h6⟩ :=
    cleanup_old_files_frame cfg (open_next_ cfg { s with file_ := none })
  refine ⟨by rw [h2]; rfl, by rw [h3]; rfl, by rw [h1]; rfl, ?_, ?_⟩
  · intro c hc
    rcases h5 c hc with h | h
    · left
      simpa [open_next_, open_at_] using h
    · exact Or.inr h
  · intro h0
    rw [h6 h0]
    rfl

/-- The loop of `cleanup_old_files_`, run to its end: it removes the first
`files_.size() - max_files_` names of `files_`, in the order of the list. -/
theorem cleanup_loop_exact (cfg : Config) (n : Nat) :
    ∀ s : State, s.files_.length - cfg.max_files_ ≤ n →
      cleanup_loop_ cfg n s =
        { s with
          disk := (s.files_.take (s.files_.length - cfg.max_files_)).foldl
            (fun d f => fs_remove d (cfg.dir_ ++ "/" ++ f)) s.disk,
          files_ := s.files_.drop (s.files_.length - cfg.max_files_) } := by
  induction n with
  | zero =>
    intro s hn
    have h0 : s.files_.length - cfg.max_files_ = 0 := by omega
    rw [h0]
    rfl
  | succ k ih =>
    intro s hn
    obtain ⟨disk, file_, cd, ci, cs, files⟩ := s
    cases files with
    | nil => simp [cleanup_loop_]
    | cons front rest =>
      simp only [List.length_cons] at hn
      unfold cleanup_loop_
      dsimp only
      split
      · rename_i hgt
        simp only [List.length_cons] at hgt
        rw [ih _ (by dsimp only; omega)]
        have hk : (front :: rest).length - cfg.max_files_ =
            (rest.length - cfg.max_files_) + 1 := by
          simp only [List.length_cons]
          omega
        rw [hk]
        rfl
      · rename_i hle
        have h0 : (front :: rest).length - cfg.max_files_ = 0 := by omega
        rw [h0]
        rfl

/-- The number of files `cleanup_old_files_` removes from a list of `n` names. -/
theorem cleanup_old_files_exact (cfg : Config) (s : State) :
    cleanup_old_files_ cfg s =
      { s with
        disk := (s.files_.take
            (if cfg.max_files_ = 0 then 0 else s.files_.length - cfg.max_files_)).foldl
          (fun d f => fs_remove d (cfg.dir_ ++ "/" ++ f)) s.disk,
        files_ := s.files_.drop
          (if cfg.max_files_ = 0 then 0 else s.files_.length - cfg.max_files_) } := by
  unfold cleanup_old_files_
  split
  · rfl
  · exact cleanup_loop_exact cfg _ s (Nat.sub_le _ _)

theorem foldl_fs_remove_calls (dir : String) (l : List String) :
    ∀ d : Disk, (l.foldl (fun d f => fs_remove d (dir ++ "/" ++ f)) d).calls =
      d.calls ++ l.map (fun f => FsCall.remove (dir ++ "/" ++ f)) := by
  induction l with
  | nil => intro d; simp
  | cons x xs ih =>
    intro d
    rw [List.foldl_cons, ih, fs_remove_calls, List.map_cons, List.append_assoc]
    rfl

/-- A size rotation, in full: the file of the next index is opened, its name
is put at the end of `files_`, and the names at the front of `files_` beyond
`max_files_` are removed. -/
theorem rotate_file_exact (cfg : Config) (s : State) :
    (rotate_file_ cfg s).files_ =
      (s.files_ ++ [make_filename_ cfg s.current_date_ ((s.current_index_ + 1) % 2 ^ 64)]).drop
        (if cfg.max_files_ = 0 then 0 else s.files_.length + 1 - cfg.max_files_) ∧
    (rotate_file_ cfg s).disk =
      ((s.files_ ++ [make_filename_ cfg s.current_date_ ((s.current_index_ + 1) % 2 ^ 64)]).take
        (if cfg.max_files_ = 0 then 0 else s.files_.length + 1 - cfg.max_files_)).foldl
        (fun d f => fs_remove d (cfg.dir_ ++ "/" ++ f))
        (fs_open_append s.disk
          (make_path_ cfg s.current_date_ ((s.current_index_ + 1) % 2 ^ 64))) := by
  unfold rotate_file_ open_new_file_
  rw [cleanup_old_files_exact]
  have hfl : (open_next_ cfg { s with file_ := none }).files_ =
      s.files_ ++ [make_filename_ cfg s.current_date_ ((s.current_index_ + 1) % 2 ^ 64)] := rfl
  have hd : (open_next_ cfg { s with file_ := none }).disk =
      fs_open_append s.disk
        (make_path_ cfg s.current_date_ ((s.current_index_ + 1) % 2 ^ 64)) := rfl
  have hlen : (s.files_ ++
      [make_filename_ cfg s.current_date_ ((s.current_index_ + 1) % 2 ^ 64)]).length =
      s.files_.length + 1 := by simp
  dsimp only
  rw [hfl, hd, hlen]
  exact ⟨rfl, rfl⟩

/-- C15, amended: in the date-embedded sink the file of index 0 is
`<stem>_<date>.log` and the file of an index `k` other than 0 is
`<stem>_<date>.<k>.log`.  On the day of `current_date_` and with the stream
attached to the file of `current_index_`, a record is appended to that file.
While the size stays below the limit (or the limit is 0) index and stream
stay.  When the size reaches the limit the sink moves on to the file of the
next index: nothing is renamed, the file of the next index is opened and its
name is put at the end of `files_`, the stream is attached to it, and the
only calls issued are the removals of the first `files_.size() - max_files_`
names of the list, the oldest, in the order of the list (none when
`max_files_` is 0 or the list is not longer than `max_files_`); these names
leave `files_`. -/
theorem size_rotation_opens_next_index (cfg : Config) (s : State) (buf : List Char)
    (h : Attached cfg s) :
    make_filename_ cfg s.current_date_ 0 = cfg.stem_ ++ "_" ++ s.current_date_ ++ ".log" ∧
    (∀ k, k ≠ 0 → make_filename_ cfg s.current_date_ k =
      cfg.stem_ ++ "_" ++ s.current_date_ ++ "." ++ to_string k ++ ".log") ∧
    (¬ (cfg.max_size_ > 0 ∧ s.current_size_ + (trim_size_ buf buf.length + 1) ≥ cfg.max_size_) →
      sink_it_ cfg s s.current_date_ buf = .ok (append_record_ s buf) ∧
      (append_record_ s buf).disk =
        write_record_ s.disk (some (make_path_ cfg s.current_date_ s.current_index_)) buf ∧
      (append_record_ s buf).files_ = s.files_ ∧
      Attached cfg (append_record_ s buf)) ∧
    ((cfg.max_size_ > 0 ∧ s.current_size_ + (trim_size_ buf buf.length + 1) ≥ cfg.max_size_) →
      ∃ t, sink_it_ cfg s s.current_date_ buf = .ok t ∧
        t.current_index_ = (s.current_index_ + 1) % 2 ^ 64 ∧
        t.current_date_ = s.current_date_ ∧ Attached cfg t ∧
        t.files_ =
          (s.files_ ++
            [make_filename_ cfg s.current_date_ ((s.current_index_ + 1) % 2 ^ 64)]).drop
            (if cfg.max_files_ = 0 then 0 else s.files_.length + 1 - cfg.max_files_) ∧
        t.disk =
          ((s.files_ ++
            [make_filename_ cfg s.current_date_ ((s.current_index_ + 1) % 2 ^ 64)]).take
            (if cfg.max_files_ = 0 then 0 else s.files_.length + 1 - cfg.max_files_)).foldl
            (fun d f => fs_remove d (cfg.dir_ ++ "/" ++ f))
            (fs_open_append
              (write_record_ s.disk (some (make_path_ cfg s.current_date_ s.current_index_)) buf)
              (make_path_ cfg s.current_date_ ((s.current_index_ + 1) % 2 ^ 64))) ∧
        t.disk.calls = s.disk.calls ++
          ((s.files_ ++
            [make_filename_ cfg s.current_date_ ((s.current_index_ + 1) % 2 ^ 64)]).take
            (if cfg.max_files_ = 0 then 0 else s.files_.length + 1 - cfg.max_files_)).map
            (fun f => FsCall.remove (cfg.dir_ ++ "/" ++ f)) ∧
        (∀ c ∈ t.disk.calls, c ∈ s.disk.calls ∨ ∃ p, c = FsCall.remove p) ∧
        (cfg.max_files_ = 0 → t.disk =
          fs_open_append
            (write_record_ s.disk (some (make_path_ cfg s.current_date_ s.current_index_)) buf)
            (make_path_ cfg s.current_date_ ((s.current_index_ + 1) % 2 ^ 64)))) := by
  have hroll : maybe_roll_day_ cfg s s.current_date_ = .ok s := by simp [maybe_roll_day_]
  have hsink : sink_it_ cfg s s.current_date_ buf =
      .ok (after_write_ cfg (append_record_ s buf)) := by
    simp [sink_it_, hroll]
  have hdisk : (append_record_ s buf).disk =
      write_record_ s.disk (some (make_path_ cfg s.current_date_ s.current_index_)) buf := by
    unfold Attached at h
    simp [append_record_, h]
  refine ⟨rfl, ?_, ?_, ?_⟩
  · intro k hk
    unfold make_filename_
    rw [if_neg hk]
    rfl
  · intro hno
    have haw : after_write_ cfg (append_record_ s buf) = append_record_ s buf := by
      unfold after_write_
      rw [if_neg]
      simpa [append_record_] using hno
    rw [hsink, haw]
    exact ⟨rfl, hdisk, rfl, h⟩
  · intro hyes
    have haw : after_write_ cfg (append_record_ s buf) =
        rotate_file_ cfg (append_record_ s buf) := by
      unfold after_write_
      rw [if_pos]
      simpa [append_record_] using hyes
    obtain ⟨h1, h2, h3, h4, h5⟩ := rotate_file_next_index cfg (append_record_ s buf)
    obtain ⟨e1, e2⟩ := rotate_file_exact cfg (append_record_ s buf)
    have e3 : (after_write_ cfg (append_record_ s buf)).disk =
        ((s.files_ ++
          [make_filename_ cfg s.current_date_ ((s.current_index_ + 1) % 2 ^ 64)]).take
          (if cfg.max_files_ = 0 then 0 else s.files_.length + 1 - cfg.max_files_)).foldl
          (fun d f => fs_remove d (cfg.dir_ ++ "/" ++ f))
          (fs_open_append
            (write_record_ s.disk (some (make_path_ cfg s.current_date_ s.current_index_)) buf)
            (make_path_ cfg s.current_date_ ((s.current_index_ + 1) % 2 ^ 64))) := by
      rw [haw, e2, hdisk]
      rfl
    refine ⟨_, hsink, ?_, ?_, ?_, ?_, e3, ?_, ?_, ?_⟩
    · rw [haw, h1]; rfl
    · rw [haw, h2]; rfl
    · unfold Attached
      rw [haw, h3, h1, h2]
    · rw [haw, e1]; rfl
    · rw [e3, foldl_fs_remove_calls, fs_open_append_calls, write_record_calls]
    · intro c hc
      rw [haw] at hc
      rcases h4 c hc with hc2 | hc2
      · left
        simpa [append_record_] using hc2
      · exact Or.inr hc2
    · intro h0
      rw [haw, h5 h0, hdisk]
      rfl

/-- C15 on the sink of the demo after its constructor, keeping one file: the
record that fills the file of index 0 moves the sink to the file of index 1
and removes the file of index 0. -/
theorem size_rotation_opens_next_index_witness :
    Attached { demo_cfg with max_files_ := 1 } fresh_state ∧
    (demo_cfg.max_size_ > 0 ∧
      fresh_state.current_size_ + (trim_size_ "aaaaaaaaaa".toList "aaaaaaaaaa".toList.length + 1)
        ≥ demo_cfg.max_size_) ∧
    ∃ t, sink_it_ { demo_cfg with max_files_ := 1 } fresh_state fresh_state.current_date_
        "aaaaaaaaaa".toList = .ok t ∧
      t.current_index_ = 1 ∧ t.files_ = ["app_2026-01-30.1.log"] ∧
      t.disk.calls = [FsCall.remove "logs/app_2026-01-30.log"] := by
  have ha : Attached { demo_cfg with max_files_ := 1 } fresh_state := by
    unfold Attached
    decide
  have hsz : demo_cfg.max_size_ > 0 ∧
      fresh_state.current_size_ + (trim_size_ "aaaaaaaaaa".toList "aaaaaaaaaa".toList.length + 1)
        ≥ demo_cfg.max_size_ := by decide
  obtain ⟨t, h1, h2, _, _, h5, _, h7, _⟩ :=
    (size_rotation_opens_next_index { demo_cfg with max_files_ := 1 } fresh_state
      "aaaaaaaaaa".toList ha).2.2.2 hsz
  exact ⟨ha, hsz, t, h1, h2.trans (by decide), h5.trans (by decide), h7.trans (by decide)⟩

/-- C15 as stated fails: after a record that fills the file of index 0 and a
second record, the stream is attached to `app_2026-01-30.1.log`; that file
holds the newer record and the file without index the older one. -/
theorem date_sink_writes_indexed_file :
    (construct demo_cfg Disk.fresh "2026-01-30").result.toOption = some fresh_state ∧
    (run demo_cfg "2026-01-30" fresh_state ["aaaaaaaaaa".toList, "b".toList]).toOption.map
      (fun s => (s.file_, s.disk.read "logs/app_2026-01-30.log",
        s.disk.read "logs/app_2026-01-30.1.log")) =
      some (some "logs/app_2026-01-30.1.log", some "aaaaaaaaaa\n".toList, some "b\n".toList) := by
  constructor <;> decide

end CustomSink.DateSink

/-! ## Rotate-on-open without backups (C14) -/

namespace CustomSink

namespace PatternSink

end PatternSink

end CustomSink

namespace CustomSink.DirSink

end CustomSink.DirSink

namespace CustomSink.DateSink

theorem open_at_closed (s : State) (p : String) (h : s.file_ = none) :
    (open_at_ s p).disk = fs_open_append s.disk p := by
  simp [open_at_, h]

end CustomSink.DateSink

namespace CustomSink

end CustomSink

/-! ## The date format `yyyy-MM-dd` -/

namespace CustomSink

/-- The format `yyyy-MM-dd` renders the year, the month and the day of the
local time of `tp`. -/
theorem format_iso_date (tz : TimeZone) (tp : Int) :
    qt_datetime_format_subset_ tz tp "yyyy-MM-dd".toList =
      append_int_ ((tz.localtime_r (to_time_t tp)).tm_year + 1900) 4 ++ '-' ::
        (append_int_ ((tz.localtime_r (to_time_t tp)).tm_mon + 1) 2 ++ '-' ::
          append_int_ (tz.localtime_r (to_time_t tp)).tm_mday 2) := by
  simp [qt_datetime_format_subset_, format_loop_, format_token_, to_local_parts_, quote_]

end CustomSink

/-! ## The count sink: the bound of the entry counter (C29) -/

namespace CustomSink.CountSink

theorem adjust_count_lt (cfg : Config) (s : State) (hN : 1 ≤ cfg.max_count_) :
    (adjust_for_strict_on_open_ cfg s).log_count_ ≤ cfg.max_count_ - 1 := by
  unfold adjust_for_strict_on_open_
  split
  · simp
  · split
    · simp
    · dsimp only
      split
      · simp
      · rename_i h
        simp only
        omega

theorem ensure_opened_count (cfg : Config) (s : State) (hN : 1 ≤ cfg.max_count_) :
    (ensure_opened_for_write_ cfg s).log_count_ = s.log_count_ ∨
    (ensure_opened_for_write_ cfg s).log_count_ ≤ cfg.max_count_ - 1 := by
  unfold ensure_opened_for_write_
  split
  · exact Or.inl rfl
  · right
    have h := adjust_count_lt cfg s hN
    dsimp only
    split <;> exact h

theorem ensure_opened_after_rotate_count (cfg : Config) (s : State) (hN : 1 ≤ cfg.max_count_) :
    (ensure_opened_for_write_ cfg (rotate_files_ cfg s)).log_count_ ≤ cfg.max_count_ - 1 := by
  rcases ensure_opened_count cfg (rotate_files_ cfg s) hN with h | h
  · rw [h]
    simp
  · exact h

theorem before_write_count_lt (cfg : Config) (s : State) (hN : 1 ≤ cfg.max_count_) :
    (before_write_ cfg s).log_count_ ≤ cfg.max_count_ - 1 := by
  unfold before_write_ check_after_open_
  split
  · exact ensure_opened_after_rotate_count cfg _ hN
  · omega

theorem sink_it_count_lt (cfg : Config) (s : State) (buf : List Char)
    (hN : 1 ≤ cfg.max_count_) : (sink_it_ cfg s buf).log_count_ ≤ cfg.max_count_ - 1 := by
  unfold sink_it_ after_write_
  split
  · simp
  · omega

theorem run_count_lt (cfg : Config) (hN : 1 ≤ cfg.max_count_) (recs : List (List Char)) :
    ∀ s : State, s.log_count_ ≤ cfg.max_count_ - 1 →
      (run cfg s recs).log_count_ ≤ cfg.max_count_ - 1 := by
  induction recs with
  | nil => intro s h; exact h
  | cons buf rest ih =>
    intro s _
    exact ih (sink_it_ cfg s buf) (sink_it_count_lt cfg s buf hN)

/-- C29: in the count sink with `max_count_ ≥ 1`, whatever `max_files_`, the two
flags and the directory: after every write, and so after every sequence of
writes of a new sink, the entry counter is at most `max_count_ - 1`.  Within a
write that starts with a counter of at most `max_count_`, the counter is at
most `max_count_` after each block of `sink_it_`: it is at most
`max_count_ - 1` when the record is written and at most `max_count_` after the
increment. -/
theorem entry_counter_bound (cfg : Config) (s : State) (buf : List Char) (d : Disk)
    (recs : List (List Char)) (hN : 1 ≤ cfg.max_count_) :
    (sink_it_ cfg s buf).log_count_ ≤ cfg.max_count_ - 1 ∧
    (run cfg (init d) recs).log_count_ ≤ cfg.max_count_ - 1 ∧
    (before_write_ cfg s).log_count_ ≤ cfg.max_count_ - 1 ∧
    (append_record_ (before_write_ cfg s) buf).log_count_ ≤ cfg.max_count_ ∧
    (s.log_count_ ≤ cfg.max_count_ →
      (rotate_on_open_step_ cfg s).log_count_ ≤ cfg.max_count_ ∧
      (check_before_open_ cfg (rotate_on_open_step_ cfg s)).log_count_ ≤ cfg.max_count_ ∧
      (ensure_opened_for_write_ cfg
        (check_before_open_ cfg (rotate_on_open_step_ cfg s))).log_count_ ≤ cfg.max_count_) := by
  have hbw := before_write_count_lt cfg s hN
  refine ⟨sink_it_count_lt cfg s buf hN, run_count_lt cfg hN recs (init d) (by simp [init]),
    hbw, ?_, ?_⟩
  · simp only [append_record_]
    omega
  · intro hs
    have h1 : (rotate_on_open_step_ cfg s).log_count_ ≤ cfg.max_count_ := by
      unfold rotate_on_open_step_
      split
      · dsimp only
        split
        · simp
        · exact hs
      · exact hs
    have h2 : (check_before_open_ cfg (rotate_on_open_step_ cfg s)).log_count_ ≤
        cfg.max_count_ := by
      unfold check_before_open_
      split
      · split
        · have := ensure_opened_after_rotate_count cfg (rotate_on_open_step_ cfg s) hN
          omega
        · simp
      · exact h1
    refine ⟨h1, h2, ?_⟩
    rcases ensure_opened_count cfg (check_before_open_ cfg (rotate_on_open_step_ cfg s)) hN
      with h | h
    · rw [h]; exact h2
    · omega

/-- C29 on the sink of the scenario after its seven records. -/
theorem entry_counter_bound_witness :
    1 ≤ scenario_cfg.max_count_ ∧
    (run scenario_cfg (init scenario_disk) scenario_recs).log_count_ ≤
      scenario_cfg.max_count_ - 1 := by
  have h : 1 ≤ scenario_cfg.max_count_ := by decide
  exact ⟨h, (entry_counter_bound scenario_cfg (init scenario_disk) [] scenario_disk
    scenario_recs h).2.1⟩

end CustomSink.CountSink

/-! ## The three rename chains (C30) -/

namespace CustomSink

/-- The shift loop makes one move for each of the values `n, n - 1, ..., 1`. -/
theorem shift_loop_eq_foldl (rot : Nat → String) (n : Nat) :
    ∀ d, shift_loop_ rot n d =
      (List.iota n).foldl (fun t i => move_ t (rot i) (rot (i + 1))) d := by
  induction n with
  | zero => intro d; rfl
  | succ n ih =>
    intro d
    simp only [shift_loop_, List.iota, List.foldl_cons]
    exact ih _

/-- What each slot holds after a rename chain on which every call succeeds. -/
theorem read_chain_slot (rot : Nat → String) (base : String) (n : Nat) (d : Disk)
    (hinj : ∀ i j, i ≠ j → rot i ≠ rot j) (hbase : ∀ i, base ≠ rot i)
    (hn : 1 ≤ n) (hf : d.faults = []) (i : Nat) :
    (chain_ rot base n d).read (rot i) =
      if i = 1 then d.read base
      else if 2 ≤ i ∧ i ≤ n then d.read (rot (i - 1)) else d.read (rot i) := by
  obtain ⟨_, h1, h2, h3⟩ := read_chain_ rot base n d hinj hbase hn hf
  by_cases hi1 : i = 1
  · subst hi1
    simp [h1]
  · by_cases hi : 2 ≤ i ∧ i ≤ n
    · have h := h2 (i - 1) (by omega) (by omega)
      have e : i - 1 + 1 = i := by omega
      rw [e] at h
      simp [hi1, hi, h]
    · simp only [hi1, hi, if_false]
      exact h3 _ (fun e => hbase i e.symm) (fun j hj1 hj2 => hinj _ _ (by omega))

/-- Two rename chains over directories that hold the same contents under their
own names leave the same contents under their own names. -/
theorem chain_corresponds (rot rot2 : Nat → String) (base base2 : String) (n : Nat)
    (d d2 : Disk)
    (hinj : ∀ i j, i ≠ j → rot i ≠ rot j) (hbase : ∀ i, base ≠ rot i)
    (hinj2 : ∀ i j, i ≠ j → rot2 i ≠ rot2 j) (hbase2 : ∀ i, base2 ≠ rot2 i)
    (hn : 1 ≤ n) (hf : d.faults = []) (hf2 : d2.faults = [])
    (hb : d.read base = d2.read base2) (hr : ∀ i, d.read (rot i) = d2.read (rot2 i)) :
    (chain_ rot base n d).read base = (chain_ rot2 base2 n d2).read base2 ∧
    ∀ i, (chain_ rot base n d).read (rot i) = (chain_ rot2 base2 n d2).read (rot2 i) := by
  constructor
  · rw [(read_chain_ rot base n d hinj hbase hn hf).1,
      (read_chain_ rot2 base2 n d2 hinj2 hbase2 hn hf2).1]
  · intro i
    rw [read_chain_slot rot base n d hinj hbase hn hf i,
      read_chain_slot rot2 base2 n d2 hinj2 hbase2 hn hf2 i, hb, hr, hr]

/-- C30: for `max_files_ = B ≥ 1` and directories on which every call succeeds,
the rotation of the count sink, of the per-day-directory sink and of the
pattern-named sink are one and the same chain under three namings: each
removes slot `B`, makes one move for each of `B - 1, ..., 1` (the loop body
runs `B - 1` times, not at all for `B = 1`) and moves the current file to slot
1.  From directories that hold the same contents under the three namings they
leave the same contents under the three namings. -/
theorem rename_chains_equivalent (ccfg : CountSink.Config) (cs : CountSink.State)
    (dcfg : DirSink.Config) (ds : DirSink.State) (pcfg : PatternSink.Config)
    (ps : PatternSink.State) (B : Nat) (hB : 1 ≤ B) (hc : ccfg.max_files_ = B)
    (hd : dcfg.max_files_ = B) (hp : pcfg.max_files_ = B)
    (hfc : cs.disk.faults = []) (hfd : ds.disk.faults = []) (hfp : ps.disk.faults = [])
    (hbd : cs.disk.read (CountSink.base_path_ ccfg) =
      ds.disk.read (DirSink.base_path_ dcfg ds.current_date_))
    (hbp : cs.disk.read (CountSink.base_path_ ccfg) =
      ps.disk.read (PatternSink.current_base_path_ pcfg ps.current_basename_))
    (hrd : ∀ i, cs.disk.read (CountSink.rotated_path_ ccfg i) =
      ds.disk.read (DirSink.rotated_path_ dcfg ds.current_date_ i))
    (hrp : ∀ i, cs.disk.read (CountSink.rotated_path_ ccfg i) =
      ps.disk.read (PatternSink.rotated_path_ pcfg ps.current_basename_ i)) :
    ((∀ t, CountSink.rotate_loop_ ccfg (B - 1) t =
        (List.iota (B - 1)).foldl (fun u i => move_ u (CountSink.rotated_path_ ccfg i)
          (CountSink.rotated_path_ ccfg (i + 1))) t) ∧
      (∀ t, DirSink.rotate_loop_ dcfg ds (B - 1) t =
        (List.iota (B - 1)).foldl (fun u i => move_ u (DirSink.rotated_path_ dcfg ds.current_date_ i)
          (DirSink.rotated_path_ dcfg ds.current_date_ (i + 1))) t) ∧
      (∀ t, PatternSink.rotate_loop_ pcfg ps B t =
        (List.iota (B - 1)).foldl
          (fun u i => move_ u (PatternSink.rotated_path_ pcfg ps.current_basename_ i)
            (PatternSink.rotated_path_ pcfg ps.current_basename_ (i + 1))) t) ∧
      (List.iota (B - 1)).length = B - 1) ∧
    ((CountSink.rotate_files_ ccfg cs).disk =
        chain_ (CountSink.rotated_path_ ccfg) (CountSink.base_path_ ccfg) B cs.disk ∧
      (DirSink.rotate_files_ dcfg ds).disk =
        chain_ (DirSink.rotated_path_ dcfg ds.current_date_)
          (DirSink.base_path_ dcfg ds.current_date_) B ds.disk ∧
      (PatternSink.rotate_by_size_chain_ pcfg ps).disk =
        chain_ (PatternSink.rotated_path_ pcfg ps.current_basename_)
          (PatternSink.current_base_path_ pcfg ps.current_basename_) B ps.disk) ∧
    ((CountSink.rotate_files_ ccfg cs).disk.read (CountSink.base_path_ ccfg) =
        (DirSink.rotate_files_ dcfg ds).disk.read (DirSink.base_path_ dcfg ds.current_date_) ∧
      (CountSink.rotate_files_ ccfg cs).disk.read (CountSink.base_path_ ccfg) =
        (PatternSink.rotate_by_size_chain_ pcfg ps).disk.read
          (PatternSink.current_base_path_ pcfg ps.current_basename_) ∧
      ∀ i, (CountSink.rotate_files_ ccfg cs).disk.read (CountSink.rotated_path_ ccfg i) =
          (DirSink.rotate_files_ dcfg ds).disk.read
            (DirSink.rotated_path_ dcfg ds.current_date_ i) ∧
        (CountSink.rotate_files_ ccfg cs).disk.read (CountSink.rotated_path_ ccfg i) =
          (PatternSink.rotate_by_size_chain_ pcfg ps).disk.read
            (PatternSink.rotated_path_ pcfg ps.current_basename_ i)) := by
  have e1 : (CountSink.rotate_files_ ccfg cs).disk =
      chain_ (CountSink.rotated_path_ ccfg) (CountSink.base_path_ ccfg) B cs.disk := by
    rw [CountSink.rotate_files_disk ccfg cs (by omega), hc]
  have e2 : (DirSink.rotate_files_ dcfg ds).disk =
      chain_ (DirSink.rotated_path_ dcfg ds.current_date_)
        (DirSink.base_path_ dcfg ds.current_date_) B ds.disk := by
    rw [DirSink.dir_rotate_files_state dcfg ds (by omega), hd]
  have e3 : (PatternSink.rotate_by_size_chain_ pcfg ps).disk =
      chain_ (PatternSink.rotated_path_ pcfg ps.current_basename_)
        (PatternSink.current_base_path_ pcfg ps.current_basename_) B ps.disk := by
    rw [PatternSink.pattern_rotate_by_size_chain_state pcfg ps (by omega), hp]
  obtain ⟨d1, d2⟩ := chain_corresponds (CountSink.rotated_path_ ccfg)
    (DirSink.rotated_path_ dcfg ds.current_date_) (CountSink.base_path_ ccfg)
    (DirSink.base_path_ dcfg ds.current_date_) B cs.disk ds.disk
    (CountSink.rotated_path_ne ccfg) (CountSink.base_path_ne_rotated_path ccfg)
    (DirSink.dir_rotated_path_ne dcfg ds) (DirSink.dir_base_path_ne_rotated_path dcfg ds)
    hB hfc hfd hbd hrd
  obtain ⟨p1, p2⟩ := chain_corresponds (CountSink.rotated_path_ ccfg)
    (PatternSink.rotated_path_ pcfg ps.current_basename_) (CountSink.base_path_ ccfg)
    (PatternSink.current_base_path_ pcfg ps.current_basename_) B cs.disk ps.disk
    (CountSink.rotated_path_ne ccfg) (CountSink.base_path_ne_rotated_path ccfg)
    (PatternSink.pattern_rotated_path_ne pcfg ps)
    (PatternSink.pattern_base_path_ne_rotated_path pcfg ps) hB hfc hfp hbp hrp
  refine ⟨⟨?_, ?_, ?_, List.length_iota _⟩, ⟨e1, e2, e3⟩, ?_, ?_, ?_⟩
  · intro t
    rw [CountSink.rotate_loop_eq_shift_loop_, shift_loop_eq_foldl]
  · intro t
    rw [DirSink.dir_rotate_loop_eq_shift_loop_, shift_loop_eq_foldl]
  · intro t
    obtain ⟨n, hn⟩ : ∃ n, B = n + 1 := ⟨B - 1, by omega⟩
    subst hn
    rw [PatternSink.pattern_rotate_loop_eq_shift_loop_, shift_loop_eq_foldl]
    rfl
  · rw [e1, e2]; exact d1
  · rw [e1, e3]; exact p1
  · intro i
    rw [e1, e2, e3]
    exact ⟨d2 i, p2 i⟩

end CustomSink

namespace CustomSink

/-- C30 on three directories that hold one current file of the same content. -/
theorem rename_chains_equivalent_witness :
    (1 ≤ 2 ∧ CountSink.scenario_cfg.max_files_ = 2 ∧ DirSink.chain2_cfg.max_files_ = 2 ∧
      PatternSink.chain2_cfg.max_files_ = 2 ∧
      (CountSink.only_current "old\n".toList).read
          (CountSink.base_path_ CountSink.scenario_cfg) =
        DirSink.current_only.read (DirSink.base_path_ DirSink.chain2_cfg "2026-01-30")) ∧
    (CountSink.rotate_files_ CountSink.scenario_cfg
        (CountSink.init (CountSink.only_current "old\n".toList))).disk.read
        (CountSink.rotated_path_ CountSink.scenario_cfg 1) =
      (DirSink.rotate_files_ DirSink.chain2_cfg
        (DirSink.init DirSink.current_only "2026-01-30")).disk.read
        (DirSink.rotated_path_ DirSink.chain2_cfg "2026-01-30" 1) := by
  have kc : CountSink.base_path_ CountSink.scenario_cfg = "logs/app.log" := by decide
  have kd : DirSink.base_path_ DirSink.chain2_cfg "2026-01-30" = "logs/2026-01-30/app.log" := by
    decide
  have kp : PatternSink.current_base_path_ PatternSink.chain2_cfg "app_2026-01-30" =
      "logs/app_2026-01-30.log" := by decide
  have hbd : (CountSink.only_current "old\n".toList).read
      (CountSink.base_path_ CountSink.scenario_cfg) =
      DirSink.current_only.read (DirSink.base_path_ DirSink.chain2_cfg "2026-01-30") := by
    decide
  have rc : ∀ i, (CountSink.only_current "old\n".toList).read
      (CountSink.rotated_path_ CountSink.scenario_cfg i) = none := by
    intro i
    have h := CountSink.base_path_ne_rotated_path CountSink.scenario_cfg i
    rw [kc] at h
    simp [CountSink.only_current, Disk.read, lookup_, h]
  have rd : ∀ i, DirSink.current_only.read
      (DirSink.rotated_path_ DirSink.chain2_cfg "2026-01-30" i) = none := by
    intro i
    have h := DirSink.dir_base_path_ne_rotated_path DirSink.chain2_cfg
      (DirSink.init DirSink.current_only "2026-01-30") i
    simp only [DirSink.init] at h
    rw [kd] at h
    simp [DirSink.current_only, Disk.read, lookup_, h]
  have rp : ∀ i, PatternSink.current_only.read
      (PatternSink.rotated_path_ PatternSink.chain2_cfg "app_2026-01-30" i) = none := by
    intro i
    have h := PatternSink.pattern_base_path_ne_rotated_path PatternSink.chain2_cfg
      (PatternSink.init PatternSink.chain2_cfg PatternSink.current_only 0) i
    simp only [PatternSink.init, PatternSink.chain2_cfg] at h
    rw [← PatternSink.chain2_cfg, kp] at h
    simp [PatternSink.current_only, Disk.read, lookup_, h]
  have h := rename_chains_equivalent CountSink.scenario_cfg
    (CountSink.init (CountSink.only_current "old\n".toList)) DirSink.chain2_cfg
    (DirSink.init DirSink.current_only "2026-01-30") PatternSink.chain2_cfg
    (PatternSink.init PatternSink.chain2_cfg PatternSink.current_only 0) 2 (by decide) rfl rfl
    rfl rfl rfl rfl hbd (by decide) (fun i => (rc i).trans (rd i).symm)
    (fun i => (rc i).trans (rp i).symm)
  exact ⟨⟨by decide, rfl, rfl, rfl, hbd⟩, (h.2.2.2.2 1).1⟩

end CustomSink

/-! ## The rename chain when a call fails (C23) -/

namespace CustomSink

theorem read_fs_remove_ok (d : Disk) (p q : String) (h : d.calls.length ∉ d.faults) :
    (fs_remove d p).read q = if q = p then none else d.read q := by
  simp [fs_remove, Disk.read, h, lookup_filter_ne]

theorem read_fs_remove_fail (d : Disk) (p q : String) (h : d.calls.length ∈ d.faults) :
    (fs_remove d p).read q = d.read q := by
  simp [fs_remove, Disk.read, h]

theorem read_fs_rename_fail (d : Disk) (src dst q : String) (h : d.calls.length ∈ d.faults) :
    (fs_rename d src dst).read q = d.read q := by
  simp [fs_rename, Disk.read, h]

theorem read_fs_rename_ok (d : Disk) (src dst q : String) (c : List Char)
    (h : d.calls.length ∉ d.faults) (hsrc : d.read src = some c) :
    (fs_rename d src dst).read q =
      if q = dst then some c else if q = src then none else d.read q := by
  have e : (fs_rename d src dst).read q =
      (fs_rename { d with faults := [] } src dst).read q := by
    simp [fs_rename, Disk.read, h]
  rw [e]
  exact read_fs_rename { d with faults := [] } src dst q c rfl hsrc

theorem read_fs_remove_ne (d : Disk) (p q : String) (h : q ≠ p) :
    (fs_remove d p).read q = d.read q := by
  by_cases hf : d.calls.length ∈ d.faults
  · exact read_fs_remove_fail d p q hf
  · rw [read_fs_remove_ok d p q hf, if_neg h]

theorem read_fs_rename_ne (d : Disk) (src dst q : String) (h1 : q ≠ src) (h2 : q ≠ dst) :
    (fs_rename d src dst).read q = d.read q := by
  by_cases hf : d.calls.length ∈ d.faults
  · exact read_fs_rename_fail d src dst q hf
  · cases hsrc : d.read src with
    | none =>
      have hs2 : lookup_ d.entries src = none := hsrc
      simp [fs_rename, Disk.read, hs2]
    | some c => rw [read_fs_rename_ok d src dst q c hf hsrc, if_neg h2, if_neg h1]

/-- A move touches its source and its destination only, whatever fails. -/
theorem read_move_ne (d : Disk) (src dst q : String) (h1 : q ≠ src) (h2 : q ≠ dst) :
    (move_ d src dst).read q = d.read q := by
  unfold move_
  split
  · rw [read_fs_rename_ne _ _ _ _ h1 h2, read_fs_remove_ne _ _ _ h2]
  · rfl

theorem move_calls (d : Disk) (src dst : String) :
    (move_ d src dst).calls =
      d.calls ++ (if fs_exists d src then [FsCall.remove dst, FsCall.rename src dst] else []) := by
  unfold move_
  split <;> simp

/-- The calls of the shift loop depend on which files exist below the slots
already shifted, not on the calls that fail. -/
theorem shift_loop_calls_indep (rot : Nat → String) (hinj : ∀ i j, i ≠ j → rot i ≠ rot j)
    (n : Nat) :
    ∀ d e : Disk, d.calls = e.calls →
      (∀ q, (∀ j, n + 1 ≤ j → q ≠ rot j) → (d.read q).isSome = (e.read q).isSome) →
      (shift_loop_ rot n d).calls = (shift_loop_ rot n e).calls ∧
      (∀ q, (∀ j, 1 ≤ j → q ≠ rot j) →
        ((shift_loop_ rot n d).read q).isSome = ((shift_loop_ rot n e).read q).isSome) := by
  induction n with
  | zero =>
    intro d e hc hq
    exact ⟨hc, fun q h => hq q (fun j hj => h j (by omega))⟩
  | succ n ih =>
    intro d e hc hq
    simp only [shift_loop_]
    have hex : fs_exists d (rot (n + 1)) = fs_exists e (rot (n + 1)) :=
      hq _ (fun j hj => hinj _ _ (by omega))
    apply ih
    · rw [move_calls, move_calls, hc, hex]
    · intro q hj
      have h1 : q ≠ rot (n + 1) := hj _ (by omega)
      have h2 : q ≠ rot (n + 1 + 1) := hj _ (by omega)
      rw [read_move_ne _ _ _ _ h1 h2, read_move_ne _ _ _ _ h1 h2]
      exact hq q (fun j hj2 => hj j (by omega))

/-- The calls of a rename chain are the same on two directories that hold the
same files, whichever calls fail on either. -/
theorem chain_calls_indep (rot : Nat → String) (base : String) (n : Nat) (d e : Disk)
    (hinj : ∀ i j, i ≠ j → rot i ≠ rot j) (hbase : ∀ i, base ≠ rot i) (hn : 1 ≤ n)
    (hc : d.calls = e.calls) (he : d.entries = e.entries) :
    (chain_ rot base n d).calls = (chain_ rot base n e).calls := by
  unfold chain_
  have hread : ∀ q, d.read q = e.read q := fun q => by simp [Disk.read, he]
  obtain ⟨h1, h2⟩ := shift_loop_calls_indep rot hinj (n - 1) (fs_remove d (rot n))
    (fs_remove e (rot n)) (by simp [hc]) (by
      intro q hq
      have hqn : q ≠ rot n := hq n (by omega)
      rw [read_fs_remove_ne _ _ _ hqn, read_fs_remove_ne _ _ _ hqn, hread])
  have hex : fs_exists (shift_loop_ rot (n - 1) (fs_remove d (rot n))) base =
      fs_exists (shift_loop_ rot (n - 1) (fs_remove e (rot n))) base :=
    h2 base (fun j _ => hbase j)
  rw [move_calls, move_calls, h1, hex]

/-- A move whose rename fails: the source keeps its content and the
destination is gone. -/
theorem move_rename_fails (d : Disk) (src dst : String) (c : List Char) (hne : src ≠ dst)
    (hsrc : d.read src = some c) (hf : d.faults = [d.calls.length + 1]) :
    (move_ d src dst).read src = some c ∧ (move_ d src dst).read dst = none ∧
    (move_ d src dst).calls = d.calls ++ [FsCall.remove dst, FsCall.rename src dst] := by
  have hex : fs_exists d src = true := by simp [fs_exists, hsrc]
  have h0 : d.calls.length ∉ d.faults := by simp [hf]
  have h1 : (fs_remove d dst).calls.length ∈ (fs_remove d dst).faults := by simp [hf]
  refine ⟨?_, ?_, by simp [move_calls, hex]⟩
  · simp only [move_, hex, if_true]
    rw [read_fs_rename_fail _ _ _ _ h1, read_fs_remove_ok _ _ _ h0, if_neg hne, hsrc]
  · simp only [move_, hex, if_true]
    rw [read_fs_rename_fail _ _ _ _ h1, read_fs_remove_ok _ _ _ h0, if_pos rfl]

end CustomSink

namespace CustomSink

/-- The move that follows a move whose rename failed: the slot that could not
be moved is removed and receives the file below it. -/
theorem move_after_failed_move (d : Disk) (low src dst : String) (x y : List Char)
    (h1 : src ≠ dst) (h2 : low ≠ src) (h3 : low ≠ dst)
    (hx : d.read low = some x) (hy : d.read src = some y)
    (hf : d.faults = [d.calls.length + 1]) :
    (move_ (move_ d src dst) low src).read src = some x ∧
    (move_ (move_ d src dst) low src).read low = none ∧
    (move_ (move_ d src dst) low src).read dst = none := by
  obtain ⟨_, m2, m3⟩ := move_rename_fails d src dst y h1 hy hf
  have mlow : (move_ d src dst).read low = some x := by
    rw [read_move_ne _ _ _ _ h2 h3, hx]
  have mf : (move_ d src dst).faults = [d.calls.length + 1] := by
    unfold move_
    split <;> simp [hf]
  generalize move_ d src dst = m at m2 m3 mlow mf ⊢
  have hex : fs_exists m low = true := by simp [fs_exists, mlow]
  have k0 : m.calls.length ∉ m.faults := by
    rw [mf, m3]
    simp
  have k1 : (fs_remove m src).calls.length ∉ (fs_remove m src).faults := by
    simp only [fs_remove_calls, fs_remove_faults, mf, m3]
    simp
  have r1 : (fs_remove m src).read low = some x := by
    rw [read_fs_remove_ok _ _ _ k0, if_neg h2, mlow]
  have e : move_ m low src = fs_rename (fs_remove m src) low src := by
    unfold move_
    rw [if_pos hex]
  rw [e]
  refine ⟨?_, ?_, ?_⟩
  · rw [read_fs_rename_ok _ _ _ _ x k1 r1, if_pos rfl]
  · rw [read_fs_rename_ok _ _ _ _ x k1 r1, if_neg h2, if_pos rfl]
  · rw [read_fs_rename_ok _ _ _ _ x k1 r1, if_neg (Ne.symm h1), if_neg (Ne.symm h3),
      read_fs_remove_ok _ _ _ k0, if_neg (Ne.symm h1)]
    exact m2

namespace CountSink

/-- C23 as stated fails: with a current file and two backups and the rename of
backup 1 to backup 2 failing, the five calls of the chain are all issued, and
at the end backup 1 holds the content of the current file: its own content
`b` is in no file. -/
theorem failed_slot_overwritten :
    (rotate_files_ scenario_cfg (init faulty_disk)).disk =
      { entries := [("logs/app.1.log", "c\n".toList)],
        calls := [FsCall.remove "logs/app.2.log", FsCall.remove "logs/app.2.log",
          FsCall.rename "logs/app.1.log" "logs/app.2.log", FsCall.remove "logs/app.1.log",
          FsCall.rename "logs/app.log" "logs/app.1.log"],
        faults := [2] } ∧
    faulty_disk.read "logs/app.1.log" = some "b\n".toList := by
  constructor <;> decide

/-- C23, amended: the rotation of the count sink with `max_files_ ≥ 1` issues
the same remove and rename calls on two directories that hold the same files,
whichever calls fail: every step is attempted.  A move whose rename is the one
failing call leaves its source slot its content and its destination removed;
the next move, of the file below (the current file for slot 1, slot `i - 1`
otherwise) when it exists, then replaces the content of that slot, which is
in none of the three files afterwards. -/
theorem rotation_best_effort (cfg : Config) (s t : State) (d : Disk) (i : Nat)
    (x y : List Char) (hB : 1 ≤ cfg.max_files_) (hc : t.disk.calls = s.disk.calls)
    (he : t.disk.entries = s.disk.entries) (hi : 1 ≤ i)
    (hx : d.read (if i = 1 then base_path_ cfg else rotated_path_ cfg (i - 1)) = some x)
    (hy : d.read (rotated_path_ cfg i) = some y) (hf : d.faults = [d.calls.length + 1]) :
    (rotate_files_ cfg t).disk.calls = (rotate_files_ cfg s).disk.calls ∧
    ((move_ d (rotated_path_ cfg i) (rotated_path_ cfg (i + 1))).read (rotated_path_ cfg i) =
        some y ∧
      (move_ d (rotated_path_ cfg i) (rotated_path_ cfg (i + 1))).read
        (rotated_path_ cfg (i + 1)) = none) ∧
    ((move_ (move_ d (rotated_path_ cfg i) (rotated_path_ cfg (i + 1)))
        (if i = 1 then base_path_ cfg else rotated_path_ cfg (i - 1))
        (rotated_path_ cfg i)).read (rotated_path_ cfg i) = some x ∧
      (move_ (move_ d (rotated_path_ cfg i) (rotated_path_ cfg (i + 1)))
        (if i = 1 then base_path_ cfg else rotated_path_ cfg (i - 1))
        (rotated_path_ cfg i)).read
        (if i = 1 then base_path_ cfg else rotated_path_ cfg (i - 1)) = none ∧
      (move_ (move_ d (rotated_path_ cfg i) (rotated_path_ cfg (i + 1)))
        (if i = 1 then base_path_ cfg else rotated_path_ cfg (i - 1))
        (rotated_path_ cfg i)).read (rotated_path_ cfg (i + 1)) = none) := by
  have hne : rotated_path_ cfg i ≠ rotated_path_ cfg (i + 1) := rotated_path_ne cfg _ _ (by omega)
  have hl1 : (if i = 1 then base_path_ cfg else rotated_path_ cfg (i - 1)) ≠
      rotated_path_ cfg i := by
    split
    · exact base_path_ne_rotated_path cfg i
    · exact rotated_path_ne cfg _ _ (by omega)
  have hl2 : (if i = 1 then base_path_ cfg else rotated_path_ cfg (i - 1)) ≠
      rotated_path_ cfg (i + 1) := by
    split
    · exact base_path_ne_rotated_path cfg (i + 1)
    · exact rotated_path_ne cfg _ _ (by omega)
  obtain ⟨a1, a2, _⟩ := move_rename_fails d _ _ y hne hy hf
  refine ⟨?_, ⟨a1, a2⟩, move_after_failed_move d _ _ _ x y hne hl1 hl2 hx hy hf⟩
  rw [rotate_files_disk cfg t (by omega), rotate_files_disk cfg s (by omega)]
  exact chain_calls_indep _ _ _ _ _ (rotated_path_ne cfg) (base_path_ne_rotated_path cfg) hB hc he

/-- C23 at the second step of the chain of the scenario, where the rename of
backup 1 fails. -/
theorem rotation_best_effort_witness :
    (1 ≤ scenario_cfg.max_files_ ∧
      (fs_remove faulty_disk (rotated_path_ scenario_cfg 2)).read
        (if 1 = 1 then base_path_ scenario_cfg else rotated_path_ scenario_cfg (1 - 1)) =
        some "c\n".toList ∧
      (fs_remove faulty_disk (rotated_path_ scenario_cfg 2)).read
        (rotated_path_ scenario_cfg 1) = some "b\n".toList ∧
      (fs_remove faulty_disk (rotated_path_ scenario_cfg 2)).faults =
        [(fs_remove faulty_disk (rotated_path_ scenario_cfg 2)).calls.length + 1]) ∧
    (move_ (move_ (fs_remove faulty_disk (rotated_path_ scenario_cfg 2))
        (rotated_path_ scenario_cfg 1) (rotated_path_ scenario_cfg (1 + 1)))
      (if 1 = 1 then base_path_ scenario_cfg else rotated_path_ scenario_cfg (1 - 1))
      (rotated_path_ scenario_cfg 1)).read (rotated_path_ scenario_cfg 1) = some "c\n".toList := by
  have hx : (fs_remove faulty_disk (rotated_path_ scenario_cfg 2)).read
      (if 1 = 1 then base_path_ scenario_cfg else rotated_path_ scenario_cfg (1 - 1)) =
      some "c\n".toList := by decide
  have hy : (fs_remove faulty_disk (rotated_path_ scenario_cfg 2)).read
      (rotated_path_ scenario_cfg 1) = some "b\n".toList := by decide
  have hf : (fs_remove faulty_disk (rotated_path_ scenario_cfg 2)).faults =
      [(fs_remove faulty_disk (rotated_path_ scenario_cfg 2)).calls.length + 1] := by decide
  have h := rotation_best_effort scenario_cfg (init faulty_disk) (init scenario_backups)
    (fs_remove faulty_disk (rotated_path_ scenario_cfg 2)) 1 "c\n".toList "b\n".toList
    (by decide) rfl (by decide) (by decide) hx hy hf
  exact ⟨⟨by decide, hx, hy, hf⟩, h.2.2.1⟩

end CountSink

end CustomSink

/-! ## The date formatter: literal text (C26, C27) -/

namespace CustomSink

theorem format_token_other (t : Tm) (ms : Int) (c : Char) (n : Nat)
    (h : c ∉ token_letters_) : format_token_ t ms c n = List.replicate n c := by
  simp only [token_letters_, List.mem_cons, List.mem_singleton, List.not_mem_nil, or_false,
    not_or] at h
  obtain ⟨h1, h2, h3, h4, h5, h6, h7, h8⟩ := h
  simp [format_token_, h1, h2, h3, h4, h5, h6, h7, h8]

/-- A character and the run of equal characters behind it. -/
theorem run_split (c : Char) (cs : List Char) :
    List.replicate (1 + (cs.takeWhile (fun x => decide (x = c))).length) c ++
      cs.dropWhile (fun x => decide (x = c)) = c :: cs := by
  have h : cs.takeWhile (fun x => decide (x = c)) =
      List.replicate (cs.takeWhile (fun x => decide (x = c))).length c := by
    rw [List.eq_replicate_iff]
    refine ⟨rfl, fun b hb => ?_⟩
    have := List.mem_takeWhile_imp hb
    simpa using this
  rw [Nat.add_comm, List.replicate_succ, List.cons_append, ← h, List.takeWhile_append_dropWhile]

theorem format_loop_pass (t : Tm) (ms : Int) :
    ∀ (fuel : Nat) (rest : List Char), rest.length < fuel →
      (∀ c ∈ rest, c ≠ quote_ ∧ c ∉ token_letters_) →
      ¬ ['A', 'P'] <:+: rest → ¬ ['a', 'p'] <:+: rest →
      format_loop_ t ms fuel rest false = rest := by
  intro fuel
  induction fuel with
  | zero => intro rest h; omega
  | succ fuel ih =>
    intro rest hlen hc hAP hap
    cases rest with
    | nil => rfl
    | cons c cs =>
      obtain ⟨hq, htok⟩ := hc c (List.mem_cons_self _ _)
      have h1 : ¬ ((c = 'A' ∧ cs.head? = some 'P') ∨ (c = 'a' ∧ cs.head? = some 'p')) := by
        rintro (⟨rfl, h⟩ | ⟨rfl, h⟩)
        · cases cs with
          | nil => simp at h
          | cons x xs =>
            simp only [List.head?_cons, Option.some.injEq] at h
            subst h
            exact hAP ⟨[], xs, rfl⟩
        · cases cs with
          | nil => simp at h
          | cons x xs =>
            simp only [List.head?_cons, Option.some.injEq] at h
            subst h
            exact hap ⟨[], xs, rfl⟩
      have hsuf : cs.dropWhile (fun x => decide (x = c)) <:+ c :: cs :=
        (List.dropWhile_suffix _).trans (List.suffix_cons _ _)
      have hrec := ih (cs.dropWhile (fun x => decide (x = c)))
        (by
          have := (List.dropWhile_suffix (fun x => decide (x = c)) (l := cs)).length_le
          simp only [List.length_cons] at hlen
          omega)
        (fun x hx => hc x (hsuf.subset hx))
        (fun h => hAP (h.trans hsuf.isInfix))
        (fun h => hap (h.trans hsuf.isInfix))
      rw [format_loop_]
      simp only [hq, if_false, h1, Bool.false_eq_true]
      rw [hrec, format_token_other t ms c _ htok]
      exact run_split c cs

end CustomSink

namespace CustomSink

/-- Inside a quoted span, text without a quote is copied. -/
theorem format_loop_quoted (t : Tm) (ms : Int) :
    ∀ s : List Char, quote_ ∉ s → ∀ (fuel : Nat) (rest : List Char),
      format_loop_ t ms (s.length + fuel) (s ++ rest) true =
        s ++ format_loop_ t ms fuel rest true := by
  intro s
  induction s with
  | nil => intro _ fuel rest; simp
  | cons c s ih =>
    intro hq fuel rest
    have hc : c ≠ quote_ := fun h => hq (by simp [h])
    have hs : quote_ ∉ s := fun h => hq (List.mem_cons_of_mem _ h)
    have e : (c :: s).length + fuel = (s.length + fuel) + 1 := by
      simp only [List.length_cons]; omega
    rw [e, List.cons_append, format_loop_]
    simp only [hc, if_false, if_true]
    rw [ih hs]
    rfl

/-- The closing quote of a span at the end of the format. -/
theorem format_loop_close (t : Tm) (ms : Int) (fuel : Nat) :
    format_loop_ t ms (fuel + 2) [quote_] true = [] := by
  rw [format_loop_]
  simp [format_loop_]

/-- The opening quote of a span that is not empty. -/
theorem format_loop_open (t : Tm) (ms : Int) (fuel : Nat) (s rest : List Char) (hs : s ≠ [])
    (hq : quote_ ∉ s) :
    format_loop_ t ms (fuel + 1) (quote_ :: (s ++ rest)) false =
      format_loop_ t ms fuel (s ++ rest) true := by
  cases s with
  | nil => exact absurd rfl hs
  | cons c s =>
    have hc : ¬ c = quote_ := fun h => hq (by simp [h])
    rw [format_loop_]
    simp [hc]

/-- Inside a quoted span a doubled quote appends one quote and the span goes
on; outside of one it appends one quote too. -/
theorem format_loop_doubled (t : Tm) (ms : Int) (fuel : Nat) (rest : List Char)
    (in_quote : Bool) :
    format_loop_ t ms (fuel + 1) (quote_ :: quote_ :: rest) in_quote =
      quote_ :: format_loop_ t ms fuel rest in_quote := by
  rw [format_loop_]
  simp

/-- C26: for every instant, a text `s` without a single quote, wrapped in
single quotes, renders as `s`, whatever letters it holds; the empty text
wrapped in quotes is the pattern of two quotes, which renders as one quote.
Inside a quoted span a doubled quote appends one quote and the span goes on:
the pattern `'s1''s2'` renders as `s1's2` for texts without a quote (so
`'a''b'` renders as `a'b`), but for `s1` and `s2` both empty, where the
pattern is two escapes and renders as two quotes. -/
theorem quoted_spans_literal (tz : TimeZone) (tp : Int) (s s1 s2 : List Char)
    (hq : quote_ ∉ s) (hq1 : quote_ ∉ s1) (hq2 : quote_ ∉ s2) :
    qt_datetime_format_subset_ tz tp (quote_ :: (s ++ [quote_])) =
      (if s = [] then [quote_] else s) ∧
    qt_datetime_format_subset_ tz tp [quote_, quote_] = [quote_] ∧
    qt_datetime_format_subset_ tz tp
      (quote_ :: (s1 ++ quote_ :: quote_ :: (s2 ++ [quote_]))) =
      (if s1 = [] ∧ s2 = [] then [quote_, quote_] else s1 ++ quote_ :: s2) ∧
    qt_datetime_format_subset_ tz tp [quote_, 'a', quote_, quote_, 'b', quote_] =
      ['a', quote_, 'b'] ∧
    (∀ (t : Tm) (ms : Int) (fuel : Nat) (rest : List Char),
      format_loop_ t ms (fuel + 1) (quote_ :: quote_ :: rest) true =
        quote_ :: format_loop_ t ms fuel rest true) := by
  refine ⟨?_, ?_, ?_, ?_, fun t ms fuel rest => format_loop_doubled t ms fuel rest true⟩
  · by_cases hs : s = []
    · subst hs
      simp [qt_datetime_format_subset_, format_loop_]
    · rw [if_neg hs]
      unfold qt_datetime_format_subset_
      have e : (quote_ :: (s ++ [quote_])).length + 1 = (s.length + 2) + 1 := by simp
      rw [e, format_loop_open _ _ _ s [quote_] hs hq, format_loop_quoted _ _ s hq,
        format_loop_close _ _ 0]
      simp
  · simp [qt_datetime_format_subset_, format_loop_]
  · by_cases hs1 : s1 = []
    · subst hs1
      by_cases hs2 : s2 = []
      · subst hs2
        simp [qt_datetime_format_subset_, format_loop_]
      · rw [if_neg (fun h => hs2 h.2)]
        unfold qt_datetime_format_subset_
        have e : (quote_ :: ([] ++ quote_ :: quote_ :: (s2 ++ [quote_]))).length + 1 =
            ((s2.length + (1 + 2)) + 1) + 1 := by
          simp only [List.length_cons, List.length_append, List.length_nil]; omega
        rw [e, List.nil_append, format_loop_doubled, format_loop_open _ _ _ s2 _ hs2 hq2,
          format_loop_quoted _ _ s2 hq2, format_loop_close _ _ 1]
        simp
    · rw [if_neg (fun h => hs1 h.1)]
      unfold qt_datetime_format_subset_
      have e : (quote_ :: (s1 ++ quote_ :: quote_ :: (s2 ++ [quote_]))).length + 1 =
          (s1.length + ((s2.length + (1 + 2)) + 1)) + 1 := by
        simp only [List.length_cons, List.length_append, List.length_nil]; omega
      rw [e, format_loop_open _ _ _ s1 _ hs1 hq1, format_loop_quoted _ _ s1 hq1,
        format_loop_doubled, format_loop_quoted _ _ s2 hq2, format_loop_close _ _ 1]
      simp
  · simp [qt_datetime_format_subset_, format_loop_, quote_]

/-- C26 on the texts `yyyy`, `a` and `b`. -/
theorem quoted_spans_literal_witness :
    (quote_ ∉ "yyyy".toList ∧ quote_ ∉ "a".toList ∧ quote_ ∉ "b".toList) ∧
    qt_datetime_format_subset_ utc 0 (quote_ :: ("yyyy".toList ++ [quote_])) = "yyyy".toList ∧
    qt_datetime_format_subset_ utc 0
      (quote_ :: ("a".toList ++ quote_ :: quote_ :: ("b".toList ++ [quote_]))) =
      "a".toList ++ quote_ :: "b".toList := by
  have h2 : quote_ ∉ "yyyy".toList := by decide
  have h4 : quote_ ∉ "a".toList := by decide
  have h5 : quote_ ∉ "b".toList := by decide
  have h := quoted_spans_literal utc 0 "yyyy".toList "a".toList "b".toList h2 h4 h5
  exact ⟨⟨h2, h4, h5⟩, h.1.trans (by decide), h.2.2.1.trans (by decide)⟩

/-- C27: a pattern without a single quote, without any of the letters `y`, `M`,
`d`, `H`, `h`, `m`, `s`, `z` and without an adjacent pair `AP` or `ap` renders
as itself at every instant and in every time zone. -/
theorem unrecognized_characters_pass_through (tz : TimeZone) (tp : Int) (fmt : List Char)
    (hc : ∀ c ∈ fmt, c ≠ quote_ ∧ c ∉ token_letters_)
    (hAP : ¬ ['A', 'P'] <:+: fmt) (hap : ¬ ['a', 'p'] <:+: fmt) :
    qt_datetime_format_subset_ tz tp fmt = fmt := by
  unfold qt_datetime_format_subset_
  exact format_loop_pass _ _ _ fmt (by omega) hc hAP hap

/-- C27 on a pattern of capitals, digits, punctuation and lone `A`, `a`, `P`,
`p`. -/
theorem unrecognized_characters_pass_through_witness :
    ((∀ c ∈ "YDSZ-09:AaPp x".toList, c ≠ quote_ ∧ c ∉ token_letters_) ∧
      ¬ ['A', 'P'] <:+: "YDSZ-09:AaPp x".toList ∧ ¬ ['a', 'p'] <:+: "YDSZ-09:AaPp x".toList) ∧
    qt_datetime_format_subset_ utc 0 "YDSZ-09:AaPp x".toList = "YDSZ-09:AaPp x".toList := by
  have h1 : ∀ c ∈ "YDSZ-09:AaPp x".toList, c ≠ quote_ ∧ c ∉ token_letters_ := by decide
  have h2 : ¬ ['A', 'P'] <:+: "YDSZ-09:AaPp x".toList := by decide
  have h3 : ¬ ['a', 'p'] <:+: "YDSZ-09:AaPp x".toList := by decide
  exact ⟨⟨h1, h2, h3⟩, unrecognized_characters_pass_through utc 0 _ h1 h2 h3⟩

end CustomSink

/-! ## The date formatter: the 12-hour clock (C25) -/

namespace CustomSink

/-- The value of the lambda `hour12` for an hour of the day. -/
theorem hour12_value (h : Int) (h0 : 0 ≤ h) :
    (if Int.tmod h 12 = 0 then 12 else Int.tmod h 12) = (h + 11) % 12 + 1 := by
  rw [Int.tmod_eq_emod h0 (by decide)]
  split <;> omega

theorem append_int_nonneg (v : Int) (h : 0 ≤ v) :
    append_int_ v 0 = (Nat.repr v.toNat).toList := by
  have hv : ¬ v < 0 := by omega
  simp [append_int_, hv]

theorem append_int_injective (a b : Int) (ha : 0 ≤ a) (hb : 0 ≤ b)
    (h : append_int_ a 0 = append_int_ b 0) : a = b := by
  rw [append_int_nonneg a ha, append_int_nonneg b hb] at h
  have h2 : Nat.repr a.toNat = Nat.repr b.toNat := String.ext h
  have h3 : a.toNat = b.toNat := to_string_injective _ _ h2
  omega

theorem format_h (tz : TimeZone) (tp : Int) :
    qt_datetime_format_subset_ tz tp ['h'] =
      append_int_ (if Int.tmod (tz.localtime_r (to_time_t tp)).tm_hour 12 = 0 then 12
        else Int.tmod (tz.localtime_r (to_time_t tp)).tm_hour 12) 0 := by
  simp [qt_datetime_format_subset_, format_loop_, format_token_, to_local_parts_, quote_]

theorem format_hh (tz : TimeZone) (tp : Int) :
    qt_datetime_format_subset_ tz tp ['h', 'h'] =
      append_int_ (if Int.tmod (tz.localtime_r (to_time_t tp)).tm_hour 12 = 0 then 12
        else Int.tmod (tz.localtime_r (to_time_t tp)).tm_hour 12) 2 := by
  simp [qt_datetime_format_subset_, format_loop_, format_token_, to_local_parts_, quote_]

theorem format_AP (tz : TimeZone) (tp : Int) :
    qt_datetime_format_subset_ tz tp ['A', 'P'] =
      (if (tz.localtime_r (to_time_t tp)).tm_hour ≥ 12 then ['P', 'M'] else ['A', 'M']) := by
  simp [qt_datetime_format_subset_, format_loop_, ampm_, to_local_parts_, quote_]

theorem format_ap (tz : TimeZone) (tp : Int) :
    qt_datetime_format_subset_ tz tp ['a', 'p'] =
      (if (tz.localtime_r (to_time_t tp)).tm_hour ≥ 12 then ['p', 'm'] else ['a', 'm']) := by
  simp [qt_datetime_format_subset_, format_loop_, ampm_, to_local_parts_, quote_]

/-- C25: for a local hour `H` in 0..23, the token `h` renders the number
`((H + 11) mod 12) + 1`, which lies in 1..12, and `hh` renders it filled to two
digits; `AP` renders `PM` and `ap` renders `pm` when `H ≥ 12`, `AM` and `am`
otherwise.  Two instants whose local hours are in 0..23 and that render `h`
and `AP` alike have the same local hour. -/
theorem twelve_hour_clock (tz : TimeZone) (tp tq : Int)
    (h0 : 0 ≤ (tz.localtime_r (to_time_t tp)).tm_hour)
    (h1 : (tz.localtime_r (to_time_t tp)).tm_hour ≤ 23)
    (k0 : 0 ≤ (tz.localtime_r (to_time_t tq)).tm_hour)
    (k1 : (tz.localtime_r (to_time_t tq)).tm_hour ≤ 23) :
    qt_datetime_format_subset_ tz tp ['h'] =
      append_int_ (((tz.localtime_r (to_time_t tp)).tm_hour + 11) % 12 + 1) 0 ∧
    qt_datetime_format_subset_ tz tp ['h', 'h'] =
      append_int_ (((tz.localtime_r (to_time_t tp)).tm_hour + 11) % 12 + 1) 2 ∧
    (1 ≤ ((tz.localtime_r (to_time_t tp)).tm_hour + 11) % 12 + 1 ∧
      ((tz.localtime_r (to_time_t tp)).tm_hour + 11) % 12 + 1 ≤ 12) ∧
    qt_datetime_format_subset_ tz tp ['A', 'P'] =
      (if 12 ≤ (tz.localtime_r (to_time_t tp)).tm_hour then ['P', 'M'] else ['A', 'M']) ∧
    qt_datetime_format_subset_ tz tp ['a', 'p'] =
      (if 12 ≤ (tz.localtime_r (to_time_t tp)).tm_hour then ['p', 'm'] else ['a', 'm']) ∧
    (qt_datetime_format_subset_ tz tp ['h'] = qt_datetime_format_subset_ tz tq ['h'] →
      qt_datetime_format_subset_ tz tp ['A', 'P'] = qt_datetime_format_subset_ tz tq ['A', 'P'] →
      (tz.localtime_r (to_time_t tp)).tm_hour = (tz.localtime_r (to_time_t tq)).tm_hour) := by
  have eh : ∀ t, 0 ≤ (tz.localtime_r (to_time_t t)).tm_hour →
      (tz.localtime_r (to_time_t t)).tm_hour ≤ 23 →
      qt_datetime_format_subset_ tz t ['h'] =
        append_int_ (((tz.localtime_r (to_time_t t)).tm_hour + 11) % 12 + 1) 0 := by
    intro t a _
    rw [format_h, hour12_value _ a]
  refine ⟨eh tp h0 h1, by rw [format_hh, hour12_value _ h0], by omega, format_AP tz tp,
    format_ap tz tp, ?_⟩
  intro e1 e2
  rw [eh tp h0 h1, eh tq k0 k1] at e1
  have e3 := append_int_injective _ _ (by omega) (by omega) e1
  rw [format_AP, format_AP] at e2
  generalize (tz.localtime_r (to_time_t tp)).tm_hour = a at *
  generalize (tz.localtime_r (to_time_t tq)).tm_hour = b at *
  by_cases ha : a ≥ 12 <;> by_cases hb : b ≥ 12
  · omega
  · simp [ha, hb] at e2
  · simp [ha, hb] at e2
  · omega

/-- C25 at 02:00 and at 03:00 of one day in UTC. -/
theorem twelve_hour_clock_witness :
    (0 ≤ (utc.localtime_r (to_time_t PatternSink.t_0200)).tm_hour ∧
      (utc.localtime_r (to_time_t PatternSink.t_0200)).tm_hour ≤ 23 ∧
      0 ≤ (utc.localtime_r (to_time_t PatternSink.t_0300)).tm_hour ∧
      (utc.localtime_r (to_time_t PatternSink.t_0300)).tm_hour ≤ 23) ∧
    qt_datetime_format_subset_ utc PatternSink.t_0200 ['h'] =
      append_int_ (((utc.localtime_r (to_time_t PatternSink.t_0200)).tm_hour + 11) % 12 + 1) 0 := by
  have a0 : 0 ≤ (utc.localtime_r (to_time_t PatternSink.t_0200)).tm_hour := by decide
  have a1 : (utc.localtime_r (to_time_t PatternSink.t_0200)).tm_hour ≤ 23 := by decide
  have b0 : 0 ≤ (utc.localtime_r (to_time_t PatternSink.t_0300)).tm_hour := by decide
  have b1 : (utc.localtime_r (to_time_t PatternSink.t_0300)).tm_hour ≤ 23 := by decide
  exact ⟨⟨a0, a1, b0, b1⟩,
    (twelve_hour_clock utc PatternSink.t_0200 PatternSink.t_0300 a0 a1 b0 b1).1⟩

end CustomSink

/-! ## Placeholder substitution (C28) -/

namespace CustomSink

theorem replace_loop_fuel (src dst : List Char) (hsrc : src ≠ []) :
    ∀ (n : Nat) (rest : List Char) (f1 f2 : Nat), rest.length ≤ n → rest.length < f1 →
      rest.length < f2 → replace_loop_ src dst f1 rest = replace_loop_ src dst f2 rest := by
  intro n
  induction n with
  | zero =>
    intro rest f1 f2 h0 h1 h2
    have : rest = [] := List.length_eq_zero.mp (by omega)
    subst this
    cases f1 <;> cases f2 <;> rfl
  | succ n ih =>
    intro rest f1 f2 h0 h1 h2
    cases rest with
    | nil => cases f1 <;> cases f2 <;> rfl
    | cons c cs =>
      obtain ⟨a, rfl⟩ : ∃ a, f1 = a + 1 := ⟨f1 - 1, by simp only [List.length_cons] at h1; omega⟩
      obtain ⟨b, rfl⟩ : ∃ b, f2 = b + 1 := ⟨f2 - 1, by simp only [List.length_cons] at h2; omega⟩
      simp only [List.length_cons] at h0 h1 h2
      have hpos : 0 < src.length := List.length_pos.mpr hsrc
      have hd : ((c :: cs).drop src.length).length ≤ cs.length := by
        simp only [List.length_drop, List.length_cons]; omega
      simp only [replace_loop_]
      split
      · rw [ih _ a b (by omega) (by omega) (by omega)]
      · rw [ih cs a b (by omega) (by omega) (by omega)]

/-- Without an occurrence of `src`, the loop leaves the text as it is. -/
theorem replace_loop_none (src dst : List Char) :
    ∀ (fuel : Nat) (rest : List Char), rest.length < fuel → ¬ src <:+: rest →
      replace_loop_ src dst fuel rest = rest := by
  intro fuel
  induction fuel with
  | zero => intro rest h; omega
  | succ fuel ih =>
    intro rest hlen hno
    cases rest with
    | nil => rfl
    | cons c cs =>
      have hp : ¬ src <+: c :: cs := fun h => hno h.isInfix
      have hcs : ¬ src <:+: cs := fun h => hno (h.trans (List.suffix_cons c cs).isInfix)
      simp only [List.length_cons] at hlen
      simp only [replace_loop_, List.isPrefixOf_iff_prefix, hp, if_false]
      rw [ih cs (by omega) hcs]

/-- The leftmost occurrence of `src`: the text before it is kept, `dst` takes
its place and the loop goes on behind it. -/
theorem replace_loop_leftmost (src dst : List Char) (hsrc : src ≠ []) :
    ∀ (a : List Char), ¬ src <:+: a ++ src.dropLast → ∀ (fuel : Nat) (rest : List Char),
      (a ++ src ++ rest).length < fuel →
      replace_loop_ src dst fuel (a ++ src ++ rest) =
        a ++ dst ++ replace_loop_ src dst (fuel - a.length - 1) rest := by
  intro a
  induction a with
  | nil =>
    intro _ fuel rest hlen
    obtain ⟨f, rfl⟩ : ∃ f, fuel = f + 1 := ⟨fuel - 1, by omega⟩
    obtain ⟨c, cs, hcs⟩ : ∃ c cs, src = c :: cs := by
      cases src with
      | nil => exact absurd rfl hsrc
      | cons c cs => exact ⟨c, cs, rfl⟩
    have hp : src <+: src ++ rest := List.prefix_append _ _
    have e : [] ++ src ++ rest = src ++ rest := by simp
    rw [e]
    have e2 : src ++ rest = c :: (cs ++ rest) := by rw [hcs]; rfl
    have hdrop : (c :: (cs ++ rest)).drop src.length = rest := by
      rw [← e2, List.drop_left]
    rw [e2] at hp
    rw [e2, replace_loop_]
    simp only [List.isPrefixOf_iff_prefix, hp, if_true, hdrop]
    simp
  | cons x a ih =>
    intro hno fuel rest hlen
    obtain ⟨f, rfl⟩ : ∃ f, fuel = f + 1 := ⟨fuel - 1, by omega⟩
    have hpos : 0 < src.length := List.length_pos.mpr hsrc
    have hp : ¬ src <+: x :: (a ++ src ++ rest) := by
      intro h
      apply hno
      have h2 : (x :: a) ++ src.dropLast <+: x :: (a ++ src ++ rest) := by
        obtain ⟨t, ht⟩ := List.dropLast_prefix src
        refine ⟨t ++ rest, ?_⟩
        conv_rhs => rw [← ht]
        simp
      have h3 : src.length ≤ ((x :: a) ++ src.dropLast).length := by
        simp only [List.length_append, List.length_cons, List.length_dropLast]; omega
      exact (List.prefix_of_prefix_length_le h h2 h3).isInfix
    have hno2 : ¬ src <:+: a ++ src.dropLast := fun h =>
      hno (h.trans (List.suffix_cons x _).isInfix)
    have hlen2 : (a ++ src ++ rest).length < f := by
      simp only [List.cons_append, List.length_cons] at hlen; omega
    have e : x :: a ++ src ++ rest = x :: (a ++ src ++ rest) := rfl
    rw [e, replace_loop_]
    simp only [List.isPrefixOf_iff_prefix, hp, if_false]
    rw [ih hno2 f rest hlen2]
    have e3 : f + 1 - (x :: a).length - 1 = f - a.length - 1 := by
      simp only [List.length_cons]; omega
    rw [e3]
    rfl

end CustomSink

namespace CustomSink

theorem replace_all_none (s src dst : List Char) (h : ¬ src <:+: s) :
    replace_all_ s src dst = s := by
  unfold replace_all_
  split
  · rfl
  · exact replace_loop_none src dst _ s (by omega) h

theorem replace_all_leftmost (a rest src dst : List Char) (hsrc : src ≠ [])
    (h : ¬ src <:+: a ++ src.dropLast) :
    replace_all_ (a ++ src ++ rest) src dst = a ++ dst ++ replace_all_ rest src dst := by
  have he : src.isEmpty = false := by
    cases src with
    | nil => exact absurd rfl hsrc
    | cons c cs => rfl
  unfold replace_all_
  simp only [he, Bool.false_eq_true, if_false]
  rw [replace_loop_leftmost src dst hsrc a h _ rest (by omega)]
  rw [replace_loop_fuel src dst hsrc rest.length rest _ (rest.length + 1) (le_refl _)
    (by simp only [List.length_append]
        have := List.length_pos.mpr hsrc
        omega) (by omega)]

theorem replace_all_pieces (src dst : List Char) (hsrc : src ≠ []) :
    ∀ pieces : List (List Char), LeftmostPieces src pieces →
      replace_all_ (join_with_ src pieces) src dst = join_with_ dst pieces := by
  intro pieces
  induction pieces with
  | nil => intro h; exact absurd h (by simp [LeftmostPieces])
  | cons p ps ih =>
    intro h
    cases ps with
    | nil => exact replace_all_none p src dst h
    | cons q qs =>
      obtain ⟨h1, h2⟩ := h
      simp only [join_with_]
      rw [replace_all_leftmost p _ src dst hsrc h1, ih h2]

/-- C28: for a non-empty `src`, `replace_all_(s, src, dst)` is total and equals
the pieces of `s` cut at its successive leftmost non-overlapping occurrences
of `src`, joined with `dst`, whatever `dst` holds (what was put in is not
searched again); it returns `s` when `src` does not occur in `s`; it replaces
a leftmost occurrence and goes on in the text behind it.  Hence for the name
pattern `a{date}b` with no occurrence of `{date}` that starts in `a` or lies
in `b`, the base name is `a`, the rendered date, `b`. -/
theorem replace_all_splits_and_joins (s src dst a rest : List Char)
    (pieces : List (List Char)) (tz : TimeZone) (args : PatternSink.Args) (tp : Int)
    (pa pb : List Char) (hsrc : src ≠ []) :
    (LeftmostPieces src pieces →
      replace_all_ (join_with_ src pieces) src dst = join_with_ dst pieces) ∧
    (¬ src <:+: s → replace_all_ s src dst = s) ∧
    (¬ src <:+: a ++ src.dropLast →
      replace_all_ (a ++ src ++ rest) src dst = a ++ dst ++ replace_all_ rest src dst) ∧
    (args.name_pattern = String.mk (pa ++ "\x7bdate\x7d".toList ++ pb) →
      ¬ "\x7bdate\x7d".toList <:+: pa ++ "\x7bdate\x7d".toList.dropLast →
      ¬ "\x7bdate\x7d".toList <:+: pb →
      PatternSink.make_basename_for_tp_ tz args tp =
        String.mk (pa ++ qt_datetime_format_subset_ tz tp args.date_format.toList ++ pb)) := by
  refine ⟨replace_all_pieces src dst hsrc pieces, replace_all_none s src dst,
    replace_all_leftmost a rest src dst hsrc, ?_⟩
  intro hn h1 h2
  unfold PatternSink.make_basename_for_tp_
  rw [hn]
  have e : (String.mk (pa ++ "\x7bdate\x7d".toList ++ pb)).toList =
      pa ++ "\x7bdate\x7d".toList ++ pb := rfl
  rw [e, replace_all_leftmost pa pb _ _ (by decide) h1, replace_all_none pb _ _ h2]

/-- C28 on the pattern `app_{date}_{date}x` and a replacement that holds the
placeholder itself, and on the name pattern of the demo sink. -/
theorem replace_all_splits_and_joins_witness :
    ("\x7bdate\x7d".toList ≠ [] ∧
      LeftmostPieces "\x7bdate\x7d".toList ["app_".toList, "_".toList, "x".toList] ∧
      PatternSink.demo_args.name_pattern =
        String.mk ("app_".toList ++ "\x7bdate\x7d".toList ++ []) ∧
      ¬ "\x7bdate\x7d".toList <:+: "app_".toList ++ "\x7bdate\x7d".toList.dropLast ∧
      ¬ "\x7bdate\x7d".toList <:+: []) ∧
    replace_all_ (join_with_ "\x7bdate\x7d".toList ["app_".toList, "_".toList, "x".toList])
        "\x7bdate\x7d".toList "<\x7bdate\x7d>".toList =
      join_with_ "<\x7bdate\x7d>".toList ["app_".toList, "_".toList, "x".toList] ∧
    PatternSink.make_basename_for_tp_ utc PatternSink.demo_args PatternSink.t_0200 =
      String.mk ("app_".toList ++ qt_datetime_format_subset_ utc PatternSink.t_0200
        PatternSink.demo_args.date_format.toList ++ []) := by
  have h0 : "\x7bdate\x7d".toList ≠ [] := by decide
  have h1 : LeftmostPieces "\x7bdate\x7d".toList ["app_".toList, "_".toList, "x".toList] := by
    refine ⟨by decide, by decide, ?_⟩
    show ¬ "\x7bdate\x7d".toList <:+: "x".toList
    decide
  have h2 : PatternSink.demo_args.name_pattern =
      String.mk ("app_".toList ++ "\x7bdate\x7d".toList ++ []) := by decide
  have h3 : ¬ "\x7bdate\x7d".toList <:+: "app_".toList ++ "\x7bdate\x7d".toList.dropLast := by
    decide
  have h4 : ¬ "\x7bdate\x7d".toList <:+: ([] : List Char) := by decide
  have h := replace_all_splits_and_joins [] "\x7bdate\x7d".toList "<\x7bdate\x7d>".toList [] []
    ["app_".toList, "_".toList, "x".toList] utc PatternSink.demo_args PatternSink.t_0200
    "app_".toList [] h0
  exact ⟨⟨h0, h1, h2, h3, h4⟩, h.1 h1, h.2.2.2 h2 h3 h4⟩

end CustomSink

/-! ## The date of the bucket and the date format `yyyy-MM-dd` (C24) -/

namespace CustomSink

/-- Month and day of the month of `gmtime_` are those of a calendar date. -/
theorem gmtime_valid (t : Int) :
    0 ≤ (gmtime_ t).tm_mon ∧ (gmtime_ t).tm_mon ≤ 11 ∧
    1 ≤ (gmtime_ t).tm_mday ∧ (gmtime_ t).tm_mday ≤ 31 := by
  simp only [gmtime_, civil_from_days_]
  refine ⟨?_, ?_, ?_, ?_⟩
  · split <;> omega
  · split <;> omega
  · omega
  · omega

theorem printf_0d_nonneg (w : Nat) (v : Int) (h : 0 ≤ v) : printf_0d_ w v = append_int_ v w := by
  have hv : ¬ v < 0 := by omega
  simp only [printf_0d_, append_int_, hv, if_false]
  rfl

theorem append_int_length (v : Int) (w : Nat) (h0 : 0 ≤ v) (hw : 0 < w) (h : v < 10 ^ w) :
    (append_int_ v w).length = w := by
  have hv : ¬ v < 0 := by omega
  have hn : v.toNat < 10 ^ w := by
    have : (v.toNat : Int) < ((10 ^ w : Nat) : Int) := by
      rw [Int.toNat_of_nonneg h0]
      push_cast
      exact h
    exact_mod_cast this
  have hl : (Nat.repr v.toNat).toList.length ≤ w := Nat.repr_length v.toNat w hw hn
  simp only [append_int_, hv, if_false, List.length_append, List.length_replicate]
  omega

/-- The two renderings of a date whose year is in 0..9999. -/
theorem iso_date_agrees (tz : TimeZone) (tp : Int)
    (hy0 : 0 ≤ (tz.localtime_r (to_time_t tp)).tm_year + 1900)
    (hy1 : (tz.localtime_r (to_time_t tp)).tm_year + 1900 ≤ 9999)
    (hm0 : 0 ≤ (tz.localtime_r (to_time_t tp)).tm_mon)
    (hm1 : (tz.localtime_r (to_time_t tp)).tm_mon ≤ 11)
    (hd0 : 1 ≤ (tz.localtime_r (to_time_t tp)).tm_mday)
    (hd1 : (tz.localtime_r (to_time_t tp)).tm_mday ≤ 31) :
    String.mk (qt_datetime_format_subset_ tz tp "yyyy-MM-dd".toList) =
      local_date_yyyy_mm_dd tz (to_time_t tp) ∧
    (qt_datetime_format_subset_ tz tp "yyyy-MM-dd".toList).length = 10 := by
  have l1 := append_int_length ((tz.localtime_r (to_time_t tp)).tm_year + 1900) 4 hy0
    (by decide) (by omega)
  have l2 := append_int_length ((tz.localtime_r (to_time_t tp)).tm_mon + 1) 2 (by omega)
    (by decide) (by omega)
  have l3 := append_int_length (tz.localtime_r (to_time_t tp)).tm_mday 2 (by omega)
    (by decide) (by omega)
  have hlen : (qt_datetime_format_subset_ tz tp "yyyy-MM-dd".toList).length = 10 := by
    rw [format_iso_date]
    simp only [List.length_append, List.length_cons, l1, l2, l3]
  refine ⟨?_, hlen⟩
  unfold local_date_yyyy_mm_dd
  rw [printf_0d_nonneg _ _ hy0, printf_0d_nonneg _ _ (by omega), printf_0d_nonneg _ _ (by omega),
    ← format_iso_date, List.take_of_length_le (by omega)]

/-- C24: for every instant whose local year is in 0..9999 (month and day being
those of a calendar date, as `localtime_r` gives them),
`qt_datetime_format_subset_(t, "yyyy-MM-dd")` is the string
`local_date_yyyy_mm_dd` makes for the same local time: the year filled with
`0` to four digits, `-`, the month in two digits, `-`, the day in two digits,
ten characters in all.  In the time zone UTC the condition on the year is
enough. -/
theorem date_rendering_agrees (tz : TimeZone) (tp : Int) :
    ((0 ≤ (tz.localtime_r (to_time_t tp)).tm_year + 1900 ∧
        (tz.localtime_r (to_time_t tp)).tm_year + 1900 ≤ 9999 ∧
        0 ≤ (tz.localtime_r (to_time_t tp)).tm_mon ∧
        (tz.localtime_r (to_time_t tp)).tm_mon ≤ 11 ∧
        1 ≤ (tz.localtime_r (to_time_t tp)).tm_mday ∧
        (tz.localtime_r (to_time_t tp)).tm_mday ≤ 31) →
      String.mk (qt_datetime_format_subset_ tz tp "yyyy-MM-dd".toList) =
        local_date_yyyy_mm_dd tz (to_time_t tp) ∧
      (qt_datetime_format_subset_ tz tp "yyyy-MM-dd".toList).length = 10 ∧
      qt_datetime_format_subset_ tz tp "yyyy-MM-dd".toList =
        append_int_ ((tz.localtime_r (to_time_t tp)).tm_year + 1900) 4 ++ '-' ::
          (append_int_ ((tz.localtime_r (to_time_t tp)).tm_mon + 1) 2 ++ '-' ::
            append_int_ (tz.localtime_r (to_time_t tp)).tm_mday 2) ∧
      (append_int_ ((tz.localtime_r (to_time_t tp)).tm_year + 1900) 4).length = 4 ∧
      (append_int_ ((tz.localtime_r (to_time_t tp)).tm_mon + 1) 2).length = 2 ∧
      (append_int_ (tz.localtime_r (to_time_t tp)).tm_mday 2).length = 2) ∧
    ((0 ≤ (utc.localtime_r (to_time_t tp)).tm_year + 1900 ∧
        (utc.localtime_r (to_time_t tp)).tm_year + 1900 ≤ 9999) →
      String.mk (qt_datetime_format_subset_ utc tp "yyyy-MM-dd".toList) =
        local_date_yyyy_mm_dd utc (to_time_t tp) ∧
      (qt_datetime_format_subset_ utc tp "yyyy-MM-dd".toList).length = 10) := by
  constructor
  · rintro ⟨hy0, hy1, hm0, hm1, hd0, hd1⟩
    obtain ⟨h1, h2⟩ := iso_date_agrees tz tp hy0 hy1 hm0 hm1 hd0 hd1
    exact ⟨h1, h2, format_iso_date tz tp,
      append_int_length _ 4 hy0 (by decide) (by omega),
      append_int_length _ 2 (by omega) (by decide) (by omega),
      append_int_length _ 2 (by omega) (by decide) (by omega)⟩
  · rintro ⟨hy0, hy1⟩
    obtain ⟨hm0, hm1, hd0, hd1⟩ := gmtime_valid (to_time_t tp)
    exact iso_date_agrees utc tp hy0 hy1 hm0 hm1 hd0 hd1

/-- C24 at 02:00 on 2026-01-30 in UTC. -/
theorem date_rendering_agrees_witness :
    (0 ≤ (utc.localtime_r (to_time_t PatternSink.t_0200)).tm_year + 1900 ∧
      (utc.localtime_r (to_time_t PatternSink.t_0200)).tm_year + 1900 ≤ 9999) ∧
    String.mk (qt_datetime_format_subset_ utc PatternSink.t_0200 "yyyy-MM-dd".toList) =
      local_date_yyyy_mm_dd utc (to_time_t PatternSink.t_0200) ∧
    local_date_yyyy_mm_dd utc (to_time_t PatternSink.t_0200) = "2026-01-30" := by
  have h : 0 ≤ (utc.localtime_r (to_time_t PatternSink.t_0200)).tm_year + 1900 ∧
      (utc.localtime_r (to_time_t PatternSink.t_0200)).tm_year + 1900 ≤ 9999 := by decide
  exact ⟨h, ((date_rendering_agrees utc PatternSink.t_0200).2 h).1, by decide⟩

end CustomSink

/-! ## The per-day-directory sink: the directories of two days (C21) -/

namespace CustomSink

theorem cut_at_first_slash (a : List Char) :
    ∀ (b x y : List Char), '/' ∉ a → '/' ∉ b → a ++ '/' :: x = b ++ '/' :: y → a = b := by
  induction a with
  | nil =>
    intro b x y _ hb h
    cases b with
    | nil => rfl
    | cons c b =>
      simp only [List.nil_append, List.cons_append, List.cons.injEq] at h
      exact absurd (by simp [← h.1]) hb
  | cons c a ih =>
    intro b x y ha hb h
    cases b with
    | nil =>
      simp only [List.nil_append, List.cons_append, List.cons.injEq] at h
      exact absurd (by simp [h.1]) ha
    | cons e b =>
      simp only [List.cons_append, List.cons.injEq] at h
      have ha2 : '/' ∉ a := fun k => ha (List.mem_cons_of_mem _ k)
      have hb2 : '/' ∉ b := fun k => hb (List.mem_cons_of_mem _ k)
      rw [h.1, ih b x y ha2 hb2 h.2]

/-- The shift loop touches the slots only, whatever fails. -/
theorem read_shift_loop_ne (rot : Nat → String) (q : String) (hq : ∀ j, q ≠ rot j) (n : Nat) :
    ∀ d, (shift_loop_ rot n d).read q = d.read q := by
  induction n with
  | zero => intro d; rfl
  | succ n ih =>
    intro d
    simp only [shift_loop_]
    rw [ih, read_move_ne _ _ _ _ (hq _) (hq _)]

/-- A rename chain touches the current file and the slots only, whatever fails. -/
theorem read_chain_ne (rot : Nat → String) (base q : String) (hq : ∀ j, q ≠ rot j)
    (hb : q ≠ base) (n : Nat) (d : Disk) : (chain_ rot base n d).read q = d.read q := by
  unfold chain_
  rw [read_move_ne _ _ _ _ hb (hq _), read_shift_loop_ne rot q hq, read_fs_remove_ne _ _ _ (hq _)]

namespace DirSink

/-- Two days whose dates hold no separator have no file in common. -/
theorem day_dirs_disjoint (cfg : Config) (d1 d2 p : String) (h1 : '/' ∉ d1.toList)
    (h2 : '/' ∉ d2.toList) (hne : d1 ≠ d2) (hp : InDayDir cfg d1 p) : ¬ InDayDir cfg d2 p := by
  rintro ⟨n2, e2⟩
  obtain ⟨n1, e1⟩ := hp
  rw [e1] at e2
  have h := congrArg String.data e2
  simp only [day_dir_, String.data_append, List.append_assoc] at h
  have h3 := List.append_cancel_left h
  simp only [List.singleton_append, List.cons.injEq, true_and] at h3
  exact hne (String.ext (cut_at_first_slash _ _ _ _ h1 h2 h3))

theorem base_path_in_day_dir (cfg : Config) (date : String) :
    InDayDir cfg date (base_path_ cfg date) :=
  ⟨cfg.stem_ ++ extension_, rfl⟩

theorem rotated_path_in_day_dir (cfg : Config) (date : String) (i : Nat) :
    InDayDir cfg date (rotated_path_ cfg date i) :=
  ⟨cfg.stem_ ++ "." ++ to_string i ++ extension_, rfl⟩

/-- A rotation touches files of the directory of the current day only. -/
theorem rotate_files_outside (cfg : Config) (s : State) (p : String)
    (hp : ¬ InDayDir cfg s.current_date_ p) :
    (rotate_files_ cfg s).disk.read p = s.disk.read p ∧
    (rotate_files_ cfg s).file_ = none ∧
    (rotate_files_ cfg s).current_date_ = s.current_date_ := by
  have hb : p ≠ base_path_ cfg s.current_date_ :=
    fun e => hp (e ▸ base_path_in_day_dir cfg _)
  have hr : ∀ j, p ≠ rotated_path_ cfg s.current_date_ j :=
    fun j e => hp (e ▸ rotated_path_in_day_dir cfg _ j)
  by_cases hB : cfg.max_files_ = 0
  · simp only [rotate_files_, hB, if_true]
    exact ⟨read_fs_remove_ne _ _ _ hb, trivial, trivial⟩
  · rw [dir_rotate_files_state cfg s (by omega)]
    exact ⟨read_chain_ne _ _ _ hr hb _ _, rfl, rfl⟩

end DirSink

end CustomSink

namespace CustomSink.DirSink

theorem keepsFile_rotate_files_ (cfg : Config) (today p : String) (d0 : Disk) (t : State)
    (hp : ¬ InDayDir cfg today p) (h : KeepsFile cfg today p d0 t) :
    KeepsFile cfg today p d0 (rotate_files_ cfg t) := by
  obtain ⟨hd, _, hr⟩ := h
  obtain ⟨r1, r2, r3⟩ := rotate_files_outside cfg t p (by rw [hd]; exact hp)
  exact ⟨by rw [r3, hd], Or.inl r2, by rw [r1, hr]⟩

theorem keepsFile_maybe_roll_day_ (cfg : Config) (today p : String) (s : State)
    (h : StreamOk cfg s) : KeepsFile cfg today p s.disk (maybe_roll_day_ s today) := by
  unfold maybe_roll_day_
  split
  · rename_i e
    exact ⟨e.symm, h, rfl⟩
  · exact ⟨rfl, Or.inl rfl, rfl⟩

theorem keepsFile_rotate_on_open_step_ (cfg : Config) (today p : String) (d0 : Disk)
    (t : State) (hp : ¬ InDayDir cfg today p) (h : KeepsFile cfg today p d0 t) :
    KeepsFile cfg today p d0 (rotate_on_open_step_ cfg t) := by
  have hflag : ∀ u : State, KeepsFile cfg today p d0 u →
      KeepsFile cfg today p d0 { u with rotated_on_open_done_ := true } := by
    intro u hu
    exact hu
  unfold rotate_on_open_step_
  split
  · apply hflag
    split
    · split
      · exact keepsFile_rotate_files_ cfg today p d0 t hp h
      · exact h
    · exact h
  · exact h

theorem keepsFile_size_check_step_ (cfg : Config) (today p : String) (d0 : Disk)
    (t : State) (n : Nat) (hp : ¬ InDayDir cfg today p) (h : KeepsFile cfg today p d0 t) :
    KeepsFile cfg today p d0 (size_check_step_ cfg t n) := by
  unfold size_check_step_
  split
  · split
    · split
      · exact keepsFile_rotate_files_ cfg today p d0 t hp h
      · exact h
    · have h2 : KeepsFile cfg today p d0
          { t with current_size_ :=
            probe_file_size_noopen_ t.disk (base_path_ cfg t.current_date_) } := h
      dsimp only
      split
      · exact keepsFile_rotate_files_ cfg today p d0 _ hp h2
      · exact h2
  · exact h

/-- After the lazy open the stream is attached to the current file of the day,
which exists. -/
theorem keepsFile_ensure_opened_ (cfg : Config) (today p : String) (d0 : Disk)
    (t : State) (hname : '/' ∉ cfg.stem_.toList) (hp : ¬ InDayDir cfg today p)
    (h : KeepsFile cfg today p d0 t) :
    KeepsFile cfg today p d0 (ensure_opened_for_write_ cfg t) ∧
    (ensure_opened_for_write_ cfg t).file_ = some (base_path_ cfg today) ∧
    ∃ c, (ensure_opened_for_write_ cfg t).disk.read (base_path_ cfg today) = some c := by
  obtain ⟨hd, hok, hr⟩ := h
  have hb : p ≠ base_path_ cfg today := fun e => hp (e ▸ base_path_in_day_dir cfg _)
  rcases hok with hnone | ⟨hfile, c, hc⟩
  · rw [dir_ensure_opened_plain cfg t hnone hname, hd]
    have hex : (fs_open_append t.disk (base_path_ cfg today)).read (base_path_ cfg today) =
        some ((t.disk.read (base_path_ cfg today)).getD []) := by
      rw [read_fs_open_append]; simp
    refine ⟨⟨rfl, Or.inr ⟨rfl, _, hex⟩, ?_⟩, rfl, _, hex⟩
    show (fs_open_append t.disk (base_path_ cfg today)).read p = d0.read p
    rw [read_fs_open_append, if_neg hb, hr]
  · rw [hd] at hfile hc
    have e : ensure_opened_for_write_ cfg t =
        { t with opened_ := true,
                 current_size_ := probe_file_size_noopen_ t.disk (base_path_ cfg today) } ∨
        ensure_opened_for_write_ cfg t = t := by
      unfold ensure_opened_for_write_
      split
      · exact Or.inr rfl
      · left
        simp [hfile, hd]
    rcases e with e | e
    · rw [e]
      exact ⟨⟨hd, Or.inr ⟨by rw [hd]; exact hfile, c, by rw [hd]; exact hc⟩, hr⟩, hfile, c, hc⟩
    · rw [e]
      exact ⟨⟨hd, Or.inr ⟨by rw [hd]; exact hfile, c, by rw [hd]; exact hc⟩, hr⟩, hfile, c, hc⟩

/-- A write on the day `today`: the record is at the end of the current file
of that day, and a file outside the directory of that day is as before. -/
theorem sink_it_outside (cfg : Config) (s : State) (today : String) (buf : List Char)
    (p : String) (hname : '/' ∉ cfg.stem_.toList) (hok : StreamOk cfg s)
    (hp : ¬ InDayDir cfg today p) :
    KeepsFile cfg today p s.disk (sink_it_ cfg s today buf) ∧
    ∃ c, (sink_it_ cfg s today buf).disk.read (base_path_ cfg today) =
      some (c ++ (trimmed buf ++ ['\n'])) := by
  have h0 := keepsFile_maybe_roll_day_ cfg today p s hok
  have h1 := keepsFile_rotate_on_open_step_ cfg today p s.disk _ hp h0
  have h2 := keepsFile_size_check_step_ cfg today p s.disk _ (trim_size_ buf buf.length + 1) hp h1
  obtain ⟨⟨hd, _, hr⟩, hfile, c, hc⟩ := keepsFile_ensure_opened_ cfg today p s.disk _ hname hp h2
  have hb : p ≠ base_path_ cfg today := fun e => hp (e ▸ base_path_in_day_dir cfg _)
  have hs : sink_it_ cfg s today buf = append_record_ (ensure_opened_for_write_ cfg
      (size_check_step_ cfg (rotate_on_open_step_ cfg (maybe_roll_day_ s today))
        (trim_size_ buf buf.length + 1))) buf := rfl
  rw [hs]
  generalize ensure_opened_for_write_ cfg
      (size_check_step_ cfg (rotate_on_open_step_ cfg (maybe_roll_day_ s today))
        (trim_size_ buf buf.length + 1)) = m at hd hr hfile hc
  have hbase : (append_record_ m buf).disk.read (base_path_ cfg today) =
      some (c ++ (trimmed buf ++ ['\n'])) := by
    simp only [append_record_, hfile, read_write_record_, if_true, hc, Option.map_some']
    rfl
  refine ⟨⟨hd, Or.inr ⟨?_, c ++ (trimmed buf ++ ['\n']), ?_⟩, ?_⟩, c, hbase⟩
  · show m.file_ = some (base_path_ cfg m.current_date_)
    rw [hd, hfile]
  · show (append_record_ m buf).disk.read (base_path_ cfg m.current_date_) = _
    rw [hd]
    exact hbase
  · simp only [append_record_, hfile, read_write_record_, if_neg hb]
    exact hr

theorem run_outside (cfg : Config) (today p : String) (hname : '/' ∉ cfg.stem_.toList)
    (hp : ¬ InDayDir cfg today p) (bufs : List (List Char)) :
    ∀ s : State, StreamOk cfg s →
      (run cfg today s bufs).disk.read p = s.disk.read p ∧ StreamOk cfg (run cfg today s bufs) := by
  induction bufs with
  | nil => intro s h; exact ⟨rfl, h⟩
  | cons buf rest ih =>
    intro s h
    obtain ⟨⟨_, hok, hr⟩, _⟩ := sink_it_outside cfg s today buf p hname h hp
    obtain ⟨i1, i2⟩ := ih (sink_it_ cfg s today buf) hok
    exact ⟨by
      show (run cfg today (sink_it_ cfg s today buf) rest).disk.read p = _
      rw [i1, hr], i2⟩

end CustomSink.DirSink

namespace CustomSink

theorem digitChar_ne_slash (k : Nat) (hk : k < 10) : Nat.digitChar k ≠ '/' := by
  interval_cases k <;> decide

theorem toDigitsCore_no_slash (fuel : Nat) :
    ∀ (n : Nat) (ds : List Char), '/' ∉ ds → '/' ∉ Nat.toDigitsCore 10 fuel n ds := by
  induction fuel with
  | zero => intro n ds h; simpa [Nat.toDigitsCore] using h
  | succ fuel ih =>
    intro n ds h
    have hd : '/' ∉ Nat.digitChar (n % 10) :: ds := by
      intro hm
      rcases List.mem_cons.mp hm with e | e
      · exact digitChar_ne_slash _ (Nat.mod_lt _ (by decide)) e.symm
      · exact h e
    simp only [Nat.toDigitsCore]
    split
    · exact hd
    · exact ih _ _ hd

theorem repr_no_slash (n : Nat) : '/' ∉ (Nat.repr n).toList := by
  have h := toDigitsCore_no_slash (n + 1) n [] (by simp)
  simpa [Nat.repr, Nat.toDigits, List.asString] using h

theorem printf_0d_no_slash (w : Nat) (v : Int) : '/' ∉ printf_0d_ w v := by
  unfold printf_0d_
  split
  · intro h
    rcases List.mem_cons.mp h with e | e
    · exact absurd e (by decide)
    · rcases List.mem_append.mp e with e | e
      · exact absurd (List.eq_of_mem_replicate e) (by decide)
      · exact repr_no_slash _ e
  · intro e
    rcases List.mem_append.mp e with e | e
    · exact absurd (List.eq_of_mem_replicate e) (by decide)
    · exact repr_no_slash _ e

/-- The date `local_date_yyyy_mm_dd` makes holds no path separator. -/
theorem local_date_no_slash (tz : TimeZone) (t : Int) :
    '/' ∉ (local_date_yyyy_mm_dd tz t).toList := by
  intro h
  have h2 := List.mem_of_mem_take h
  rcases List.mem_append.mp h2 with e | e
  · exact printf_0d_no_slash _ _ e
  · rcases List.mem_cons.mp e with e | e
    · exact absurd e (by decide)
    · rcases List.mem_append.mp e with e | e
      · exact printf_0d_no_slash _ _ e
      · rcases List.mem_cons.mp e with e | e
        · exact absurd e (by decide)
        · exact printf_0d_no_slash _ _ e

/-- C21, amended: in the per-day-directory sink whose stem holds no path
separator, on two local dates `d1 ≠ d2` made by `local_date_yyyy_mm_dd` (such
a date holds no separator), from a state whose stream is closed or attached to
the existing current file of its day: the record written on `d1` is at the end
of `root/d1/stem.log`, the record written on `d2` afterwards is at the end of
`root/d2/stem.log`, the two paths differ, and the day-roll and every sequence
of writes made on `d2`, rotations included and whatever call fails, leave every
file of `root/d1/` as it was. -/
theorem day_buckets_disjoint (cfg : DirSink.Config) (s : DirSink.State) (d1 d2 : String)
    (buf1 buf2 : List Char) (bufs : List (List Char)) (p : String)
    (tz : TimeZone) (t1 t2 : Int)
    (hname : '/' ∉ cfg.stem_.toList)
    (hd1 : d1 = local_date_yyyy_mm_dd tz t1) (hd2 : d2 = local_date_yyyy_mm_dd tz t2)
    (hne : d1 ≠ d2)
    (hok : DirSink.StreamOk cfg s) (hp : DirSink.InDayDir cfg d1 p) :
    (∃ c, (DirSink.sink_it_ cfg s d1 buf1).disk.read (DirSink.base_path_ cfg d1) =
      some (c ++ (trimmed buf1 ++ ['\n']))) ∧
    (∃ c, (DirSink.sink_it_ cfg (DirSink.sink_it_ cfg s d1 buf1) d2 buf2).disk.read
      (DirSink.base_path_ cfg d2) = some (c ++ (trimmed buf2 ++ ['\n']))) ∧
    DirSink.base_path_ cfg d1 ≠ DirSink.base_path_ cfg d2 ∧
    (DirSink.maybe_roll_day_ (DirSink.sink_it_ cfg s d1 buf1) d2).disk.read p =
      (DirSink.sink_it_ cfg s d1 buf1).disk.read p ∧
    (DirSink.sink_it_ cfg (DirSink.sink_it_ cfg s d1 buf1) d2 buf2).disk.read p =
      (DirSink.sink_it_ cfg s d1 buf1).disk.read p ∧
    (DirSink.run cfg d2 (DirSink.sink_it_ cfg s d1 buf1) bufs).disk.read p =
      (DirSink.sink_it_ cfg s d1 buf1).disk.read p ∧
    (∀ tz t, '/' ∉ (local_date_yyyy_mm_dd tz t).toList) := by
  have h1 : '/' ∉ d1.toList := hd1 ▸ local_date_no_slash tz t1
  have h2 : '/' ∉ d2.toList := hd2 ▸ local_date_no_slash tz t2
  have hout : ¬ DirSink.InDayDir cfg d2 p := DirSink.day_dirs_disjoint cfg d1 d2 p h1 h2 hne hp
  have hself : ¬ DirSink.InDayDir cfg d2 (DirSink.base_path_ cfg d1) :=
    DirSink.day_dirs_disjoint cfg d1 d2 _ h1 h2 hne (DirSink.base_path_in_day_dir cfg d1)
  obtain ⟨⟨_, hok1, _⟩, w1⟩ := DirSink.sink_it_outside cfg s d1 buf1
    (DirSink.base_path_ cfg d2) hname hok
    (DirSink.day_dirs_disjoint cfg d2 d1 _ h2 h1 (Ne.symm hne)
      (DirSink.base_path_in_day_dir cfg d2))
  obtain ⟨⟨_, _, k2⟩, w2⟩ := DirSink.sink_it_outside cfg (DirSink.sink_it_ cfg s d1 buf1) d2 buf2
    p hname hok1 hout
  refine ⟨w1, w2, fun e => hself (e ▸ DirSink.base_path_in_day_dir cfg d2), ?_, k2,
    (DirSink.run_outside cfg d2 p hname hout bufs _ hok1).1, local_date_no_slash⟩
  unfold DirSink.maybe_roll_day_
  split <;> rfl

/-- C21 on the demo sink over an empty tree, on 2026-01-30 and 2026-01-31. -/
theorem day_buckets_disjoint_witness :
    ('/' ∉ DirSink.demo_cfg.stem_.toList ∧
      "2026-01-30" = local_date_yyyy_mm_dd utc 1769738400 ∧
      "2026-01-31" = local_date_yyyy_mm_dd utc 1769824800 ∧ "2026-01-30" ≠ "2026-01-31" ∧
      DirSink.StreamOk DirSink.demo_cfg (DirSink.init Disk.fresh "2026-01-30") ∧
      DirSink.InDayDir DirSink.demo_cfg "2026-01-30" "logs/2026-01-30/app.log") ∧
    (DirSink.sink_it_ DirSink.demo_cfg
      (DirSink.sink_it_ DirSink.demo_cfg (DirSink.init Disk.fresh "2026-01-30") "2026-01-30"
        "a".toList) "2026-01-31" "b".toList).disk.read "logs/2026-01-30/app.log" =
      (DirSink.sink_it_ DirSink.demo_cfg (DirSink.init Disk.fresh "2026-01-30") "2026-01-30"
        "a".toList).disk.read "logs/2026-01-30/app.log" := by
  have h0 : '/' ∉ DirSink.demo_cfg.stem_.toList := by decide
  have h1 : "2026-01-30" = local_date_yyyy_mm_dd utc 1769738400 := by decide
  have h2 : "2026-01-31" = local_date_yyyy_mm_dd utc 1769824800 := by decide
  have h3 : "2026-01-30" ≠ "2026-01-31" := by decide
  have h4 : DirSink.StreamOk DirSink.demo_cfg (DirSink.init Disk.fresh "2026-01-30") :=
    Or.inl rfl
  have h5 : DirSink.InDayDir DirSink.demo_cfg "2026-01-30" "logs/2026-01-30/app.log" :=
    ⟨"app.log", by decide⟩
  exact ⟨⟨h0, h1, h2, h3, h4, h5⟩,
    (day_buckets_disjoint DirSink.demo_cfg (DirSink.init Disk.fresh "2026-01-30") "2026-01-30"
      "2026-01-31" "a".toList "b".toList [] "logs/2026-01-30/app.log" utc 1769738400 1769824800
      h0 h1 h2 h3 h4 h5).2.2.2.2.1⟩

/-- C21 as stated fails for a stem that is a path: with the stem `sub/app` the
file of the day is `logs/2026-01-30/sub/app.log`; the sink makes the directory
of the day and not `sub`, the open fails, and the record written on
2026-01-30 lands nowhere, as does the record written on 2026-01-31. -/
theorem path_like_stem_loses_records :
    DirSink.base_path_ DirSink.slash_cfg "2026-01-30" = "logs/2026-01-30/sub/app.log" ∧
    (DirSink.sink_it_ DirSink.slash_cfg (DirSink.init Disk.fresh "2026-01-30") "2026-01-30"
      "a".toList).disk.read "logs/2026-01-30/sub/app.log" = none ∧
    (DirSink.sink_it_ DirSink.slash_cfg
      (DirSink.sink_it_ DirSink.slash_cfg (DirSink.init Disk.fresh "2026-01-30") "2026-01-30"
        "a".toList) "2026-01-31" "b".toList).disk = Disk.fresh := by
  refine ⟨by decide, by decide, by decide⟩

end CustomSink

/-! ## Flushing (C22) -/

namespace CustomSink

theorem fs_append_nil (d : Disk) (p : String) : fs_append d p [] = d := by
  have h : (fun e : String × List Char => if e.1 = p then (e.1, e.2 ++ []) else e) = id := by
    funext e
    simp
  simp [fs_append, h]

theorem ofstream_flush_calls (d : Disk) (f : Option String) (pend : List Char) :
    (ofstream_flush d f pend).1.calls = d.calls ∧
    (ofstream_flush d f pend).1.faults = d.faults := by
  cases f <;> exact ⟨rfl, rfl⟩

theorem ofstream_flush_names (d : Disk) (f : Option String) (pend : List Char) (q : String) :
    ((ofstream_flush d f pend).1.read q).isSome = (d.read q).isSome := by
  cases f with
  | none => rfl
  | some p =>
    simp only [ofstream_flush, read_fs_append]
    split
    · rename_i h
      rw [h]
      cases d.read p <;> rfl
    · rfl

theorem ofstream_flush_content (d : Disk) (f : Option String) (pend : List Char) (q : String) :
    logical_content (ofstream_flush d f pend).1 f (ofstream_flush d f pend).2 q =
      logical_content d f pend q := by
  cases f with
  | none => rfl
  | some p =>
    simp only [logical_content, ofstream_flush, read_fs_append]
    by_cases h : q = p
    · subst h
      cases d.read q <;> simp
    · have h2 : ¬ some p = some q := fun e => h (Option.some.inj e).symm
      simp [h, h2]

theorem ofstream_flush_idem (d : Disk) (f : Option String) (pend : List Char) :
    ofstream_flush (ofstream_flush d f pend).1 f (ofstream_flush d f pend).2 =
      ofstream_flush d f pend := by
  cases f with
  | none => rfl
  | some p => simp [ofstream_flush, fs_append_nil]

theorem ofstream_flush_none (d : Disk) (pend : List Char) :
    ofstream_flush d none pend = (d, pend) := rfl

end CustomSink

namespace CustomSink

theorem flushKeeps_ofstream_flush (d : Disk) (f : Option String) (pend : List Char) :
    FlushKeeps d f pend (ofstream_flush d f pend).1 (ofstream_flush d f pend).2 :=
  ⟨(ofstream_flush_calls d f pend).1, ofstream_flush_names d f pend,
    ofstream_flush_content d f pend⟩

theorem count_flush_eq (b : Buffered CountSink.State) :
    CountSink.flush_ b =
      { sink := { b.sink with disk := (ofstream_flush b.sink.disk b.sink.file_ b.pending).1 },
        pending := (ofstream_flush b.sink.disk b.sink.file_ b.pending).2 } := by
  unfold CountSink.flush_
  split
  · rfl
  · rename_i h
    have hn : b.sink.file_ = none := by
      cases hf : b.sink.file_ with
      | none => rfl
      | some p => simp [hf] at h
    rw [hn]
    rfl

theorem count_flush_spec (b : Buffered CountSink.State) :
    (CountSink.flush_ b).sink = { b.sink with disk := (CountSink.flush_ b).sink.disk } ∧
    FlushKeeps b.sink.disk b.sink.file_ b.pending (CountSink.flush_ b).sink.disk
      (CountSink.flush_ b).pending ∧
    CountSink.flush_ (CountSink.flush_ b) = CountSink.flush_ b ∧
    (b.sink.file_ = none → CountSink.flush_ b = b) := by
  refine ⟨?_, ?_, ?_, ?_⟩
  · rw [count_flush_eq]
  · rw [count_flush_eq]
    exact flushKeeps_ofstream_flush _ _ _
  · rw [count_flush_eq (CountSink.flush_ b), count_flush_eq b]
    simp only [ofstream_flush_idem]
  · intro h
    rw [count_flush_eq, h]
    rfl

theorem pattern_flush_eq (b : Buffered PatternSink.State) :
    PatternSink.flush_ b =
      { sink := { b.sink with disk := (ofstream_flush b.sink.disk b.sink.file_ b.pending).1 },
        pending := (ofstream_flush b.sink.disk b.sink.file_ b.pending).2 } := by
  unfold PatternSink.flush_
  split
  · rfl
  · rename_i h
    have hn : b.sink.file_ = none := by
      cases hf : b.sink.file_ with
      | none => rfl
      | some p => simp [hf] at h
    rw [hn]
    rfl

theorem pattern_flush_spec (b : Buffered PatternSink.State) :
    (PatternSink.flush_ b).sink = { b.sink with disk := (PatternSink.flush_ b).sink.disk } ∧
    FlushKeeps b.sink.disk b.sink.file_ b.pending (PatternSink.flush_ b).sink.disk
      (PatternSink.flush_ b).pending ∧
    PatternSink.flush_ (PatternSink.flush_ b) = PatternSink.flush_ b ∧
    (b.sink.file_ = none → PatternSink.flush_ b = b) := by
  refine ⟨?_, ?_, ?_, ?_⟩
  · rw [pattern_flush_eq]
  · rw [pattern_flush_eq]
    exact flushKeeps_ofstream_flush _ _ _
  · rw [pattern_flush_eq (PatternSink.flush_ b), pattern_flush_eq b]
    simp only [ofstream_flush_idem]
  · intro h
    rw [pattern_flush_eq, h]
    rfl

theorem dir_flush_eq (b : Buffered DirSink.State) :
    DirSink.flush_ b =
      { sink := { b.sink with disk := (ofstream_flush b.sink.disk b.sink.file_ b.pending).1 },
        pending := (ofstream_flush b.sink.disk b.sink.file_ b.pending).2 } := by
  unfold DirSink.flush_
  split
  · rfl
  · rename_i h
    have hn : b.sink.file_ = none := by
      cases hf : b.sink.file_ with
      | none => rfl
      | some p => simp [hf] at h
    rw [hn]
    rfl

theorem dir_flush_spec (b : Buffered DirSink.State) :
    (DirSink.flush_ b).sink = { b.sink with disk := (DirSink.flush_ b).sink.disk } ∧
    FlushKeeps b.sink.disk b.sink.file_ b.pending (DirSink.flush_ b).sink.disk
      (DirSink.flush_ b).pending ∧
    DirSink.flush_ (DirSink.flush_ b) = DirSink.flush_ b ∧
    (b.sink.file_ = none → DirSink.flush_ b = b) := by
  refine ⟨?_, ?_, ?_, ?_⟩
  · rw [dir_flush_eq]
  · rw [dir_flush_eq]
    exact flushKeeps_ofstream_flush _ _ _
  · rw [dir_flush_eq (DirSink.flush_ b), dir_flush_eq b]
    simp only [ofstream_flush_idem]
  · intro h
    rw [dir_flush_eq, h]
    rfl

theorem date_flush_spec (b : Buffered DateSink.State) :
    (DateSink.flush_ b).sink = { b.sink with disk := (DateSink.flush_ b).sink.disk } ∧
    FlushKeeps b.sink.disk b.sink.file_ b.pending (DateSink.flush_ b).sink.disk
      (DateSink.flush_ b).pending ∧
    DateSink.flush_ (DateSink.flush_ b) = DateSink.flush_ b ∧
    (b.sink.file_ = none → DateSink.flush_ b = b) := by
  refine ⟨rfl, flushKeeps_ofstream_flush _ _ _, ?_, ?_⟩
  · simp only [DateSink.flush_, ofstream_flush_idem]
  · intro h
    obtain ⟨sink, pending⟩ := b
    obtain ⟨disk, file_, cd, ci, cs, fl⟩ := sink
    simp only at h
    subst h
    rfl

/-- C22: in each of the four sinks, for every state and whatever bytes the
stream holds back, `flush_` changes no member but the directory (counters,
flags and stream stay), issues no remove and no rename, leaves the same files
in existence, and leaves every file the same bytes once the bytes held back
are counted in; a second `flush_` right after the first changes nothing; on a
closed stream `flush_` changes nothing at all.  `flush_` is a total function:
it has no way to fail. -/
theorem flush_never_rotates (cb : Buffered CountSink.State) (pb : Buffered PatternSink.State)
    (db : Buffered DirSink.State) (eb : Buffered DateSink.State) :
    ((CountSink.flush_ cb).sink = { cb.sink with disk := (CountSink.flush_ cb).sink.disk } ∧
      FlushKeeps cb.sink.disk cb.sink.file_ cb.pending (CountSink.flush_ cb).sink.disk
        (CountSink.flush_ cb).pending ∧
      CountSink.flush_ (CountSink.flush_ cb) = CountSink.flush_ cb ∧
      (cb.sink.file_ = none → CountSink.flush_ cb = cb)) ∧
    ((PatternSink.flush_ pb).sink = { pb.sink with disk := (PatternSink.flush_ pb).sink.disk } ∧
      FlushKeeps pb.sink.disk pb.sink.file_ pb.pending (PatternSink.flush_ pb).sink.disk
        (PatternSink.flush_ pb).pending ∧
      PatternSink.flush_ (PatternSink.flush_ pb) = PatternSink.flush_ pb ∧
      (pb.sink.file_ = none → PatternSink.flush_ pb = pb)) ∧
    ((DirSink.flush_ db).sink = { db.sink with disk := (DirSink.flush_ db).sink.disk } ∧
      FlushKeeps db.sink.disk db.sink.file_ db.pending (DirSink.flush_ db).sink.disk
        (DirSink.flush_ db).pending ∧
      DirSink.flush_ (DirSink.flush_ db) = DirSink.flush_ db ∧
      (db.sink.file_ = none → DirSink.flush_ db = db)) ∧
    ((DateSink.flush_ eb).sink = { eb.sink with disk := (DateSink.flush_ eb).sink.disk } ∧
      FlushKeeps eb.sink.disk eb.sink.file_ eb.pending (DateSink.flush_ eb).sink.disk
        (DateSink.flush_ eb).pending ∧
      DateSink.flush_ (DateSink.flush_ eb) = DateSink.flush_ eb ∧
      (eb.sink.file_ = none → DateSink.flush_ eb = eb)) :=
  ⟨count_flush_spec cb, pattern_flush_spec pb, dir_flush_spec db, date_flush_spec eb⟩

/-- C22 on a new count sink, whose stream is closed, and on the date-embedded
sink of the demo with three bytes held back. -/
theorem flush_never_rotates_witness :
    (({ sink := CountSink.init CountSink.scenario_disk, pending := [] } :
        Buffered CountSink.State).sink.file_ = none) ∧
    CountSink.flush_ { sink := CountSink.init CountSink.scenario_disk, pending := [] } =
      { sink := CountSink.init CountSink.scenario_disk, pending := [] } ∧
    (DateSink.flush_ { sink := DateSink.fresh_state, pending := "ab\n".toList }).sink.disk.read
      "logs/app_2026-01-30.log" = some "ab\n".toList ∧
    DateSink.flush_ (DateSink.flush_ { sink := DateSink.fresh_state, pending := "ab\n".toList }) =
      DateSink.flush_ { sink := DateSink.fresh_state, pending := "ab\n".toList } := by
  have h := flush_never_rotates { sink := CountSink.init CountSink.scenario_disk, pending := [] }
    { sink := PatternSink.init PatternSink.demo_cfg Disk.fresh 0, pending := [] }
    { sink := DirSink.init Disk.fresh "2026-01-30", pending := [] }
    { sink := DateSink.fresh_state, pending := "ab\n".toList }
  exact ⟨rfl, h.1.2.2.2 rfl, by decide, h.2.2.2.2.2.1⟩

end CustomSink

/-! ## The line scan of the count sink (C31) -/

namespace CustomSink.CountSink

/-- C31: `count_lines_in_file_` returns 0 for a file that cannot be opened and
for an empty file, and for every content the number of its newline bytes plus
one when the content is not empty and does not end with a newline.  The read
loop gives the same result with any chunk size of at least one byte as with
the 64 KiB of the code. -/
theorem line_scan_counts_lines (d : Disk) (filename : String) (content : List Char)
    (kBuf : Nat) (hk : 1 ≤ kBuf) :
    (d.read filename = none → count_lines_in_file_ d filename = 0) ∧
    (d.read filename = some [] → count_lines_in_file_ d filename = 0) ∧
    (d.read filename = some content →
      count_lines_in_file_ d filename =
        content.count '\n' + (if content ≠ [] ∧ content.getLast? ≠ some '\n' then 1 else 0)) ∧
    count_lines_loop_ kBuf (content.length + 1) content 0 false '\x00' =
      count_lines_loop_ (64 * 1024) (content.length + 1) content 0 false '\x00' ∧
    count_lines_loop_ kBuf (content.length + 1) content 0 false '\x00' =
      (content.count '\n', decide (content ≠ []), content.getLast?.getD '\x00') := by
  have hl := count_lines_loop_eq kBuf hk (content.length + 1) content 0 false '\x00' (by omega)
  have hl2 := count_lines_loop_eq (64 * 1024) (by decide) (content.length + 1) content 0 false
    '\x00' (by omega)
  refine ⟨?_, ?_, ?_, by rw [hl, hl2], by simpa using hl⟩
  · intro h
    simp [count_lines_in_file_, h]
  · intro h
    simp only [count_lines_in_file_, h, count_lines_eq]
    simp [lines_of]
  · intro h
    simp only [count_lines_in_file_, h, count_lines_eq]
    rfl

/-- C31 on a content of two lines, the second without a newline, read in
chunks of two bytes. -/
theorem line_scan_counts_lines_witness :
    1 ≤ 2 ∧
    count_lines_loop_ 2 ("ab\ncd".toList.length + 1) "ab\ncd".toList 0 false '\x00' =
      count_lines_loop_ (64 * 1024) ("ab\ncd".toList.length + 1) "ab\ncd".toList 0 false '\x00' ∧
    count_lines_in_file_ (only_current "ab\ncd".toList) "logs/app.log" = 2 := by
  have h := line_scan_counts_lines (only_current "ab\ncd".toList) "logs/app.log" "ab\ncd".toList 2
    (by decide)
  exact ⟨by decide, h.2.2.2.1, by rw [h.2.2.1 (by decide)]; decide⟩

end CustomSink.CountSink

/-! ## The date-embedded sink: rotate-on-open (C32) and the names of the files
found (C34) -/

namespace CustomSink.DateSink

/-- C32 at a directory that holds the files of index 0 and 1 of today: the
constructor with `rotate_on_open_` counts on from the index 0 of the new
object, not from the last file found, and attaches the stream to the file of
index 1, which exists; the next record is appended to that file, and no file
of index 2 is made. -/
theorem rotate_on_open_reopens_index_one :
    two_files.read "logs/app_2026-01-30.1.log" = some "one\n".toList ∧
    (construct reopen_cfg two_files "2026-01-30").result.toOption.map
      (fun s => (s.file_, s.current_index_)) = some (some "logs/app_2026-01-30.1.log", 1) ∧
    ((construct reopen_cfg two_files "2026-01-30").result.toOption.bind
      (fun s => (sink_it_ reopen_cfg s "2026-01-30" "x".toList).toOption)).map
      (fun s => (s.disk.read "logs/app_2026-01-30.1.log",
        s.disk.read "logs/app_2026-01-30.2.log")) =
      some (some "one\nx\n".toList, none) := by
  refine ⟨by decide, by decide, by decide⟩

/-- C34 at a directory that holds `app_2026-01-30.old.log`: the scan accepts the
name, `extract_index_` throws on it, and the exception leaves the constructor
(next to another file of today, or alone without `rotate_on_open_`) and the
day-roll. -/
theorem word_for_index_throws :
    is_today_file_ demo_cfg "2026-01-30" "app_2026-01-30.old.log" = true ∧
    extract_index_ demo_cfg "2026-01-30" "app_2026-01-30.old.log" =
      .error "stoull: invalid_argument" ∧
    (construct demo_cfg word_for_index "2026-01-30").result =
      .error "stoull: invalid_argument" ∧
    (construct demo_cfg only_word_for_index "2026-01-30").result =
      .error "stoull: invalid_argument" ∧
    maybe_roll_day_ demo_cfg
      { fresh_state with disk := word_for_index, current_date_ := "2026-01-29" } "2026-01-30" =
      .error "stoull: invalid_argument" := by
  refine ⟨by decide, by rfl, by rfl, by rfl, by rfl⟩

end CustomSink.DateSink

/-! ## The next cutover of the pattern-named sink (C33) -/

namespace CustomSink

/-- The year of the era and the day of the year of the day `doe` of an era of
400 years. -/
theorem year_of_era_ranges (doe a b c yoe q4 q100 : Int) (h0 : 0 ≤ doe) (h1 : doe ≤ 146096)
    (ha : a = doe / 1460) (hb : b = doe / 36524) (hc : c = doe / 146096)
    (hy : yoe = (doe - a + b - c) / 365) (h4 : q4 = yoe / 4) (h100 : q100 = yoe / 100) :
    0 ≤ yoe ∧ yoe ≤ 399 ∧ 0 ≤ doe - (365 * yoe + q4 - q100) ∧
      doe - (365 * yoe + q4 - q100) ≤ 365 := by
  have hb0 : 0 ≤ b := by omega
  have hb4 : b ≤ 4 := by omega
  have hy0 : 0 ≤ yoe := by omega
  have hy1 : yoe ≤ 399 := by omega
  have hq : q100 = b ∨ (b = 4 ∧ q100 = 3) := by omega
  refine ⟨hy0, hy1, ?_, ?_⟩
  · interval_cases b <;> omega
  · interval_cases b <;> omega

theorem civil_roundtrip (z era doe yoe doy mp : Int)
    (he : era = (z + 719468) / 146097) (hdoe : doe = (z + 719468) - era * 146097)
    (hyoe : yoe = (doe - doe / 1460 + doe / 36524 - doe / 146096) / 365)
    (hdoy : doy = doe - (365 * yoe + yoe / 4 - yoe / 100))
    (hmp : mp = (5 * doy + 2) / 153) :
    days_from_civil_
      (if (if mp < 10 then mp + 3 else mp - 9) ≤ 2 then yoe + era * 400 + 1 else yoe + era * 400)
      (if mp < 10 then mp + 3 else mp - 9) (doy - (153 * mp + 2) / 5 + 1) = z := by
  have hd0 : 0 ≤ doe := by omega
  have hd1 : doe ≤ 146096 := by omega
  obtain ⟨h1, h2, h3, h4⟩ :=
    year_of_era_ranges doe _ _ _ yoe _ _ hd0 hd1 rfl rfl rfl hyoe rfl rfl
  rw [← hdoy] at h3 h4
  have hm0 : 0 ≤ mp := by omega
  have hm1 : mp ≤ 11 := by omega
  have e1 : (yoe + era * 400) / 400 = era := by omega
  have e2 : (153 * mp + 2) / 5 ≤ doy := by omega
  clear hyoe he hd0 hd1 h3 h4
  simp only [days_from_civil_]
  split_ifs <;> omega

/-- The day of a calendar date is the day the date was computed from. -/
theorem days_from_civil_of_civil_from_days (z : Int) :
    days_from_civil_ (civil_from_days_ z).1 (civil_from_days_ z).2.1 (civil_from_days_ z).2.2 =
      z :=
  civil_roundtrip z _ _ _ _ _ rfl rfl rfl rfl rfl

theorem to_time_t_bounds (tp : Int) :
    (to_time_t tp - 1) * 1000000000 < tp ∧ tp < (to_time_t tp + 1) * 1000000000 ∧
      (tp % 1000000000 = 0 → tp = to_time_t tp * 1000000000) := by
  unfold to_time_t
  rcases le_or_lt 0 tp with h | h
  · rw [Int.tdiv_eq_ediv h (by decide)]
    omega
  · have e : tp.tdiv 1000000000 = -((-tp) / 1000000000) := by
      rw [← Int.tdiv_eq_ediv (by omega) (by decide), Int.neg_tdiv, neg_neg]
    rw [e]
    omega

/-- The time of the day `hour:min:00` on the local day of `t`, in UTC. -/
theorem timegm_of_gmtime (t hour min : Int) :
    timegm_ { gmtime_ t with tm_hour := hour, tm_min := min, tm_sec := 0 } =
      t / 86400 * 86400 + hour * 3600 + min * 60 := by
  have h := days_from_civil_of_civil_from_days (t / 86400)
  simp only [timegm_, gmtime_, Int.sub_add_cancel, h]
  omega

namespace PatternSink

/-- The value of `compute_next_rotation_` under a fixed offset. -/
theorem compute_next_rotation_fixed (off : Int) (a : Args) (tp : Int) :
    compute_next_rotation_ (fixed_offset off) a tp =
      if tp < ((to_time_t tp + off) / 86400 * 86400 + a.rotation_hour * 3600 +
          a.rotation_min * 60 - off) * 1000000000
      then ((to_time_t tp + off) / 86400 * 86400 + a.rotation_hour * 3600 +
          a.rotation_min * 60 - off) * 1000000000
      else ((to_time_t tp + off) / 86400 * 86400 + a.rotation_hour * 3600 +
          a.rotation_min * 60 - off) * 1000000000 + 86400000000000 := by
  simp only [compute_next_rotation_, fixed_offset, timegm_of_gmtime, from_time_t, hours_24]

/-- The time points at `hour:min:00` local time, under a fixed offset. -/
theorem isCutover_iff (off hour min x : Int) (hh0 : 0 ≤ hour) (hh1 : hour ≤ 23)
    (hm0 : 0 ≤ min) (hm1 : min ≤ 59) :
    IsCutover (fixed_offset off) hour min x ↔
      ∃ day : Int, x = (day * 86400 + hour * 3600 + min * 60 - off) * 1000000000 := by
  obtain ⟨b1, b2, b3⟩ := to_time_t_bounds x
  simp only [IsCutover, fixed_offset, gmtime_]
  generalize to_time_t x = t at b1 b2 b3
  constructor
  · rintro ⟨h1, h2, h3, h4⟩
    refine ⟨(t + off) / 86400, ?_⟩
    have := b3 h1
    omega
  · rintro ⟨day, rfl⟩
    have e : t = day * 86400 + hour * 3600 + min * 60 - off := by omega
    subst e
    refine ⟨by omega, by omega, by omega, by omega⟩

theorem catch_up_later (tp next : Int) (h : tp < next) (fuel : Nat) :
    catch_up_ tp fuel next = next := by
  cases fuel with
  | zero => rfl
  | succ n => simp only [catch_up_, Int.not_le.mpr h, if_false]

/-- C33: local time being UTC plus a fixed offset of `off` seconds, and the
cutover `rotation_hour:rotation_min` being one the constructor accepts, for
every time point `tp` (a number of nanoseconds, of either sign):
`compute_next_rotation_ tp` is later than `tp` by at most 24 hours, it is a
time point at `rotation_hour:rotation_min:00` local time, and no time point at
that local time lies strictly between `tp` and it; the catch-up loop of
`rotate_if_needed_by_time_` leaves it as it is, whatever fuel the loop has;
after `rotate_if_needed_by_time_` the member `next_rotation_` is later than
`tp`; and `rotate_if_needed_by_time_` changes nothing when `tp` is before the
stored `next_rotation_`, and otherwise closes the file, names the cycle of `tp`
and stores the next cutover; so a write at `tp` keeps the base name when `tp`
is before the stored `next_rotation_` and takes the one of `tp` otherwise. -/
theorem next_cutover_instant (off : Int) (a : Args) (s : State) (tp : Int) (buf : List Char)
    (hh0 : 0 ≤ a.rotation_hour) (hh1 : a.rotation_hour ≤ 23)
    (hm0 : 0 ≤ a.rotation_min) (hm1 : a.rotation_min ≤ 59) :
    (tp < compute_next_rotation_ (fixed_offset off) a tp ∧
      compute_next_rotation_ (fixed_offset off) a tp - tp ≤ hours_24) ∧
    IsCutover (fixed_offset off) a.rotation_hour a.rotation_min
      (compute_next_rotation_ (fixed_offset off) a tp) ∧
    (∀ x, IsCutover (fixed_offset off) a.rotation_hour a.rotation_min x → tp < x →
      compute_next_rotation_ (fixed_offset off) a tp ≤ x) ∧
    (∀ fuel, catch_up_ tp fuel (compute_next_rotation_ (fixed_offset off) a tp) =
      compute_next_rotation_ (fixed_offset off) a tp) ∧
    tp < (rotate_if_needed_by_time_ (config_of (fixed_offset off) a) s tp).next_rotation_ ∧
    (tp < s.next_rotation_ →
      rotate_if_needed_by_time_ (config_of (fixed_offset off) a) s tp = s) ∧
    (s.next_rotation_ ≤ tp →
      rotate_if_needed_by_time_ (config_of (fixed_offset off) a) s tp =
        { disk := s.disk, file_ := none,
          current_basename_ := make_basename_for_tp_ (fixed_offset off) a tp,
          next_rotation_ := compute_next_rotation_ (fixed_offset off) a tp,
          current_size_bytes_ := 0, opened_ := false, rotated_on_open_done_ := false }) ∧
    (sink_it_ (config_of (fixed_offset off) a) s tp buf).current_basename_ =
      if tp < s.next_rotation_ then s.current_basename_
      else make_basename_for_tp_ (fixed_offset off) a tp := by
  obtain ⟨b1, b2, _⟩ := to_time_t_bounds tp
  have hlt : tp < compute_next_rotation_ (fixed_offset off) a tp := by
    rw [compute_next_rotation_fixed]
    split_ifs <;> omega
  have hle : compute_next_rotation_ (fixed_offset off) a tp - tp ≤ hours_24 := by
    rw [compute_next_rotation_fixed]
    simp only [hours_24]
    split_ifs <;> omega
  have hcut : IsCutover (fixed_offset off) a.rotation_hour a.rotation_min
      (compute_next_rotation_ (fixed_offset off) a tp) := by
    rw [isCutover_iff off _ _ _ hh0 hh1 hm0 hm1, compute_next_rotation_fixed]
    split_ifs
    · exact ⟨(to_time_t tp + off) / 86400, rfl⟩
    · exact ⟨(to_time_t tp + off) / 86400 + 1, by omega⟩
  have hleast : ∀ x, IsCutover (fixed_offset off) a.rotation_hour a.rotation_min x → tp < x →
      compute_next_rotation_ (fixed_offset off) a tp ≤ x := by
    intro x hx hxt
    rw [isCutover_iff off _ _ _ hh0 hh1 hm0 hm1] at hx
    obtain ⟨day, rfl⟩ := hx
    rw [compute_next_rotation_fixed]
    split_ifs <;> omega
  have hcatch : ∀ fuel, catch_up_ tp fuel (compute_next_rotation_ (fixed_offset off) a tp) =
      compute_next_rotation_ (fixed_offset off) a tp := catch_up_later tp _ hlt
  refine ⟨⟨hlt, hle⟩, hcut, hleast, hcatch, ?_, ?_, ?_,
    sink_it_basename (config_of (fixed_offset off) a) s tp buf⟩
  · unfold rotate_if_needed_by_time_
    split_ifs with h
    · exact h
    · show tp < catch_up_ tp _ (compute_next_rotation_ (fixed_offset off) a tp)
      rw [hcatch]
      exact hlt
  · intro h
    simp [rotate_if_needed_by_time_, h]
  · intro h
    have h2 : ¬ tp < s.next_rotation_ := Int.not_lt.mpr h
    simp only [rotate_if_needed_by_time_, h2, if_false, close_file_, config_of, hcatch]

/-- C33 at 02:00 of 2026-01-30, local time being UTC plus one hour and the
cutover 03:00: the next cutover is at 02:00 UTC of the next day. -/
theorem next_cutover_instant_witness :
    ((0 : Int) ≤ demo_args.rotation_hour ∧ demo_args.rotation_hour ≤ 23 ∧
      (0 : Int) ≤ demo_args.rotation_min ∧ demo_args.rotation_min ≤ 59) ∧
    compute_next_rotation_ (fixed_offset 3600) demo_args t_0200 = t_0200 + hours_24 ∧
    ((t_0200 < compute_next_rotation_ (fixed_offset 3600) demo_args t_0200 ∧
      compute_next_rotation_ (fixed_offset 3600) demo_args t_0200 - t_0200 ≤ hours_24) ∧
    IsCutover (fixed_offset 3600) demo_args.rotation_hour demo_args.rotation_min
      (compute_next_rotation_ (fixed_offset 3600) demo_args t_0200) ∧
    (∀ x, IsCutover (fixed_offset 3600) demo_args.rotation_hour demo_args.rotation_min x →
      t_0200 < x → compute_next_rotation_ (fixed_offset 3600) demo_args t_0200 ≤ x) ∧
    (∀ fuel, catch_up_ t_0200 fuel (compute_next_rotation_ (fixed_offset 3600) demo_args t_0200) =
      compute_next_rotation_ (fixed_offset 3600) demo_args t_0200) ∧
    t_0200 < (rotate_if_needed_by_time_ (config_of (fixed_offset 3600) demo_args)
      (init (config_of (fixed_offset 3600) demo_args) Disk.fresh t_0200) t_0200).next_rotation_ ∧
    (t_0200 < (init (config_of (fixed_offset 3600) demo_args) Disk.fresh t_0200).next_rotation_ →
      rotate_if_needed_by_time_ (config_of (fixed_offset 3600) demo_args)
        (init (config_of (fixed_offset 3600) demo_args) Disk.fresh t_0200) t_0200 =
        init (config_of (fixed_offset 3600) demo_args) Disk.fresh t_0200) ∧
    ((init (config_of (fixed_offset 3600) demo_args) Disk.fresh t_0200).next_rotation_ ≤ t_0200 →
      rotate_if_needed_by_time_ (config_of (fixed_offset 3600) demo_args)
        (init (config_of (fixed_offset 3600) demo_args) Disk.fresh t_0200) t_0200 =
        { disk := (init (config_of (fixed_offset 3600) demo_args) Disk.fresh t_0200).disk,
          file_ := none,
          current_basename_ := make_basename_for_tp_ (fixed_offset 3600) demo_args t_0200,
          next_rotation_ := compute_next_rotation_ (fixed_offset 3600) demo_args t_0200,
          current_size_bytes_ := 0, opened_ := false, rotated_on_open_done_ := false }) ∧
    (sink_it_ (config_of (fixed_offset 3600) demo_args)
      (init (config_of (fixed_offset 3600) demo_args) Disk.fresh t_0200) t_0200
        "x".toList).current_basename_ =
      if t_0200 < (init (config_of (fixed_offset 3600) demo_args) Disk.fresh t_0200).next_rotation_
      then (init (config_of (fixed_offset 3600) demo_args) Disk.fresh t_0200).current_basename_
      else make_basename_for_tp_ (fixed_offset 3600) demo_args t_0200) :=
  ⟨by decide, by decide,
    next_cutover_instant 3600 demo_args
      (init (config_of (fixed_offset 3600) demo_args) Disk.fresh t_0200) t_0200 "x".toList
      (by decide) (by decide) (by decide) (by decide)⟩

end PatternSink

end CustomSink

/-! ## The pattern-named sink: which date the file name carries (C20) -/

namespace CustomSink

theorem to_time_t_eq (tp : Int) :
    to_time_t tp = if 0 ≤ tp then tp / 1000000000 else -((-tp) / 1000000000) := by
  unfold to_time_t
  split
  · rename_i h
    exact Int.tdiv_eq_ediv h (by decide)
  · rename_i h
    rw [← Int.tdiv_eq_ediv (by omega) (by decide), Int.neg_tdiv, neg_neg]

namespace PatternSink

theorem compute_next_rotation_eq (tz : TimeZone) (a : Args) (tp : Int) :
    compute_next_rotation_ tz a tp =
      if tp < cutover_of_day_ tz a tp then cutover_of_day_ tz a tp
      else cutover_of_day_ tz a tp + hours_24 := rfl

/-- The cutover instant of the local day of `tp`, under a fixed offset. -/
theorem cutover_of_day_fixed (off : Int) (a : Args) (tp : Int) :
    cutover_of_day_ (fixed_offset off) a tp =
      ((to_time_t tp + off) / 86400 * 86400 + a.rotation_hour * 3600 + a.rotation_min * 60 - off) *
        1000000000 := by
  simp only [cutover_of_day_, fixed_offset, timegm_of_gmtime, from_time_t]

/-- Two time points of one local day give one base name. -/
theorem same_day_same_basename (off : Int) (a : Args) (x y : Int)
    (hfmt : a.date_format = "yyyy-MM-dd")
    (h : cutover_of_day_ (fixed_offset off) a x = cutover_of_day_ (fixed_offset off) a y) :
    make_basename_for_tp_ (fixed_offset off) a x = make_basename_for_tp_ (fixed_offset off) a y := by
  rw [cutover_of_day_fixed, cutover_of_day_fixed] at h
  have hD : (to_time_t x + off) / 86400 = (to_time_t y + off) / 86400 := by omega
  unfold make_basename_for_tp_
  rw [hfmt, format_iso_date, format_iso_date]
  simp only [fixed_offset, gmtime_, hD]

theorem ensure_opened_next (cfg : Config) (s : State) :
    (ensure_opened_for_write_ cfg s).next_rotation_ = s.next_rotation_ := by
  unfold ensure_opened_for_write_
  split <;> rfl

theorem rotate_on_open_step_next (cfg : Config) (s : State) :
    (rotate_on_open_step_ cfg s).next_rotation_ = s.next_rotation_ := by
  unfold rotate_on_open_step_
  split
  · dsimp only
    split
    · exact rotate_by_size_chain_next cfg s
    · rfl
  · rfl

theorem size_check_step_next (cfg : Config) (s : State) (w : Nat) :
    (size_check_step_ cfg s w).next_rotation_ = s.next_rotation_ := by
  unfold size_check_step_
  split
  · rw [ensure_opened_next, rotate_by_size_chain_next]
  · rfl

theorem sink_it_next (cfg : Config) (s : State) (tp : Int) (buf : List Char) :
    (sink_it_ cfg s tp buf).next_rotation_ =
      (rotate_if_needed_by_time_ cfg s tp).next_rotation_ := by
  show (size_check_step_ cfg (ensure_opened_for_write_ cfg (rotate_on_open_step_ cfg
    (rotate_if_needed_by_time_ cfg s tp))) (trim_size_ buf buf.length + 1)).next_rotation_ = _
  rw [size_check_step_next, ensure_opened_next, rotate_on_open_step_next]

/-- The next cutover is later than the time it is computed at. -/
theorem compute_next_rotation_later (off : Int) (a : Args) (tp : Int)
    (hh0 : 0 ≤ a.rotation_hour) (hh1 : a.rotation_hour ≤ 23)
    (hm0 : 0 ≤ a.rotation_min) (hm1 : a.rotation_min ≤ 59) :
    tp < compute_next_rotation_ (fixed_offset off) a tp := by
  have e := to_time_t_eq tp
  rw [compute_next_rotation_fixed]
  split_ifs at e <;> split_ifs <;> omega

/-- The day-roll check of a write at or after the pending cutover names the
state at the time of the write. -/
theorem rotate_if_needed_by_time_after (off : Int) (a : Args) (s : State) (tp : Int)
    (hh0 : 0 ≤ a.rotation_hour) (hh1 : a.rotation_hour ≤ 23)
    (hm0 : 0 ≤ a.rotation_min) (hm1 : a.rotation_min ≤ 59) (h : s.next_rotation_ ≤ tp) :
    (rotate_if_needed_by_time_ (config_of (fixed_offset off) a) s tp).current_basename_ =
      make_basename_for_tp_ (fixed_offset off) a tp ∧
    (rotate_if_needed_by_time_ (config_of (fixed_offset off) a) s tp).next_rotation_ =
      compute_next_rotation_ (fixed_offset off) a tp := by
  have h2 : ¬ tp < s.next_rotation_ := Int.not_lt.mpr h
  have hl := compute_next_rotation_later off a tp hh0 hh1 hm0 hm1
  simp only [rotate_if_needed_by_time_, h2, if_false, config_of, catch_up_later tp _ hl]
  exact ⟨trivial, trivial⟩

/-- Within the cycle of `w`, a time point at or after the cutover of its local
day is of the local day of `w`. -/
theorem cycle_after_cutover (off : Int) (a : Args) (w tp : Int)
    (hw : w ≤ tp) (hlt : tp < compute_next_rotation_ (fixed_offset off) a w)
    (hc : cutover_of_day_ (fixed_offset off) a tp ≤ tp) :
    cutover_of_day_ (fixed_offset off) a w = cutover_of_day_ (fixed_offset off) a tp := by
  have e1 := to_time_t_eq w
  have e2 := to_time_t_eq tp
  rw [compute_next_rotation_fixed] at hlt
  rw [cutover_of_day_fixed] at hc ⊢
  rw [cutover_of_day_fixed]
  split_ifs at e1 <;> split_ifs at e2 <;> split_ifs at hlt <;> omega

/-- Within the cycle of `w`, a time point before the cutover of its local day
is of the local day of `w` or of the day after it. -/
theorem cycle_before_cutover (off : Int) (a : Args) (w tp : Int)
    (hh0 : 0 ≤ a.rotation_hour) (hh1 : a.rotation_hour ≤ 23)
    (hm0 : 0 ≤ a.rotation_min) (hm1 : a.rotation_min ≤ 59)
    (hw : w ≤ tp) (hlt : tp < compute_next_rotation_ (fixed_offset off) a w)
    (hne : cutover_of_day_ (fixed_offset off) a w ≠ cutover_of_day_ (fixed_offset off) a tp) :
    cutover_of_day_ (fixed_offset off) a w + hours_24 = cutover_of_day_ (fixed_offset off) a tp ∧
    tp < cutover_of_day_ (fixed_offset off) a tp := by
  have e1 := to_time_t_eq w
  have e2 := to_time_t_eq tp
  rw [compute_next_rotation_fixed] at hlt
  rw [cutover_of_day_fixed, cutover_of_day_fixed] at hne
  rw [cutover_of_day_fixed, cutover_of_day_fixed]
  simp only [hours_24]
  split_ifs at e1 <;> split_ifs at e2 <;> split_ifs at hlt <;> constructor <;> omega

end PatternSink

/-! ### Different days, different names -/

theorem digits_value_foldl_zeros (k : Nat) (ds : List Char) :
    digits_value_ (List.replicate k '0' ++ ds) = digits_value_ ds := by
  unfold digits_value_
  rw [List.foldl_append]
  have h : List.foldl (fun a c => 10 * a + (c.toNat - 48)) 0 (List.replicate k '0') = 0 := by
    induction k with
    | zero => rfl
    | succ k ih =>
      rw [List.replicate_succ', List.foldl_append, ih]
      rfl
  rw [h]

theorem append_int_value (v : Int) (w : Nat) (h : 0 ≤ v) :
    digits_value_ (append_int_ v w) = v.toNat := by
  have hv : ¬ v < 0 := by omega
  simp only [append_int_, hv, if_false]
  rw [digits_value_foldl_zeros]
  exact to_string_value v.toNat

theorem append_int_width_injective (a b : Int) (w : Nat) (ha : 0 ≤ a) (hb : 0 ≤ b)
    (h : append_int_ a w = append_int_ b w) : a = b := by
  have h2 := congrArg digits_value_ h
  rw [append_int_value a w ha, append_int_value b w hb] at h2
  omega

/-- The calendar date tells the day. -/
theorem civil_from_days_injective (z1 z2 : Int) (h : civil_from_days_ z1 = civil_from_days_ z2) :
    z1 = z2 := by
  rw [← days_from_civil_of_civil_from_days z1, ← days_from_civil_of_civil_from_days z2, h]

/-- A text that holds `src` has a leftmost occurrence of it. -/
theorem leftmost_occurrence (src : List Char) (hsrc : src ≠ []) :
    ∀ (n : Nat) (s t : List Char), s.length ≤ n →
      ∃ a rest, s ++ src ++ t = a ++ src ++ rest ∧ ¬ src <:+: a ++ src.dropLast := by
  intro n
  induction n with
  | zero =>
    intro s t hs
    have hs0 : s = [] := List.length_eq_zero.mp (by omega)
    subst hs0
    refine ⟨[], t, rfl, ?_⟩
    intro hinf
    have hl := hinf.length_le
    have hp := List.length_pos.mpr hsrc
    simp only [List.nil_append, List.length_dropLast] at hl
    omega
  | succ n ih =>
    intro s t hs
    by_cases hinf : src <:+: s ++ src.dropLast
    · obtain ⟨s2, t2, e⟩ := hinf
      have hp := List.length_pos.mpr hsrc
      have hlen := congrArg List.length e
      simp only [List.length_append, List.length_dropLast] at hlen
      have hsplit : src = src.dropLast ++ [src.getLast hsrc] :=
        (List.dropLast_append_getLast hsrc).symm
      have e2 : s ++ src ++ t = s2 ++ src ++ (t2 ++ [src.getLast hsrc] ++ t) := by
        conv_lhs => rw [hsplit]
        rw [← List.append_assoc s, ← e]
        simp only [List.append_assoc]
      rw [e2]
      exact ih s2 _ (by omega)
    · exact ⟨s, t, rfl, hinf⟩

/-- The substitution of two texts of one length into a text that holds the
placeholder gives two results, unless the texts are the same. -/
theorem replace_all_injective (p src d1 d2 : List Char) (hsrc : src ≠ [])
    (hp : src <:+: p) (hlen : d1.length = d2.length)
    (h : replace_all_ p src d1 = replace_all_ p src d2) : d1 = d2 := by
  obtain ⟨s, t, e⟩ := hp
  obtain ⟨a, rest, e2, hleft⟩ := leftmost_occurrence src hsrc s.length s t (le_refl _)
  rw [← e, e2, replace_all_leftmost a rest src d1 hsrc hleft,
    replace_all_leftmost a rest src d2 hsrc hleft] at h
  simp only [List.append_assoc] at h
  exact List.append_inj_left (List.append_cancel_left h) hlen

namespace PatternSink

/-- Two time points whose years are in 0..9999 and whose base names are the
same are of one local day, provided the name pattern holds the placeholder. -/
theorem same_basename_same_day (off : Int) (a : Args) (x y : Int)
    (hfmt : a.date_format = "yyyy-MM-dd")
    (hpat : "\x7bdate\x7d".toList <:+: a.name_pattern.toList)
    (hx0 : 0 ≤ ((fixed_offset off).localtime_r (to_time_t x)).tm_year + 1900)
    (hx1 : ((fixed_offset off).localtime_r (to_time_t x)).tm_year + 1900 ≤ 9999)
    (hy0 : 0 ≤ ((fixed_offset off).localtime_r (to_time_t y)).tm_year + 1900)
    (hy1 : ((fixed_offset off).localtime_r (to_time_t y)).tm_year + 1900 ≤ 9999)
    (h : make_basename_for_tp_ (fixed_offset off) a x = make_basename_for_tp_ (fixed_offset off) a y) :
    cutover_of_day_ (fixed_offset off) a x = cutover_of_day_ (fixed_offset off) a y := by
  obtain ⟨mx0, mx1, dx0, dx1⟩ :
      0 ≤ ((fixed_offset off).localtime_r (to_time_t x)).tm_mon ∧
      ((fixed_offset off).localtime_r (to_time_t x)).tm_mon ≤ 11 ∧
      1 ≤ ((fixed_offset off).localtime_r (to_time_t x)).tm_mday ∧
      ((fixed_offset off).localtime_r (to_time_t x)).tm_mday ≤ 31 :=
    gmtime_valid (to_time_t x + off)
  obtain ⟨my0, my1, dy0, dy1⟩ :
      0 ≤ ((fixed_offset off).localtime_r (to_time_t y)).tm_mon ∧
      ((fixed_offset off).localtime_r (to_time_t y)).tm_mon ≤ 11 ∧
      1 ≤ ((fixed_offset off).localtime_r (to_time_t y)).tm_mday ∧
      ((fixed_offset off).localtime_r (to_time_t y)).tm_mday ≤ 31 :=
    gmtime_valid (to_time_t y + off)
  have lx := (iso_date_agrees (fixed_offset off) x hx0 hx1 mx0 mx1 dx0 dx1).2
  have ly := (iso_date_agrees (fixed_offset off) y hy0 hy1 my0 my1 dy0 dy1).2
  unfold make_basename_for_tp_ at h
  rw [hfmt] at h
  have h1 : replace_all_ a.name_pattern.toList "\x7bdate\x7d".toList
        (qt_datetime_format_subset_ (fixed_offset off) x "yyyy-MM-dd".toList) =
      replace_all_ a.name_pattern.toList "\x7bdate\x7d".toList
        (qt_datetime_format_subset_ (fixed_offset off) y "yyyy-MM-dd".toList) := by
    injection h
  have h2 := replace_all_injective _ _ _ _ (by decide) hpat (lx.trans ly.symm) h1
  rw [format_iso_date, format_iso_date] at h2
  have l1 := append_int_length (((fixed_offset off).localtime_r (to_time_t x)).tm_year + 1900) 4
    hx0 (by decide) (by omega)
  have l2 := append_int_length (((fixed_offset off).localtime_r (to_time_t y)).tm_year + 1900) 4
    hy0 (by decide) (by omega)
  have l3 := append_int_length (((fixed_offset off).localtime_r (to_time_t x)).tm_mon + 1) 2
    (by omega) (by decide) (by omega)
  have l4 := append_int_length (((fixed_offset off).localtime_r (to_time_t y)).tm_mon + 1) 2
    (by omega) (by decide) (by omega)
  obtain ⟨a1, a2⟩ := List.append_inj h2 (by rw [l1, l2])
  simp only [List.cons.injEq, true_and] at a2
  obtain ⟨b1, b2⟩ := List.append_inj a2 (by rw [l3, l4])
  simp only [List.cons.injEq, true_and] at b2
  have ey := append_int_width_injective _ _ 4 hx0 hy0 a1
  have em := append_int_width_injective _ _ 2 (by omega) (by omega) b1
  have ed := append_int_width_injective _ _ 2 (by omega) (by omega) b2
  simp only [fixed_offset, gmtime_] at ey em ed
  have hD : (to_time_t x + off) / 86400 = (to_time_t y + off) / 86400 := by
    apply civil_from_days_injective
    apply Prod.ext
    · omega
    · apply Prod.ext
      · show (civil_from_days_ _).2.1 = (civil_from_days_ _).2.1
        omega
      · exact ed
  rw [cutover_of_day_fixed, cutover_of_day_fixed, hD]

end PatternSink

end CustomSink

namespace CustomSink.PatternSink

/-- A time point at or after the cutover that follows `w`, when `w` is at or
after the cutover of its own local day, is of a later local day. -/
theorem cycle_roll_other_day (off : Int) (a : Args) (w tp : Int)
    (hh0 : 0 ≤ a.rotation_hour) (hm0 : 0 ≤ a.rotation_min)
    (hc : cutover_of_day_ (fixed_offset off) a w ≤ w)
    (hge : compute_next_rotation_ (fixed_offset off) a w ≤ tp) :
    cutover_of_day_ (fixed_offset off) a w ≠ cutover_of_day_ (fixed_offset off) a tp := by
  have e1 := to_time_t_eq w
  have e2 := to_time_t_eq tp
  rw [compute_next_rotation_fixed] at hge
  rw [cutover_of_day_fixed] at hc ⊢
  rw [cutover_of_day_fixed]
  split_ifs at e1 <;> split_ifs at e2 <;> split_ifs at hge <;> omega

/-- C20 as stated fails.  In UTC, with the cutover at 03:00, a sink constructed
on 2026-01-30 at 02:00 names its file with the date of that day, not of the
day before; its writes at 02:59 and at 03:00 go to the same file
`logs/app_2026-01-30.log`. -/
theorem cutover_window_named_with_current_date :
    (construct utc demo_args Disk.fresh t_0200).result.toOption.map
      (fun s => s.current_basename_) = some "app_2026-01-30" ∧
    (sink_it_ (config_of utc demo_args) (init (config_of utc demo_args) Disk.fresh t_0200)
      t_0259 "a".toList).file_ = some "logs/app_2026-01-30.log" ∧
    (run (config_of utc demo_args) (init (config_of utc demo_args) Disk.fresh t_0200)
      [(t_0259, "a".toList), (t_0300, "b".toList)]).file_ = some "logs/app_2026-01-30.log" ∧
    (run (config_of utc demo_args) (init (config_of utc demo_args) Disk.fresh t_0200)
      [(t_0259, "a".toList), (t_0300, "b".toList)]).disk.read "logs/app_2026-01-30.log" =
      some "a\nb\n".toList := by
  refine ⟨by decide, by decide, by decide, by decide⟩

/-- C20, amended: local time being UTC plus a fixed offset, the cutover one the
constructor accepts and the date format `yyyy-MM-dd`, let the base name and the
pending cutover of the state be those computed at the time point `w`, not
later than the write at `tp` (so it is after the constructor, at `w = now`,
and after every write).  A write before the pending cutover keeps the name and
the pending cutover: the writes of one cycle go to one file.  A write at or
after the pending cutover takes the name and the pending cutover of `tp`.
Hence a record written at or after the cutover of its local day goes to the
file named with the date of that day.  A record written before the cutover of
its local day, in a cycle whose name was computed on another day, goes to the
file named with the date of the day before; when the name was computed on the
day of the write, by the constructor or by the first write of the cycle, the
file is named with the date of that day, on either side of the cutover.  The
name is the pattern with the placeholder replaced by year, month and day;
time points of one local day give one name, and time points of two local days
give two names when the pattern holds the placeholder and the years are in
0..9999; so two writes on either side of the pending cutover land in files of
different names when the name of the earlier cycle was computed at or after
the cutover of its local day.  The record is at the end of the file of that name when the name
holds no path separator. -/
theorem basename_from_wall_clock (off : Int) (a : Args) (d : Disk) (now : Int)
    (s : State) (w tp : Int) (buf : List Char) (hfmt : a.date_format = "yyyy-MM-dd")
    (hh0 : 0 ≤ a.rotation_hour) (hh1 : a.rotation_hour ≤ 23)
    (hm0 : 0 ≤ a.rotation_min) (hm1 : a.rotation_min ≤ 59)
    (hb : s.current_basename_ = make_basename_for_tp_ (fixed_offset off) a w)
    (hn : s.next_rotation_ = compute_next_rotation_ (fixed_offset off) a w)
    (hw : w ≤ tp) :
    (∀ s0, (construct (fixed_offset off) a d now).result = .ok s0 →
      s0.current_basename_ = make_basename_for_tp_ (fixed_offset off) a now ∧
      s0.next_rotation_ = compute_next_rotation_ (fixed_offset off) a now) ∧
    (tp < s.next_rotation_ →
      (sink_it_ (config_of (fixed_offset off) a) s tp buf).current_basename_ =
        s.current_basename_ ∧
      (sink_it_ (config_of (fixed_offset off) a) s tp buf).next_rotation_ = s.next_rotation_) ∧
    (s.next_rotation_ ≤ tp →
      (sink_it_ (config_of (fixed_offset off) a) s tp buf).current_basename_ =
        make_basename_for_tp_ (fixed_offset off) a tp ∧
      (sink_it_ (config_of (fixed_offset off) a) s tp buf).next_rotation_ =
        compute_next_rotation_ (fixed_offset off) a tp) ∧
    (cutover_of_day_ (fixed_offset off) a tp ≤ tp →
      (sink_it_ (config_of (fixed_offset off) a) s tp buf).current_basename_ =
        make_basename_for_tp_ (fixed_offset off) a tp) ∧
    (tp < s.next_rotation_ →
      cutover_of_day_ (fixed_offset off) a w ≠ cutover_of_day_ (fixed_offset off) a tp →
      tp < cutover_of_day_ (fixed_offset off) a tp ∧
      ∀ x, cutover_of_day_ (fixed_offset off) a x + hours_24 =
          cutover_of_day_ (fixed_offset off) a tp →
        (sink_it_ (config_of (fixed_offset off) a) s tp buf).current_basename_ =
          make_basename_for_tp_ (fixed_offset off) a x) ∧
    (cutover_of_day_ (fixed_offset off) a w = cutover_of_day_ (fixed_offset off) a tp →
      (sink_it_ (config_of (fixed_offset off) a) s tp buf).current_basename_ =
        make_basename_for_tp_ (fixed_offset off) a tp) ∧
    (∀ t, make_basename_for_tp_ (fixed_offset off) a t =
      String.mk (replace_all_ a.name_pattern.toList "\x7bdate\x7d".toList
        (append_int_ (((fixed_offset off).localtime_r (to_time_t t)).tm_year + 1900) 4 ++ '-' ::
          (append_int_ (((fixed_offset off).localtime_r (to_time_t t)).tm_mon + 1) 2 ++ '-' ::
            append_int_ ((fixed_offset off).localtime_r (to_time_t t)).tm_mday 2)))) ∧
    (∀ x y, cutover_of_day_ (fixed_offset off) a x = cutover_of_day_ (fixed_offset off) a y →
      make_basename_for_tp_ (fixed_offset off) a x = make_basename_for_tp_ (fixed_offset off) a y) ∧
    (∀ x y, "\x7bdate\x7d".toList <:+: a.name_pattern.toList →
      0 ≤ ((fixed_offset off).localtime_r (to_time_t x)).tm_year + 1900 →
      ((fixed_offset off).localtime_r (to_time_t x)).tm_year + 1900 ≤ 9999 →
      0 ≤ ((fixed_offset off).localtime_r (to_time_t y)).tm_year + 1900 →
      ((fixed_offset off).localtime_r (to_time_t y)).tm_year + 1900 ≤ 9999 →
      cutover_of_day_ (fixed_offset off) a x ≠ cutover_of_day_ (fixed_offset off) a y →
      make_basename_for_tp_ (fixed_offset off) a x ≠ make_basename_for_tp_ (fixed_offset off) a y) ∧
    (∀ tp1 buf1, "\x7bdate\x7d".toList <:+: a.name_pattern.toList →
      0 ≤ ((fixed_offset off).localtime_r (to_time_t w)).tm_year + 1900 →
      ((fixed_offset off).localtime_r (to_time_t w)).tm_year + 1900 ≤ 9999 →
      0 ≤ ((fixed_offset off).localtime_r (to_time_t tp)).tm_year + 1900 →
      ((fixed_offset off).localtime_r (to_time_t tp)).tm_year + 1900 ≤ 9999 →
      cutover_of_day_ (fixed_offset off) a w ≤ w →
      tp1 < s.next_rotation_ → s.next_rotation_ ≤ tp →
      (sink_it_ (config_of (fixed_offset off) a) s tp1 buf1).current_basename_ ≠
        (sink_it_ (config_of (fixed_offset off) a)
          (sink_it_ (config_of (fixed_offset off) a) s tp1 buf1) tp buf).current_basename_) ∧
    (0 ≤ tp →
      (cutover_of_day_ (fixed_offset off) a tp ≤ tp ↔
        a.rotation_hour * 60 + a.rotation_min ≤
          ((fixed_offset off).localtime_r (to_time_t tp)).tm_hour * 60 +
            ((fixed_offset off).localtime_r (to_time_t tp)).tm_min)) ∧
    (StreamOk (config_of (fixed_offset off) a) s →
      '/' ∉ (sink_it_ (config_of (fixed_offset off) a) s tp buf).current_basename_.toList →
      (sink_it_ (config_of (fixed_offset off) a) s tp buf).file_ =
        some (current_base_path_ (config_of (fixed_offset off) a)
          (sink_it_ (config_of (fixed_offset off) a) s tp buf).current_basename_) ∧
      ∃ c, (sink_it_ (config_of (fixed_offset off) a) s tp buf).disk.read
        (current_base_path_ (config_of (fixed_offset off) a)
          (sink_it_ (config_of (fixed_offset off) a) s tp buf).current_basename_) =
          some (c ++ (trimmed buf ++ ['\n']))) := by
  have hkeep : tp < s.next_rotation_ →
      (sink_it_ (config_of (fixed_offset off) a) s tp buf).current_basename_ =
        s.current_basename_ ∧
      (sink_it_ (config_of (fixed_offset off) a) s tp buf).next_rotation_ = s.next_rotation_ := by
    intro h
    rw [sink_it_basename, if_pos h, sink_it_next, pattern_rotate_if_needed_by_time_before _ _ _ h]
    exact ⟨rfl, rfl⟩
  have hroll : s.next_rotation_ ≤ tp →
      (sink_it_ (config_of (fixed_offset off) a) s tp buf).current_basename_ =
        make_basename_for_tp_ (fixed_offset off) a tp ∧
      (sink_it_ (config_of (fixed_offset off) a) s tp buf).next_rotation_ =
        compute_next_rotation_ (fixed_offset off) a tp := by
    intro h
    rw [sink_it_basename, if_neg (by omega), sink_it_next]
    exact ⟨rfl, (rotate_if_needed_by_time_after off a s tp hh0 hh1 hm0 hm1 h).2⟩
  have hsame : cutover_of_day_ (fixed_offset off) a w = cutover_of_day_ (fixed_offset off) a tp →
      (sink_it_ (config_of (fixed_offset off) a) s tp buf).current_basename_ =
        make_basename_for_tp_ (fixed_offset off) a tp := by
    intro h
    rcases lt_or_le tp s.next_rotation_ with hlt | hge
    · rw [(hkeep hlt).1, hb]
      exact same_day_same_basename off a w tp hfmt h
    · exact (hroll hge).1
  refine ⟨?_, hkeep, hroll, ?_, ?_, hsame, ?_, ?_, ?_, ?_, ?_, ?_⟩
  · intro s0 hs0
    unfold construct at hs0
    split at hs0
    · cases hs0
    · split at hs0
      · cases hs0
      · cases hs0
        exact ⟨rfl, rfl⟩
  · intro hc
    rcases lt_or_le tp s.next_rotation_ with hlt | hge
    · exact hsame (cycle_after_cutover off a w tp hw (by rw [← hn]; exact hlt) hc)
    · exact (hroll hge).1
  · intro hlt hne
    obtain ⟨k1, k2⟩ := cycle_before_cutover off a w tp hh0 hh1 hm0 hm1 hw
      (by rw [← hn]; exact hlt) hne
    refine ⟨k2, ?_⟩
    intro x hx
    rw [(hkeep hlt).1, hb]
    exact same_day_same_basename off a w x hfmt (by omega)
  · intro t
    unfold make_basename_for_tp_
    rw [hfmt, format_iso_date]
  · intro x y h
    exact same_day_same_basename off a x y hfmt h
  · intro x y hpat hx0 hx1 hy0 hy1 hne h
    exact hne (same_basename_same_day off a x y hfmt hpat hx0 hx1 hy0 hy1 h)
  · intro tp1 buf1 hpat hx0 hx1 hy0 hy1 hc h1 h2 h
    have k1 : (sink_it_ (config_of (fixed_offset off) a) s tp1 buf1).current_basename_ =
        make_basename_for_tp_ (fixed_offset off) a w := by
      rw [sink_it_basename, if_pos h1, hb]
    have k2 : (sink_it_ (config_of (fixed_offset off) a) s tp1 buf1).next_rotation_ =
        s.next_rotation_ := by
      rw [sink_it_next, pattern_rotate_if_needed_by_time_before _ _ _ h1]
    have k3 : (sink_it_ (config_of (fixed_offset off) a)
        (sink_it_ (config_of (fixed_offset off) a) s tp1 buf1) tp buf).current_basename_ =
        make_basename_for_tp_ (fixed_offset off) a tp := by
      rw [sink_it_basename, if_neg (by rw [k2]; omega)]
      rfl
    rw [k1, k3] at h
    exact cycle_roll_other_day off a w tp hh0 hm0 hc (by rw [← hn]; exact h2)
      (same_basename_same_day off a w tp hfmt hpat hx0 hx1 hy0 hy1 h)
  · intro h0
    have e := to_time_t_eq tp
    rw [if_pos h0] at e
    rw [cutover_of_day_fixed]
    simp only [fixed_offset, gmtime_]
    rw [e]
    constructor <;> intro h <;> omega
  · intro hok hname
    have hb2 : (sink_it_ (config_of (fixed_offset off) a) s tp buf).current_basename_ =
        (before_write_ (config_of (fixed_offset off) a) s tp
          (trim_size_ buf buf.length + 1)).current_basename_ := rfl
    have hname2 : '/' ∉ (rotate_if_needed_by_time_ (config_of (fixed_offset off) a) s
        tp).current_basename_.toList := by
      have e : (sink_it_ (config_of (fixed_offset off) a) s tp buf).current_basename_ =
          (rotate_if_needed_by_time_ (config_of (fixed_offset off) a) s tp).current_basename_ := by
        show (size_check_step_ _ (ensure_opened_for_write_ _ (rotate_on_open_step_ _
          (rotate_if_needed_by_time_ _ s tp))) (trim_size_ buf buf.length + 1)).current_basename_ = _
        rw [size_check_step_basename, ensure_opened_basename, rotate_on_open_step_basename]
      rw [← e]; exact hname
    obtain ⟨hf, c, hc⟩ := opened_before_write_ (config_of (fixed_offset off) a) s tp
      (trim_size_ buf buf.length + 1) hok hname2
    refine ⟨by rw [hb2]; exact hf, c, ?_⟩
    rw [hb2]
    simp only [sink_it_, append_record_, hf, read_write_record_, if_true, hc, Option.map_some']
    rfl

/-- C20, amended, on the sink constructed at 02:00 and written to at 02:59,
local time being UTC: the write keeps the name of the day of construction. -/
theorem basename_from_wall_clock_witness :
    (demo_args.date_format = "yyyy-MM-dd" ∧
      (0 : Int) ≤ demo_args.rotation_hour ∧ demo_args.rotation_hour ≤ 23 ∧
      (0 : Int) ≤ demo_args.rotation_min ∧ demo_args.rotation_min ≤ 59 ∧
      t_0200 ≤ t_0259 ∧
      t_0259 < (init (config_of (fixed_offset 0) demo_args) Disk.fresh t_0200).next_rotation_) ∧
    (sink_it_ (config_of (fixed_offset 0) demo_args)
      (init (config_of (fixed_offset 0) demo_args) Disk.fresh t_0200)
      t_0259 "a".toList).current_basename_ =
      (init (config_of (fixed_offset 0) demo_args) Disk.fresh t_0200).current_basename_ := by
  have hlt : t_0259 <
      (init (config_of (fixed_offset 0) demo_args) Disk.fresh t_0200).next_rotation_ := by
    decide
  exact ⟨⟨rfl, by decide, by decide, by decide, by decide, by decide, hlt⟩,
    ((basename_from_wall_clock 0 demo_args Disk.fresh t_0200
      (init (config_of (fixed_offset 0) demo_args) Disk.fresh t_0200) t_0200 t_0259 "a".toList
      rfl (by decide) (by decide) (by decide) (by decide) rfl rfl (by decide)).2.1 hlt).1⟩

end CustomSink.PatternSink

/-! ## Record framing: where the bytes of a record go (C8) -/

namespace CustomSink

namespace CountSink

/-- The write of the count sink: before it the stream is attached to the
current file, which exists, and the write puts the record at its end. -/
theorem count_sink_it_lands (cfg : Config) (s : State) (buf : List Char) (h : StreamOk cfg s) :
    (before_write_ cfg s).file_ = some (base_path_ cfg) ∧
    ∃ c, (before_write_ cfg s).disk.read (base_path_ cfg) = some c ∧
      (append_record_ (before_write_ cfg s) buf).disk.read (base_path_ cfg) =
        some (c ++ (trimmed buf ++ ['\n'])) := by
  obtain ⟨hf, c, hc⟩ := opened_before_write_count cfg s h
  refine ⟨hf, c, hc, ?_⟩
  simp only [append_record_, hf, read_write_record_, if_true, hc, Option.map_some']
  rfl

end CountSink

namespace PatternSink

/-- The write of the pattern-named sink, the base name holding no separator:
the stream is attached to the current file, and the record is at its end. -/
theorem pattern_sink_it_lands (cfg : Config) (s : State) (tp : Int) (buf : List Char)
    (h : StreamOk cfg s) (hname : '/' ∉ (sink_it_ cfg s tp buf).current_basename_.toList) :
    (sink_it_ cfg s tp buf).file_ =
      some (current_base_path_ cfg (sink_it_ cfg s tp buf).current_basename_) ∧
    ∃ c, (before_write_ cfg s tp (trim_size_ buf buf.length + 1)).disk.read
        (current_base_path_ cfg (sink_it_ cfg s tp buf).current_basename_) = some c ∧
      (sink_it_ cfg s tp buf).disk.read
        (current_base_path_ cfg (sink_it_ cfg s tp buf).current_basename_) =
        some (c ++ (trimmed buf ++ ['\n'])) := by
  have hb2 : (sink_it_ cfg s tp buf).current_basename_ =
      (before_write_ cfg s tp (trim_size_ buf buf.length + 1)).current_basename_ := rfl
  have hname2 : '/' ∉ (rotate_if_needed_by_time_ cfg s tp).current_basename_.toList := by
    have e : (sink_it_ cfg s tp buf).current_basename_ =
        (rotate_if_needed_by_time_ cfg s tp).current_basename_ := by
      show (size_check_step_ _ (ensure_opened_for_write_ _ (rotate_on_open_step_ _
        (rotate_if_needed_by_time_ _ s tp))) (trim_size_ buf buf.length + 1)).current_basename_ = _
      rw [size_check_step_basename, ensure_opened_basename, rotate_on_open_step_basename]
    rw [← e]; exact hname
  obtain ⟨hf, c, hc⟩ := opened_before_write_ cfg s tp (trim_size_ buf buf.length + 1) h hname2
  refine ⟨by rw [hb2]; exact hf, c, by rw [hb2]; exact hc, ?_⟩
  rw [hb2]
  simp only [sink_it_, append_record_, hf, read_write_record_, if_true, hc, Option.map_some']
  rfl

end PatternSink

namespace DirSink

theorem not_inDayDir_empty (cfg : Config) (today : String) : ¬ InDayDir cfg today "" := by
  rintro ⟨name, h⟩
  have hl := congrArg String.length h
  simp only [String.length_append] at hl
  have h1 : "/".length = 1 := rfl
  have h0 : "".length = 0 := rfl
  omega

/-- The write of the per-day-directory sink, the stem holding no separator:
the stream is attached to the current file of the day, and the record is at
its end. -/
theorem dir_sink_it_lands (cfg : Config) (s : State) (today : String) (buf : List Char)
    (hname : '/' ∉ cfg.stem_.toList) (hok : StreamOk cfg s) :
    (sink_it_ cfg s today buf).file_ = some (base_path_ cfg today) ∧
    (sink_it_ cfg s today buf).current_date_ = today ∧
    ∃ c, (before_write_ cfg s today (trim_size_ buf buf.length + 1)).disk.read
        (base_path_ cfg today) = some c ∧
      (sink_it_ cfg s today buf).disk.read (base_path_ cfg today) =
        some (c ++ (trimmed buf ++ ['\n'])) := by
  have hp := not_inDayDir_empty cfg today
  have h0 := keepsFile_maybe_roll_day_ cfg today "" s hok
  have h1 := keepsFile_rotate_on_open_step_ cfg today "" s.disk _ hp h0
  have h2 := keepsFile_size_check_step_ cfg today "" s.disk _ (trim_size_ buf buf.length + 1) hp h1
  obtain ⟨⟨hd, _, _⟩, hfile, c, hc⟩ := keepsFile_ensure_opened_ cfg today "" s.disk _ hname hp h2
  refine ⟨hfile, hd, c, hc, ?_⟩
  show (append_record_ (before_write_ cfg s today (trim_size_ buf buf.length + 1)) buf).disk.read
    (base_path_ cfg today) = _
  have hfile2 : (before_write_ cfg s today (trim_size_ buf buf.length + 1)).file_ =
      some (base_path_ cfg today) := hfile
  have hc2 : (before_write_ cfg s today (trim_size_ buf buf.length + 1)).disk.read
      (base_path_ cfg today) = some c := hc
  simp only [append_record_, hfile2, read_write_record_, if_true, hc2, Option.map_some']
  rfl

end DirSink

namespace DateSink

/-- The write of the date-embedded sink on the day of `current_date_`: the
record is put at the end of the file the stream is attached to. -/
theorem date_sink_it_lands (cfg : Config) (s : State) (buf c : List Char) (p : String)
    (h : s.file_ = some p) (hc : s.disk.read p = some c) :
    sink_it_ cfg s s.current_date_ buf = .ok (after_write_ cfg (append_record_ s buf)) ∧
    (append_record_ s buf).disk.read p = some (c ++ (trimmed buf ++ ['\n'])) := by
  have hroll : maybe_roll_day_ cfg s s.current_date_ = .ok s := by simp [maybe_roll_day_]
  refine ⟨by simp [sink_it_, hroll], ?_⟩
  simp only [append_record_, h, read_write_record_, if_true, hc, Option.map_some']
  rfl

theorem open_current_file_attached (cfg : Config) (s : State) :
    Attached cfg (open_current_file_ cfg s) ∧
    ∃ c, (open_current_file_ cfg s).disk.read
      (make_path_ cfg (open_current_file_ cfg s).current_date_
        (open_current_file_ cfg s).current_index_) = some c := by
  have hex : (fs_open_append s.disk (make_path_ cfg s.current_date_ s.current_index_)).read
      (make_path_ cfg s.current_date_ s.current_index_) =
      some ((s.disk.read (make_path_ cfg s.current_date_ s.current_index_)).getD []) := by
    rw [read_fs_open_append]; simp
  unfold open_current_file_
  dsimp only
  split
  · exact ⟨rfl, _, hex⟩
  · exact ⟨rfl, _, hex⟩

/-- Without `rotate_on_open_`, the scan and the open that follows it leave the
stream attached to the file of the current index, which exists. -/
theorem scan_and_open_attached (cfg : Config) (s0 s1 : State)
    (hro : cfg.rotate_on_open_ = false) (h : scan_and_open_ cfg s0 = .ok s1) :
    Attached cfg s1 ∧
    ∃ c, s1.disk.read (make_path_ cfg s1.current_date_ s1.current_index_) = some c := by
  unfold scan_and_open_ at h
  split at h
  · cases h
  · rw [hro] at h
    simp only [Bool.false_and, Bool.false_eq_true, if_false] at h
    split at h
    · cases h
      exact open_current_file_attached cfg _
    · split at h
      · cases h
      · cases h
        exact open_current_file_attached cfg _

end DateSink

/-- C8 as stated fails for the pattern-named sink whose date format holds a
separator: the base name is `app_2026/01/30`, the open of
`logs/app_2026/01/30.log` fails, the byte counter goes up by the three bytes
of the record `"ab\n"` and no byte is appended to any file. -/
theorem record_not_appended_on_failed_open :
    trimmed "ab\r\n".toList = "ab".toList ∧
    (PatternSink.sink_it_ (PatternSink.config_of utc PatternSink.slash_args)
      (PatternSink.init (PatternSink.config_of utc PatternSink.slash_args) Disk.fresh
        PatternSink.t_0200)
      PatternSink.t_0200 "ab\r\n".toList).current_size_bytes_ = 3 ∧
    (PatternSink.sink_it_ (PatternSink.config_of utc PatternSink.slash_args)
      (PatternSink.init (PatternSink.config_of utc PatternSink.slash_args) Disk.fresh
        PatternSink.t_0200)
      PatternSink.t_0200 "ab\r\n".toList).disk.entries = [] ∧
    (PatternSink.sink_it_ (PatternSink.config_of utc PatternSink.slash_args)
      (PatternSink.init (PatternSink.config_of utc PatternSink.slash_args) Disk.fresh
        PatternSink.t_0200)
      PatternSink.t_0200 "ab\r\n".toList).disk.read
      (PatternSink.current_base_path_ (PatternSink.config_of utc PatternSink.slash_args)
        "app_2026/01/30") = none := by
  refine ⟨by decide, by decide, by decide, by decide⟩

/-- C8, amended: the bytes of a record are the payload without its longest
suffix of `'\n'` and `'\r'` bytes, followed by one `'\n'`; payloads that
differ only in trailing `'\n'` / `'\r'` bytes give the same bytes, and
trimming twice is trimming once.  Count sink, the stream closed or attached
to the existing current file: before the write the stream is attached to the
current file, which exists; the write appends the bytes of the record to it,
changes no other file and adds 1 to the entry counter; the rotation check
follows, and below the limit nothing else happens.  Pattern-named sink with a
base name without path separator and per-day-directory sink with a stem
without path separator, the stream closed or attached to the existing current
file: after `sink_it_` the stream is attached to the current file, whose
content is the one before the write followed by the bytes of the record, no
other file is changed by the write, and the byte counter is the one before the
write plus the number of bytes of the record.  Date-embedded sink: on the day
of `current_date_`, the stream attached to an existing file, the write
appends the bytes of the record to that file and adds their number to the
byte counter, the size check follows, and below the limit nothing else
happens; on another day the record goes to the stream the day roll leaves;
without `rotate_on_open_` the constructor and the day roll leave the stream
attached to the existing file of the current index. -/
theorem record_framing (buf : List Char) :
    (∃ suf, buf = trimmed buf ++ suf ∧ (∀ c ∈ suf, c = '\n' ∨ c = '\r') ∧
      ∀ c, (trimmed buf).getLast? = some c → c ≠ '\n' ∧ c ≠ '\r') ∧
    (∀ (d : Disk) (p q : String),
      (write_record_ d (some p) buf).read q =
        if q = p then (d.read p).map (fun c => c ++ (trimmed buf ++ ['\n'])) else d.read q) ∧
    (∀ (cfg : CountSink.Config) (s : CountSink.State), CountSink.StreamOk cfg s →
      CountSink.sink_it_ cfg s buf =
        CountSink.after_write_ cfg (CountSink.append_record_ (CountSink.before_write_ cfg s) buf) ∧
      (CountSink.before_write_ cfg s).file_ = some (CountSink.base_path_ cfg) ∧
      (∃ c, (CountSink.before_write_ cfg s).disk.read (CountSink.base_path_ cfg) = some c ∧
        (CountSink.append_record_ (CountSink.before_write_ cfg s) buf).disk.read
          (CountSink.base_path_ cfg) = some (c ++ (trimmed buf ++ ['\n']))) ∧
      (∀ q, q ≠ CountSink.base_path_ cfg →
        (CountSink.append_record_ (CountSink.before_write_ cfg s) buf).disk.read q =
          (CountSink.before_write_ cfg s).disk.read q) ∧
      (CountSink.append_record_ (CountSink.before_write_ cfg s) buf).log_count_ =
        (CountSink.before_write_ cfg s).log_count_ + 1 ∧
      ((CountSink.before_write_ cfg s).log_count_ + 1 < cfg.max_count_ →
        CountSink.sink_it_ cfg s buf =
          CountSink.append_record_ (CountSink.before_write_ cfg s) buf)) ∧
    (∀ (cfg : PatternSink.Config) (s : PatternSink.State) (tp : Int),
      (PatternSink.sink_it_ cfg s tp buf).current_size_bytes_ =
        (PatternSink.before_write_ cfg s tp ((trimmed buf).length + 1)).current_size_bytes_ +
          ((trimmed buf).length + 1) ∧
      (PatternSink.StreamOk cfg s →
        '/' ∉ (PatternSink.sink_it_ cfg s tp buf).current_basename_.toList →
        (PatternSink.sink_it_ cfg s tp buf).file_ =
          some (PatternSink.current_base_path_ cfg
            (PatternSink.sink_it_ cfg s tp buf).current_basename_) ∧
        (∃ c, (PatternSink.before_write_ cfg s tp ((trimmed buf).length + 1)).disk.read
            (PatternSink.current_base_path_ cfg
              (PatternSink.sink_it_ cfg s tp buf).current_basename_) = some c ∧
          (PatternSink.sink_it_ cfg s tp buf).disk.read
            (PatternSink.current_base_path_ cfg
              (PatternSink.sink_it_ cfg s tp buf).current_basename_) =
            some (c ++ (trimmed buf ++ ['\n']))) ∧
        ∀ q, q ≠ PatternSink.current_base_path_ cfg
            (PatternSink.sink_it_ cfg s tp buf).current_basename_ →
          (PatternSink.sink_it_ cfg s tp buf).disk.read q =
            (PatternSink.before_write_ cfg s tp ((trimmed buf).length + 1)).disk.read q)) ∧
    (∀ (cfg : DirSink.Config) (s : DirSink.State) (today : String),
      (DirSink.sink_it_ cfg s today buf).current_size_ =
        (DirSink.before_write_ cfg s today ((trimmed buf).length + 1)).current_size_ +
          ((trimmed buf).length + 1) ∧
      (DirSink.StreamOk cfg s → '/' ∉ cfg.stem_.toList →
        (DirSink.sink_it_ cfg s today buf).file_ = some (DirSink.base_path_ cfg today) ∧
        (DirSink.sink_it_ cfg s today buf).current_date_ = today ∧
        (∃ c, (DirSink.before_write_ cfg s today ((trimmed buf).length + 1)).disk.read
            (DirSink.base_path_ cfg today) = some c ∧
          (DirSink.sink_it_ cfg s today buf).disk.read (DirSink.base_path_ cfg today) =
            some (c ++ (trimmed buf ++ ['\n']))) ∧
        ∀ q, q ≠ DirSink.base_path_ cfg today →
          (DirSink.sink_it_ cfg s today buf).disk.read q =
            (DirSink.before_write_ cfg s today ((trimmed buf).length + 1)).disk.read q)) ∧
    (∀ (cfg : DateSink.Config) (s : DateSink.State) (c : List Char),
      DateSink.Attached cfg s →
      s.disk.read (DateSink.make_path_ cfg s.current_date_ s.current_index_) = some c →
      DateSink.sink_it_ cfg s s.current_date_ buf =
        .ok (DateSink.after_write_ cfg (DateSink.append_record_ s buf)) ∧
      (DateSink.append_record_ s buf).disk.read
        (DateSink.make_path_ cfg s.current_date_ s.current_index_) =
        some (c ++ (trimmed buf ++ ['\n'])) ∧
      (∀ q, q ≠ DateSink.make_path_ cfg s.current_date_ s.current_index_ →
        (DateSink.append_record_ s buf).disk.read q = s.disk.read q) ∧
      (DateSink.append_record_ s buf).current_size_ =
        s.current_size_ + ((trimmed buf).length + 1) ∧
      (¬ (cfg.max_size_ > 0 ∧ s.current_size_ + ((trimmed buf).length + 1) ≥ cfg.max_size_) →
        DateSink.sink_it_ cfg s s.current_date_ buf = .ok (DateSink.append_record_ s buf))) ∧
    (∀ (cfg : DateSink.Config) (s s1 : DateSink.State) (today : String),
      DateSink.maybe_roll_day_ cfg s today = .ok s1 →
      DateSink.sink_it_ cfg s today buf =
        .ok (DateSink.after_write_ cfg (DateSink.append_record_ s1 buf)) ∧
      (today ≠ s.current_date_ → cfg.rotate_on_open_ = false →
        DateSink.Attached cfg s1 ∧
        ∃ c, s1.disk.read (DateSink.make_path_ cfg s1.current_date_ s1.current_index_) = some c ∧
          (DateSink.append_record_ s1 buf).disk.read
            (DateSink.make_path_ cfg s1.current_date_ s1.current_index_) =
            some (c ++ (trimmed buf ++ ['\n'])))) ∧
    (∀ (cfg : DateSink.Config) (d : Disk) (today : String) (s : DateSink.State),
      cfg.rotate_on_open_ = false → (DateSink.construct cfg d today).result = .ok s →
      DateSink.Attached cfg s ∧
      ∃ c, s.disk.read (DateSink.make_path_ cfg s.current_date_ s.current_index_) = some c) ∧
    (∀ t : List Char, (∀ c ∈ t, c = '\n' ∨ c = '\r') →
      ∀ (d : Disk) (f : Option String), write_record_ d f (buf ++ t) = write_record_ d f buf) ∧
    trimmed (trimmed buf) = trimmed buf := by
  refine ⟨?_, ?_, ?_, ?_, ?_, ?_, ?_, ?_, ?_, trimmed_idem buf⟩
  · obtain ⟨suf, h1, h2⟩ := trimmed_suffix buf
    exact ⟨suf, h1, h2, trimmed_last buf⟩
  · intro d p q
    rw [read_write_record_]
    rfl
  · intro cfg s hok
    obtain ⟨hf, c, hc, hw⟩ := CountSink.count_sink_it_lands cfg s buf hok
    refine ⟨rfl, hf, ⟨c, hc, hw⟩, ?_, rfl, ?_⟩
    · intro q hq
      simp only [CountSink.append_record_, hf, read_write_record_, if_neg hq]
    · intro hlt
      show CountSink.after_write_ cfg _ = _
      unfold CountSink.after_write_
      rw [if_neg]
      show ¬ (CountSink.before_write_ cfg s).log_count_ + 1 ≥ cfg.max_count_
      omega
  · intro cfg s tp
    rw [trimmed_length]
    refine ⟨rfl, ?_⟩
    intro hok hname
    obtain ⟨hf, c, hc, hw⟩ := PatternSink.pattern_sink_it_lands cfg s tp buf hok hname
    refine ⟨hf, ⟨c, hc, hw⟩, ?_⟩
    intro q hq
    have hf2 : (PatternSink.before_write_ cfg s tp (trim_size_ buf buf.length + 1)).file_ =
        some (PatternSink.current_base_path_ cfg
          (PatternSink.sink_it_ cfg s tp buf).current_basename_) := hf
    show (write_record_ _
      (PatternSink.before_write_ cfg s tp (trim_size_ buf buf.length + 1)).file_ buf).read q = _
    rw [hf2, read_write_record_, if_neg hq]
  · intro cfg s today
    rw [trimmed_length]
    refine ⟨rfl, ?_⟩
    intro hok hname
    obtain ⟨hf, hd, c, hc, hw⟩ := DirSink.dir_sink_it_lands cfg s today buf hname hok
    refine ⟨hf, hd, ⟨c, hc, hw⟩, ?_⟩
    intro q hq
    have hf2 : (DirSink.before_write_ cfg s today (trim_size_ buf buf.length + 1)).file_ =
        some (DirSink.base_path_ cfg today) := hf
    simp only [DirSink.sink_it_, DirSink.append_record_, hf2, read_write_record_, if_neg hq]
  · intro cfg s c ha hc
    unfold DateSink.Attached at ha
    obtain ⟨h1, h2⟩ := DateSink.date_sink_it_lands cfg s buf c _ ha hc
    rw [trimmed_length]
    refine ⟨h1, h2, ?_, rfl, ?_⟩
    · intro q hq
      simp only [DateSink.append_record_, ha, read_write_record_, if_neg hq]
    · intro hno
      rw [h1]
      unfold DateSink.after_write_
      rw [if_neg]
      simpa [DateSink.append_record_] using hno
  · intro cfg s s1 today hroll
    refine ⟨by simp [DateSink.sink_it_, hroll], ?_⟩
    intro hne hro
    unfold DateSink.maybe_roll_day_ at hroll
    rw [if_neg hne] at hroll
    obtain ⟨ha, c, hc⟩ := DateSink.scan_and_open_attached cfg _ s1 hro hroll
    refine ⟨ha, c, hc, ?_⟩
    unfold DateSink.Attached at ha
    simp only [DateSink.append_record_, ha, read_write_record_, if_true, hc, Option.map_some']
    rfl
  · intro cfg d today s hro h
    unfold DateSink.construct at h
    split at h
    · cases h
    · rename_i t ht
      cases h
      exact DateSink.scan_and_open_attached cfg _ _ hro ht
  · intro t ht d f
    simp only [write_record_, trimmed_append_line_ends buf t ht]

/-- C8, amended, on a payload that ends with a carriage return and a newline,
written by the count sink of the scenario into a directory with a current
file of one line. -/
theorem record_framing_witness :
    CountSink.StreamOk CountSink.scenario_cfg (CountSink.init (CountSink.only_current "a\n".toList)) ∧
    (CountSink.before_write_ CountSink.scenario_cfg
      (CountSink.init (CountSink.only_current "a\n".toList))).file_ = some "logs/app.log" ∧
    ∃ c, (CountSink.before_write_ CountSink.scenario_cfg
        (CountSink.init (CountSink.only_current "a\n".toList))).disk.read "logs/app.log" = some c ∧
      (CountSink.append_record_ (CountSink.before_write_ CountSink.scenario_cfg
        (CountSink.init (CountSink.only_current "a\n".toList))) "b\r\n".toList).disk.read
        "logs/app.log" = some (c ++ (trimmed "b\r\n".toList ++ ['\n'])) := by
  have hok : CountSink.StreamOk CountSink.scenario_cfg
      (CountSink.init (CountSink.only_current "a\n".toList)) := Or.inl rfl
  have h := (record_framing "b\r\n".toList).2.2.1 CountSink.scenario_cfg
    (CountSink.init (CountSink.only_current "a\n".toList)) hok
  exact ⟨hok, h.2.1, h.2.2.1⟩

end CustomSink
